import Mathlib

/-!
# tinyjson (tutorial08): a shallow embedding of the parser, the serializer and the
tree operations, with the properties of the specification checked against it.

Conventions of the embedding.

* Bytes are natural numbers (`char` read as `unsigned char`); a C string is the list of its
  bytes, terminating NUL included.  The cursor `c->json` is the suffix of the input that is
  still unread.  Reading at the empty suffix is a read past the terminator: the function
  then yields `none`.  A failed `assert` yields `none` as well.
* `double`, `strtod`, `sprintf("%.17g")` and `==` on doubles are parameters (`libc`).
  The call `sprintf` with the conversion `%04x`, whose output the C standard fixes, is a
  definition.
* A node is a tagged tree.  Fields of the C structs that a function leaves unwritten
  (`capacity` after a parse, `keylen` after `tiny_copy`) are `none`.
* The scratch stack `c->stack` is a list of items, the most recent last; `c->top` is its
  length.  One item stands for one pushed `char`, `tiny_node` or `tiny_member`; the growth
  policy of the buffer (`c->size`) is not represented.
* The functions of tutorial03 that differ from those of tutorial08 are in the namespace
  `Tutorial03`.
* `size_t` has 64 bits and `sizeof(tiny_node)` is 32.  The buffer of an array is the list of
  its slots; the byte counts passed to `malloc` and `realloc` are computed in `size_t` as
  the code does, and both calls are taken to succeed.
-/

namespace TinyJson

/-! ## Data model (tinyjson.h) -/

/-- The seven type tags. -/
inductive tiny_type where
  | TINY_NULL | TINY_FALSE | TINY_TRUE | TINY_NUMBER | TINY_STRING | TINY_ARRAY | TINY_OBJECT
  deriving DecidableEq, Repr

/-- The status codes returned by `tiny_parse`, in the order of the enum. -/
inductive tiny_status where
  | TINY_PARSE_OK
  | TINY_PARSE_EXPECT_VALUE
  | TINY_PARSE_INVALID_VALUE
  | TINY_PARSE_ROOT_NOT_SINGULAR
  | TINY_PARSE_NUMBER_TOO_BIG
  | TINY_PARSE_MISS_QUOTATION_MARK
  | TINY_PARSE_INVALID_STRING_ESCAPE
  | TINY_PARSE_INVALID_STRING_CHAR
  | TINY_PARSE_INVALID_UNICODE_HEX
  | TINY_PARSE_INVALID_UNICODE_SURROGATE
  | TINY_PARSE_MISS_COMMA_OR_SQUARE_BRACKET
  | TINY_PARSE_MISS_KEY
  | TINY_PARSE_MISS_COLON
  | TINY_PARSE_MISS_COMMA_OR_CURLY_BRACKET
  deriving DecidableEq, Repr

open tiny_type tiny_status

mutual
/-- The struct `tiny_node`: the tag together with the member of the union it selects.
A string is its `len` bytes (the extra NUL after them is not part of it); an array is its
`size` elements. -/
inductive tiny_node (ν : Type) where
  | null
  | jfalse
  | jtrue
  | number (n : ν)
  | string (s : List Nat)
  | array (e : List (tiny_node ν)) (capacity : Option Nat)
  | object (m : List (tiny_member ν)) (capacity : Option Nat)
/-- The struct `tiny_member`: the bytes of the key buffer, the field `keylen`, the value. -/
inductive tiny_member (ν : Type) where
  | mk (key : List Nat) (keylen : Option Nat) (value : tiny_node ν)
end

/-- The C library functions on `double` that the code calls.
`strtod p` is the converted value together with the truth value of
`errno == ERANGE && (n == HUGE_VAL || n == -HUGE_VAL)` after `strtod(p, nullptr)`;
`sprintf_17g n` is the text written by `sprintf(buf, "%.17g", n)`;
`eq` is `==` on doubles. -/
structure libc (ν : Type) where
  strtod : List Nat → ν × Bool
  sprintf_17g : ν → List Nat
  eq : ν → ν → Bool

/-- One record on the scratch stack. -/
inductive stack_item (ν : Type) where
  | byte (b : Nat)
  | node (n : tiny_node ν)
  | member (m : tiny_member ν)

/-- The struct `tiny_context`. -/
structure tiny_context (ν : Type) where
  json : List Nat
  stack : List (stack_item ν)

variable {ν : Type}

/-- The result of a parsing function: status, the output node, the context. -/
abbrev parse_result (ν : Type) := tiny_status × tiny_node ν × tiny_context ν

/-- Function `tiny_get_type`. -/
def tiny_get_type : tiny_node ν → tiny_type
  | .null => TINY_NULL
  | .jfalse => TINY_FALSE
  | .jtrue => TINY_TRUE
  | .number _ => TINY_NUMBER
  | .string _ => TINY_STRING
  | .array _ _ => TINY_ARRAY
  | .object _ _ => TINY_OBJECT

/-- Macro `tiny_init`: the tag becomes `TINY_NULL`. -/
def tiny_init (_node : tiny_node ν) : tiny_node ν := .null

/-- Function `tiny_free`: the payload is released (releasing memory is not represented)
and the tag becomes `TINY_NULL`. -/
def tiny_free (_node : tiny_node ν) : tiny_node ν := .null

/-- Function `tiny_set_string`: free the node, then install a copy of the first `len`
bytes of `s`. -/
def tiny_set_string (node : tiny_node ν) (s : List Nat) (len : Nat) : tiny_node ν :=
  let _freed := tiny_free node
  .string (s.take len)

/-- Function `tiny_get_string`; `assert(node->type == TINY_STRING)`. -/
def tiny_get_string : tiny_node ν → Option (List Nat)
  | .string s => some s
  | _ => none

/-- Function `tiny_get_string_length`; `assert(node->type == TINY_STRING)`. -/
def tiny_get_string_length : tiny_node ν → Option Nat
  | .string s => some s.length
  | _ => none

/-- Function `tiny_get_array_size`; `assert(node->type == TINY_ARRAY)`. -/
def tiny_get_array_size : tiny_node ν → Option Nat
  | .array e _ => some e.length
  | _ => none

/-- Function `tiny_get_array_element`; the assertions are on the type and on
`index < node->a.size`. -/
def tiny_get_array_element : tiny_node ν → Nat → Option (tiny_node ν)
  | .array e _, index => e[index]?
  | _, _ => none

/-- Function `tiny_get_object_size`; `assert(node->type == TINY_OBJECT)`. -/
def tiny_get_object_size : tiny_node ν → Option Nat
  | .object m _ => some m.length
  | _ => none

/-- Function `tiny_get_object_key`; the assertions are on the type and on
`index < node->o.size`. -/
def tiny_get_object_key : tiny_node ν → Nat → Option (List Nat)
  | .object m _, index => m[index]?.map fun | .mk key _ _ => key
  | _, _ => none

/-- Function `tiny_get_object_key_length`; the result is the field `keylen`, if it was
ever written. -/
def tiny_get_object_key_length : tiny_node ν → Nat → Option Nat
  | .object m _, index => m[index]?.bind fun | .mk _ keylen _ => keylen
  | _, _ => none

/-- Function `tiny_get_object_value`. -/
def tiny_get_object_value : tiny_node ν → Nat → Option (tiny_node ν)
  | .object m _, index => m[index]?.map fun | .mk _ _ value => value
  | _, _ => none

/-! ## The scratch stack -/

/-- Function `tiny_context_push` together with the write of the caller through the
returned pointer: `items` are appended; `assert(size > 0)`. -/
def tiny_context_push (c : tiny_context ν) (items : List (stack_item ν)) :
    Option (tiny_context ν) :=
  if 0 < items.length then some { c with stack := c.stack ++ items } else none

/-- Function `tiny_context_pop`: `assert(c->top >= size)`, then the top `size` items are
handed to the caller and leave the stack. -/
def tiny_context_pop (c : tiny_context ν) (size : Nat) :
    Option (List (stack_item ν) × tiny_context ν) :=
  if size ≤ c.stack.length then
    some (c.stack.drop (c.stack.length - size),
          { c with stack := c.stack.take (c.stack.length - size) })
  else none

/-- Macro `PUTC`: push one `char` (the size is 1, so the assertion of the push holds). -/
def PUTC (c : tiny_context ν) (ch : Nat) : tiny_context ν :=
  { c with stack := c.stack ++ [.byte ch] }

/-- Macro `PUTS`: push the first `len` bytes of `s`, which must be there to be read. -/
def PUTS (c : tiny_context ν) (s : List Nat) (len : Nat) : Option (tiny_context ν) :=
  if len ≤ s.length then tiny_context_push c ((s.take len).map .byte) else none

/-- Reading popped items as `char`s. -/
def stack_bytes : List (stack_item ν) → Option (List Nat)
  | [] => some []
  | .byte b :: r => (stack_bytes r).map (b :: ·)
  | _ :: _ => none

/-- Reading popped items as `tiny_node`s. -/
def stack_nodes : List (stack_item ν) → Option (List (tiny_node ν))
  | [] => some []
  | .node n :: r => (stack_nodes r).map (n :: ·)
  | _ :: _ => none

/-- Reading popped items as `tiny_member`s. -/
def stack_members : List (stack_item ν) → Option (List (tiny_member ν))
  | [] => some []
  | .member m :: r => (stack_members r).map (m :: ·)
  | _ :: _ => none

/-! ## Lexical helpers -/

/-- Macro `ISDIGIT`. -/
def ISDIGIT (ch : Nat) : Bool := decide (48 ≤ ch) && decide (ch ≤ 57)

/-- Macro `ISDIGIT1TO9`. -/
def ISDIGIT1TO9 (ch : Nat) : Bool := decide (49 ≤ ch) && decide (ch ≤ 57)

/-- The bytes skipped by `tiny_parse_whitespace`: space, tab, LF, CR. -/
def is_ws (ch : Nat) : Bool := ch == 32 || ch == 9 || ch == 10 || ch == 13

/-- Macro `EXPECT`: `assert(*c->json == ch); c->json++`. -/
def EXPECT (c : tiny_context ν) (ch : Nat) : Option (tiny_context ν) :=
  match c.json with
  | [] => none
  | x :: p => if x = ch then some { c with json := p } else none

/-- The loop of `tiny_parse_whitespace` on the local pointer `p`. -/
def skip_ws : List Nat → Option (List Nat)
  | [] => none
  | ch :: p => if is_ws ch then skip_ws p else some (ch :: p)

/-- Function `tiny_parse_whitespace`. -/
def tiny_parse_whitespace (c : tiny_context ν) : Option (tiny_context ν) :=
  (skip_ws c.json).map fun p => { c with json := p }

/-! ## Literals -/

/-- Function `tiny_parse_null`. The three comparisons are made left to right and stop at
the first mismatch. -/
def tiny_parse_null (c : tiny_context ν) (node : tiny_node ν) : Option (parse_result ν) :=
  (EXPECT c 110).bind fun c =>
  match c.json with
  | [] => none
  | a :: p1 =>
    if a ≠ 117 then some (TINY_PARSE_INVALID_VALUE, node, c) else
    match p1 with
    | [] => none
    | b :: p2 =>
      if b ≠ 108 then some (TINY_PARSE_INVALID_VALUE, node, c) else
      match p2 with
      | [] => none
      | d :: p3 =>
        if d ≠ 108 then some (TINY_PARSE_INVALID_VALUE, node, c) else
        some (TINY_PARSE_OK, .null, { c with json := p3 })

/-- Function `tiny_parse_true`. -/
def tiny_parse_true (c : tiny_context ν) (node : tiny_node ν) : Option (parse_result ν) :=
  (EXPECT c 116).bind fun c =>
  match c.json with
  | [] => none
  | a :: p1 =>
    if a ≠ 114 then some (TINY_PARSE_INVALID_VALUE, node, c) else
    match p1 with
    | [] => none
    | b :: p2 =>
      if b ≠ 117 then some (TINY_PARSE_INVALID_VALUE, node, c) else
      match p2 with
      | [] => none
      | d :: p3 =>
        if d ≠ 101 then some (TINY_PARSE_INVALID_VALUE, node, c) else
        some (TINY_PARSE_OK, .jtrue, { c with json := p3 })

/-- Function `tiny_parse_false`. -/
def tiny_parse_false (c : tiny_context ν) (node : tiny_node ν) : Option (parse_result ν) :=
  (EXPECT c 102).bind fun c =>
  match c.json with
  | [] => none
  | a :: p1 =>
    if a ≠ 97 then some (TINY_PARSE_INVALID_VALUE, node, c) else
    match p1 with
    | [] => none
    | b :: p2 =>
      if b ≠ 108 then some (TINY_PARSE_INVALID_VALUE, node, c) else
      match p2 with
      | [] => none
      | d :: p3 =>
        if d ≠ 115 then some (TINY_PARSE_INVALID_VALUE, node, c) else
        match p3 with
        | [] => none
        | e :: p4 =>
          if e ≠ 101 then some (TINY_PARSE_INVALID_VALUE, node, c) else
          some (TINY_PARSE_OK, .jfalse, { c with json := p4 })

/-! ## Numbers -/

/-- The loop `for (p++; ISDIGIT(*p); p++);` once the first `p++` is done. -/
def skip_digits : List Nat → Option (List Nat)
  | [] => none
  | ch :: p => if ISDIGIT ch then skip_digits p else some (ch :: p)

/-- The sign and the integer part in `tiny_parse_number`. The outer `none` is a read past
the terminator, the inner `none` is `return TINY_PARSE_INVALID_VALUE`. -/
def scan_int (p : List Nat) : Option (Option (List Nat)) :=
  match p with
  | [] => none
  | ch :: q =>
    let p := if ch = 45 then q else ch :: q
    match p with
    | [] => none
    | ch :: q =>
      if ch = 48 then some (some q)
      else if !ISDIGIT1TO9 ch then some none
      else (skip_digits q).map some

/-- The fraction part in `tiny_parse_number`. -/
def scan_frac (p : List Nat) : Option (Option (List Nat)) :=
  match p with
  | [] => none
  | ch :: q =>
    if ch = 46 then
      match q with
      | [] => none
      | d :: r => if !ISDIGIT d then some none else (skip_digits r).map some
    else some (some (ch :: q))

/-- The exponent part in `tiny_parse_number`. -/
def scan_exp (p : List Nat) : Option (Option (List Nat)) :=
  match p with
  | [] => none
  | ch :: q =>
    if ch = 101 ∨ ch = 69 then
      match q with
      | [] => none
      | s :: r =>
        let q := if s = 43 ∨ s = 45 then r else s :: r
        match q with
        | [] => none
        | d :: r => if !ISDIGIT d then some none else (skip_digits r).map some
    else some (some (ch :: q))

/-- The syntax check of `tiny_parse_number`: the three parts in sequence. -/
def scan_number (p : List Nat) : Option (Option (List Nat)) :=
  match scan_int p with
  | none => none
  | some none => some none
  | some (some p) =>
    match scan_frac p with
    | none => none
    | some none => some none
    | some (some p) => scan_exp p

/-- Function `tiny_parse_number`. `strtod` is called on the text at the cursor. When the
range check fails the tag is not written; the store to `node->n` made before the check
lands in the union of a node whose tag is `TINY_NULL` at every call site, so the node is
left as it is. -/
def tiny_parse_number (L : libc ν) (c : tiny_context ν) (node : tiny_node ν) :
    Option (parse_result ν) :=
  match scan_number c.json with
  | none => none
  | some none => some (TINY_PARSE_INVALID_VALUE, node, c)
  | some (some p) =>
    if (L.strtod c.json).2 then some (TINY_PARSE_NUMBER_TOO_BIG, node, c)
    else some (TINY_PARSE_OK, .number (L.strtod c.json).1, { c with json := p })

/-! ## Strings -/

/-- The loop of `tiny_parse_hex4` with `i` rounds to go. The outer `none` is a read past
the terminator, the inner `none` is `return nullptr`. The value `u` stays below `2 ^ 16`,
so the shift cannot overflow an `unsigned`. -/
def hex4_loop : Nat → List Nat → Nat → Option (Option (List Nat × Nat))
  | 0, p, u => some (some (p, u))
  | i + 1, p, u =>
    match p with
    | [] => none
    | ch :: p =>
      let u := u <<< 4
      if 48 ≤ ch ∧ ch ≤ 57 then hex4_loop i p (u ||| (ch - 48))
      else if 65 ≤ ch ∧ ch ≤ 70 then hex4_loop i p (u ||| (ch - (65 - 10)))
      else if 97 ≤ ch ∧ ch ≤ 102 then hex4_loop i p (u ||| (ch - (97 - 10)))
      else some none

/-- Function `tiny_parse_hex4`. -/
def tiny_parse_hex4 (p : List Nat) : Option (Option (List Nat × Nat)) := hex4_loop 4 p 0

/-- Function `tiny_encode_utf8`. Each pushed value is converted to `char`, hence reduced
modulo 256; `assert(u <= 0x10FFFF)` in the last branch. -/
def tiny_encode_utf8 (c : tiny_context ν) (u : Nat) : Option (tiny_context ν) :=
  if u ≤ 0x7F then
    some (PUTC c ((u &&& 0xFF) % 256))
  else if u ≤ 0x7FF then
    let c := PUTC c ((0xC0 ||| ((u >>> 6) &&& 0xFF)) % 256)
    some (PUTC c ((0x80 ||| (u &&& 0x3F)) % 256))
  else if u ≤ 0xFFFF then
    let c := PUTC c ((0xE0 ||| ((u >>> 12) &&& 0xFF)) % 256)
    let c := PUTC c ((0x80 ||| ((u >>> 6) &&& 0x3F)) % 256)
    some (PUTC c ((0x80 ||| (u &&& 0x3F)) % 256))
  else if u ≤ 0x10FFFF then
    let c := PUTC c ((0xF0 ||| ((u >>> 18) &&& 0xFF)) % 256)
    let c := PUTC c ((0x80 ||| ((u >>> 12) &&& 0x3F)) % 256)
    let c := PUTC c ((0x80 ||| ((u >>> 6) &&& 0x3F)) % 256)
    some (PUTC c ((0x80 ||| (u &&& 0x3F)) % 256))
  else none

/-- Macro `STRING_ERROR`: `c->top = head; return ret`. -/
def STRING_ERROR (c : tiny_context ν) (head : Nat) (ret : tiny_status) :
    Option (tiny_status × List Nat × tiny_context ν) :=
  some (ret, [], { c with stack := c.stack.take head })

/-- What one round of the loop of `tiny_parse_string_raw` does: it returns, or it goes on
with a new local pointer and context. -/
inductive string_step_result (ν : Type) where
  | ret (r : tiny_status × List Nat × tiny_context ν)
  | next (p : List Nat) (c : tiny_context ν)

/-- The part of `tiny_parse_string_raw` after `case 'u':`. Both code units are below
`2 ^ 16`, so the arithmetic on `unsigned` does not wrap. -/
def string_escape_u (head : Nat) (p : List Nat) (c : tiny_context ν) :
    Option (string_step_result ν) :=
  match tiny_parse_hex4 p with
  | none => none
  | some none => (STRING_ERROR c head TINY_PARSE_INVALID_UNICODE_HEX).map .ret
  | some (some (p, u)) =>
    if 0xD800 ≤ u ∧ u ≤ 0xDBFF then
      match p with
      | [] => none
      | x :: p =>
        if x ≠ 92 then (STRING_ERROR c head TINY_PARSE_INVALID_UNICODE_SURROGATE).map .ret else
        match p with
        | [] => none
        | y :: p =>
          if y ≠ 117 then
            (STRING_ERROR c head TINY_PARSE_INVALID_UNICODE_SURROGATE).map .ret
          else
          match tiny_parse_hex4 p with
          | none => none
          | some none => (STRING_ERROR c head TINY_PARSE_INVALID_UNICODE_HEX).map .ret
          | some (some (p, u2)) =>
            if u2 < 0xDC00 ∨ u2 > 0xDFFF then
              (STRING_ERROR c head TINY_PARSE_INVALID_UNICODE_SURROGATE).map .ret
            else
              let u := (((u - 0xD800) <<< 10) ||| (u2 - 0xDC00)) + 0x10000
              (tiny_encode_utf8 c u).map (.next p)
    else (tiny_encode_utf8 c u).map (.next p)

/-- The eight cases of the inner `switch` of `tiny_parse_string_raw` that push one byte:
the byte pushed for the byte that follows the backslash (the quote, the backslash, the
slash, and `b`, `f`, `n`, `r`, `t`). -/
def simple_escape (e : Nat) : Option Nat :=
  if e = 34 then some 34
  else if e = 92 then some 92
  else if e = 47 then some 47
  else if e = 98 then some 8
  else if e = 102 then some 12
  else if e = 110 then some 10
  else if e = 114 then some 13
  else if e = 116 then some 9
  else none

/-- One round of the loop of `tiny_parse_string_raw`: `char ch = *p++; switch (ch) ...`.
On the closing quote the result carries the popped bytes (`*str` with `*len` their
number). -/
def string_step (head : Nat) (p : List Nat) (c : tiny_context ν) :
    Option (string_step_result ν) :=
  match p with
  | [] => none
  | ch :: p =>
    if ch = 34 then
      match tiny_context_pop c (c.stack.length - head) with
      | none => none
      | some (items, c) =>
        match stack_bytes items with
        | none => none
        | some str => some (.ret (TINY_PARSE_OK, str, { c with json := p }))
    else if ch = 92 then
      match p with
      | [] => none
      | e :: p =>
        match simple_escape e with
        | some b => some (.next p (PUTC c b))
        | none =>
          if e = 117 then string_escape_u head p c
          else (STRING_ERROR c head TINY_PARSE_INVALID_STRING_ESCAPE).map .ret
    else if ch = 0 then (STRING_ERROR c head TINY_PARSE_MISS_QUOTATION_MARK).map .ret
    else if ch < 0x20 then (STRING_ERROR c head TINY_PARSE_INVALID_STRING_CHAR).map .ret
    else some (.next p (PUTC c ch))

/-- The loop `for(;;)` of `tiny_parse_string_raw`, with a bound on the number of rounds. -/
def string_loop (head : Nat) : Nat → List Nat → tiny_context ν →
    Option (tiny_status × List Nat × tiny_context ν)
  | 0, _, _ => none
  | fuel + 1, p, c =>
    match string_step head p c with
    | none => none
    | some (.ret r) => some r
    | some (.next p c) => string_loop head fuel p c

/-- Function `tiny_parse_string_raw`: status, the bytes `*str` (`*len` is their number),
context. Every round reads at least one byte, so the number of bytes left bounds the
number of rounds. -/
def tiny_parse_string_raw (c : tiny_context ν) :
    Option (tiny_status × List Nat × tiny_context ν) :=
  let head := c.stack.length
  (EXPECT c 34).bind fun c => string_loop head c.json.length c.json c

/-- Function `tiny_parse_string`. -/
def tiny_parse_string (c : tiny_context ν) (node : tiny_node ν) : Option (parse_result ν) :=
  match tiny_parse_string_raw c with
  | none => none
  | some (ret, s, c) =>
    if ret = TINY_PARSE_OK then some (ret, tiny_set_string node s s.length, c)
    else some (ret, node, c)

/-! ## Arrays and objects

`tiny_parse_array` and `tiny_parse_object` call `tiny_parse_value`, declared before them in
the source; here they receive it as the argument `pv`. -/

/-- The loop after `break` in `tiny_parse_array`: `size` times, pop one node and free it. -/
def array_cleanup : Nat → tiny_context ν → Option (tiny_context ν)
  | 0, c => some c
  | size + 1, c =>
    match tiny_context_pop c 1 with
    | none => none
    | some (items, c) =>
      match stack_nodes items with
      | none => none
      | some _ => array_cleanup size c

/-- How a round of the loops of `tiny_parse_array` and `tiny_parse_object` ends: the
function returns, or the loop goes on. -/
inductive loop_step_result (ν : Type) where
  | ret (r : parse_result ν)
  | next (c : tiny_context ν)

/-- The end of a round of the loop of `tiny_parse_array`, after the element is pushed and
`size` is incremented: whitespace, then a comma (whitespace, next round), a closing
bracket (the `size` nodes are popped into the array) or anything else (`break`). -/
def array_round_end (c : tiny_context ν) (node : tiny_node ν) (size : Nat) :
    Option (loop_step_result ν) :=
  match tiny_parse_whitespace c with
  | none => none
  | some c =>
    match c.json with
    | [] => none
    | ch :: p =>
      if ch = 44 then (tiny_parse_whitespace { c with json := p }).map .next
      else if ch = 93 then
        match tiny_context_pop { c with json := p } size with
        | none => none
        | some (items, c) =>
          (stack_nodes items).map fun e => .ret (TINY_PARSE_OK, .array e none, c)
      else
        (array_cleanup size c).map fun c =>
          .ret (TINY_PARSE_MISS_COMMA_OR_SQUARE_BRACKET, node, c)

/-- The loop `for (;;)` of `tiny_parse_array`, entered with `size` elements on the stack,
with a bound on the number of rounds. -/
def array_loop (pv : tiny_context ν → tiny_node ν → Option (parse_result ν)) :
    Nat → tiny_context ν → tiny_node ν → Nat → Option (parse_result ν)
  | 0, _, _, _ => none
  | fuel + 1, c, node, size =>
    match pv c (tiny_init .null) with
    | none => none
    | some (ret, e, c) =>
      if ret ≠ TINY_PARSE_OK then
        (array_cleanup size c).map fun c => (ret, node, c)
      else
        match tiny_context_push c [.node e] with
        | none => none
        | some c =>
          match array_round_end c node (size + 1) with
          | none => none
          | some (.ret r) => some r
          | some (.next c) => array_loop pv fuel c node (size + 1)

/-- Function `tiny_parse_array`. Every round that goes on has read an element and a comma,
so the number of bytes left bounds the number of rounds. -/
def tiny_parse_array (pv : tiny_context ν → tiny_node ν → Option (parse_result ν))
    (c : tiny_context ν) (node : tiny_node ν) : Option (parse_result ν) :=
  (EXPECT c 91).bind fun c =>
  (tiny_parse_whitespace c).bind fun c =>
  match c.json with
  | [] => none
  | ch :: p =>
    if ch = 93 then some (TINY_PARSE_OK, .array [] none, { c with json := p })
    else array_loop pv c.json.length c node 0

/-- The code after the loop of `tiny_parse_object`: pop and free `size` members, then
`node->type = TINY_NULL; return ret`. -/
def object_cleanup : Nat → tiny_context ν → Option (tiny_context ν)
  | 0, c => some c
  | size + 1, c =>
    match tiny_context_pop c 1 with
    | none => none
    | some (items, c) =>
      match stack_members items with
      | none => none
      | some _ => object_cleanup size c

/-- A `break` out of the loop of `tiny_parse_object`. -/
def object_break (ret : tiny_status) (size : Nat) (c : tiny_context ν) :
    Option (parse_result ν) :=
  (object_cleanup size c).map fun c => (ret, .null, c)

/-- The start of a round of the loop of `tiny_parse_object`: the key, whitespace, the
colon, whitespace. A status other than `TINY_PARSE_OK` is a `break` with that status;
otherwise the bytes of the key come with it. -/
def object_round_key (c : tiny_context ν) :
    Option (tiny_status × List Nat × tiny_context ν) :=
  match c.json with
  | [] => none
  | q :: _ =>
    if q ≠ 34 then some (TINY_PARSE_MISS_KEY, [], c) else
    match tiny_parse_string_raw c with
    | none => none
    | some (ret, str, c) =>
      if ret ≠ TINY_PARSE_OK then some (ret, [], c) else
      match tiny_parse_whitespace c with
      | none => none
      | some c =>
        match c.json with
        | [] => none
        | colon :: p =>
          if colon ≠ 58 then some (TINY_PARSE_MISS_COLON, [], c) else
          (tiny_parse_whitespace { c with json := p }).map fun c => (TINY_PARSE_OK, str, c)

/-- The end of a round of the loop of `tiny_parse_object`, after the member is pushed and
`size` is incremented. -/
def object_round_end (c : tiny_context ν) (size : Nat) : Option (loop_step_result ν) :=
  match tiny_parse_whitespace c with
  | none => none
  | some c =>
    match c.json with
    | [] => none
    | ch :: p =>
      if ch = 44 then (tiny_parse_whitespace { c with json := p }).map .next
      else if ch = 125 then
        match tiny_context_pop { c with json := p } size with
        | none => none
        | some (items, c) =>
          (stack_members items).map fun m => .ret (TINY_PARSE_OK, .object m none, c)
      else (object_break TINY_PARSE_MISS_COMMA_OR_CURLY_BRACKET size c).map .ret

/-- The loop `for(;;)` of `tiny_parse_object`, entered with `size` members on the stack,
with a bound on the number of rounds. The key is copied into a buffer of `keylen + 1`
bytes and `keylen` is its length. -/
def object_loop (pv : tiny_context ν → tiny_node ν → Option (parse_result ν)) :
    Nat → tiny_context ν → tiny_node ν → Nat → Option (parse_result ν)
  | 0, _, _, _ => none
  | fuel + 1, c, node, size =>
    match object_round_key c with
    | none => none
    | some (ret, key, c) =>
      if ret ≠ TINY_PARSE_OK then object_break ret size c else
      match pv c (tiny_init .null) with
      | none => none
      | some (ret, value, c) =>
        if ret ≠ TINY_PARSE_OK then object_break ret size c else
        match tiny_context_push c [.member (.mk key (some key.length) value)] with
        | none => none
        | some c =>
          match object_round_end c (size + 1) with
          | none => none
          | some (.ret r) => some r
          | some (.next c) => object_loop pv fuel c node (size + 1)

/-- Function `tiny_parse_object`. -/
def tiny_parse_object (pv : tiny_context ν → tiny_node ν → Option (parse_result ν))
    (c : tiny_context ν) (node : tiny_node ν) : Option (parse_result ν) :=
  (EXPECT c 123).bind fun c =>
  (tiny_parse_whitespace c).bind fun c =>
  match c.json with
  | [] => none
  | ch :: p =>
    if ch = 125 then some (TINY_PARSE_OK, .object [] none, { c with json := p })
    else object_loop pv c.json.length c node 0

/-! ## Values and the entry point -/

/-- The body of `tiny_parse_value`: the `switch` on the byte at the cursor. The recursive
calls made through `tiny_parse_array` and `tiny_parse_object` go to `pv`. -/
def parse_value_switch (L : libc ν)
    (pv : tiny_context ν → tiny_node ν → Option (parse_result ν))
    (c : tiny_context ν) (node : tiny_node ν) : Option (parse_result ν) :=
  match c.json with
  | [] => none
  | ch :: _ =>
    if ch = 110 then tiny_parse_null c node
    else if ch = 116 then tiny_parse_true c node
    else if ch = 102 then tiny_parse_false c node
    else if ch = 34 then tiny_parse_string c node
    else if ch = 91 then tiny_parse_array pv c node
    else if ch = 123 then tiny_parse_object pv c node
    else if ch = 0 then some (TINY_PARSE_EXPECT_VALUE, node, c)
    else tiny_parse_number L c node

/-- Function `tiny_parse_value`, with a bound `depth` on the nesting of its calls. -/
def tiny_parse_value (L : libc ν) :
    Nat → tiny_context ν → tiny_node ν → Option (parse_result ν)
  | 0 => fun _ _ => none
  | depth + 1 => parse_value_switch L (tiny_parse_value L depth)

/-- Function `tiny_parse`: status and the node afterwards. Each level of nesting reads a
bracket first, so the length of the input bounds the nesting; `assert(c.top == 0)` at the
end. -/
def tiny_parse (L : libc ν) (node : tiny_node ν) (json : List Nat) :
    Option (tiny_status × tiny_node ν) :=
  let c : tiny_context ν := { json := json, stack := [] }
  let node := tiny_init node
  match tiny_parse_whitespace c with
  | none => none
  | some c =>
    match tiny_parse_value L json.length c node with
    | none => none
    | some (ret, node, c) =>
      let after : Option (tiny_status × tiny_context ν) :=
        if ret = TINY_PARSE_OK then
          match tiny_parse_whitespace c with
          | none => none
          | some c =>
            match c.json with
            | [] => none
            | ch :: _ =>
              if ch ≠ 0 then some (TINY_PARSE_ROOT_NOT_SINGULAR, c) else some (ret, c)
        else some (ret, c)
      match after with
      | none => none
      | some (ret, c) => if c.stack.length = 0 then some (ret, node) else none

/-- A C string literal: the bytes of `s` followed by the terminating NUL. -/
def cstr (s : String) : List Nat := s.toList.map Char.toNat ++ [0]

/-! ## The serializer -/

/-- The table `hex_digits`. -/
def hex_digits : List Nat := [48, 49, 50, 51, 52, 53, 54, 55, 56, 57, 65, 66, 67, 68, 69, 70]

/-- The bytes written through `p` for one byte `ch` of the string: the `switch` in the
three-argument `tiny_stringify_string`. -/
def stringify_char (ch : Nat) : List Nat :=
  if ch = 34 then [92, 34]
  else if ch = 92 then [92, 92]
  else if ch = 8 then [92, 98]
  else if ch = 12 then [92, 102]
  else if ch = 10 then [92, 110]
  else if ch = 13 then [92, 114]
  else if ch = 9 then [92, 116]
  else if ch < 0x20 then
    [92, 117, 48, 48, hex_digits.getD (ch >>> 4) 0, hex_digits.getD (ch &&& 15) 0]
  else [ch]

/-- The loop `for (i = 0; i < len; i++)` of `tiny_stringify_string`: everything written
through `p` for the bytes of `s`. -/
def stringify_string_loop : List Nat → List Nat
  | [] => []
  | ch :: s => stringify_char ch ++ stringify_string_loop s

/-- Function `tiny_stringify_string` (three arguments). It reserves `len * 6 + 2` bytes,
writes through `p`, and gives back the unused tail with
`c->top -= size - (p - head)`; the writes must stay inside the reserved region. -/
def tiny_stringify_string (c : tiny_context ν) (s : List Nat) (len : Nat) :
    Option (tiny_context ν) :=
  let size := len * 6 + 2
  let written := 34 :: stringify_string_loop (s.take len) ++ [34]
  if len ≤ s.length ∧ written.length ≤ size then
    some { c with stack := c.stack ++ written.map .byte }
  else none

mutual
/-- Function `tiny_stringify_value`. For a number, 32 bytes are reserved, `sprintf` writes
the text and its NUL there, and the unused tail is given back. -/
def tiny_stringify_value (L : libc ν) : tiny_context ν → tiny_node ν → Option (tiny_context ν)
  | c, .null => PUTS c [110, 117, 108, 108] 4
  | c, .jfalse => PUTS c [102, 97, 108, 115, 101] 5
  | c, .jtrue => PUTS c [116, 114, 117, 101] 4
  | c, .number n =>
    let text := L.sprintf_17g n
    if text.length < 32 then some { c with stack := c.stack ++ text.map .byte } else none
  | c, .string s => tiny_stringify_string c s s.length
  | c, .array e _ => (stringify_elements L (PUTC c 91) e 0).map fun c => PUTC c 93
  | c, .object m _ => (stringify_members L (PUTC c 123) m 0).map fun c => PUTC c 125
/-- The loop over the elements in `case TINY_ARRAY`, at index `i`. -/
def stringify_elements (L : libc ν) :
    tiny_context ν → List (tiny_node ν) → Nat → Option (tiny_context ν)
  | c, [], _ => some c
  | c, x :: xs, i =>
    let c := if 0 < i then PUTC c 44 else c
    match tiny_stringify_value L c x with
    | none => none
    | some c => stringify_elements L c xs (i + 1)
/-- The loop over the members in `case TINY_OBJECT`, at index `i`. The key is pushed with
`PUTS`, as it is. -/
def stringify_members (L : libc ν) :
    tiny_context ν → List (tiny_member ν) → Nat → Option (tiny_context ν)
  | c, [], _ => some c
  | c, .mk key keylen value :: ms, i =>
    let c := if 0 < i then PUTC c 44 else c
    let c := PUTC c 34
    match keylen with
    | none => none
    | some keylen =>
      match PUTS c key keylen with
      | none => none
      | some c =>
        let c := PUTC c 34
        let c := PUTC c 58
        match tiny_stringify_value L c value with
        | none => none
        | some c => stringify_members L c ms (i + 1)
end

/-- Function `tiny_stringify`: the returned buffer, terminating NUL included, and the value
stored in `*length`. -/
def tiny_stringify (L : libc ν) (node : tiny_node ν) : Option (List Nat × Nat) :=
  let c : tiny_context ν := { json := [], stack := [] }
  match tiny_stringify_value L c node with
  | none => none
  | some c =>
    let length := c.stack.length
    (stack_bytes (PUTC c 0).stack).map fun buf => (buf, length)

/-! ## Operations on the tree -/

/-- The call `memcpy(dst, src, n)`: the content of the buffer `dst` afterwards. The call
returns the pointer `dst`. -/
def memcpy (dst src : List Nat) (n : Nat) : List Nat := src.take n ++ dst.drop n

/-- Whether the pointer to a buffer is the null pointer. Strings and keys live in buffers
obtained from `malloc(len + 1)`, which are not null. -/
def is_null_pointer (_buffer : List Nat) : Bool := false

mutual
/-- Function `tiny_is_equal`: the returned `int` and the node `lhs` afterwards (`rhs` is
only read). The library call in the string and key comparisons is `memcpy`, which writes
into the left buffer and returns the pointer to it. -/
def tiny_is_equal (L : libc ν) : tiny_node ν → tiny_node ν → Option (Nat × tiny_node ν)
  | lhs, rhs =>
    if tiny_get_type lhs ≠ tiny_get_type rhs then some (0, lhs) else
    match lhs, rhs with
    | .string a, .string b =>
      if a.length = b.length then
        let a := memcpy a b a.length
        some (if is_null_pointer a then 1 else 0, .string a)
      else some (0, .string a)
    | .number x, .number y => some (if L.eq x y then 1 else 0, .number x)
    | .array e1 c1, .array e2 _ =>
      if e1.length ≠ e2.length then some (0, .array e1 c1)
      else (is_equal_elements L e1 e2).map fun r => (r.1, .array r.2 c1)
    | .object m1 c1, .object m2 _ =>
      if m1.length ≠ m2.length then some (0, .object m1 c1)
      else (is_equal_members L m1 m2).map fun r => (r.1, .object r.2 c1)
    | lhs, _ => some (1, lhs)
/-- The loop of `case TINY_ARRAY` in `tiny_is_equal`. -/
def is_equal_elements (L : libc ν) :
    List (tiny_node ν) → List (tiny_node ν) → Option (Nat × List (tiny_node ν))
  | [], _ => some (1, [])
  | _ :: _, [] => none
  | x :: xs, y :: ys =>
    match tiny_is_equal L x y with
    | none => none
    | some (r, x) =>
      if r = 0 then some (0, x :: xs)
      else (is_equal_elements L xs ys).map fun r => (r.1, x :: r.2)
/-- The loop of `case TINY_OBJECT` in `tiny_is_equal`. -/
def is_equal_members (L : libc ν) :
    List (tiny_member ν) → List (tiny_member ν) → Option (Nat × List (tiny_member ν))
  | [], _ => some (1, [])
  | _ :: _, [] => none
  | .mk k1 l1 v1 :: xs, .mk k2 l2 v2 :: ys =>
    match l1, l2 with
    | some n1, some n2 =>
      if n1 ≠ n2 then some (0, .mk k1 l1 v1 :: xs)
      else
        let k1 := memcpy k1 k2 n1
        if !is_null_pointer k1 then some (0, .mk k1 l1 v1 :: xs)
        else
          match tiny_is_equal L v1 v2 with
          | none => none
          | some (r, v1) =>
            if r = 0 then some (0, .mk k1 l1 v1 :: xs)
            else (is_equal_members L xs ys).map fun r => (r.1, .mk k1 l1 v1 :: r.2)
    | _, _ => none
end

mutual
/-- Function `tiny_copy`: the node `dst` afterwards (`src` is only read). In the array and
object cases the fields `capacity` of `dst` and `keylen` of the new members are not
written. The slots of the fresh arrays come from `malloc` and are handed to the recursive
calls as they are; they are taken to hold the tag `TINY_NULL`, the reading under which
`tiny_free` on them does nothing. -/
def tiny_copy : tiny_node ν → tiny_node ν → Option (tiny_node ν)
  | dst, .string s => some (tiny_set_string dst s s.length)
  | dst, .array e _ =>
    let _freed := tiny_free dst
    (copy_elements e).map fun e => .array e none
  | dst, .object m _ =>
    let _freed := tiny_free dst
    (copy_members m).map fun m => .object m none
  | dst, src =>
    let _freed := tiny_free dst
    some src
/-- The loop of `case TINY_ARRAY` in `tiny_copy`. -/
def copy_elements : List (tiny_node ν) → Option (List (tiny_node ν))
  | [] => some []
  | x :: xs =>
    match tiny_copy .null x with
    | none => none
    | some x => (copy_elements xs).map fun xs => x :: xs
/-- The loop of `case TINY_OBJECT` in `tiny_copy`. -/
def copy_members : List (tiny_member ν) → Option (List (tiny_member ν))
  | [] => some []
  | .mk key keylen value :: ms =>
    match keylen with
    | none => none
    | some klen =>
      if klen ≤ key.length then
        let k := memcpy [] key klen
        match tiny_copy .null value with
        | none => none
        | some v => (copy_members ms).map fun ms => .mk k none v :: ms
      else none
end

/-- Function `tiny_move`: the nodes `dst` and `src` afterwards. -/
def tiny_move (dst src : tiny_node ν) : tiny_node ν × tiny_node ν :=
  let _freed := tiny_free dst
  let dst := src
  (dst, tiny_init src)

/-! ## The array API

The functions of the array API work on the buffer `node->a.e`, spare slots included, so
they are modelled on the three fields of `node->a`. -/

/-- Arithmetic on `size_t`, taken to be 64 bits wide: a result is reduced modulo `2 ^ 64`. -/
def size_t (n : Nat) : Nat := n % 2 ^ 64

/-- Subtraction on `size_t`, for operands below `2 ^ 64`: it wraps around below zero. -/
def size_t_sub (a b : Nat) : Nat := if b ≤ a then a - b else 2 ^ 64 - (b - a)

/-- The member `a` of the union of a node of type `TINY_ARRAY`: the buffer `e` slot by slot
(a slot that was never written is `none`), and the fields `size` and `capacity` (`none`:
never written). -/
structure tiny_array (ν : Type) where
  e : List (Option (tiny_node ν))
  size : Nat
  capacity : Option Nat

/-- The slots as values, when each of them has been written. -/
def slots_written : List (Option (tiny_node ν)) → Option (List (tiny_node ν))
  | [] => some []
  | none :: _ => none
  | some x :: r => (slots_written r).map (x :: ·)

/-- The array as a node of the tree: the tag `TINY_ARRAY`, the slots `0 .. size - 1` and
the capacity. There is none when one of these slots lies outside the buffer or was never
written. -/
def tiny_array.node (a : tiny_array ν) : Option (tiny_node ν) :=
  if a.size ≤ a.e.length then
    (slots_written (a.e.take a.size)).map fun e => .array e a.capacity
  else none

/-- The value of `sizeof(tiny_node)` where pointers and `size_t` have 64 bits: the union
holds a pointer and two `size_t` (24 bytes), the tag `type` follows, and the structure is
aligned to 8 bytes. -/
def sizeof_tiny_node : Nat := 32

/-- The call `realloc(e, bytes)` for a buffer of nodes, taken to succeed: the buffer
afterwards has as many slots as whole nodes fit in `bytes` bytes; those that the old buffer
had keep what they held, the slots added are not written. -/
def realloc_nodes (e : List (Option (tiny_node ν))) (bytes : Nat) :
    List (Option (tiny_node ν)) :=
  e.take (bytes / sizeof_tiny_node)
    ++ List.replicate (bytes / sizeof_tiny_node - e.length) none

/-- Function `tiny_get_array_capacity`: the field `capacity`, if it was ever written;
`assert(node->type == TINY_ARRAY)`. -/
def tiny_get_array_capacity : tiny_node ν → Option Nat
  | .array _ capacity => capacity
  | _ => none

/-- Function `tiny_reverse_array`, the definition behind the reserve operation. The second
argument of `realloc` is the product `capacity * sizeof(tiny_node)` in `size_t`. -/
def tiny_reverse_array (a : tiny_array ν) (capacity : Nat) : Option (tiny_array ν) :=
  match a.capacity with
  | none => none
  | some cap =>
    if cap < capacity then
      some { a with capacity := some capacity,
                    e := realloc_nodes a.e (size_t (capacity * sizeof_tiny_node)) }
    else some a

/-- Function `tiny_pushback_array_element`: the array afterwards and the index of the slot
whose address is returned. `tiny_init` writes the tag of the slot at index `size`, which
has to lie inside the buffer. -/
def tiny_pushback_array_element (a : tiny_array ν) : Option (tiny_array ν × Nat) :=
  match a.capacity with
  | none => none
  | some cap =>
    let grown :=
      if a.size = cap then tiny_reverse_array a (if cap = 0 then 1 else size_t (cap * 2))
      else some a
    match grown with
    | none => none
    | some a =>
      if a.size < a.e.length then
        some ({ a with e := a.e.set a.size (some (tiny_init .null)), size := a.size + 1 },
          a.size)
      else none

/-- The call `tiny_move(&e[dst], &e[src])` on two slots of the buffer; `assert(src != dst)`.
`tiny_free` reads the tag of the destination and `memcpy` copies the source, so both have
to be slots of the buffer that were written. -/
def move_slot (e : List (Option (tiny_node ν))) (dst src : Nat) :
    Option (List (Option (tiny_node ν))) :=
  if dst = src then none
  else
    match e[dst]?, e[src]? with
    | some (some d), some (some s) =>
      let r := tiny_move d s
      some ((e.set dst (some r.1)).set src (some r.2))
    | _, _ => none

/-- The loop of `tiny_insert_array_element` with `rounds` rounds to go: `nxtNode` is the
slot at index `nxt` and `curNode` the slot before it, which does not exist when `nxt` is
0. The result is the buffer and the index of `nxtNode` after the loop. -/
def insert_loop : Nat → List (Option (tiny_node ν)) → Nat →
    Option (List (Option (tiny_node ν)) × Nat)
  | 0, e, nxt => some (e, nxt)
  | rounds + 1, e, nxt =>
    if nxt = 0 then none
    else
      match move_slot e nxt (nxt - 1) with
      | none => none
      | some e => insert_loop rounds e (nxt - 1)

/-- Function `tiny_insert_array_element`: the array afterwards and the index of the slot
whose address is returned. The bound of the loop reads `node->a.size` after the push. The
final `memcpy(nxtNode, node, sizeof(tiny_node))` copies the header of the array into the
slot; in the tree model the slot receives the array as it stands at that moment (that the
copy shares the buffer with the array is not represented). -/
def tiny_insert_array_element (a : tiny_array ν) (index : Nat) :
    Option (tiny_array ν × Nat) :=
  if index ≤ a.size then
    match tiny_pushback_array_element a with
    | none => none
    | some (a, nxt) =>
      match insert_loop (size_t_sub a.size index) a.e nxt with
      | none => none
      | some (e, nxt) =>
        match tiny_array.node { a with e := e } with
        | none => none
        | some header =>
          if nxt < e.length then some ({ a with e := e.set nxt (some header) }, nxt)
          else none
  else none

/-- The call `tiny_swap(&e[i], &e[j])` on two slots of the buffer. With `lhs == rhs`
nothing is done. Otherwise the first `memcpy` copies `sizeof(tiny_node)` bytes into the
local `temp`, declared `tiny_node*`: an object smaller than a node (which holds a pointer,
two `size_t` and a tag), so the copy writes outside it and the call has no defined
outcome. -/
def swap_slot (e : List (Option (tiny_node ν))) (i j : Nat) :
    Option (List (Option (tiny_node ν))) :=
  if i = j then some e else none

/-- The first loop of `tiny_erase_array_element`, with `rounds` rounds to go at index
`i`. -/
def erase_swap_loop (index count : Nat) :
    Nat → Nat → List (Option (tiny_node ν)) → Option (List (Option (tiny_node ν)))
  | 0, _, e => some e
  | rounds + 1, i, e =>
    match swap_slot e (size_t (index + i)) (size_t (size_t (index + count) + i)) with
    | none => none
    | some e => erase_swap_loop index count rounds (i + 1) e

/-- The second loop of `tiny_erase_array_element`, `for (...; i < size; i++)`, with
`rounds` rounds to go at index `i`: `tiny_free` reads the tag of the slot, which has to be
a slot of the buffer that was written. -/
def erase_free_loop :
    Nat → Nat → List (Option (tiny_node ν)) → Option (List (Option (tiny_node ν)))
  | 0, _, e => some e
  | rounds + 1, i, e =>
    match e[i]? with
    | some (some x) => erase_free_loop rounds (i + 1) (e.set i (some (tiny_free x)))
    | _ => none

/-- Function `tiny_erase_array_element`. -/
def tiny_erase_array_element (a : tiny_array ν) (index count : Nat) :
    Option (tiny_array ν) :=
  if index ≤ a.size then
    let num := max 0 (size_t_sub (size_t_sub a.size index) count)
    match erase_swap_loop index count num 0 a.e with
    | none => none
    | some e =>
      match erase_free_loop (a.size - size_t (index + num)) (size_t (index + num)) e with
      | none => none
      | some e => some { a with e := e, size := size_t (index + num + 1) }
  else none

/-- Function `tiny_clear_array`. -/
def tiny_clear_array (a : tiny_array ν) : Option (tiny_array ν) :=
  tiny_erase_array_element a 0 a.size

/-- Macro `tiny_set_null`: it is `tiny_free`. -/
def tiny_set_null (node : tiny_node ν) : tiny_node ν := tiny_free node

/-- Function `tiny_swap`: the nodes `lhs` and `rhs` afterwards; `same` tells whether the
two pointers are equal. With `lhs == rhs` nothing is done. Otherwise the first `memcpy`
copies `sizeof(tiny_node)` bytes into the local `temp`, declared `tiny_node*`: an object
smaller than a node (which holds a pointer, two `size_t` and a tag), so the copy writes
outside it and the call has no defined outcome. -/
def tiny_swap (same : Bool) (lhs rhs : tiny_node ν) : Option (tiny_node ν × tiny_node ν) :=
  if same then some (lhs, rhs) else none

/-- Function `tiny_set_object`: the node afterwards. The buffer of `capacity` members holds
no member yet. -/
def tiny_set_object (node : tiny_node ν) (capacity : Nat) : tiny_node ν :=
  let _freed := tiny_free node
  .object [] (some capacity)

/-- Function `tiny_get_object_capacity`: after `assert(node->type == TINY_OBJECT)` the body
is the comment `\todo` and `return 0`. -/
def tiny_get_object_capacity : tiny_node ν → Option Nat
  | .object _ _ => some 0
  | _ => none

/-- Function `tiny_clear_object`: the node afterwards. After
`assert(node->type == TINY_OBJECT)` the body is the comment `\todo` and nothing else. -/
def tiny_clear_object : tiny_node ν → Option (tiny_node ν)
  | .object m capacity => some (.object m capacity)
  | _ => none

/-- The macro `TINY_KEY_NOT_EXIST` of `tinyjson.h`: `((size_t) - 1)`. -/
def TINY_KEY_NOT_EXIST : Nat := 2 ^ 64 - 1

/-- Modelled from the spec: the scan of the function `tiny_find_object_index`, which is
declared in `tinyjson.h` and called by the tests but has no definition in `tinyjson.cpp`.
The specification has a linear scan that returns the first match and a sentinel if the key
is absent; `i` is the index of the first member of the list. A member matches when its key
length is `klen` and its key bytes are the first `klen` bytes of `key`. -/
def find_object_scan (key : List Nat) (klen : Nat) : List (tiny_member ν) → Nat → Nat
  | [], _ => TINY_KEY_NOT_EXIST
  | .mk k kl _ :: rest, i =>
    if kl = some klen ∧ k.take klen = key.take klen then i
    else find_object_scan key klen rest (i + 1)

/-- Modelled from the spec: function `tiny_find_object_index`, which is declared in
`tinyjson.h` and called by the tests but has no definition in `tinyjson.cpp`: on an Object
node, the index of the first member with the given key, or `TINY_KEY_NOT_EXIST`. -/
def tiny_find_object_index (node : tiny_node ν) (key : List Nat) (klen : Nat) : Option Nat :=
  match node with
  | .object m _ => some (find_object_scan key klen m 0)
  | _ => none

/-- A digit of the conversion `%x` of the C library: `0123456789abcdef`. -/
def lower_hex_digit (d : Nat) : Nat := if d < 10 then 48 + d else 87 + d

/-- The C library call `sprintf(buffer, "\\u%04x", ch)` for `ch` below `0x10000`: the bytes
written before the terminating NUL are a backslash, `u`, and `ch` in hexadecimal with the
digits `0123456789abcdef`, padded with zeros to four digits. -/
def sprintf_u04x (ch : Nat) : List Nat :=
  [92, 117, lower_hex_digit (ch / 4096 % 16), lower_hex_digit (ch / 256 % 16),
    lower_hex_digit (ch / 16 % 16), lower_hex_digit (ch % 16)]

/-- One round of the loop of the four-argument `tiny_stringify_string`: the `switch` on the
byte `ch`, each case a `PUTS` of a string literal or of `buffer`, or a `PUTC`. -/
def stringify_char_unoptimised (c : tiny_context ν) (ch : Nat) : Option (tiny_context ν) :=
  if ch = 34 then PUTS c [92, 34, 0] 2
  else if ch = 92 then PUTS c [92, 92, 0] 2
  else if ch = 8 then PUTS c [92, 98, 0] 2
  else if ch = 12 then PUTS c [92, 102, 0] 2
  else if ch = 10 then PUTS c [92, 110, 0] 2
  else if ch = 13 then PUTS c [92, 114, 0] 2
  else if ch = 9 then PUTS c [92, 116, 0] 2
  else if ch < 0x20 then PUTS c (sprintf_u04x ch ++ [0]) 6
  else some (PUTC c ch)

/-- The loop `for (i = 0; i < len; i++)` of the four-argument `tiny_stringify_string`. -/
def stringify_loop_unoptimised : List Nat → tiny_context ν → Option (tiny_context ν)
  | [], c => some c
  | ch :: s, c => (stringify_char_unoptimised c ch).bind (stringify_loop_unoptimised s)

/-- Function `tiny_stringify_string` with four arguments (the `bool` is not used): a quote,
the loop, a quote. The `len` bytes of `s` must be there to be read. -/
def tiny_stringify_string_unoptimised (c : tiny_context ν) (s : List Nat) (len : Nat) :
    Option (tiny_context ν) :=
  if len ≤ s.length then
    (stringify_loop_unoptimised (s.take len) (PUTC c 34)).map fun c => PUTC c 34
  else none

/-! ## Tutorial 03

The parser of `src/tutorial03/tinyjson.cpp`. Its macros, `tiny_context_push`,
`tiny_parse_whitespace`, the three literal parsers, `tiny_parse_number` and
`tiny_set_string` are, line by line, those of tutorial08 embedded above; the definitions
below are the functions that differ. -/

namespace Tutorial03

/-- Function `tiny_context_pop` of tutorial03: `assert(c->top >= size)`, then
`return c->stack + (c->top - size)`. The top `size` bytes are handed to the caller;
`c->top` is not changed. -/
def tiny_context_pop (c : tiny_context ν) (size : Nat) :
    Option (List (stack_item ν) × tiny_context ν) :=
  if size ≤ c.stack.length then some (c.stack.drop (c.stack.length - size), c) else none

/-- One round of the loop of `tiny_parse_string` of tutorial03:
`char ch = *p++; switch (ch) ...`. On the closing quote the result carries the bytes given
to `tiny_set_string`. An error sets `c->top = head`. -/
def string_step (head : Nat) (p : List Nat) (c : tiny_context ν) :
    Option (string_step_result ν) :=
  match p with
  | [] => none
  | ch :: p =>
    if ch = 34 then
      match tiny_context_pop c (c.stack.length - head) with
      | none => none
      | some (items, c) =>
        match stack_bytes items with
        | none => none
        | some str => some (.ret (TINY_PARSE_OK, str, { c with json := p }))
    else if ch = 92 then
      match p with
      | [] => none
      | e :: p =>
        match simple_escape e with
        | some b => some (.next p (PUTC c b))
        | none =>
          some (.ret (TINY_PARSE_INVALID_STRING_ESCAPE, [],
            { c with stack := c.stack.take head }))
    else if ch = 0 then
      some (.ret (TINY_PARSE_MISS_QUOTATION_MARK, [], { c with stack := c.stack.take head }))
    else if ch < 0x20 then
      some (.ret (TINY_PARSE_INVALID_STRING_CHAR, [], { c with stack := c.stack.take head }))
    else some (.next p (PUTC c ch))

/-- The loop `for(;;)` of `tiny_parse_string` of tutorial03, with a bound on the number of
rounds. -/
def string_loop (head : Nat) : Nat → List Nat → tiny_context ν →
    Option (tiny_status × List Nat × tiny_context ν)
  | 0, _, _ => none
  | fuel + 1, p, c =>
    match string_step head p c with
    | none => none
    | some (.ret r) => some r
    | some (.next p c) => string_loop head fuel p c

/-- Function `tiny_parse_string` of tutorial03. Every round reads at least one byte, so the
number of bytes left bounds the number of rounds. -/
def tiny_parse_string (c : tiny_context ν) (node : tiny_node ν) : Option (parse_result ν) :=
  let head := c.stack.length
  match (EXPECT c 34).bind fun c => string_loop head c.json.length c.json c with
  | none => none
  | some (ret, s, c) =>
    if ret = TINY_PARSE_OK then some (ret, tiny_set_string node s s.length, c)
    else some (ret, node, c)

/-- Function `tiny_parse_value` of tutorial03. -/
def tiny_parse_value (L : libc ν) (c : tiny_context ν) (node : tiny_node ν) :
    Option (parse_result ν) :=
  match c.json with
  | [] => none
  | ch :: _ =>
    if ch = 110 then tiny_parse_null c node
    else if ch = 116 then tiny_parse_true c node
    else if ch = 102 then tiny_parse_false c node
    else if ch = 34 then tiny_parse_string c node
    else if ch = 0 then some (TINY_PARSE_EXPECT_VALUE, node, c)
    else tiny_parse_number L c node

/-- Function `tiny_parse` of tutorial03: status and the node afterwards;
`assert(c.top == 0)` at the end. -/
def tiny_parse (L : libc ν) (node : tiny_node ν) (json : List Nat) :
    Option (tiny_status × tiny_node ν) :=
  let c : tiny_context ν := { json := json, stack := [] }
  let node := tiny_init node
  match tiny_parse_whitespace c with
  | none => none
  | some c =>
    match tiny_parse_value L c node with
    | none => none
    | some (ret, node, c) =>
      let after : Option (tiny_status × tiny_context ν) :=
        if ret = TINY_PARSE_OK then
          match tiny_parse_whitespace c with
          | none => none
          | some c =>
            match c.json with
            | [] => none
            | ch :: _ =>
              if ch ≠ 0 then some (TINY_PARSE_ROOT_NOT_SINGULAR, c) else some (ret, c)
        else some (ret, c)
      match after with
      | none => none
      | some (ret, c) => if c.stack.length = 0 then some (ret, node) else none

end Tutorial03

/-! ## Notions of the specification

The definitions of this section follow the words of the specification, not the code. -/

/-- A text made of JSON whitespace only (space, tab, LF, CR). -/
def all_ws (w : List Nat) : Prop := ∀ b ∈ w, is_ws b = true

/-- A text made of decimal digits only. -/
def all_digits (ds : List Nat) : Prop := ∀ b ∈ ds, ISDIGIT b = true

instance all_ws_decidable (w : List Nat) : Decidable (all_ws w) :=
  inferInstanceAs (Decidable (∀ b ∈ w, is_ws b = true))

instance all_digits_decidable (ds : List Nat) : Decidable (all_digits ds) :=
  inferInstanceAs (Decidable (∀ b ∈ ds, ISDIGIT b = true))

/-- The part `-?` of the number grammar. -/
def spec_sign (t : List Nat) : Prop := t = [] ∨ t = [45]

/-- The part `(0|[1-9][0-9]*)` of the number grammar. -/
def spec_int (t : List Nat) : Prop :=
  t = [48] ∨ ∃ d ds, t = d :: ds ∧ ISDIGIT1TO9 d = true ∧ all_digits ds

/-- The part `(\.[0-9]+)?` of the number grammar. -/
def spec_frac (t : List Nat) : Prop :=
  t = [] ∨ ∃ d ds, t = 46 :: d :: ds ∧ all_digits (d :: ds)

/-- The part `([eE][+-]?[0-9]+)?` of the number grammar. -/
def spec_exp (t : List Nat) : Prop :=
  t = [] ∨ ∃ e sg d ds, t = e :: (sg ++ d :: ds) ∧ (e = 101 ∨ e = 69)
    ∧ (sg = [] ∨ sg = [43] ∨ sg = [45]) ∧ all_digits (d :: ds)

/-- The grammar `-?(0|[1-9][0-9]*)(\.[0-9]+)?([eE][+-]?[0-9]+)?` of the specification,
matched in full by the text `t`. -/
def spec_number_grammar (t : List Nat) : Prop :=
  ∃ sign int frac exp, t = sign ++ (int ++ (frac ++ exp))
    ∧ spec_sign sign ∧ spec_int int ∧ spec_frac frac ∧ spec_exp exp

/-- A byte that may follow a value in a JSON text: whitespace, the terminating NUL, a
comma, a closing bracket or a closing brace. -/
def is_delimiter (x : Nat) : Bool := is_ws x || x == 0 || x == 44 || x == 93 || x == 125

/-- A remaining input that starts with a delimiter. -/
def delimited (r : List Nat) : Prop := ∃ x r0, r = x :: r0 ∧ is_delimiter x = true

/-- The assumption on `strtod`: on a text of the number grammar followed by a delimiter,
the result (value and overflow flag) depends on the text of the number only. -/
def strtod_reads_number (L : libc ν) : Prop :=
  ∀ t r r0, spec_number_grammar t → delimited r → delimited r0 →
    L.strtod (t ++ r) = L.strtod (t ++ r0)

/-- An element of an array text: the text `text` of a value, the whitespace put before and
after it, and the value `tiny_parse` gives for `text`. -/
structure element_text (ν : Type) where
  before : List Nat
  text : List Nat
  after : List Nat
  value : tiny_node ν

/-- The element with its whitespace. -/
def element_text.padded (x : element_text ν) : List Nat := x.before ++ (x.text ++ x.after)

/-- The rest of an array text after an element: a comma and the next element for each
element that follows, then the closing bracket. -/
def array_tail : List (element_text ν) → List Nat
  | [] => [93]
  | x :: rest => 44 :: (x.padded ++ array_tail rest)

/-- The array text `[ e1 , e2 , ... , en ]`: the opening bracket, the whitespace `w0`, the
elements separated by commas, the closing bracket. -/
def array_text (w0 : List Nat) : List (element_text ν) → List Nat
  | [] => 91 :: (w0 ++ [93])
  | x :: rest => 91 :: (w0 ++ (x.padded ++ array_tail rest))

/-- A member of an object text: the text `key_text` of a string literal and the text
`text` of a value, the whitespace around both (the colon stands between `after_key` and
`before`), the bytes `key` that `tiny_parse` gives for `key_text` and the value it gives
for `text`. -/
structure member_text (ν : Type) where
  before_key : List Nat
  key_text : List Nat
  after_key : List Nat
  before : List Nat
  text : List Nat
  after : List Nat
  key : List Nat
  value : tiny_node ν

/-- The member with its colon and its whitespace. -/
def member_text.padded (x : member_text ν) : List Nat :=
  x.before_key ++ (x.key_text ++ (x.after_key ++ 58 :: (x.before ++ (x.text ++ x.after))))

/-- The member record that the parser builds for a member text. -/
def member_text.member (x : member_text ν) : tiny_member ν :=
  .mk x.key (some x.key.length) x.value

/-- The rest of an object text after a member. -/
def object_tail : List (member_text ν) → List Nat
  | [] => [125]
  | x :: rest => 44 :: (x.padded ++ object_tail rest)

/-- The object text: the opening brace, the whitespace `w0`, the members separated by
commas, the closing brace. -/
def object_text (w0 : List Nat) : List (member_text ν) → List Nat
  | [] => 123 :: (w0 ++ [125])
  | x :: rest => 123 :: (w0 ++ (x.padded ++ object_tail rest))

/-- A small instance of the library functions, used to instantiate the theorems: a number
is represented by the text that denotes it, `strtod` reads the text up to the first
delimiter and never reports an overflow, `%.17g` prints the text back. -/
def demo_libc : libc (List Nat) where
  strtod p := (p.takeWhile fun b => !is_delimiter b, false)
  sprintf_17g n := n
  eq a b := a == b

/-- A second instance of the library functions, whose `strtod` knows the hexadecimal
notation of C99 as far as one text goes: it reads the input up to the first delimiter and
reports an overflow exactly when that text is `0x1p9999`, which denotes `2 ^ 9999`, a value
outside the range of `double`. -/
def hex_libc : libc (List Nat) where
  strtod p :=
    ((p.takeWhile fun b => !is_delimiter b),
      (p.takeWhile fun b => !is_delimiter b) == [48, 120, 49, 112, 57, 57, 57, 57])
  sprintf_17g n := n
  eq a b := a == b

/-- An auxiliary notion for the proofs: every successful run of `pv` reads a non-empty
text `t` in front of what it leaves, restores the stack, and, when a delimiter follows `t`,
`pv0` gives the same value on `t` followed by any other delimited input, on any stack and
any output node. -/
def frames (pv pv0 : tiny_context ν → tiny_node ν → Option (parse_result ν)) : Prop :=
  ∀ (j : List Nat) (st : List (stack_item ν)) (node v : tiny_node ν) (c1 : tiny_context ν),
    pv { json := j, stack := st } node = some (TINY_PARSE_OK, v, c1) →
    ∃ t, t ≠ [] ∧ j = t ++ c1.json ∧ c1.stack = st ∧
      (delimited c1.json → ∀ (r : List Nat) (st0 : List (stack_item ν)) (node0 : tiny_node ν),
        delimited r →
        pv0 { json := t ++ r, stack := st0 } node0
          = some (TINY_PARSE_OK, v, { json := r, stack := st0 }))

/-- The value of a hexadecimal digit, in either letter case. -/
def hex_value (ch : Nat) : Option Nat :=
  if 48 ≤ ch ∧ ch ≤ 57 then some (ch - 48)
  else if 65 ≤ ch ∧ ch ≤ 70 then some (ch - 65 + 10)
  else if 97 ≤ ch ∧ ch ≤ 102 then some (ch - 97 + 10)
  else none

/-- The 16-bit value that four hexadecimal digits denote. -/
def hex4_value (d1 d2 d3 d4 : Nat) : Option Nat :=
  match hex_value d1, hex_value d2, hex_value d3, hex_value d4 with
  | some a, some b, some c, some d => some (4096 * a + 256 * b + 16 * c + d)
  | _, _, _, _ => none

/-- The text at the cursor starts with four hexadecimal digits: their value and the text
after them. -/
def spec_hex4 : List Nat → Option (List Nat × Nat)
  | d1 :: d2 :: d3 :: d4 :: rest => (hex4_value d1 d2 d3 d4).map fun u => (rest, u)
  | _ => none

/-- The standard UTF-8 encoding of a code point up to `0x10FFFF`: one byte `0xxxxxxx`, two
bytes `110xxxxx 10xxxxxx`, three bytes `1110xxxx 10xxxxxx 10xxxxxx` or four bytes
`11110xxx 10xxxxxx 10xxxxxx 10xxxxxx`. -/
def spec_utf8 (u : Nat) : List Nat :=
  if u ≤ 0x7F then [u]
  else if u ≤ 0x7FF then [0xC0 + u / 64, 0x80 + u % 64]
  else if u ≤ 0xFFFF then [0xE0 + u / 4096, 0x80 + u / 64 % 64, 0x80 + u % 64]
  else [0xF0 + u / 262144, 0x80 + u / 4096 % 64, 0x80 + u / 64 % 64, 0x80 + u % 64]

/-- A continuation byte `10xxxxxx`. -/
def is_continuation (b : Nat) : Bool := decide (0x80 ≤ b) && decide (b < 0xC0)

/-- The payload bits of a UTF-8 sequence put together again; there is none when the bytes
do not have the bit patterns of a sequence of one to four bytes. -/
def spec_utf8_payload : List Nat → Option Nat
  | [b0] => if b0 < 0x80 then some b0 else none
  | [b0, b1] =>
    if 0xC0 ≤ b0 ∧ b0 < 0xE0 ∧ is_continuation b1 then
      some ((b0 - 0xC0) * 64 + (b1 - 0x80))
    else none
  | [b0, b1, b2] =>
    if 0xE0 ≤ b0 ∧ b0 < 0xF0 ∧ is_continuation b1 ∧ is_continuation b2 then
      some ((b0 - 0xE0) * 4096 + (b1 - 0x80) * 64 + (b2 - 0x80))
    else none
  | [b0, b1, b2, b3] =>
    if 0xF0 ≤ b0 ∧ b0 < 0xF8 ∧ is_continuation b1 ∧ is_continuation b2
        ∧ is_continuation b3 then
      some ((b0 - 0xF0) * 262144 + (b1 - 0x80) * 4096 + (b2 - 0x80) * 64 + (b3 - 0x80))
    else none
  | _ => none

/-- The byte that a two-character escape of a string literal stands for. -/
def spec_escape (e : Nat) : Option Nat :=
  if e = 34 then some 34
  else if e = 92 then some 92
  else if e = 47 then some 47
  else if e = 98 then some 8
  else if e = 102 then some 12
  else if e = 110 then some 10
  else if e = 114 then some 13
  else if e = 116 then some 9
  else none

/-- The code point that a surrogate pair denotes. -/
def spec_surrogate_pair (hi lo : Nat) : Nat := 0x10000 + (hi - 0xD800) * 0x400 + (lo - 0xDC00)

/-- One item of the body of a string literal, with the bytes it stands for: an unescaped
byte from `0x20` on other than the quote and the backslash, a two-character escape, an
escape `\uXXXX` whose value is not a high surrogate, or a high surrogate escape directly
followed by a low surrogate escape. -/
inductive string_item : List Nat → List Nat → Prop where
  | plain (ch : Nat) (h1 : 0x20 ≤ ch) (h2 : ch ≠ 34) (h3 : ch ≠ 92) : string_item [ch] [ch]
  | escape (e b : Nat) (h : spec_escape e = some b) : string_item [92, e] [b]
  | unicode (d1 d2 d3 d4 u : Nat) (h : hex4_value d1 d2 d3 d4 = some u)
      (hu : ¬ (0xD800 ≤ u ∧ u ≤ 0xDBFF)) :
      string_item [92, 117, d1, d2, d3, d4] (spec_utf8 u)
  | pair (d1 d2 d3 d4 e1 e2 e3 e4 hi lo : Nat) (h1 : hex4_value d1 d2 d3 d4 = some hi)
      (hhi : 0xD800 ≤ hi ∧ hi ≤ 0xDBFF) (h2 : hex4_value e1 e2 e3 e4 = some lo)
      (hlo : 0xDC00 ≤ lo ∧ lo ≤ 0xDFFF) :
      string_item [92, 117, d1, d2, d3, d4, 92, 117, e1, e2, e3, e4]
        (spec_utf8 (spec_surrogate_pair hi lo))

/-- The body of a string literal, a sequence of items, with the bytes it stands for. -/
inductive string_body : List Nat → List Nat → Prop where
  | nil : string_body [] []
  | cons (t bs b s : List Nat) (ht : string_item t bs) (hb : string_body b s) :
      string_body (t ++ b) (bs ++ s)

/-- The uppercase hexadecimal digit of a value below 16. -/
def spec_hex_upper (d : Nat) : Nat := if d < 10 then 48 + d else 65 + (d - 10)

/-- What the serializer writes for one byte of a string, in the words of the
specification: the two-character escapes of the quote, the backslash and the control bytes
`\b \f \n \r \t`, the six bytes `\u00XY` for any other byte below `0x20`, and the byte
itself from `0x20` on. -/
def spec_string_escape (ch : Nat) : List Nat :=
  if ch = 34 then [92, 34]
  else if ch = 92 then [92, 92]
  else if ch = 8 then [92, 98]
  else if ch = 12 then [92, 102]
  else if ch = 10 then [92, 110]
  else if ch = 13 then [92, 114]
  else if ch = 9 then [92, 116]
  else if ch < 0x20 then [92, 117, 48, 48, spec_hex_upper (ch / 16), spec_hex_upper (ch % 16)]
  else [ch]

/-- The text between the quotes that the serializer writes for the bytes of a string. -/
def spec_string_text : List Nat → List Nat
  | [] => []
  | ch :: s => spec_string_escape ch ++ spec_string_text s

/-- An auxiliary notion for the proofs: on every NUL-terminated text of at most `n` bytes
`pv` returns, with the stack as it found it and the cursor moved forward over a text `t`
that ends before the NUL; when it returns `TINY_PARSE_OK`, `t` is not empty. -/
def parses_safely (n : Nat) (pv : tiny_context ν → tiny_node ν → Option (parse_result ν)) :
    Prop :=
  ∀ (j : List Nat) (st : List (stack_item ν)) (node : tiny_node ν), 0 ∈ j → j.length ≤ n →
    ∃ ret v c1 t, pv { json := j, stack := st } node = some (ret, v, c1) ∧ c1.stack = st
      ∧ j = t ++ c1.json ∧ 0 ∈ c1.json ∧ (ret = TINY_PARSE_OK → t ≠ [])

/-- The elements of an array text that are followed by a comma, each with its comma, and
then the text `z`. -/
def array_commas : List (element_text ν) → List Nat → List Nat
  | [], z => z
  | x :: rest, z => x.padded ++ 44 :: array_commas rest z

/-- A byte that can go on a number text: a digit, the point, `e` or `E`. -/
def continues_number (x : Nat) : Bool := ISDIGIT x || x == 46 || x == 101 || x == 69

/-- The members of an object text that are followed by a comma, each with its comma, and
then the text `z`. -/
def object_commas : List (member_text ν) → List Nat → List Nat
  | [], z => z
  | x :: rest, z => x.padded ++ 44 :: object_commas rest z

/-- A member has the key `key` of length `klen`: its key length is `klen` and its key bytes
are the first `klen` bytes of `key`. -/
def spec_key_match (key : List Nat) (klen : Nat) : tiny_member ν → Prop
  | .mk k kl _ => kl = some klen ∧ k.take klen = key.take klen

/-- A control byte that has no short escape and whose low hexadecimal digit is a letter:
`0x0B`, `0x0E`, `0x0F` and `0x1A` to `0x1F`. -/
def hex_letter_control (ch : Nat) : Bool := ch ∈ [11, 14, 15, 26, 27, 28, 29, 30, 31]

/-! ## Theorems -/

/-- C1 (the code departs from the claim): the object that `tiny_parse` builds from the
text `{"\"":null}` has one member whose key is the single byte `"`. `tiny_stringify`
writes that key as it is, giving the ten bytes `{""":null}`, and `tiny_parse` of these
bytes returns `TINY_PARSE_MISS_COLON` and a node of type null: the round trip fails. -/
theorem C1_roundtrip_breaks_on_key_with_quote (L : libc ν) (node : tiny_node ν) :
    tiny_parse L node (cstr "\x7b\"\\\"\":null\x7d")
        = some (TINY_PARSE_OK, .object [.mk [34] (some 1) .null] none)
    ∧ tiny_stringify L (.object [.mk [34] (some 1) .null] none)
        = some (cstr "\x7b\"\"\":null\x7d", 10)
    ∧ tiny_parse L node (cstr "\x7b\"\"\":null\x7d") = some (TINY_PARSE_MISS_COLON, .null) :=
  ⟨rfl, rfl, rfl⟩

/-- C2 (the code departs from the claim): on the text `true x` the function `tiny_parse`
returns `TINY_PARSE_ROOT_NOT_SINGULAR` and leaves the node with type `TINY_TRUE`, not
`TINY_NULL`, whatever the node held before. -/
theorem C2_root_not_singular_keeps_type (L : libc ν) (node : tiny_node ν) :
    tiny_parse L node (cstr "true x") = some (TINY_PARSE_ROOT_NOT_SINGULAR, .jtrue)
    ∧ tiny_get_type (.jtrue : tiny_node ν) ≠ TINY_NULL :=
  ⟨rfl, by simp [tiny_get_type]⟩

/-- C7 (the code departs from the claim): `tiny_is_equal` applied to two String nodes that
both hold the one byte `a` returns 0. -/
theorem C7_is_equal_string_returns_zero (L : libc ν) :
    (tiny_is_equal L (.string [97]) (.string [97])).map Prod.fst = some 0 :=
  rfl

/-- C8 (the code departs from the claim): after `tiny_is_equal` on a String node holding
`a` and a String node holding `b`, the left node holds `b`. -/
theorem C8_is_equal_overwrites_lhs (L : libc ν) :
    (tiny_is_equal L (.string [97]) (.string [98])).map Prod.snd = some (.string [98])
    ∧ (.string [98] : tiny_node ν) ≠ .string [97] :=
  ⟨rfl, by simp⟩

/-- C9 (the code departs from the claim): `tiny_copy` of the object `{"a":null}`, whose
member has `keylen` 1, yields an object whose member has the key byte `a` but a `keylen`
that was never written. -/
theorem C9_copy_leaves_keylen_unwritten (dst : tiny_node ν) (cap : Option Nat) :
    tiny_copy dst (.object [.mk [97] (some 1) .null] cap)
      = some (.object [.mk [97] none .null] none) :=
  rfl

/-- C10: after `tiny_move(dst, src)` the node `dst` is the value `src` held before the call
and `src` has type `TINY_NULL`, whatever `dst` held. -/
theorem C10_move_transfers_and_resets (dst src : tiny_node ν) :
    (tiny_move dst src).1 = src ∧ tiny_get_type (tiny_move dst src).2 = TINY_NULL :=
  ⟨rfl, rfl⟩

/-! ### Lemmas on the stack helpers -/

theorem stack_bytes_map_byte (l : List Nat) :
    stack_bytes (l.map (stack_item.byte (ν := ν))) = some l := by
  induction l with
  | nil => rfl
  | cons b l ih => simp [stack_bytes, ih]

theorem tiny_context_pop_append (j : List Nat) (st x : List (stack_item ν)) :
    tiny_context_pop { json := j, stack := st ++ x } x.length
      = some (x, { json := j, stack := st }) := by
  simp [tiny_context_pop]

/-! ### The serializer of strings against the string parser -/

theorem string_step_stringify_char (head ch : Nat) (p : List Nat) (c : tiny_context ν) :
    string_step head (stringify_char ch ++ p) c = some (.next p (PUTC c ch)) := by
  by_cases h : ch < 32
  · interval_cases ch <;> rfl
  · have h0 : ch ≠ 0 := by omega
    by_cases h34 : ch = 34
    · subst h34; rfl
    by_cases h92 : ch = 92
    · subst h92; rfl
    have e : stringify_char ch = [ch] := by
      have h8 : ch ≠ 8 := by omega
      have h12 : ch ≠ 12 := by omega
      have h10 : ch ≠ 10 := by omega
      have h13 : ch ≠ 13 := by omega
      have h9 : ch ≠ 9 := by omega
      simp [stringify_char, h34, h92, h, h8, h12, h10, h13, h9]
    simp [e, string_step, h34, h92, h0, h]

theorem stringify_char_length (ch : Nat) :
    1 ≤ (stringify_char ch).length ∧ (stringify_char ch).length ≤ 6 := by
  unfold stringify_char
  repeat' split
  all_goals simp

theorem stringify_string_loop_length (s : List Nat) :
    s.length ≤ (stringify_string_loop s).length
    ∧ (stringify_string_loop s).length ≤ 6 * s.length := by
  induction s with
  | nil => simp [stringify_string_loop]
  | cons ch s ih =>
    have := stringify_char_length ch
    simp [stringify_string_loop]
    omega

theorem string_loop_stringify (head : Nat) (s : List Nat) :
    ∀ (fuel : Nat) (p : List Nat) (c : tiny_context ν),
      string_loop head (s.length + fuel) (stringify_string_loop s ++ p) c
        = string_loop head fuel p { c with stack := c.stack ++ s.map .byte } := by
  induction s with
  | nil => intro fuel p c; simp [stringify_string_loop]
  | cons ch s ih =>
    intro fuel p c
    have e : (ch :: s).length + fuel = (s.length + fuel) + 1 := by simp; omega
    rw [e, string_loop]
    simp only [stringify_string_loop, List.append_assoc, string_step_stringify_char]
    rw [ih]
    simp [PUTC]

theorem string_loop_quote (fuel : Nat) (r j : List Nat) (st : List (stack_item ν))
    (bs : List Nat) :
    string_loop st.length (fuel + 1) (34 :: r) { json := j, stack := st ++ bs.map .byte }
      = some (TINY_PARSE_OK, bs, { json := r, stack := st }) := by
  have h := tiny_context_pop_append j st (bs.map (stack_item.byte (ν := ν)))
  simp only [List.length_map] at h
  simp [string_loop, string_step, h, stack_bytes_map_byte]

theorem tiny_parse_string_raw_stringify (s r : List Nat) (st : List (stack_item ν)) :
    tiny_parse_string_raw { json := 34 :: (stringify_string_loop s ++ 34 :: r), stack := st }
      = some (TINY_PARSE_OK, s, { json := r, stack := st }) := by
  have hl := (stringify_string_loop_length s).1
  obtain ⟨k, hk⟩ : ∃ k, (stringify_string_loop s ++ 34 :: r).length = s.length + (k + 1) := by
    refine ⟨(stringify_string_loop s).length - s.length + r.length, ?_⟩
    simp
    omega
  simp only [tiny_parse_string_raw, EXPECT, if_true, Option.some_bind, hk]
  rw [string_loop_stringify]
  have := string_loop_quote k r (stringify_string_loop s ++ 34 :: r) st s
  simpa using this

theorem tiny_stringify_string_node (L : libc ν) (s : List Nat) :
    tiny_stringify L (.string s)
      = some (34 :: (stringify_string_loop s ++ [34, 0]), (stringify_string_loop s).length + 2) := by
  have hl := (stringify_string_loop_length s).2
  have hb : (stringify_string_loop s).length ≤ s.length * 6 := by omega
  have e := stack_bytes_map_byte (ν := ν) (34 :: (stringify_string_loop s ++ [34, 0]))
  simp only [List.map_cons, List.map_append, List.map_nil] at e
  simp [tiny_stringify, tiny_stringify_value, tiny_stringify_string, hb, PUTC, e]

/-- C3: for every byte sequence `s`, `tiny_stringify` of the String node holding `s`
succeeds, and `tiny_parse` of its output returns `TINY_PARSE_OK` with a String node whose
bytes are `s` and whose length is the length of `s`, whatever the node held before. -/
theorem C3_string_bytes_roundtrip (L : libc ν) (node : tiny_node ν) (s : List Nat) :
    ∃ buf len, tiny_stringify L (.string s) = some (buf, len)
      ∧ tiny_parse L node buf = some (TINY_PARSE_OK, .string s)
      ∧ tiny_get_string (.string s : tiny_node ν) = some s
      ∧ tiny_get_string_length (.string s : tiny_node ν) = some s.length := by
  refine ⟨_, _, tiny_stringify_string_node L s, ?_, rfl, rfl⟩
  have hraw := tiny_parse_string_raw_stringify (ν := ν) s [0] []
  simp [tiny_parse, tiny_parse_whitespace, skip_ws, is_ws, tiny_parse_value,
    parse_value_switch, tiny_parse_string,
    hraw, tiny_set_string, tiny_init]

/-! ### Whitespace and digits -/

theorem skip_ws_append (w p : List Nat) (hw : all_ws w) : skip_ws (w ++ p) = skip_ws p := by
  induction w with
  | nil => rfl
  | cons b w ih =>
    have hb : is_ws b = true := hw b (List.mem_cons_self _ _)
    have hw2 : all_ws w := fun x hx => hw x (List.mem_cons_of_mem _ hx)
    simp [skip_ws, hb, ih hw2]

theorem skip_ws_stop (x : Nat) (p : List Nat) (hx : is_ws x = false) :
    skip_ws (x :: p) = some (x :: p) := by
  simp [skip_ws, hx]

theorem skip_ws_some (p q : List Nat) (h : skip_ws p = some q) :
    ∃ w x q0, p = w ++ q ∧ all_ws w ∧ q = x :: q0 ∧ is_ws x = false := by
  induction p with
  | nil => simp [skip_ws] at h
  | cons b p ih =>
    by_cases hb : is_ws b = true
    · simp only [skip_ws, hb, if_true] at h
      obtain ⟨w, x, q0, e, hw, eq, hx⟩ := ih h
      refine ⟨b :: w, x, q0, by simp [e], ?_, eq, hx⟩
      intro y hy
      rcases List.mem_cons.1 hy with rfl | hy
      · exact hb
      · exact hw y hy
    · simp only [skip_ws, hb] at h
      simp only [Bool.false_eq_true, if_false, Option.some.injEq] at h
      refine ⟨[], b, p, by simp [h], ?_, h.symm, by simpa using hb⟩
      intro y hy
      cases hy

theorem skip_digits_append (ds : List Nat) (x : Nat) (r : List Nat) (hd : all_digits ds)
    (hx : ISDIGIT x = false) : skip_digits (ds ++ x :: r) = some (x :: r) := by
  induction ds with
  | nil => simp [skip_digits, hx]
  | cons b ds ih =>
    have hb : ISDIGIT b = true := hd b (List.mem_cons_self _ _)
    have hd2 : all_digits ds := fun y hy => hd y (List.mem_cons_of_mem _ hy)
    simp [skip_digits, hb, ih hd2]

theorem skip_digits_some (p q : List Nat) (h : skip_digits p = some q) :
    ∃ ds, p = ds ++ q ∧ all_digits ds := by
  induction p with
  | nil => simp [skip_digits] at h
  | cons b p ih =>
    by_cases hb : ISDIGIT b = true
    · simp only [skip_digits, hb, if_true] at h
      obtain ⟨ds, e, hd⟩ := ih h
      refine ⟨b :: ds, by simp [e], ?_⟩
      intro y hy
      rcases List.mem_cons.1 hy with rfl | hy
      · exact hb
      · exact hd y hy
    · simp only [skip_digits, hb] at h
      simp only [Bool.false_eq_true, if_false, Option.some.injEq] at h
      exact ⟨[], by simp [h], fun y hy => by cases hy⟩

/-! ### The syntax check of numbers against the grammar of the specification -/

theorem is_delimiter_facts (x : Nat) (h : is_delimiter x = true) :
    ISDIGIT x = false ∧ x ≠ 46 ∧ x ≠ 101 ∧ x ≠ 69 := by
  simp only [is_delimiter, is_ws, Bool.or_eq_true, beq_iff_eq] at h
  simp only [ISDIGIT, Bool.and_eq_false_imp, decide_eq_true_eq, decide_eq_false_iff_not]
  omega

theorem scan_int_complete (sign int : List Nat) (x : Nat) (r : List Nat)
    (hs : spec_sign sign) (hi : spec_int int) (hx : ISDIGIT x = false) :
    scan_int (sign ++ (int ++ x :: r)) = some (some (x :: r)) := by
  have key : scan_int (int ++ x :: r) = some (some (x :: r))
      ∧ ∃ d t, int ++ x :: r = d :: t ∧ d ≠ 45 := by
    rcases hi with rfl | ⟨d, ds, rfl, hd, hds⟩
    · exact ⟨by simp [scan_int], 48, _, rfl, by decide⟩
    · have h1 : d ≠ 45 ∧ d ≠ 48 := by
        simp only [ISDIGIT1TO9, Bool.and_eq_true, decide_eq_true_eq] at hd
        omega
      refine ⟨?_, d, _, rfl, h1.1⟩
      simp [scan_int, h1.1, h1.2, hd, skip_digits_append ds x r hds hx]
  rcases hs with rfl | rfl
  · simpa using key.1
  · obtain ⟨h, d, t, e, hd⟩ := key
    rw [e] at h
    have h2 : scan_int (d :: t) = some (some (x :: r)) := h
    simp only [scan_int, hd, if_false] at h2
    simp only [List.cons_append, List.nil_append, e, scan_int, if_true]
    exact h2

theorem scan_int_sound_aux (ch : Nat) (t q : List Nat)
    (hh : (if ch = 48 then some (some t)
        else if (!ISDIGIT1TO9 ch) = true then some none
        else (skip_digits t).map some) = some (some q)) :
    ∃ int, ch :: t = int ++ q ∧ spec_int int := by
  split_ifs at hh with h48 hd
  · simp only [Option.some.injEq] at hh
    subst hh
    subst h48
    exact ⟨[48], rfl, Or.inl rfl⟩
  · simp at hh
  · rcases hsk : skip_digits t with _ | a
    · simp [hsk] at hh
    · simp only [hsk, Option.map_some', Option.some.injEq] at hh
      subst hh
      obtain ⟨ds, e, hds⟩ := skip_digits_some _ _ hsk
      exact ⟨ch :: ds, by simp [e], Or.inr ⟨ch, ds, rfl, by simpa using hd, hds⟩⟩

theorem scan_int_sound (p q : List Nat) (h : scan_int p = some (some q)) :
    ∃ sign int, p = sign ++ (int ++ q) ∧ spec_sign sign ∧ spec_int int := by
  cases p with
  | nil => simp [scan_int] at h
  | cons ch t =>
    by_cases h45 : ch = 45
    · subst h45
      cases t with
      | nil => simp [scan_int] at h
      | cons c2 t2 =>
        have hh := scan_int_sound_aux c2 t2 q (by simpa [scan_int] using h)
        obtain ⟨int, e, hi⟩ := hh
        exact ⟨[45], int, by simp [e], Or.inr rfl, hi⟩
    · have hh := scan_int_sound_aux ch t q (by simpa [scan_int, h45] using h)
      obtain ⟨int, e, hi⟩ := hh
      exact ⟨[], int, by simp [e], Or.inl rfl, hi⟩

theorem scan_frac_complete (frac : List Nat) (x : Nat) (r : List Nat)
    (hf : spec_frac frac) (hx : ISDIGIT x = false) (hx2 : x ≠ 46) :
    scan_frac (frac ++ x :: r) = some (some (x :: r)) := by
  rcases hf with rfl | ⟨d, ds, rfl, hd⟩
  · simp [scan_frac, hx2]
  · have h1 : ISDIGIT d = true := hd d (List.mem_cons_self _ _)
    have h2 : all_digits ds := fun y hy => hd y (List.mem_cons_of_mem _ hy)
    simp [scan_frac, h1, skip_digits_append ds x r h2 hx]

theorem scan_frac_sound (p q : List Nat) (h : scan_frac p = some (some q)) :
    ∃ frac, p = frac ++ q ∧ spec_frac frac := by
  cases p with
  | nil => simp [scan_frac] at h
  | cons ch t =>
    by_cases h46 : ch = 46
    · subst h46
      cases t with
      | nil => simp [scan_frac] at h
      | cons d t2 =>
        simp only [scan_frac, if_true] at h
        split_ifs at h with hd
        · simp at h
        · rcases hsk : skip_digits t2 with _ | a
          · simp [hsk] at h
          · simp only [hsk, Option.map_some', Option.some.injEq] at h
            subst h
            obtain ⟨ds, e, hds⟩ := skip_digits_some _ _ hsk
            refine ⟨46 :: d :: ds, by simp [e], Or.inr ⟨d, ds, rfl, ?_⟩⟩
            intro y hy
            rcases List.mem_cons.1 hy with rfl | hy
            · simpa using hd
            · exact hds y hy
    · simp only [scan_frac, h46, if_false, Option.some.injEq] at h
      exact ⟨[], by simp [h], Or.inl rfl⟩

theorem scan_exp_complete (exp : List Nat) (x : Nat) (r : List Nat)
    (he : spec_exp exp) (hx : ISDIGIT x = false) (hx2 : x ≠ 101) (hx3 : x ≠ 69) :
    scan_exp (exp ++ x :: r) = some (some (x :: r)) := by
  rcases he with rfl | ⟨e, sg, d, ds, rfl, he, hsg, hd⟩
  · simp [scan_exp, hx2, hx3]
  · have h1 : ISDIGIT d = true := hd d (List.mem_cons_self _ _)
    have h2 : all_digits ds := fun y hy => hd y (List.mem_cons_of_mem _ hy)
    have h3 : d ≠ 43 ∧ d ≠ 45 := by
      simp only [ISDIGIT, Bool.and_eq_true, decide_eq_true_eq] at h1
      omega
    have hsk := skip_digits_append ds x r h2 hx
    rcases hsg with rfl | rfl | rfl <;>
      simp [scan_exp, he, h1, h3.1, h3.2, hsk]

theorem scan_exp_sound_aux (d : Nat) (t q : List Nat)
    (h : (if (!ISDIGIT d) = true then some none else (skip_digits t).map some)
      = some (some q)) :
    ∃ ds, t = ds ++ q ∧ all_digits (d :: ds) := by
  split_ifs at h with hd
  · simp at h
  · rcases hsk : skip_digits t with _ | a
    · simp [hsk] at h
    · simp only [hsk, Option.map_some', Option.some.injEq] at h
      subst h
      obtain ⟨ds, e, hds⟩ := skip_digits_some _ _ hsk
      refine ⟨ds, e, ?_⟩
      intro y hy
      rcases List.mem_cons.1 hy with rfl | hy
      · simpa using hd
      · exact hds y hy

theorem scan_exp_sound (p q : List Nat) (h : scan_exp p = some (some q)) :
    ∃ exp, p = exp ++ q ∧ spec_exp exp := by
  cases p with
  | nil => simp [scan_exp] at h
  | cons ch t =>
    by_cases he : ch = 101 ∨ ch = 69
    · cases t with
      | nil => simp [scan_exp, he] at h
      | cons s t2 =>
        by_cases hs : s = 43 ∨ s = 45
        · cases t2 with
          | nil => simp [scan_exp, he, hs] at h
          | cons d t3 =>
            simp only [scan_exp, he, hs, if_true] at h
            obtain ⟨ds, e, hds⟩ := scan_exp_sound_aux d t3 q h
            refine ⟨ch :: ([s] ++ d :: ds), by simp [e], Or.inr ⟨ch, [s], d, ds, rfl, he, ?_, hds⟩⟩
            rcases hs with rfl | rfl <;> simp
        · simp only [scan_exp, he, hs, if_true, if_false] at h
          obtain ⟨ds, e, hds⟩ := scan_exp_sound_aux s t2 q h
          exact ⟨ch :: ([] ++ s :: ds), by simp [e], Or.inr ⟨ch, [], s, ds, rfl, he, Or.inl rfl, hds⟩⟩
    · simp only [scan_exp, he, if_false, Option.some.injEq] at h
      exact ⟨[], by simp [h], Or.inl rfl⟩

theorem scan_number_sound (p q : List Nat) (h : scan_number p = some (some q)) :
    ∃ t, p = t ++ q ∧ spec_number_grammar t := by
  unfold scan_number at h
  rcases h1 : scan_int p with _ | _ | p1
  · simp [h1] at h
  · simp [h1] at h
  · simp only [h1] at h
    rcases h2 : scan_frac p1 with _ | _ | p2
    · simp [h2] at h
    · simp [h2] at h
    · simp only [h2] at h
      obtain ⟨sign, int, e1, hs, hi⟩ := scan_int_sound _ _ h1
      obtain ⟨frac, e2, hf⟩ := scan_frac_sound _ _ h2
      obtain ⟨exp, e3, he⟩ := scan_exp_sound _ _ h
      refine ⟨sign ++ (int ++ (frac ++ exp)), ?_, sign, int, frac, exp, rfl, hs, hi, hf, he⟩
      simp [e1, e2, e3]

theorem spec_exp_head (exp : List Nat) (x : Nat) (r : List Nat) (he : spec_exp exp)
    (hx : is_delimiter x = true) :
    ∃ y r0, exp ++ x :: r = y :: r0 ∧ ISDIGIT y = false ∧ y ≠ 46 := by
  have hx2 := is_delimiter_facts x hx
  rcases he with rfl | ⟨e, sg, d, ds, rfl, he, _, _⟩
  · exact ⟨x, r, rfl, hx2.1, hx2.2.1⟩
  · refine ⟨e, _, rfl, ?_⟩
    rcases he with rfl | rfl <;> decide

theorem spec_frac_head (frac exp : List Nat) (x : Nat) (r : List Nat) (hf : spec_frac frac)
    (he : spec_exp exp) (hx : is_delimiter x = true) :
    ∃ y r0, frac ++ (exp ++ x :: r) = y :: r0 ∧ ISDIGIT y = false := by
  rcases hf with rfl | ⟨d, ds, rfl, _⟩
  · obtain ⟨y, r0, e, hy, _⟩ := spec_exp_head exp x r he hx
    exact ⟨y, r0, by simpa using e, hy⟩
  · exact ⟨46, _, rfl, by decide⟩

theorem scan_number_complete (t : List Nat) (x : Nat) (r : List Nat)
    (ht : spec_number_grammar t) (hx : is_delimiter x = true) :
    scan_number (t ++ x :: r) = some (some (x :: r)) := by
  obtain ⟨sign, int, frac, exp, rfl, hs, hi, hf, he⟩ := ht
  have hx2 := is_delimiter_facts x hx
  obtain ⟨y1, r1, e1, hy1⟩ := spec_frac_head frac exp x r hf he hx
  obtain ⟨y2, r2, e2, hy2, hy2b⟩ := spec_exp_head exp x r he hx
  have s1 : scan_int (sign ++ (int ++ (frac ++ (exp ++ x :: r))))
      = some (some (frac ++ (exp ++ x :: r))) := by
    rw [e1]; exact scan_int_complete sign int y1 r1 hs hi hy1
  have s2 : scan_frac (frac ++ (exp ++ x :: r)) = some (some (exp ++ x :: r)) := by
    rw [e2]; exact scan_frac_complete frac y2 r2 hf hy2 hy2b
  have s3 := scan_exp_complete exp x r he hx2.1 hx2.2.2.1 hx2.2.2.2
  simp only [scan_number, List.append_assoc, s1, s2, s3]

/-! ### Replaying a successful parse of a string on another input -/

theorem hex4_loop_frame : ∀ (i : Nat) (p : List Nat) (u : Nat) (q : List Nat) (v : Nat),
    hex4_loop i p u = some (some (q, v)) →
    ∃ t, t.length = i ∧ p = t ++ q ∧ ∀ r, hex4_loop i (t ++ r) u = some (some (r, v)) := by
  intro i
  induction i with
  | zero =>
    intro p u q v h
    simp only [hex4_loop, Option.some.injEq, Prod.mk.injEq] at h
    exact ⟨[], rfl, by simp [h.1], fun r => by simp [hex4_loop, h.2]⟩
  | succ i ih =>
    intro p u q v h
    cases p with
    | nil => simp [hex4_loop] at h
    | cons ch p =>
      simp only [hex4_loop] at h
      split_ifs at h with h1 h2 h3
      · obtain ⟨t, ht, e, hr⟩ := ih _ _ _ _ h
        exact ⟨ch :: t, by simp [ht], by simp [e], fun r => by simp [hex4_loop, h1, hr]⟩
      · obtain ⟨t, ht, e, hr⟩ := ih _ _ _ _ h
        exact ⟨ch :: t, by simp [ht], by simp [e], fun r => by simp [hex4_loop, h1, h2, hr]⟩
      · obtain ⟨t, ht, e, hr⟩ := ih _ _ _ _ h
        exact ⟨ch :: t, by simp [ht], by simp [e],
          fun r => by simp [hex4_loop, h1, h2, h3, hr]⟩
      · simp at h

theorem tiny_parse_hex4_frame (p q : List Nat) (v : Nat)
    (h : tiny_parse_hex4 p = some (some (q, v))) :
    ∃ t, t.length = 4 ∧ p = t ++ q ∧ ∀ r, tiny_parse_hex4 (t ++ r) = some (some (r, v)) :=
  hex4_loop_frame 4 p 0 q v h

theorem tiny_encode_utf8_frame (c c1 : tiny_context ν) (u : Nat)
    (h : tiny_encode_utf8 c u = some c1) :
    ∃ bs : List Nat, c1 = { c with stack := c.stack ++ bs.map .byte } ∧
      ∀ cc : tiny_context ν,
        tiny_encode_utf8 cc u = some { cc with stack := cc.stack ++ bs.map .byte } := by
  unfold tiny_encode_utf8 at h
  split_ifs at h with h1 h2 h3 h4
  · exact ⟨[(u &&& 0xFF) % 256], by simpa [PUTC] using h.symm,
      fun cc => by simp [tiny_encode_utf8, h1, PUTC]⟩
  · exact ⟨[(0xC0 ||| ((u >>> 6) &&& 0xFF)) % 256, (0x80 ||| (u &&& 0x3F)) % 256],
      by simpa [PUTC] using h.symm, fun cc => by simp [tiny_encode_utf8, h1, h2, PUTC]⟩
  · exact ⟨[(0xE0 ||| ((u >>> 12) &&& 0xFF)) % 256, (0x80 ||| ((u >>> 6) &&& 0x3F)) % 256,
      (0x80 ||| (u &&& 0x3F)) % 256],
      by simpa [PUTC] using h.symm, fun cc => by simp [tiny_encode_utf8, h1, h2, h3, PUTC]⟩
  · exact ⟨[(0xF0 ||| ((u >>> 18) &&& 0xFF)) % 256, (0x80 ||| ((u >>> 12) &&& 0x3F)) % 256,
      (0x80 ||| ((u >>> 6) &&& 0x3F)) % 256, (0x80 ||| (u &&& 0x3F)) % 256],
      by simpa [PUTC] using h.symm,
      fun cc => by simp [tiny_encode_utf8, h1, h2, h3, h4, PUTC]⟩

theorem string_escape_u_frame (head : Nat) (p p1 : List Nat) (c c1 : tiny_context ν)
    (h : string_escape_u head p c = some (.next p1 c1)) :
    ∃ (t : List Nat) (bs : List Nat), p = t ++ p1 ∧
      c1 = { c with stack := c.stack ++ bs.map .byte } ∧
      ∀ (r : List Nat) (head0 : Nat) (cc : tiny_context ν),
        string_escape_u head0 (t ++ r) cc
          = some (.next r { cc with stack := cc.stack ++ bs.map .byte }) := by
  unfold string_escape_u at h
  rcases hx : tiny_parse_hex4 p with _ | _ | ⟨q, u⟩
  · simp [hx] at h
  · simp [hx, STRING_ERROR] at h
  · simp only [hx] at h
    obtain ⟨t1, _, e1, r1⟩ := tiny_parse_hex4_frame p q u hx
    split_ifs at h with hs
    · cases q with
      | nil => simp at h
      | cons x q =>
        simp only at h
        split_ifs at h with hx92
        · simp [STRING_ERROR] at h
        · cases q with
          | nil => simp at h
          | cons y q =>
            simp only at h
            split_ifs at h with hy117
            · simp [STRING_ERROR] at h
            · rcases hx2 : tiny_parse_hex4 q with _ | _ | ⟨q2, u2⟩
              · simp [hx2] at h
              · simp [hx2, STRING_ERROR] at h
              · simp only [hx2] at h
                obtain ⟨t2, _, e2, r2⟩ := tiny_parse_hex4_frame q q2 u2 hx2
                split_ifs at h with hlow
                · simp [STRING_ERROR] at h
                · rcases hen : tiny_encode_utf8 c
                    ((((u - 0xD800) <<< 10) ||| (u2 - 0xDC00)) + 0x10000) with _ | c2
                  · simp [hen] at h
                  · simp only [hen, Option.map_some', Option.some.injEq,
                      string_step_result.next.injEq] at h
                    obtain ⟨bs, ec, rc⟩ := tiny_encode_utf8_frame _ _ _ hen
                    refine ⟨t1 ++ (x :: y :: t2), bs, ?_, ?_, ?_⟩
                    · rw [e1, e2, h.1]; simp
                    · rw [← h.2, ec]
                    · intro r head0 cc
                      have a1 := r1 (x :: y :: (t2 ++ r))
                      have a2 := r2 r
                      simp only [not_not] at hx92 hy117
                      subst hx92
                      subst hy117
                      simp [string_escape_u, a1, hs, a2, hlow, rc cc]
    · rcases hen : tiny_encode_utf8 c u with _ | c2
      · simp [hen] at h
      · simp only [hen, Option.map_some', Option.some.injEq,
          string_step_result.next.injEq] at h
        obtain ⟨bs, ec, rc⟩ := tiny_encode_utf8_frame _ _ _ hen
        refine ⟨t1, bs, ?_, ?_, ?_⟩
        · rw [e1, h.1]
        · rw [← h.2, ec]
        · intro r head0 cc
          simp [string_escape_u, r1 r, hs, rc cc]

theorem string_step_cons (head ch : Nat) (p : List Nat) (c : tiny_context ν) :
    string_step head (ch :: p) c =
    if ch = 34 then
      match tiny_context_pop c (c.stack.length - head) with
      | none => none
      | some (items, c) =>
        match stack_bytes items with
        | none => none
        | some str => some (.ret (TINY_PARSE_OK, str, { c with json := p }))
    else if ch = 92 then
      match p with
      | [] => none
      | e :: p =>
        match simple_escape e with
        | some b => some (.next p (PUTC c b))
        | none =>
          if e = 117 then string_escape_u head p c
          else (STRING_ERROR c head TINY_PARSE_INVALID_STRING_ESCAPE).map .ret
    else if ch = 0 then (STRING_ERROR c head TINY_PARSE_MISS_QUOTATION_MARK).map .ret
    else if ch < 0x20 then (STRING_ERROR c head TINY_PARSE_INVALID_STRING_CHAR).map .ret
    else some (.next p (PUTC c ch)) := rfl

theorem string_step_next_frame (head : Nat) (p p1 : List Nat) (c c1 : tiny_context ν)
    (h : string_step head p c = some (.next p1 c1)) :
    ∃ (t : List Nat) (bs : List Nat), t ≠ [] ∧ p = t ++ p1 ∧
      c1 = { c with stack := c.stack ++ bs.map .byte } ∧
      ∀ (r : List Nat) (head0 : Nat) (cc : tiny_context ν),
        string_step head0 (t ++ r) cc
          = some (.next r { cc with stack := cc.stack ++ bs.map .byte }) := by
  cases p with
  | nil => simp [string_step] at h
  | cons ch p =>
    rw [string_step_cons] at h
    by_cases h34 : ch = 34
    · rw [if_pos h34] at h
      rcases hp : tiny_context_pop c (c.stack.length - head) with _ | ⟨items, c2⟩
      · simp [hp] at h
      · rcases hb : stack_bytes items with _ | str
        · simp [hp, hb] at h
        · simp [hp, hb] at h
    rw [if_neg h34] at h
    by_cases h92 : ch = 92
    · rw [if_pos h92] at h
      subst h92
      cases p with
      | nil => simp at h
      | cons e p =>
        simp only at h
        rcases hse : simple_escape e with _ | b
        · simp only [hse] at h
          by_cases h117 : e = 117
          · rw [if_pos h117] at h
            subst h117
            obtain ⟨t, bs, et, ec, hr⟩ := string_escape_u_frame head p p1 c c1 h
            refine ⟨92 :: 117 :: t, bs, by simp, by simp [et], ec, ?_⟩
            intro r head0 cc
            have : simple_escape 117 = none := by decide
            simp [string_step_cons, this, hr r head0 cc]
          · rw [if_neg h117] at h
            simp [STRING_ERROR] at h
        · simp only [hse, Option.some.injEq, string_step_result.next.injEq] at h
          obtain ⟨hp, hc⟩ := h
          subst hp
          subst hc
          refine ⟨[92, e], [b], by simp, rfl, rfl, ?_⟩
          intro r head0 cc
          simp [string_step_cons, hse, PUTC]
    rw [if_neg h92] at h
    by_cases h0 : ch = 0
    · rw [if_pos h0] at h
      simp [STRING_ERROR] at h
    rw [if_neg h0] at h
    by_cases h20 : ch < 0x20
    · rw [if_pos h20] at h
      simp [STRING_ERROR] at h
    rw [if_neg h20] at h
    simp only [Option.some.injEq, string_step_result.next.injEq] at h
    obtain ⟨hp, hc⟩ := h
    subst hp
    subst hc
    refine ⟨[ch], [ch], by simp, rfl, rfl, ?_⟩
    intro r head0 cc
    simp [string_step_cons, PUTC, h34, h92, h0, h20]

theorem string_escape_u_not_ok (head : Nat) (p : List Nat) (c : tiny_context ν)
    (str : List Nat) (c1 : tiny_context ν) :
    string_escape_u head p c ≠ some (.ret (TINY_PARSE_OK, str, c1)) := by
  intro h
  unfold string_escape_u at h
  rcases hx : tiny_parse_hex4 p with _ | _ | ⟨q, u⟩
  · simp [hx] at h
  · simp [hx, STRING_ERROR] at h
  · simp only [hx] at h
    split_ifs at h with hs
    · rcases q with _ | ⟨x, _ | ⟨y, q⟩⟩
      · simp at h
      · simp only at h
        split_ifs at h
        all_goals simp [STRING_ERROR] at h
      · simp only at h
        split_ifs at h
        · simp [STRING_ERROR] at h
        · simp [STRING_ERROR] at h
        · rcases hx2 : tiny_parse_hex4 q with _ | _ | ⟨q2, u2⟩
          · simp [hx2] at h
          · simp [hx2, STRING_ERROR] at h
          · simp only [hx2] at h
            split_ifs at h
            · simp [STRING_ERROR] at h
            · rcases hen : tiny_encode_utf8 c
                ((((u - 0xD800) <<< 10) ||| (u2 - 0xDC00)) + 0x10000) with _ | c2
              all_goals simp [hen] at h
    · rcases hen : tiny_encode_utf8 c u with _ | c2 <;> simp [hen] at h

theorem string_step_ret_frame (p j0 : List Nat) (st : List (stack_item ν)) (bs str : List Nat)
    (c1 : tiny_context ν)
    (h : string_step st.length p { json := j0, stack := st ++ bs.map .byte }
      = some (.ret (TINY_PARSE_OK, str, c1))) :
    ∃ p1, p = 34 :: p1 ∧ str = bs ∧ c1 = { json := p1, stack := st } := by
  cases p with
  | nil => simp [string_step] at h
  | cons ch p =>
    rw [string_step_cons] at h
    by_cases h34 : ch = 34
    · rw [if_pos h34] at h
      have hp := tiny_context_pop_append j0 st (bs.map (stack_item.byte (ν := ν)))
      simp only [List.length_map] at hp
      simp only [List.length_append, List.length_map, Nat.add_sub_cancel_left, hp,
        stack_bytes_map_byte, Option.some.injEq, string_step_result.ret.injEq,
        Prod.mk.injEq, true_and] at h
      exact ⟨p, by rw [h34], h.1.symm, h.2.symm⟩
    rw [if_neg h34] at h
    by_cases h92 : ch = 92
    · rw [if_pos h92] at h
      cases p with
      | nil => simp at h
      | cons e p =>
        simp only at h
        rcases hse : simple_escape e with _ | b
        · simp only [hse] at h
          by_cases h117 : e = 117
          · rw [if_pos h117] at h
            exact absurd h (string_escape_u_not_ok _ _ _ _ _)
          · rw [if_neg h117] at h
            simp [STRING_ERROR] at h
        · simp [hse] at h
    rw [if_neg h92] at h
    by_cases h0 : ch = 0
    · rw [if_pos h0] at h
      simp [STRING_ERROR] at h
    rw [if_neg h0] at h
    by_cases h20 : ch < 0x20
    · rw [if_pos h20] at h
      simp [STRING_ERROR] at h
    rw [if_neg h20] at h
    simp at h

theorem string_loop_frame : ∀ (fuel : Nat) (p j0 : List Nat) (st : List (stack_item ν))
    (bs str : List Nat) (c1 : tiny_context ν),
    string_loop st.length fuel p { json := j0, stack := st ++ bs.map .byte }
      = some (TINY_PARSE_OK, str, c1) →
    ∃ t, t ≠ [] ∧ p = t ++ c1.json ∧ c1.stack = st ∧
      ∀ (r j1 : List Nat) (st0 : List (stack_item ν)) (fuel0 : Nat), t.length ≤ fuel0 →
        string_loop st0.length fuel0 (t ++ r) { json := j1, stack := st0 ++ bs.map .byte }
          = some (TINY_PARSE_OK, str, { json := r, stack := st0 }) := by
  intro fuel
  induction fuel with
  | zero => intro p j0 st bs str c1 h; simp [string_loop] at h
  | succ fuel ih =>
    intro p j0 st bs str c1 h
    rw [string_loop] at h
    rcases hstep : string_step st.length p { json := j0, stack := st ++ bs.map .byte }
      with _ | ⟨r0⟩ | ⟨p1, c2⟩
    · simp [hstep] at h
    · simp only [hstep, Option.some.injEq] at h
      subst h
      obtain ⟨p1, e, es, ec⟩ := string_step_ret_frame p j0 st bs str c1 hstep
      subst e
      subst es
      subst ec
      refine ⟨[34], by simp, rfl, rfl, ?_⟩
      intro r j1 st0 fuel0 hf
      obtain ⟨k, rfl⟩ : ∃ k, fuel0 = k + 1 := ⟨fuel0 - 1, by simp at hf; omega⟩
      exact string_loop_quote k r j1 st0 str
    · simp only [hstep] at h
      obtain ⟨t1, bs1, hne, e1, ec, hr⟩ := string_step_next_frame _ _ _ _ _ hstep
      subst ec
      have h2 : string_loop st.length fuel p1
          { json := j0, stack := st ++ (bs ++ bs1).map .byte } = some (TINY_PARSE_OK, str, c1) := by
        simpa using h
      obtain ⟨t2, _, e2, es, hr2⟩ := ih p1 j0 st (bs ++ bs1) str c1 h2
      refine ⟨t1 ++ t2, by simp [hne], by rw [e1, e2]; simp, es, ?_⟩
      intro r j1 st0 fuel0 hf
      have hl : 1 ≤ t1.length := by
        cases t1 with
        | nil => exact absurd rfl hne
        | cons a t => simp
      obtain ⟨k, rfl⟩ : ∃ k, fuel0 = k + 1 := ⟨fuel0 - 1, by simp at hf; omega⟩
      rw [string_loop]
      have hstep2 := hr (t2 ++ r) st0.length { json := j1, stack := st0 ++ bs.map .byte }
      rw [List.append_assoc, hstep2]
      have hk : t2.length ≤ k := by simp at hf; omega
      have := hr2 r j1 st0 k hk
      simpa using this

theorem tiny_parse_string_raw_frame (j : List Nat) (st : List (stack_item ν)) (str : List Nat)
    (c1 : tiny_context ν)
    (h : tiny_parse_string_raw { json := j, stack := st } = some (TINY_PARSE_OK, str, c1)) :
    ∃ t, t ≠ [] ∧ j = t ++ c1.json ∧ c1.stack = st ∧
      ∀ (r : List Nat) (st0 : List (stack_item ν)),
        tiny_parse_string_raw { json := t ++ r, stack := st0 }
          = some (TINY_PARSE_OK, str, { json := r, stack := st0 }) := by
  cases j with
  | nil => simp [tiny_parse_string_raw, EXPECT] at h
  | cons q p =>
    by_cases hq : q = 34
    · subst hq
      simp only [tiny_parse_string_raw, EXPECT, if_true, Option.some_bind] at h
      have h2 : string_loop st.length p.length p
          { json := p, stack := st ++ ([] : List Nat).map .byte }
          = some (TINY_PARSE_OK, str, c1) := by simpa using h
      obtain ⟨t, _, e, es, hr⟩ := string_loop_frame _ _ _ _ _ _ _ h2
      refine ⟨34 :: t, by simp, by simp [e], es, ?_⟩
      intro r st0
      simp only [tiny_parse_string_raw, EXPECT, List.cons_append, if_true, Option.some_bind]
      have := hr r (t ++ r) st0 (t ++ r).length (by simp)
      simpa using this
    · simp [tiny_parse_string_raw, EXPECT, hq] at h

/-! ### Replaying a successful parse of a value on another input -/

theorem delimited_of_ws_append (w : List Nat) (x : Nat) (q : List Nat) (hw : all_ws w)
    (hx : is_delimiter x = true) : delimited (w ++ x :: q) := by
  cases w with
  | nil => exact ⟨x, q, rfl, hx⟩
  | cons b w =>
    refine ⟨b, w ++ x :: q, rfl, ?_⟩
    have := hw b (List.mem_cons_self _ _)
    simp [is_delimiter, this]

theorem tiny_parse_whitespace_some (j : List Nat) (st : List (stack_item ν))
    (c : tiny_context ν) (h : tiny_parse_whitespace { json := j, stack := st } = some c) :
    ∃ w x q, j = w ++ x :: q ∧ all_ws w ∧ is_ws x = false
      ∧ c = { json := x :: q, stack := st } := by
  simp only [tiny_parse_whitespace, Option.map_eq_some'] at h
  obtain ⟨p, hp, rfl⟩ := h
  obtain ⟨w, x, q0, e, hw, eq, hx⟩ := skip_ws_some _ _ hp
  exact ⟨w, x, q0, by rw [e, eq], hw, hx, by rw [eq]⟩

theorem tiny_parse_whitespace_append (w : List Nat) (x : Nat) (q : List Nat)
    (st : List (stack_item ν)) (hw : all_ws w) (hx : is_ws x = false) :
    tiny_parse_whitespace { json := w ++ x :: q, stack := st }
      = some { json := x :: q, stack := st } := by
  simp [tiny_parse_whitespace, skip_ws_append w _ hw, skip_ws_stop x q hx]

theorem stack_nodes_map_node (l : List (tiny_node ν)) :
    stack_nodes (l.map stack_item.node) = some l := by
  induction l with
  | nil => rfl
  | cons b l ih => simp [stack_nodes, ih]

theorem stack_members_map_member (l : List (tiny_member ν)) :
    stack_members (l.map stack_item.member) = some l := by
  induction l with
  | nil => rfl
  | cons b l ih => simp [stack_members, ih]

theorem tiny_parse_null_frame (j : List Nat) (st : List (stack_item ν)) (node v : tiny_node ν)
    (c1 : tiny_context ν)
    (h : tiny_parse_null { json := j, stack := st } node = some (TINY_PARSE_OK, v, c1)) :
    ∃ t, t ≠ [] ∧ j = t ++ c1.json ∧ c1.stack = st ∧
      ∀ (r : List Nat) (st0 : List (stack_item ν)) (node0 : tiny_node ν),
        tiny_parse_null { json := t ++ r, stack := st0 } node0
          = some (TINY_PARSE_OK, v, { json := r, stack := st0 }) := by
  rcases j with _ | ⟨a, _ | ⟨b, _ | ⟨c, _ | ⟨d, q⟩⟩⟩⟩
  · simp [tiny_parse_null, EXPECT] at h
  · by_cases ha : a = 110 <;>
      simp [tiny_parse_null, EXPECT, ha] at h
  · by_cases ha : a = 110 <;> by_cases hb : b = 117 <;>
      simp [tiny_parse_null, EXPECT, ha, hb] at h
  · by_cases ha : a = 110 <;> by_cases hb : b = 117 <;>
      by_cases hc : c = 108 <;>
      simp [tiny_parse_null, EXPECT, ha, hb, hc] at h
  · by_cases ha : a = 110
    swap
    · simp [tiny_parse_null, EXPECT, ha] at h
    by_cases hb : b = 117
    swap
    · simp [tiny_parse_null, EXPECT, ha, hb] at h
    by_cases hc : c = 108
    swap
    · simp [tiny_parse_null, EXPECT, ha, hb, hc] at h
    by_cases hd : d = 108
    swap
    · simp [tiny_parse_null, EXPECT, ha, hb, hc, hd] at h
    simp only [tiny_parse_null, EXPECT, ha, hb, hc, hd, if_true,
      Option.some_bind, ne_eq, not_true_eq_false, if_false, Option.some.injEq, Prod.mk.injEq,
      true_and] at h
    obtain ⟨rfl, rfl⟩ := h
    subst ha
    subst hb
    subst hc
    subst hd
    exact ⟨[110, 117, 108, 108], by simp, rfl, rfl, fun r st0 node0 => rfl⟩

theorem tiny_parse_true_frame (j : List Nat) (st : List (stack_item ν)) (node v : tiny_node ν)
    (c1 : tiny_context ν)
    (h : tiny_parse_true { json := j, stack := st } node = some (TINY_PARSE_OK, v, c1)) :
    ∃ t, t ≠ [] ∧ j = t ++ c1.json ∧ c1.stack = st ∧
      ∀ (r : List Nat) (st0 : List (stack_item ν)) (node0 : tiny_node ν),
        tiny_parse_true { json := t ++ r, stack := st0 } node0
          = some (TINY_PARSE_OK, v, { json := r, stack := st0 }) := by
  rcases j with _ | ⟨a, _ | ⟨b, _ | ⟨c, _ | ⟨d, q⟩⟩⟩⟩
  · simp [tiny_parse_true, EXPECT] at h
  · by_cases ha : a = 116 <;>
      simp [tiny_parse_true, EXPECT, ha] at h
  · by_cases ha : a = 116 <;> by_cases hb : b = 114 <;>
      simp [tiny_parse_true, EXPECT, ha, hb] at h
  · by_cases ha : a = 116 <;> by_cases hb : b = 114 <;>
      by_cases hc : c = 117 <;>
      simp [tiny_parse_true, EXPECT, ha, hb, hc] at h
  · by_cases ha : a = 116
    swap
    · simp [tiny_parse_true, EXPECT, ha] at h
    by_cases hb : b = 114
    swap
    · simp [tiny_parse_true, EXPECT, ha, hb] at h
    by_cases hc : c = 117
    swap
    · simp [tiny_parse_true, EXPECT, ha, hb, hc] at h
    by_cases hd : d = 101
    swap
    · simp [tiny_parse_true, EXPECT, ha, hb, hc, hd] at h
    simp only [tiny_parse_true, EXPECT, ha, hb, hc, hd, if_true,
      Option.some_bind, ne_eq, not_true_eq_false, if_false, Option.some.injEq, Prod.mk.injEq,
      true_and] at h
    obtain ⟨rfl, rfl⟩ := h
    subst ha
    subst hb
    subst hc
    subst hd
    exact ⟨[116, 114, 117, 101], by simp, rfl, rfl, fun r st0 node0 => rfl⟩

theorem tiny_parse_false_frame (j : List Nat) (st : List (stack_item ν)) (node v : tiny_node ν)
    (c1 : tiny_context ν)
    (h : tiny_parse_false { json := j, stack := st } node = some (TINY_PARSE_OK, v, c1)) :
    ∃ t, t ≠ [] ∧ j = t ++ c1.json ∧ c1.stack = st ∧
      ∀ (r : List Nat) (st0 : List (stack_item ν)) (node0 : tiny_node ν),
        tiny_parse_false { json := t ++ r, stack := st0 } node0
          = some (TINY_PARSE_OK, v, { json := r, stack := st0 }) := by
  rcases j with _ | ⟨a, _ | ⟨b, _ | ⟨c, _ | ⟨d, _ | ⟨e, q⟩⟩⟩⟩⟩
  · simp [tiny_parse_false, EXPECT] at h
  · by_cases ha : a = 102 <;>
      simp [tiny_parse_false, EXPECT, ha] at h
  · by_cases ha : a = 102 <;> by_cases hb : b = 97 <;>
      simp [tiny_parse_false, EXPECT, ha, hb] at h
  · by_cases ha : a = 102 <;> by_cases hb : b = 97 <;>
      by_cases hc : c = 108 <;>
      simp [tiny_parse_false, EXPECT, ha, hb, hc] at h
  · by_cases ha : a = 102 <;> by_cases hb : b = 97 <;>
      by_cases hc : c = 108 <;> by_cases hd : d = 115 <;>
      simp [tiny_parse_false, EXPECT, ha, hb, hc, hd] at h
  · by_cases ha : a = 102
    swap
    · simp [tiny_parse_false, EXPECT, ha] at h
    by_cases hb : b = 97
    swap
    · simp [tiny_parse_false, EXPECT, ha, hb] at h
    by_cases hc : c = 108
    swap
    · simp [tiny_parse_false, EXPECT, ha, hb, hc] at h
    by_cases hd : d = 115
    swap
    · simp [tiny_parse_false, EXPECT, ha, hb, hc, hd] at h
    by_cases he : e = 101
    swap
    · simp [tiny_parse_false, EXPECT, ha, hb, hc, hd, he] at h
    simp only [tiny_parse_false, EXPECT, ha, hb, hc, hd, he, if_true,
      Option.some_bind, ne_eq, not_true_eq_false, if_false, Option.some.injEq, Prod.mk.injEq,
      true_and] at h
    obtain ⟨rfl, rfl⟩ := h
    subst ha
    subst hb
    subst hc
    subst hd
    subst he
    exact ⟨[102, 97, 108, 115, 101], by simp, rfl, rfl, fun r st0 node0 => rfl⟩

theorem spec_number_grammar_ne_nil (t : List Nat) (h : spec_number_grammar t) : t ≠ [] := by
  obtain ⟨sign, int, frac, exp, rfl, _, hi, _, _⟩ := h
  rcases hi with rfl | ⟨d, ds, rfl, _, _⟩ <;> simp

theorem tiny_parse_number_frame (L : libc ν) (hL : strtod_reads_number L) (j : List Nat)
    (st : List (stack_item ν)) (node v : tiny_node ν) (c1 : tiny_context ν)
    (h : tiny_parse_number L { json := j, stack := st } node = some (TINY_PARSE_OK, v, c1)) :
    ∃ t, t ≠ [] ∧ j = t ++ c1.json ∧ c1.stack = st ∧ spec_number_grammar t ∧
      (delimited c1.json → ∀ (r : List Nat) (st0 : List (stack_item ν)) (node0 : tiny_node ν),
        delimited r →
        tiny_parse_number L { json := t ++ r, stack := st0 } node0
          = some (TINY_PARSE_OK, v, { json := r, stack := st0 })) := by
  unfold tiny_parse_number at h
  rcases hs : scan_number j with _ | _ | q
  · simp [hs] at h
  · simp [hs] at h
  · simp only [hs] at h
    split_ifs at h with hf
    · simp at h
    simp only [Option.some.injEq, Prod.mk.injEq, true_and] at h
    obtain ⟨rfl, rfl⟩ := h
    obtain ⟨t, e, ht⟩ := scan_number_sound _ _ hs
    refine ⟨t, spec_number_grammar_ne_nil t ht, e, rfl, ht, ?_⟩
    intro hd r st0 node0 hr
    have hd2 : delimited q := hd
    have e2 : L.strtod (t ++ r) = L.strtod j := by rw [e]; exact hL t r q ht hr hd2
    obtain ⟨x, r0, rfl, hx⟩ := hr
    have hs2 := scan_number_complete t x r0 ht hx
    simp only [tiny_parse_number, hs2, e2, hf]
    simp

theorem tiny_parse_string_frame (j : List Nat) (st : List (stack_item ν))
    (node v : tiny_node ν) (c1 : tiny_context ν)
    (h : tiny_parse_string { json := j, stack := st } node = some (TINY_PARSE_OK, v, c1)) :
    ∃ t, t ≠ [] ∧ j = t ++ c1.json ∧ c1.stack = st ∧
      ∀ (r : List Nat) (st0 : List (stack_item ν)) (node0 : tiny_node ν),
        tiny_parse_string { json := t ++ r, stack := st0 } node0
          = some (TINY_PARSE_OK, v, { json := r, stack := st0 }) := by
  unfold tiny_parse_string at h
  rcases hr : tiny_parse_string_raw { json := j, stack := st } with _ | ⟨ret, s, c2⟩
  · simp [hr] at h
  · simp only [hr] at h
    split_ifs at h with hok
    · simp only [Option.some.injEq, Prod.mk.injEq] at h
      obtain ⟨_, rfl, rfl⟩ := h
      subst hok
      obtain ⟨t, hne, e, es, hrep⟩ := tiny_parse_string_raw_frame j st s c2 hr
      refine ⟨t, hne, e, es, ?_⟩
      intro r st0 node0
      simp [tiny_parse_string, hrep r st0, tiny_set_string]
    · simp only [Option.some.injEq, Prod.mk.injEq] at h
      exact absurd h.1 hok

/-! ### Arrays -/

theorem array_round_end_next (j : List Nat) (st : List (stack_item ν)) (node : tiny_node ν)
    (size : Nat) (c2 : tiny_context ν)
    (h : array_round_end { json := j, stack := st } node size = some (.next c2)) :
    ∃ w1 w2 x q, all_ws w1 ∧ all_ws w2 ∧ is_ws x = false ∧ j = w1 ++ 44 :: (w2 ++ x :: q)
      ∧ c2 = { json := x :: q, stack := st } ∧
      ∀ (q0 : List Nat) (st0 : List (stack_item ν)) (node0 : tiny_node ν) (size0 : Nat),
        array_round_end { json := w1 ++ 44 :: (w2 ++ x :: q0), stack := st0 } node0 size0
          = some (.next { json := x :: q0, stack := st0 }) := by
  unfold array_round_end at h
  rcases hw : tiny_parse_whitespace { json := j, stack := st } with _ | c
  · simp [hw] at h
  · obtain ⟨w1, y, p, rfl, hw1, hy, rfl⟩ := tiny_parse_whitespace_some _ _ _ hw
    simp only [hw] at h
    by_cases h44 : y = 44
    · subst h44
      simp only [if_true] at h
      rcases hw2 : tiny_parse_whitespace { json := p, stack := st } with _ | c3
      · simp [hw2] at h
      · obtain ⟨w2, x, q, rfl, hw2a, hx, rfl⟩ := tiny_parse_whitespace_some _ _ _ hw2
        simp only [hw2, Option.map_some', Option.some.injEq, loop_step_result.next.injEq] at h
        subst h
        refine ⟨w1, w2, x, q, hw1, hw2a, hx, rfl, rfl, ?_⟩
        intro q0 st0 node0 size0
        have a1 := tiny_parse_whitespace_append w1 44 (w2 ++ x :: q0) st0 hw1 (by decide)
        have a2 := tiny_parse_whitespace_append w2 x q0 st0 hw2a hx
        simp [array_round_end, a1, a2]
    · simp only [h44, if_false] at h
      split_ifs at h with h93
      · rcases hp : tiny_context_pop { json := p, stack := st } size with _ | ⟨items, c4⟩
        · simp [hp] at h
        · rcases hn : stack_nodes items with _ | e <;> simp [hp, hn] at h
      · rcases hc : array_cleanup size { json := y :: p, stack := st } with _ | c4 <;>
          simp [hc] at h

theorem array_round_end_ret (j : List Nat) (st : List (stack_item ν))
    (nodes : List (tiny_node ν)) (node v : tiny_node ν) (c1 : tiny_context ν)
    (h : array_round_end { json := j, stack := st ++ nodes.map .node } node nodes.length
      = some (.ret (TINY_PARSE_OK, v, c1))) :
    ∃ w, all_ws w ∧ j = w ++ 93 :: c1.json ∧ c1.stack = st ∧ v = .array nodes none ∧
      ∀ (r : List Nat) (st0 : List (stack_item ν)) (node0 : tiny_node ν),
        array_round_end { json := w ++ 93 :: r, stack := st0 ++ nodes.map .node } node0
            nodes.length
          = some (.ret (TINY_PARSE_OK, .array nodes none, { json := r, stack := st0 })) := by
  have hpop : ∀ (r : List Nat) (st0 : List (stack_item ν)),
      tiny_context_pop { json := r, stack := st0 ++ nodes.map .node } nodes.length
        = some (nodes.map .node, { json := r, stack := st0 }) := by
    intro r st0
    have := tiny_context_pop_append r st0 (nodes.map (stack_item.node (ν := ν)))
    simpa using this
  unfold array_round_end at h
  rcases hw : tiny_parse_whitespace { json := j, stack := st ++ nodes.map .node } with _ | c
  · simp [hw] at h
  · obtain ⟨w1, y, p, rfl, hw1, hy, rfl⟩ := tiny_parse_whitespace_some _ _ _ hw
    simp only [hw] at h
    by_cases h44 : y = 44
    · subst h44
      simp only [if_true] at h
      rcases hw2 : tiny_parse_whitespace { json := p, stack := st ++ nodes.map .node }
        with _ | c3 <;> simp [hw2] at h
    · simp only [h44, if_false] at h
      split_ifs at h with h93
      · subst h93
        simp only [hpop, stack_nodes_map_node, Option.map_some', Option.some.injEq,
          loop_step_result.ret.injEq, Prod.mk.injEq, true_and] at h
        obtain ⟨rfl, rfl⟩ := h
        refine ⟨w1, hw1, rfl, rfl, rfl, ?_⟩
        intro r st0 node0
        have a1 := tiny_parse_whitespace_append w1 93 r (st0 ++ nodes.map .node) hw1
          (by decide)
        simp [array_round_end, a1, hpop, stack_nodes_map_node]
      · rcases hc : array_cleanup nodes.length
          { json := y :: p, stack := st ++ nodes.map .node } with _ | c4 <;>
          simp [hc] at h

theorem array_loop_frame (pv pv0 : tiny_context ν → tiny_node ν → Option (parse_result ν))
    (hf : frames pv pv0) :
    ∀ (fuel : Nat) (j : List Nat) (st : List (stack_item ν)) (acc : List (tiny_node ν))
      (node v : tiny_node ν) (c1 : tiny_context ν),
      array_loop pv fuel { json := j, stack := st ++ acc.map .node } node acc.length
        = some (TINY_PARSE_OK, v, c1) →
      ∃ t, t ≠ [] ∧ j = t ++ c1.json ∧ c1.stack = st ∧
        ∀ (r : List Nat) (st0 : List (stack_item ν)) (node0 : tiny_node ν) (fuel0 : Nat),
          t.length ≤ fuel0 →
          array_loop pv0 fuel0 { json := t ++ r, stack := st0 ++ acc.map .node } node0
              acc.length
            = some (TINY_PARSE_OK, v, { json := r, stack := st0 }) := by
  intro fuel
  induction fuel with
  | zero => intro j st acc node v c1 h; simp [array_loop] at h
  | succ fuel ih =>
    intro j st acc node v c1 h
    rw [array_loop] at h
    rcases hpv : pv { json := j, stack := st ++ acc.map .node } (tiny_init .null)
      with _ | ⟨ret, e, c2⟩
    · simp [hpv] at h
    simp only [hpv] at h
    by_cases hret : ret = TINY_PARSE_OK
    swap
    · rw [if_pos hret] at h
      rcases hc : array_cleanup acc.length c2 with _ | c4
      · simp [hc] at h
      · simp only [hc, Option.map_some', Option.some.injEq, Prod.mk.injEq] at h
        exact absurd h.1 hret
    subst hret
    rw [if_neg (by simp)] at h
    obtain ⟨t1, hne1, e1, es1, hrep1⟩ := hf _ _ _ _ _ hpv
    obtain ⟨j2, st2⟩ := c2
    simp only at e1 es1 hrep1
    subst es1
    subst e1
    have hlen : acc.length + 1 = (acc ++ [e]).length := by simp
    have hpush : ∀ (jj : List Nat) (ss : List (stack_item ν)),
        tiny_context_push { json := jj, stack := ss ++ acc.map .node } [.node e]
          = some { json := jj, stack := ss ++ (acc ++ [e]).map .node } := by
      intro jj ss
      simp [tiny_context_push]
    simp only [hpush] at h
    rw [hlen] at h
    rcases hre : array_round_end { json := j2, stack := st ++ (acc ++ [e]).map .node } node
      (acc ++ [e]).length with _ | ⟨r0⟩ | ⟨c3⟩
    · simp only [hre] at h
      exact absurd h (by simp)
    · simp only [hre, Option.some.injEq] at h
      subst h
      obtain ⟨w, hw, ej, es, _, hrep⟩ := array_round_end_ret _ _ _ _ _ _ hre
      have hd : delimited j2 := by
        rw [ej]; exact delimited_of_ws_append w 93 _ hw (by decide)
      refine ⟨t1 ++ (w ++ [93]), by simp [hne1], by rw [ej]; simp, es, ?_⟩
      intro r st0 node0 fuel0 hfu
      obtain ⟨k, rfl⟩ : ∃ k, fuel0 = k + 1 := ⟨fuel0 - 1, by simp at hfu; omega⟩
      have hd2 : delimited (w ++ 93 :: r) := delimited_of_ws_append w 93 _ hw (by decide)
      have a1 := hrep1 hd (w ++ 93 :: r) (st0 ++ acc.map .node) (tiny_init .null) hd2
      have a2 := hrep r st0 node0
      have e3 : t1 ++ (w ++ [93]) ++ r = t1 ++ (w ++ 93 :: r) := by simp
      rw [array_loop, e3, a1]
      simp only [hpush, ne_eq, not_true_eq_false, if_false]
      rw [hlen, a2]
      simp [*]
    · simp only [hre] at h
      obtain ⟨w1, w2, x, q, hw1, hw2, hx, ej, ec, hrep⟩ := array_round_end_next _ _ _ _ _ hre
      subst ec
      rw [← hlen] at h
      have h2 : array_loop pv fuel { json := x :: q, stack := st ++ (acc ++ [e]).map .node }
          node (acc ++ [e]).length = some (TINY_PARSE_OK, v, c1) := by
        rw [← hlen]; exact h
      obtain ⟨t2, hne2, e2, es, hrep2⟩ := ih _ _ _ _ _ _ h2
      obtain ⟨y, t3, rfl⟩ : ∃ y t3, t2 = y :: t3 := by
        cases t2 with
        | nil => exact absurd rfl hne2
        | cons y t3 => exact ⟨y, t3, rfl⟩
      have hy : y = x := by simp at e2; exact e2.1.symm
      subst hy
      have hd : delimited j2 := by
        rw [ej]; exact delimited_of_ws_append w1 44 _ hw1 (by decide)
      refine ⟨t1 ++ (w1 ++ 44 :: (w2 ++ y :: t3)), by simp [hne1], ?_, es, ?_⟩
      · rw [ej]
        simp only [List.cons_append, List.cons.injEq, true_and] at e2
        rw [e2]
        simp
      · intro r st0 node0 fuel0 hfu
        obtain ⟨k, rfl⟩ : ∃ k, fuel0 = k + 1 := ⟨fuel0 - 1, by simp at hfu; omega⟩
        have hd2 : delimited (w1 ++ 44 :: (w2 ++ y :: (t3 ++ r))) :=
          delimited_of_ws_append w1 44 _ hw1 (by decide)
        have a1 := hrep1 hd _ (st0 ++ acc.map .node) (tiny_init .null) hd2
        have a2 := hrep (t3 ++ r) (st0 ++ (acc ++ [e]).map .node) node0 (acc ++ [e]).length
        have hk : (y :: t3).length ≤ k := by
          simp only [List.length_append, List.length_cons] at hfu
          simp only [List.length_cons]
          omega
        have a3 := hrep2 r st0 node0 k hk
        have e3 : t1 ++ (w1 ++ 44 :: (w2 ++ y :: t3)) ++ r
            = t1 ++ (w1 ++ 44 :: (w2 ++ y :: (t3 ++ r))) := by simp
        rw [array_loop, e3, a1]
        simp only [hpush, ne_eq, not_true_eq_false, if_false]
        rw [hlen, a2]
        simpa using a3

theorem tiny_parse_array_frame
    (pv pv0 : tiny_context ν → tiny_node ν → Option (parse_result ν)) (hf : frames pv pv0) :
    frames (tiny_parse_array pv) (tiny_parse_array pv0) := by
  intro j st node v c1 h
  cases j with
  | nil => simp [tiny_parse_array, EXPECT] at h
  | cons b p =>
    by_cases hb : b = 91
    swap
    · simp [tiny_parse_array, EXPECT, hb] at h
    subst hb
    simp only [tiny_parse_array, EXPECT, if_true, Option.some_bind] at h
    rcases hw : tiny_parse_whitespace { json := p, stack := st } with _ | c
    · simp [hw] at h
    obtain ⟨w, x, q, rfl, hw1, hx, rfl⟩ := tiny_parse_whitespace_some _ _ _ hw
    simp only [hw, Option.some_bind] at h
    by_cases h93 : x = 93
    · subst h93
      simp only [if_true, Option.some.injEq, Prod.mk.injEq, true_and] at h
      obtain ⟨rfl, rfl⟩ := h
      refine ⟨91 :: (w ++ [93]), by simp, by simp, rfl, ?_⟩
      intro _ r st0 node0 _
      have a1 := tiny_parse_whitespace_append w 93 r st0 hw1 (by decide)
      simp [tiny_parse_array, EXPECT, a1]
    · simp only [h93, if_false] at h
      have h2 : array_loop pv (x :: q).length
          { json := x :: q, stack := st ++ ([] : List (tiny_node ν)).map .node } node
          ([] : List (tiny_node ν)).length = some (TINY_PARSE_OK, v, c1) := by
        simpa using h
      obtain ⟨t2, hne2, e2, es, hrep2⟩ := array_loop_frame pv pv0 hf _ _ _ _ _ _ _ h2
      obtain ⟨y, t3, rfl⟩ : ∃ y t3, t2 = y :: t3 := by
        cases t2 with
        | nil => exact absurd rfl hne2
        | cons y t3 => exact ⟨y, t3, rfl⟩
      have hy : y = x := by simp at e2; exact e2.1.symm
      subst hy
      refine ⟨91 :: (w ++ y :: t3), by simp, ?_, es, ?_⟩
      · simp only [List.cons_append, List.cons.injEq, true_and] at e2
        rw [e2]
        simp
      · intro _ r st0 node0 _
        have a1 := tiny_parse_whitespace_append w y (t3 ++ r) st0 hw1 hx
        have a3 := hrep2 r st0 node0 (y :: (t3 ++ r)).length (by simp)
        simp only [List.map_nil, List.append_nil, List.length_nil, List.cons_append,
          List.length_cons, List.length_append] at a3
        simp [tiny_parse_array, EXPECT, a1, h93, a3]

/-! ### Objects -/

theorem object_break_ok (ret : tiny_status) (size : Nat) (c : tiny_context ν)
    (v : tiny_node ν) (c1 : tiny_context ν)
    (h : object_break ret size c = some (TINY_PARSE_OK, v, c1)) : ret = TINY_PARSE_OK := by
  unfold object_break at h
  rcases hc : object_cleanup size c with _ | c4
  · simp [hc] at h
  · simp only [hc, Option.map_some', Option.some.injEq, Prod.mk.injEq] at h
    exact h.1

theorem object_round_key_ok (j : List Nat) (st : List (stack_item ν)) (key : List Nat)
    (c2 : tiny_context ν)
    (h : object_round_key { json := j, stack := st } = some (TINY_PARSE_OK, key, c2)) :
    ∃ t x q, t ≠ [] ∧ is_ws x = false ∧ j = t ++ x :: q ∧ c2 = { json := x :: q, stack := st }
      ∧ ∀ (q0 : List Nat) (st0 : List (stack_item ν)),
        object_round_key { json := t ++ x :: q0, stack := st0 }
          = some (TINY_PARSE_OK, key, { json := x :: q0, stack := st0 }) := by
  cases j with
  | nil => simp [object_round_key] at h
  | cons b p =>
    by_cases hb : b = 34
    swap
    · simp [object_round_key, hb] at h
    subst hb
    simp only [object_round_key, ne_eq, not_true_eq_false, if_false] at h
    rcases hr : tiny_parse_string_raw { json := 34 :: p, stack := st } with _ | ⟨ret, str, c⟩
    · simp [hr] at h
    simp only [hr] at h
    by_cases hret : ret = TINY_PARSE_OK
    swap
    · simp [hret] at h
    subst hret
    simp only [not_true_eq_false, if_false] at h
    obtain ⟨t1, hne1, e1, es1, hrep1⟩ := tiny_parse_string_raw_frame _ _ _ _ hr
    obtain ⟨j2, st2⟩ := c
    simp only at e1 es1
    subst es1
    rcases hw : tiny_parse_whitespace { json := j2, stack := st2 } with _ | c3
    · simp [hw] at h
    obtain ⟨w, colon, p2, rfl, hw1, hcolon, rfl⟩ := tiny_parse_whitespace_some _ _ _ hw
    simp only [hw] at h
    by_cases h58 : colon = 58
    swap
    · simp [h58] at h
    subst h58
    simp only [ne_eq, not_true_eq_false, if_false] at h
    rcases hw2 : tiny_parse_whitespace { json := p2, stack := st2 } with _ | c4
    · simp [hw2] at h
    obtain ⟨w2, x, q, rfl, hw2a, hx, rfl⟩ := tiny_parse_whitespace_some _ _ _ hw2
    simp only [hw2, Option.map_some', Option.some.injEq, Prod.mk.injEq, true_and] at h
    obtain ⟨rfl, rfl⟩ := h
    obtain ⟨y, t3, rfl⟩ : ∃ y t3, t1 = y :: t3 := by
      cases t1 with
      | nil => exact absurd rfl hne1
      | cons y t3 => exact ⟨y, t3, rfl⟩
    have hy : y = 34 := by simp at e1; exact e1.1.symm
    subst hy
    refine ⟨34 :: t3 ++ (w ++ 58 :: w2), x, q, by simp, hx, ?_, rfl, ?_⟩
    · rw [e1]; simp
    · intro q0 st0
      have a1 := hrep1 (w ++ 58 :: (w2 ++ x :: q0)) st0
      have a2 := tiny_parse_whitespace_append w 58 (w2 ++ x :: q0) st0 hw1 (by decide)
      have a3 := tiny_parse_whitespace_append w2 x q0 st0 hw2a hx
      have e3 : 34 :: t3 ++ (w ++ 58 :: w2) ++ x :: q0
          = 34 :: (t3 ++ (w ++ 58 :: (w2 ++ x :: q0))) := by simp
      rw [e3]
      simp only [List.cons_append] at a1
      simp [object_round_key, a1, a2, a3]

theorem object_round_end_next (j : List Nat) (st : List (stack_item ν)) (size : Nat)
    (c2 : tiny_context ν)
    (h : object_round_end { json := j, stack := st } size = some (.next c2)) :
    ∃ w1 w2 x q, all_ws w1 ∧ all_ws w2 ∧ is_ws x = false ∧ j = w1 ++ 44 :: (w2 ++ x :: q)
      ∧ c2 = { json := x :: q, stack := st } ∧
      ∀ (q0 : List Nat) (st0 : List (stack_item ν)) (size0 : Nat),
        object_round_end { json := w1 ++ 44 :: (w2 ++ x :: q0), stack := st0 } size0
          = some (.next { json := x :: q0, stack := st0 }) := by
  unfold object_round_end at h
  rcases hw : tiny_parse_whitespace { json := j, stack := st } with _ | c
  · simp [hw] at h
  · obtain ⟨w1, y, p, rfl, hw1, hy, rfl⟩ := tiny_parse_whitespace_some _ _ _ hw
    simp only [hw] at h
    by_cases h44 : y = 44
    · subst h44
      simp only [if_true] at h
      rcases hw2 : tiny_parse_whitespace { json := p, stack := st } with _ | c3
      · simp [hw2] at h
      · obtain ⟨w2, x, q, rfl, hw2a, hx, rfl⟩ := tiny_parse_whitespace_some _ _ _ hw2
        simp only [hw2, Option.map_some', Option.some.injEq, loop_step_result.next.injEq] at h
        subst h
        refine ⟨w1, w2, x, q, hw1, hw2a, hx, rfl, rfl, ?_⟩
        intro q0 st0 size0
        have a1 := tiny_parse_whitespace_append w1 44 (w2 ++ x :: q0) st0 hw1 (by decide)
        have a2 := tiny_parse_whitespace_append w2 x q0 st0 hw2a hx
        simp [object_round_end, a1, a2]
    · simp only [h44, if_false] at h
      split_ifs at h with h125
      · rcases hp : tiny_context_pop { json := p, stack := st } size with _ | ⟨items, c4⟩
        · simp [hp] at h
        · rcases hn : stack_members items with _ | e <;> simp [hp, hn] at h
      · rcases hc : object_break TINY_PARSE_MISS_COMMA_OR_CURLY_BRACKET size
          { json := y :: p, stack := st } with _ | c4 <;> simp [hc] at h

theorem object_round_end_ret (j : List Nat) (st : List (stack_item ν))
    (ms : List (tiny_member ν)) (v : tiny_node ν) (c1 : tiny_context ν)
    (h : object_round_end { json := j, stack := st ++ ms.map .member } ms.length
      = some (.ret (TINY_PARSE_OK, v, c1))) :
    ∃ w, all_ws w ∧ j = w ++ 125 :: c1.json ∧ c1.stack = st ∧ v = .object ms none ∧
      ∀ (r : List Nat) (st0 : List (stack_item ν)),
        object_round_end { json := w ++ 125 :: r, stack := st0 ++ ms.map .member } ms.length
          = some (.ret (TINY_PARSE_OK, .object ms none, { json := r, stack := st0 })) := by
  have hpop : ∀ (r : List Nat) (st0 : List (stack_item ν)),
      tiny_context_pop { json := r, stack := st0 ++ ms.map .member } ms.length
        = some (ms.map .member, { json := r, stack := st0 }) := by
    intro r st0
    have := tiny_context_pop_append r st0 (ms.map (stack_item.member (ν := ν)))
    simpa using this
  unfold object_round_end at h
  rcases hw : tiny_parse_whitespace { json := j, stack := st ++ ms.map .member } with _ | c
  · simp [hw] at h
  · obtain ⟨w1, y, p, rfl, hw1, hy, rfl⟩ := tiny_parse_whitespace_some _ _ _ hw
    simp only [hw] at h
    by_cases h44 : y = 44
    · subst h44
      simp only [if_true] at h
      rcases hw2 : tiny_parse_whitespace { json := p, stack := st ++ ms.map .member }
        with _ | c3 <;> simp [hw2] at h
    · simp only [h44, if_false] at h
      split_ifs at h with h125
      · subst h125
        simp only [hpop, stack_members_map_member, Option.map_some', Option.some.injEq,
          loop_step_result.ret.injEq, Prod.mk.injEq, true_and] at h
        obtain ⟨rfl, rfl⟩ := h
        refine ⟨w1, hw1, rfl, rfl, rfl, ?_⟩
        intro r st0
        have a1 := tiny_parse_whitespace_append w1 125 r (st0 ++ ms.map .member) hw1
          (by decide)
        simp [object_round_end, a1, hpop, stack_members_map_member]
      · rcases hc : object_break TINY_PARSE_MISS_COMMA_OR_CURLY_BRACKET ms.length
          { json := y :: p, stack := st ++ ms.map .member } with _ | ⟨r1, v1, c4⟩
        · simp [hc] at h
        · simp only [hc, Option.map_some', Option.some.injEq, loop_step_result.ret.injEq,
            Prod.mk.injEq] at h
          obtain ⟨rfl, rfl, rfl⟩ := h
          have := object_break_ok _ _ _ _ _ hc
          exact absurd this (by decide)

theorem object_loop_frame (pv pv0 : tiny_context ν → tiny_node ν → Option (parse_result ν))
    (hf : frames pv pv0) :
    ∀ (fuel : Nat) (j : List Nat) (st : List (stack_item ν)) (acc : List (tiny_member ν))
      (node v : tiny_node ν) (c1 : tiny_context ν),
      object_loop pv fuel { json := j, stack := st ++ acc.map .member } node acc.length
        = some (TINY_PARSE_OK, v, c1) →
      ∃ t, t ≠ [] ∧ j = t ++ c1.json ∧ c1.stack = st ∧
        ∀ (r : List Nat) (st0 : List (stack_item ν)) (node0 : tiny_node ν) (fuel0 : Nat),
          t.length ≤ fuel0 →
          object_loop pv0 fuel0 { json := t ++ r, stack := st0 ++ acc.map .member } node0
              acc.length
            = some (TINY_PARSE_OK, v, { json := r, stack := st0 }) := by
  intro fuel
  induction fuel with
  | zero => intro j st acc node v c1 h; simp [object_loop] at h
  | succ fuel ih =>
    intro j st acc node v c1 h
    rw [object_loop] at h
    rcases hk : object_round_key { json := j, stack := st ++ acc.map .member }
      with _ | ⟨ret0, key, c0⟩
    · simp [hk] at h
    simp only [hk] at h
    by_cases hret0 : ret0 = TINY_PARSE_OK
    swap
    · rw [if_pos hret0] at h
      exact absurd (object_break_ok _ _ _ _ _ h) hret0
    subst hret0
    rw [if_neg (by simp)] at h
    obtain ⟨t0, x0, q0, hne0, hx0, ej0, ec0, hrep0⟩ := object_round_key_ok _ _ _ _ hk
    subst ec0
    subst ej0
    rcases hpv : pv { json := x0 :: q0, stack := st ++ acc.map .member } (tiny_init .null)
      with _ | ⟨ret, e, c2⟩
    · simp [hpv] at h
    simp only [hpv] at h
    by_cases hret : ret = TINY_PARSE_OK
    swap
    · rw [if_pos hret] at h
      exact absurd (object_break_ok _ _ _ _ _ h) hret
    subst hret
    rw [if_neg (by simp)] at h
    obtain ⟨t1, hne1, e1, es1, hrep1⟩ := hf _ _ _ _ _ hpv
    obtain ⟨j2, st2⟩ := c2
    simp only at e1 es1 hrep1
    subst es1
    obtain ⟨y1, t1b, rfl⟩ : ∃ y t3, t1 = y :: t3 := by
      cases t1 with
      | nil => exact absurd rfl hne1
      | cons y t3 => exact ⟨y, t3, rfl⟩
    have hy1 : y1 = x0 := by simp at e1; exact e1.1.symm
    subst hy1
    have e1b : q0 = t1b ++ j2 := by simpa using e1
    subst e1b
    obtain ⟨m, hm⟩ : ∃ m : tiny_member ν, m = tiny_member.mk key (some key.length) e :=
      ⟨_, rfl⟩
    rw [← hm] at h
    have hlen : acc.length + 1 = (acc ++ [m]).length := by simp
    have hpush : ∀ (jj : List Nat) (ss : List (stack_item ν)),
        tiny_context_push { json := jj, stack := ss ++ acc.map .member } [.member m]
          = some { json := jj, stack := ss ++ (acc ++ [m]).map .member } := by
      intro jj ss
      simp [tiny_context_push]
    simp only [hpush] at h
    rw [hlen] at h
    rcases hre : object_round_end
        { json := j2, stack := st ++ (acc ++ [m]).map .member }
        (acc ++ [m]).length with _ | ⟨r0⟩ | ⟨c3⟩
    · simp only [hre] at h
      exact absurd h (by simp)
    · simp only [hre, Option.some.injEq] at h
      subst h
      obtain ⟨w, hw, ej, es, ev, hrep⟩ := object_round_end_ret _ _ _ _ _ hre
      have hd : delimited j2 := by
        rw [ej]; exact delimited_of_ws_append w 125 _ hw (by decide)
      refine ⟨t0 ++ (y1 :: t1b ++ (w ++ [125])), by simp [hne0], by rw [ej]; simp, es, ?_⟩
      intro r st0 node0 fuel0 hfu
      obtain ⟨k, rfl⟩ : ∃ k, fuel0 = k + 1 := ⟨fuel0 - 1, by simp at hfu; omega⟩
      have hd2 : delimited (w ++ 125 :: r) := delimited_of_ws_append w 125 _ hw (by decide)
      have a0 := hrep0 (t1b ++ (w ++ 125 :: r)) (st0 ++ acc.map .member)
      have a1 := hrep1 hd (w ++ 125 :: r) (st0 ++ acc.map .member) (tiny_init .null) hd2
      have a2 := hrep r st0
      have e3 : t0 ++ (y1 :: t1b ++ (w ++ [125])) ++ r
          = t0 ++ y1 :: (t1b ++ (w ++ 125 :: r)) := by simp
      simp only [List.cons_append] at a1
      rw [object_loop, e3, a0]
      simp only [ne_eq, not_true_eq_false, if_false, a1, ← hm, hpush]
      rw [hlen, a2, ev]
    · simp only [hre] at h
      obtain ⟨w1, w2, x, q, hw1, hw2, hx, ej, ec, hrep⟩ := object_round_end_next _ _ _ _ hre
      subst ec
      have h2 : object_loop pv fuel
          { json := x :: q, stack := st ++ (acc ++ [m]).map .member }
          node (acc ++ [m]).length
          = some (TINY_PARSE_OK, v, c1) := h
      obtain ⟨t2, hne2, e2, es, hrep2⟩ := ih _ _ _ _ _ _ h2
      obtain ⟨y, t3, rfl⟩ : ∃ y t3, t2 = y :: t3 := by
        cases t2 with
        | nil => exact absurd rfl hne2
        | cons y t3 => exact ⟨y, t3, rfl⟩
      have hy : y = x := by simp at e2; exact e2.1.symm
      subst hy
      have hd : delimited j2 := by
        rw [ej]; exact delimited_of_ws_append w1 44 _ hw1 (by decide)
      refine ⟨t0 ++ (y1 :: t1b ++ (w1 ++ 44 :: (w2 ++ y :: t3))), by simp [hne0], ?_, es, ?_⟩
      · rw [ej]
        simp only [List.cons_append, List.cons.injEq, true_and] at e2
        rw [e2]
        simp
      · intro r st0 node0 fuel0 hfu
        obtain ⟨k, rfl⟩ : ∃ k, fuel0 = k + 1 := ⟨fuel0 - 1, by simp at hfu; omega⟩
        have hd2 : delimited (w1 ++ 44 :: (w2 ++ y :: (t3 ++ r))) :=
          delimited_of_ws_append w1 44 _ hw1 (by decide)
        have a0 := hrep0 (t1b ++ (w1 ++ 44 :: (w2 ++ y :: (t3 ++ r))))
          (st0 ++ acc.map .member)
        have a1 := hrep1 hd _ (st0 ++ acc.map .member) (tiny_init .null) hd2
        have a2 := hrep (t3 ++ r)
          (st0 ++ (acc ++ [m]).map .member)
          (acc ++ [m]).length
        have hk2 : (y :: t3).length ≤ k := by
          simp only [List.length_append, List.length_cons] at hfu
          simp only [List.length_cons]
          omega
        have a3 := hrep2 r st0 node0 k hk2
        have e3 : t0 ++ (y1 :: t1b ++ (w1 ++ 44 :: (w2 ++ y :: t3))) ++ r
            = t0 ++ y1 :: (t1b ++ (w1 ++ 44 :: (w2 ++ y :: (t3 ++ r)))) := by simp
        simp only [List.cons_append] at a1
        rw [object_loop, e3, a0]
        simp only [ne_eq, not_true_eq_false, if_false, a1, ← hm, hpush]
        rw [hlen, a2]
        simpa using a3

theorem tiny_parse_object_frame
    (pv pv0 : tiny_context ν → tiny_node ν → Option (parse_result ν)) (hf : frames pv pv0) :
    frames (tiny_parse_object pv) (tiny_parse_object pv0) := by
  intro j st node v c1 h
  cases j with
  | nil => simp [tiny_parse_object, EXPECT] at h
  | cons b p =>
    by_cases hb : b = 123
    swap
    · simp [tiny_parse_object, EXPECT, hb] at h
    subst hb
    simp only [tiny_parse_object, EXPECT, if_true, Option.some_bind] at h
    rcases hw : tiny_parse_whitespace { json := p, stack := st } with _ | c
    · simp [hw] at h
    obtain ⟨w, x, q, rfl, hw1, hx, rfl⟩ := tiny_parse_whitespace_some _ _ _ hw
    simp only [hw, Option.some_bind] at h
    by_cases h125 : x = 125
    · subst h125
      simp only [if_true, Option.some.injEq, Prod.mk.injEq, true_and] at h
      obtain ⟨rfl, rfl⟩ := h
      refine ⟨123 :: (w ++ [125]), by simp, by simp, rfl, ?_⟩
      intro _ r st0 node0 _
      have a1 := tiny_parse_whitespace_append w 125 r st0 hw1 (by decide)
      simp [tiny_parse_object, EXPECT, a1]
    · simp only [h125, if_false] at h
      have h2 : object_loop pv (x :: q).length
          { json := x :: q, stack := st ++ ([] : List (tiny_member ν)).map .member } node
          ([] : List (tiny_member ν)).length = some (TINY_PARSE_OK, v, c1) := by
        simpa using h
      obtain ⟨t2, hne2, e2, es, hrep2⟩ := object_loop_frame pv pv0 hf _ _ _ _ _ _ _ h2
      obtain ⟨y, t3, rfl⟩ : ∃ y t3, t2 = y :: t3 := by
        cases t2 with
        | nil => exact absurd rfl hne2
        | cons y t3 => exact ⟨y, t3, rfl⟩
      have hy : y = x := by simp at e2; exact e2.1.symm
      subst hy
      refine ⟨123 :: (w ++ y :: t3), by simp, ?_, es, ?_⟩
      · simp only [List.cons_append, List.cons.injEq, true_and] at e2
        rw [e2]
        simp
      · intro _ r st0 node0 _
        have a1 := tiny_parse_whitespace_append w y (t3 ++ r) st0 hw1 hx
        have a3 := hrep2 r st0 node0 (y :: (t3 ++ r)).length (by simp)
        simp only [List.map_nil, List.append_nil, List.length_nil, List.cons_append,
          List.length_cons, List.length_append] at a3
        simp [tiny_parse_object, EXPECT, a1, h125, a3]

/-! ### Values -/

theorem head_of_append (ch : Nat) (p t q : List Nat) (hne : t ≠ []) (e : ch :: p = t ++ q) :
    ∃ t0, t = ch :: t0 := by
  cases t with
  | nil => exact absurd rfl hne
  | cons y t0 =>
    simp only [List.cons_append, List.cons.injEq] at e
    exact ⟨t0, by rw [e.1]⟩

theorem parse_value_switch_cons (L : libc ν)
    (pv : tiny_context ν → tiny_node ν → Option (parse_result ν)) (ch : Nat) (p : List Nat)
    (st : List (stack_item ν)) (node : tiny_node ν) :
    parse_value_switch L pv { json := ch :: p, stack := st } node =
      if ch = 110 then tiny_parse_null { json := ch :: p, stack := st } node
      else if ch = 116 then tiny_parse_true { json := ch :: p, stack := st } node
      else if ch = 102 then tiny_parse_false { json := ch :: p, stack := st } node
      else if ch = 34 then tiny_parse_string { json := ch :: p, stack := st } node
      else if ch = 91 then tiny_parse_array pv { json := ch :: p, stack := st } node
      else if ch = 123 then tiny_parse_object pv { json := ch :: p, stack := st } node
      else if ch = 0 then some (TINY_PARSE_EXPECT_VALUE, node, { json := ch :: p, stack := st })
      else tiny_parse_number L { json := ch :: p, stack := st } node := rfl

theorem parse_value_switch_frames (L : libc ν) (hL : strtod_reads_number L)
    (pv pv0 : tiny_context ν → tiny_node ν → Option (parse_result ν)) (hf : frames pv pv0) :
    frames (parse_value_switch L pv) (parse_value_switch L pv0) := by
  intro j st node v c1 h
  cases j with
  | nil => simp [parse_value_switch] at h
  | cons ch p =>
    rw [parse_value_switch_cons] at h
    by_cases h1 : ch = 110
    · rw [if_pos h1] at h
      obtain ⟨t, hne, e, es, hrep⟩ := tiny_parse_null_frame _ _ _ _ _ h
      obtain ⟨t0, rfl⟩ := head_of_append ch p t _ hne e
      refine ⟨ch :: t0, hne, e, es, ?_⟩
      intro _ r st0 node0 _
      rw [List.cons_append, parse_value_switch_cons, if_pos h1]
      exact hrep r st0 node0
    rw [if_neg h1] at h
    by_cases h2 : ch = 116
    · rw [if_pos h2] at h
      obtain ⟨t, hne, e, es, hrep⟩ := tiny_parse_true_frame _ _ _ _ _ h
      obtain ⟨t0, rfl⟩ := head_of_append ch p t _ hne e
      refine ⟨ch :: t0, hne, e, es, ?_⟩
      intro _ r st0 node0 _
      rw [List.cons_append, parse_value_switch_cons, if_neg h1, if_pos h2]
      exact hrep r st0 node0
    rw [if_neg h2] at h
    by_cases h3 : ch = 102
    · rw [if_pos h3] at h
      obtain ⟨t, hne, e, es, hrep⟩ := tiny_parse_false_frame _ _ _ _ _ h
      obtain ⟨t0, rfl⟩ := head_of_append ch p t _ hne e
      refine ⟨ch :: t0, hne, e, es, ?_⟩
      intro _ r st0 node0 _
      rw [List.cons_append, parse_value_switch_cons, if_neg h1, if_neg h2, if_pos h3]
      exact hrep r st0 node0
    rw [if_neg h3] at h
    by_cases h4 : ch = 34
    · rw [if_pos h4] at h
      obtain ⟨t, hne, e, es, hrep⟩ := tiny_parse_string_frame _ _ _ _ _ h
      obtain ⟨t0, rfl⟩ := head_of_append ch p t _ hne e
      refine ⟨ch :: t0, hne, e, es, ?_⟩
      intro _ r st0 node0 _
      rw [List.cons_append, parse_value_switch_cons, if_neg h1, if_neg h2, if_neg h3,
        if_pos h4]
      exact hrep r st0 node0
    rw [if_neg h4] at h
    by_cases h5 : ch = 91
    · rw [if_pos h5] at h
      obtain ⟨t, hne, e, es, hrep⟩ := tiny_parse_array_frame pv pv0 hf _ _ _ _ _ h
      obtain ⟨t0, rfl⟩ := head_of_append ch p t _ hne e
      refine ⟨ch :: t0, hne, e, es, ?_⟩
      intro hd r st0 node0 hr
      rw [List.cons_append, parse_value_switch_cons, if_neg h1, if_neg h2, if_neg h3,
        if_neg h4, if_pos h5]
      exact hrep hd r st0 node0 hr
    rw [if_neg h5] at h
    by_cases h6 : ch = 123
    · rw [if_pos h6] at h
      obtain ⟨t, hne, e, es, hrep⟩ := tiny_parse_object_frame pv pv0 hf _ _ _ _ _ h
      obtain ⟨t0, rfl⟩ := head_of_append ch p t _ hne e
      refine ⟨ch :: t0, hne, e, es, ?_⟩
      intro hd r st0 node0 hr
      rw [List.cons_append, parse_value_switch_cons, if_neg h1, if_neg h2, if_neg h3,
        if_neg h4, if_neg h5, if_pos h6]
      exact hrep hd r st0 node0 hr
    rw [if_neg h6] at h
    by_cases h7 : ch = 0
    · rw [if_pos h7] at h
      simp at h
    rw [if_neg h7] at h
    obtain ⟨t, hne, e, es, _, hrep⟩ := tiny_parse_number_frame L hL _ _ _ _ _ h
    obtain ⟨t0, rfl⟩ := head_of_append ch p t _ hne e
    refine ⟨ch :: t0, hne, e, es, ?_⟩
    intro hd r st0 node0 hr
    rw [List.cons_append, parse_value_switch_cons, if_neg h1, if_neg h2, if_neg h3,
      if_neg h4, if_neg h5, if_neg h6, if_neg h7]
    exact hrep hd r st0 node0 hr

theorem tiny_parse_value_frames (L : libc ν) (hL : strtod_reads_number L) :
    ∀ (d d0 : Nat), d ≤ d0 → frames (tiny_parse_value L d) (tiny_parse_value L d0) := by
  intro d
  induction d with
  | zero =>
    intro d0 _ j st node v c1 h
    simp [tiny_parse_value] at h
  | succ d ih =>
    intro d0 hd
    obtain ⟨k, rfl⟩ : ∃ k, d0 = k + 1 := ⟨d0 - 1, by omega⟩
    exact parse_value_switch_frames L hL _ _ (ih k (by omega))

/-! ### The entry point -/

theorem append_nul_unique : ∀ (a b r : List Nat), a ++ [0] = b ++ 0 :: r → 0 ∉ a →
    a = b ∧ r = [] := by
  intro a
  induction a with
  | nil =>
    intro b r h _
    cases b with
    | nil => simpa using h.symm
    | cons y b => simp at h
  | cons x a ih =>
    intro b r h hx
    cases b with
    | nil =>
      simp only [List.cons_append, List.nil_append, List.cons.injEq] at h
      exact absurd (List.mem_cons_self _ _) (h.1 ▸ hx)
    | cons y b =>
      simp only [List.cons_append, List.cons.injEq] at h
      have hx2 : 0 ∉ a := fun hm => hx (List.mem_cons_of_mem _ hm)
      obtain ⟨e1, e2⟩ := ih b r h.2 hx2
      exact ⟨by rw [h.1, e1], e2⟩

theorem tiny_parse_ok_inv (L : libc ν) (hL : strtod_reads_number L) (node v : tiny_node ν)
    (e : List Nat) (he : 0 ∉ e)
    (h : tiny_parse L node (e ++ [0]) = some (TINY_PARSE_OK, v)) :
    ∃ w1 t w2 x t0, e = w1 ++ (t ++ w2) ∧ all_ws w1 ∧ all_ws w2 ∧ t = x :: t0
      ∧ is_ws x = false ∧
      tiny_parse_value L (e ++ [0]).length { json := t ++ (w2 ++ [0]), stack := [] }
          (tiny_init node) = some (TINY_PARSE_OK, v, { json := w2 ++ [0], stack := [] }) ∧
      ∀ (d : Nat) (r : List Nat) (st0 : List (stack_item ν)) (node0 : tiny_node ν),
        (e ++ [0]).length ≤ d → delimited r →
        tiny_parse_value L d { json := t ++ r, stack := st0 } node0
          = some (TINY_PARSE_OK, v, { json := r, stack := st0 }) := by
  unfold tiny_parse at h
  simp only at h
  rcases hw : tiny_parse_whitespace ({ json := e ++ [0], stack := [] } : tiny_context ν)
    with _ | c
  · simp [hw] at h
  obtain ⟨w1, x, q, ej, hw1, hx, rfl⟩ := tiny_parse_whitespace_some _ _ _ hw
  simp only [hw] at h
  rcases hpv : tiny_parse_value L (e ++ [0]).length { json := x :: q, stack := [] }
    (tiny_init node) with _ | ⟨ret, v1, c2⟩
  · simp only [hpv] at h
    exact absurd h (by simp)
  simp only [hpv] at h
  by_cases hret : ret = TINY_PARSE_OK
  swap
  · simp only [hret, if_false] at h
    split_ifs at h
    · simp only [Option.some.injEq, Prod.mk.injEq] at h
      exact absurd h.1 hret
  subst hret
  simp only [if_true] at h
  obtain ⟨t, hne, e1, es1, hrep1⟩ :=
    tiny_parse_value_frames L hL _ _ (le_refl _) _ _ _ _ _ hpv
  obtain ⟨j2, st2⟩ := c2
  simp only at e1 es1 hrep1 h
  subst es1
  rcases hw2 : tiny_parse_whitespace ({ json := j2, stack := [] } : tiny_context ν)
    with _ | c3
  · simp [hw2] at h
  obtain ⟨w2, y, q2, rfl, hw2a, hy, rfl⟩ := tiny_parse_whitespace_some _ _ _ hw2
  simp only [hw2] at h
  by_cases hy0 : y = 0
  swap
  · simp [hy0] at h
  subst hy0
  simp only [ne_eq, not_true_eq_false, if_false, List.length_nil, if_true, Option.some.injEq,
    Prod.mk.injEq, true_and] at h
  subst h
  have e2 : e ++ [0] = (w1 ++ (t ++ w2)) ++ 0 :: q2 := by
    rw [ej, e1]; simp
  obtain ⟨e3, rfl⟩ := append_nul_unique _ _ _ e2 he
  obtain ⟨t0, rfl⟩ := head_of_append x q t _ hne e1
  have hd : delimited (w2 ++ [0]) := delimited_of_ws_append w2 0 [] hw2a (by decide)
  refine ⟨w1, x :: t0, w2, x, t0, e3, hw1, hw2a, rfl, hx, ?_, ?_⟩
  · rw [← e1]; exact hpv
  · intro d r st0 node0 hdl hr
    obtain ⟨t1, hne1, e4, _, hrep⟩ :=
      tiny_parse_value_frames L hL _ d hdl _ _ _ _ _ hpv
    have e5 : t1 = x :: t0 := List.append_cancel_right (e4.symm.trans e1)
    subst e5
    exact hrep hd r st0 node0 hr

/-! ### The type of the node after a successful parse -/

theorem tiny_parse_null_type (c : tiny_context ν) (node v : tiny_node ν) (c1 : tiny_context ν)
    (h : tiny_parse_null c node = some (TINY_PARSE_OK, v, c1)) :
    tiny_get_type v = TINY_NULL := by
  unfold tiny_parse_null at h
  rcases he : EXPECT c 110 with _ | c2
  · simp [he] at h
  simp only [he, Option.some_bind] at h
  repeat' split at h
  all_goals simp at h
  rw [← h.1]; rfl

theorem tiny_parse_true_type (c : tiny_context ν) (node v : tiny_node ν) (c1 : tiny_context ν)
    (h : tiny_parse_true c node = some (TINY_PARSE_OK, v, c1)) :
    tiny_get_type v = TINY_TRUE := by
  unfold tiny_parse_true at h
  rcases he : EXPECT c 116 with _ | c2
  · simp [he] at h
  simp only [he, Option.some_bind] at h
  repeat' split at h
  all_goals simp at h
  rw [← h.1]; rfl

theorem tiny_parse_false_type (c : tiny_context ν) (node v : tiny_node ν) (c1 : tiny_context ν)
    (h : tiny_parse_false c node = some (TINY_PARSE_OK, v, c1)) :
    tiny_get_type v = TINY_FALSE := by
  unfold tiny_parse_false at h
  rcases he : EXPECT c 102 with _ | c2
  · simp [he] at h
  simp only [he, Option.some_bind] at h
  repeat' split at h
  all_goals simp at h
  rw [← h.1]; rfl

theorem tiny_parse_string_type (c : tiny_context ν) (node v : tiny_node ν)
    (c1 : tiny_context ν) (h : tiny_parse_string c node = some (TINY_PARSE_OK, v, c1)) :
    tiny_get_type v = TINY_STRING := by
  unfold tiny_parse_string at h
  rcases hr : tiny_parse_string_raw c with _ | ⟨ret, s, c2⟩
  · simp [hr] at h
  simp only [hr] at h
  split_ifs at h with hok
  · simp only [Option.some.injEq, Prod.mk.injEq] at h
    rw [← h.2.1]; rfl
  · simp only [Option.some.injEq, Prod.mk.injEq] at h
    exact absurd h.1 hok

theorem array_round_end_type (c : tiny_context ν) (node : tiny_node ν) (size : Nat)
    (v : tiny_node ν) (c1 : tiny_context ν)
    (h : array_round_end c node size = some (.ret (TINY_PARSE_OK, v, c1))) :
    tiny_get_type v = TINY_ARRAY := by
  unfold array_round_end at h
  repeat' split at h
  all_goals try simp at h
  obtain ⟨a, _, rfl, _⟩ := h
  rfl

theorem array_loop_type (pv : tiny_context ν → tiny_node ν → Option (parse_result ν)) :
    ∀ (fuel : Nat) (c : tiny_context ν) (node : tiny_node ν) (size : Nat) (v : tiny_node ν)
      (c1 : tiny_context ν),
      array_loop pv fuel c node size = some (TINY_PARSE_OK, v, c1) →
      tiny_get_type v = TINY_ARRAY := by
  intro fuel
  induction fuel with
  | zero => intro c node size v c1 h; simp [array_loop] at h
  | succ fuel ih =>
    intro c node size v c1 h
    rw [array_loop] at h
    rcases hpv : pv c (tiny_init .null) with _ | ⟨ret, e, c2⟩
    · simp [hpv] at h
    simp only [hpv] at h
    by_cases hret : ret = TINY_PARSE_OK
    swap
    · rw [if_pos hret] at h
      rcases hc : array_cleanup size c2 with _ | c4
      · simp [hc] at h
      · simp only [hc, Option.map_some', Option.some.injEq, Prod.mk.injEq] at h
        exact absurd h.1 hret
    subst hret
    rw [if_neg (by simp)] at h
    rcases hp : tiny_context_push c2 [.node e] with _ | c3
    · simp [hp] at h
    simp only [hp] at h
    rcases hre : array_round_end c3 node (size + 1) with _ | ⟨r0⟩ | ⟨c4⟩
    · simp [hre] at h
    · simp only [hre, Option.some.injEq] at h
      subst h
      exact array_round_end_type _ _ _ _ _ hre
    · simp only [hre] at h
      exact ih _ _ _ _ _ h

theorem tiny_parse_array_type (pv : tiny_context ν → tiny_node ν → Option (parse_result ν))
    (c : tiny_context ν) (node v : tiny_node ν) (c1 : tiny_context ν)
    (h : tiny_parse_array pv c node = some (TINY_PARSE_OK, v, c1)) :
    tiny_get_type v = TINY_ARRAY := by
  unfold tiny_parse_array at h
  rcases he : EXPECT c 91 with _ | c2
  · simp [he] at h
  simp only [he, Option.some_bind] at h
  rcases hw : tiny_parse_whitespace c2 with _ | c3
  · simp [hw] at h
  simp only [hw, Option.some_bind] at h
  split at h
  · simp at h
  · split_ifs at h
    · simp only [Option.some.injEq, Prod.mk.injEq, true_and] at h
      rw [← h.1]; rfl
    · exact array_loop_type pv _ _ _ _ _ _ h

theorem object_round_end_type (c : tiny_context ν) (size : Nat)
    (v : tiny_node ν) (c1 : tiny_context ν)
    (h : object_round_end c size = some (.ret (TINY_PARSE_OK, v, c1))) :
    tiny_get_type v = TINY_OBJECT := by
  unfold object_round_end at h
  repeat' split at h
  all_goals try simp at h
  · obtain ⟨a, _, rfl, _⟩ := h
    rfl
  · exact absurd (object_break_ok _ _ _ _ _ h) (by decide)

theorem object_loop_type (pv : tiny_context ν → tiny_node ν → Option (parse_result ν)) :
    ∀ (fuel : Nat) (c : tiny_context ν) (node : tiny_node ν) (size : Nat) (v : tiny_node ν)
      (c1 : tiny_context ν),
      object_loop pv fuel c node size = some (TINY_PARSE_OK, v, c1) →
      tiny_get_type v = TINY_OBJECT := by
  intro fuel
  induction fuel with
  | zero => intro c node size v c1 h; simp [object_loop] at h
  | succ fuel ih =>
    intro c node size v c1 h
    rw [object_loop] at h
    rcases hk : object_round_key c with _ | ⟨ret0, key, c0⟩
    · simp [hk] at h
    simp only [hk] at h
    by_cases hret0 : ret0 = TINY_PARSE_OK
    swap
    · rw [if_pos hret0] at h
      exact absurd (object_break_ok _ _ _ _ _ h) hret0
    subst hret0
    rw [if_neg (by simp)] at h
    rcases hpv : pv c0 (tiny_init .null) with _ | ⟨ret, e, c2⟩
    · simp [hpv] at h
    simp only [hpv] at h
    by_cases hret : ret = TINY_PARSE_OK
    swap
    · rw [if_pos hret] at h
      exact absurd (object_break_ok _ _ _ _ _ h) hret
    subst hret
    rw [if_neg (by simp)] at h
    rcases hp : tiny_context_push c2 [.member (.mk key (some key.length) e)] with _ | c3
    · simp [hp] at h
    simp only [hp] at h
    rcases hre : object_round_end c3 (size + 1) with _ | ⟨r0⟩ | ⟨c4⟩
    · simp [hre] at h
    · simp only [hre, Option.some.injEq] at h
      subst h
      exact object_round_end_type _ _ _ _ hre
    · simp only [hre] at h
      exact ih _ _ _ _ _ h

theorem tiny_parse_object_type (pv : tiny_context ν → tiny_node ν → Option (parse_result ν))
    (c : tiny_context ν) (node v : tiny_node ν) (c1 : tiny_context ν)
    (h : tiny_parse_object pv c node = some (TINY_PARSE_OK, v, c1)) :
    tiny_get_type v = TINY_OBJECT := by
  unfold tiny_parse_object at h
  rcases he : EXPECT c 123 with _ | c2
  · simp [he] at h
  simp only [he, Option.some_bind] at h
  rcases hw : tiny_parse_whitespace c2 with _ | c3
  · simp [hw] at h
  simp only [hw, Option.some_bind] at h
  split at h
  · simp at h
  · split_ifs at h
    · simp only [Option.some.injEq, Prod.mk.injEq, true_and] at h
      rw [← h.1]; rfl
    · exact object_loop_type pv _ _ _ _ _ _ h

theorem parse_value_switch_number (L : libc ν)
    (pv : tiny_context ν → tiny_node ν → Option (parse_result ν)) (c : tiny_context ν)
    (node v : tiny_node ν) (c1 : tiny_context ν)
    (h : parse_value_switch L pv c node = some (TINY_PARSE_OK, v, c1))
    (hv : tiny_get_type v = TINY_NUMBER) :
    tiny_parse_number L c node = some (TINY_PARSE_OK, v, c1) := by
  unfold parse_value_switch at h
  split at h
  · simp at h
  · split_ifs at h
    · have := tiny_parse_null_type _ _ _ _ h; rw [hv] at this; cases this
    · have := tiny_parse_true_type _ _ _ _ h; rw [hv] at this; cases this
    · have := tiny_parse_false_type _ _ _ _ h; rw [hv] at this; cases this
    · have := tiny_parse_string_type _ _ _ _ h; rw [hv] at this; cases this
    · have := tiny_parse_array_type _ _ _ _ _ h; rw [hv] at this; cases this
    · have := tiny_parse_object_type _ _ _ _ _ h; rw [hv] at this; cases this
    · simp at h
    · exact h

/-! ### Numbers at the root -/

theorem tiny_parse_number_flag (L : libc ν) (c : tiny_context ν) (node v : tiny_node ν)
    (c1 : tiny_context ν) (h : tiny_parse_number L c node = some (TINY_PARSE_OK, v, c1)) :
    (L.strtod c.json).2 = false := by
  unfold tiny_parse_number at h
  rcases hs : scan_number c.json with _ | _ | q
  · simp [hs] at h
  · simp [hs] at h
  · simp only [hs] at h
    split_ifs at h with hf
    · simp at h
    · simpa using hf

theorem spec_number_grammar_head (t : List Nat) (h : spec_number_grammar t) :
    ∃ x t0, t = x :: t0 ∧ (x = 45 ∨ ISDIGIT x = true) := by
  obtain ⟨sign, int, frac, exp, rfl, hs, hi, _, _⟩ := h
  rcases hs with rfl | rfl
  · rcases hi with rfl | ⟨d, ds, rfl, hd, _⟩
    · exact ⟨48, _, rfl, Or.inr (by decide)⟩
    · refine ⟨d, _, rfl, Or.inr ?_⟩
      simp only [ISDIGIT1TO9, Bool.and_eq_true, decide_eq_true_eq] at hd
      simp only [ISDIGIT, Bool.and_eq_true, decide_eq_true_eq]
      omega
  · exact ⟨45, _, rfl, Or.inl rfl⟩

theorem number_head_facts (x : Nat) (h : x = 45 ∨ ISDIGIT x = true) :
    is_ws x = false ∧ x ≠ 110 ∧ x ≠ 116 ∧ x ≠ 102 ∧ x ≠ 34 ∧ x ≠ 91 ∧ x ≠ 123 ∧ x ≠ 0 := by
  rcases h with rfl | h
  · decide
  · simp only [ISDIGIT, Bool.and_eq_true, decide_eq_true_eq] at h
    simp only [is_ws, Bool.or_eq_false_iff, beq_eq_false_iff_ne, ne_eq]
    omega

theorem tiny_parse_number_text (L : libc ν) (node : tiny_node ν) (w1 t w2 : List Nat)
    (hw1 : all_ws w1) (hw2 : all_ws w2) (ht : spec_number_grammar t)
    (hf : (L.strtod (t ++ (w2 ++ [0]))).2 = false) :
    tiny_parse L node (w1 ++ (t ++ w2) ++ [0])
      = some (TINY_PARSE_OK, .number (L.strtod (t ++ (w2 ++ [0]))).1) := by
  obtain ⟨x, t0, rfl, hx⟩ := spec_number_grammar_head t ht
  obtain ⟨hxw, h1, h2, h3, h4, h5, h6, h7⟩ := number_head_facts x hx
  obtain ⟨y, r0, ey, hy⟩ : delimited (w2 ++ [0]) :=
    delimited_of_ws_append w2 0 [] hw2 (by decide)
  have hscan : scan_number (x :: t0 ++ (w2 ++ [0])) = some (some (w2 ++ [0])) := by
    rw [ey]; exact scan_number_complete _ y r0 ht hy
  have e1 : w1 ++ (x :: t0 ++ w2) ++ [0] = w1 ++ x :: (t0 ++ (w2 ++ [0])) := by simp
  have a1 := tiny_parse_whitespace_append (ν := ν) w1 x (t0 ++ (w2 ++ [0])) [] hw1 hxw
  have a2 := tiny_parse_whitespace_append (ν := ν) w2 0 [] [] hw2 (by decide)
  have hlen : (w1 ++ x :: (t0 ++ (w2 ++ [0]))).length
      = (w1.length + t0.length + w2.length + 1) + 1 := by
    simp; omega
  have hnum : tiny_parse_number L { json := x :: (t0 ++ (w2 ++ [0])), stack := [] }
      (tiny_init node) = some (TINY_PARSE_OK, .number (L.strtod (x :: t0 ++ (w2 ++ [0]))).1,
        { json := w2 ++ [0], stack := [] }) := by
    simp only [List.cons_append] at hscan hf
    simp [tiny_parse_number, hscan, hf]
  rw [e1]
  unfold tiny_parse
  simp only [a1, hlen, tiny_parse_value, parse_value_switch_cons, if_neg h1, if_neg h2,
    if_neg h3, if_neg h4, if_neg h5, if_neg h6, if_neg h7, hnum, if_true, a2]
  simp

theorem spec_number_grammar_not_delimiter (t : List Nat) (h : spec_number_grammar t) :
    ∀ b ∈ t, is_delimiter b = false := by
  have hdig : ∀ ds : List Nat, all_digits ds → ∀ b ∈ ds, is_delimiter b = false := by
    intro ds hd b hb
    have := hd b hb
    simp only [ISDIGIT, Bool.and_eq_true, decide_eq_true_eq] at this
    simp only [is_delimiter, is_ws, Bool.or_eq_false_iff, beq_eq_false_iff_ne, ne_eq]
    omega
  obtain ⟨sign, int, frac, exp, rfl, hs, hi, hf, he⟩ := h
  intro b hb
  simp only [List.mem_append] at hb
  rcases hb with hb | hb | hb | hb
  · rcases hs with rfl | rfl
    · cases hb
    · simp only [List.mem_singleton] at hb; subst hb; decide
  · rcases hi with rfl | ⟨d, ds, rfl, hd, hds⟩
    · simp only [List.mem_singleton] at hb; subst hb; decide
    · rcases List.mem_cons.1 hb with rfl | hb
      · simp only [ISDIGIT1TO9, Bool.and_eq_true, decide_eq_true_eq] at hd
        simp only [is_delimiter, is_ws, Bool.or_eq_false_iff, beq_eq_false_iff_ne, ne_eq]
        omega
      · exact hdig ds hds b hb
  · rcases hf with rfl | ⟨d, ds, rfl, hd⟩
    · cases hb
    · rcases List.mem_cons.1 hb with rfl | hb
      · decide
      · exact hdig _ hd b hb
  · rcases he with rfl | ⟨e, sg, d, ds, rfl, he, hsg, hd⟩
    · cases hb
    · rcases List.mem_cons.1 hb with rfl | hb
      · rcases he with rfl | rfl <;> decide
      · rcases List.mem_append.1 hb with hb | hb
        · rcases hsg with rfl | rfl | rfl
          · cases hb
          · simp only [List.mem_singleton] at hb; subst hb; decide
          · simp only [List.mem_singleton] at hb; subst hb; decide
        · exact hdig _ hd b hb

theorem demo_libc_reads_number : strtod_reads_number demo_libc := by
  intro t r r0 ht hr hr0
  have hnd := spec_number_grammar_not_delimiter t ht
  have key : ∀ (q : List Nat), delimited q →
      (t ++ q).takeWhile (fun b => !is_delimiter b) = t := by
    intro q hq
    obtain ⟨x, q0, rfl, hx⟩ := hq
    clear ht
    induction t with
    | nil => simp [List.takeWhile, hx]
    | cons b t ih =>
      have hb := hnd b (List.mem_cons_self _ _)
      have := ih (fun y hy => hnd y (List.mem_cons_of_mem _ hy))
      simp [List.takeWhile, hb, this]
  simp only [demo_libc, key r hr, key r0 hr0]

/-- C4: for a text `s` without NUL, `tiny_parse` of `s` followed by NUL returns
`TINY_PARSE_OK` with a node of type `TINY_NUMBER` if and only if `s` is a text of the
number grammar between two runs of whitespace and `strtod` does not report an overflow on
that text. The assumption on `strtod` is that, on a number followed by a delimiter, its
result depends on the text of the number only. -/
theorem C4_number_iff_grammar (L : libc ν) (hL : strtod_reads_number L) (node : tiny_node ν)
    (s : List Nat) (hs : 0 ∉ s) :
    (∃ out, tiny_parse L node (s ++ [0]) = some (TINY_PARSE_OK, out)
        ∧ tiny_get_type out = TINY_NUMBER)
    ↔ ∃ w1 t w2, s = w1 ++ (t ++ w2) ∧ all_ws w1 ∧ all_ws w2 ∧ spec_number_grammar t
        ∧ (L.strtod (t ++ [0])).2 = false := by
  have hd0 : delimited [0] := ⟨0, [], rfl, by decide⟩
  constructor
  · rintro ⟨out, h, hty⟩
    obtain ⟨w1, t, w2, x, t0, e, hw1, hw2, _, _, hpv, _⟩ :=
      tiny_parse_ok_inv L hL node out s hs h
    have hd : delimited (w2 ++ [0]) := delimited_of_ws_append w2 0 [] hw2 (by decide)
    obtain ⟨k, hk⟩ : ∃ k, (s ++ [0]).length = k + 1 := ⟨s.length, by simp⟩
    rw [hk, tiny_parse_value] at hpv
    have hnum := parse_value_switch_number L _ _ _ _ _ hpv hty
    obtain ⟨t1, _, e1, _, ht1, _⟩ := tiny_parse_number_frame L hL _ _ _ _ _ hnum
    have e2 : t = t1 := List.append_cancel_right e1
    subst e2
    have hflag := tiny_parse_number_flag L _ _ _ _ hnum
    refine ⟨w1, t, w2, e, hw1, hw2, ht1, ?_⟩
    rw [hL t [0] (w2 ++ [0]) ht1 hd0 hd]
    exact hflag
  · rintro ⟨w1, t, w2, rfl, hw1, hw2, ht, hflag⟩
    have hd : delimited (w2 ++ [0]) := delimited_of_ws_append w2 0 [] hw2 (by decide)
    have hf : (L.strtod (t ++ (w2 ++ [0]))).2 = false := by
      rw [hL t (w2 ++ [0]) [0] ht hd hd0]; exact hflag
    exact ⟨_, tiny_parse_number_text L node w1 t w2 hw1 hw2 ht hf, rfl⟩

/-- C4, instantiated: the text `1` with the library instance `demo_libc`. -/
theorem C4_number_iff_grammar_witness :
    0 ∉ [49] ∧ strtod_reads_number demo_libc ∧
    ((∃ out, tiny_parse demo_libc .null ([49] ++ [0]) = some (TINY_PARSE_OK, out)
        ∧ tiny_get_type out = TINY_NUMBER)
    ↔ ∃ w1 t w2, [49] = w1 ++ (t ++ w2) ∧ all_ws w1 ∧ all_ws w2 ∧ spec_number_grammar t
        ∧ (demo_libc.strtod (t ++ [0])).2 = false) :=
  ⟨by decide, demo_libc_reads_number,
    C4_number_iff_grammar demo_libc demo_libc_reads_number .null [49] (by decide)⟩

/-! ### Running the array loop on an array text -/

theorem array_round_end_comma (w1 w2 : List Nat) (x : Nat) (q : List Nat)
    (st : List (stack_item ν)) (node : tiny_node ν) (size : Nat)
    (hw1 : all_ws w1) (hw2 : all_ws w2) (hx : is_ws x = false) :
    array_round_end { json := w1 ++ 44 :: (w2 ++ x :: q), stack := st } node size
      = some (.next { json := x :: q, stack := st }) := by
  have a1 := tiny_parse_whitespace_append w1 44 (w2 ++ x :: q) st hw1 (by decide)
  have a2 := tiny_parse_whitespace_append w2 x q st hw2 hx
  simp [array_round_end, a1, a2]

theorem array_round_end_close (w : List Nat) (r : List Nat) (st : List (stack_item ν))
    (nodes : List (tiny_node ν)) (node : tiny_node ν) (hw : all_ws w) :
    array_round_end { json := w ++ 93 :: r, stack := st ++ nodes.map .node } node nodes.length
      = some (.ret (TINY_PARSE_OK, .array nodes none, { json := r, stack := st })) := by
  have a1 := tiny_parse_whitespace_append w 93 r (st ++ nodes.map .node) hw (by decide)
  have hpop := tiny_context_pop_append r st (nodes.map (stack_item.node (ν := ν)))
  simp only [List.length_map] at hpop
  simp [array_round_end, a1, hpop, stack_nodes_map_node]

theorem all_ws_append (a b : List Nat) (ha : all_ws a) (hb : all_ws b) : all_ws (a ++ b) := by
  intro x hx
  rcases List.mem_append.1 hx with h | h
  · exact ha x h
  · exact hb x h

theorem array_loop_run (pv : tiny_context ν → tiny_node ν → Option (parse_result ν)) :
    ∀ (rest : List (element_text ν)) (t wb : List Nat) (v : tiny_node ν)
      (acc : List (tiny_node ν)) (st : List (stack_item ν)) (r : List Nat)
      (node : tiny_node ν) (fuel : Nat),
      (∀ (q : List Nat) (st0 : List (stack_item ν)) (node0 : tiny_node ν), delimited q →
        pv { json := t ++ q, stack := st0 } node0
          = some (TINY_PARSE_OK, v, { json := q, stack := st0 })) →
      all_ws wb →
      (∀ x ∈ rest, all_ws x.before ∧ all_ws x.after ∧
        ∃ w1 t1 w2 y t0, x.text = w1 ++ (t1 ++ w2) ∧ all_ws w1 ∧ all_ws w2 ∧ t1 = y :: t0
          ∧ is_ws y = false ∧
          ∀ (q : List Nat) (st0 : List (stack_item ν)) (node0 : tiny_node ν), delimited q →
            pv { json := t1 ++ q, stack := st0 } node0
              = some (TINY_PARSE_OK, x.value, { json := q, stack := st0 })) →
      rest.length + 1 ≤ fuel →
      array_loop pv fuel
          { json := t ++ (wb ++ (array_tail rest ++ r)), stack := st ++ acc.map .node }
          node acc.length
        = some (TINY_PARSE_OK, .array (acc ++ v :: rest.map (fun x => x.value)) none,
            { json := r, stack := st }) := by
  intro rest
  induction rest with
  | nil =>
    intro t wb v acc st r node fuel hv hwb _ hfuel
    obtain ⟨k, rfl⟩ : ∃ k, fuel = k + 1 := ⟨fuel - 1, by simp at hfuel; omega⟩
    have hd : delimited (wb ++ ([93] ++ r)) := delimited_of_ws_append wb 93 _ hwb (by decide)
    have a1 := hv _ (st ++ acc.map .node) (tiny_init .null) hd
    have a2 := array_round_end_close wb r st (acc ++ [v]) node hwb
    have hlen : acc.length + 1 = (acc ++ [v]).length := by simp
    have hpush : tiny_context_push
        { json := wb ++ ([93] ++ r), stack := st ++ acc.map .node } [.node v]
        = some { json := wb ++ 93 :: r, stack := st ++ (acc ++ [v]).map .node } := by
      simp [tiny_context_push]
    rw [array_loop]
    simp only [array_tail, a1, ne_eq, not_true_eq_false, if_false, hpush]
    rw [hlen, a2]
    simp
  | cons x rest ih =>
    intro t wb v acc st r node fuel hv hwb hrest hfuel
    obtain ⟨k, rfl⟩ : ∃ k, fuel = k + 1 := ⟨fuel - 1, by simp at hfuel; omega⟩
    obtain ⟨hxb, hxa, w1, t1, w2, y, t0, ext, hw1, hw2, et1, hy, hv1⟩ :=
      hrest x (List.mem_cons_self _ _)
    subst et1
    have etxt : wb ++ (array_tail (x :: rest) ++ r)
        = wb ++ 44 :: ((x.before ++ w1) ++ y :: (t0 ++ ((w2 ++ x.after) ++ (array_tail rest ++ r))))
        := by
      simp [array_tail, element_text.padded, ext]
    have hd : delimited (wb ++ (array_tail (x :: rest) ++ r)) := by
      rw [etxt]; exact delimited_of_ws_append wb 44 _ hwb (by decide)
    have a1 := hv _ (st ++ acc.map .node) (tiny_init .null) hd
    have hlen : acc.length + 1 = (acc ++ [v]).length := by simp
    have a2 := array_round_end_comma wb (x.before ++ w1) y
      (t0 ++ ((w2 ++ x.after) ++ (array_tail rest ++ r))) (st ++ (acc ++ [v]).map .node) node
      (acc ++ [v]).length hwb (all_ws_append _ _ hxb hw1) hy
    have hpush : tiny_context_push
        { json := wb ++ (array_tail (x :: rest) ++ r), stack := st ++ acc.map .node } [.node v]
        = some { json := wb ++ (array_tail (x :: rest) ++ r),
                 stack := st ++ (acc ++ [v]).map .node } := by
      simp [tiny_context_push]
    have a3 := ih (y :: t0) (w2 ++ x.after) x.value (acc ++ [v]) st r node k hv1
      (all_ws_append _ _ hw2 hxa) (fun z hz => hrest z (List.mem_cons_of_mem _ hz))
      (by simp at hfuel; omega)
    rw [array_loop]
    simp only [a1, ne_eq, not_true_eq_false, if_false, hpush]
    rw [hlen, etxt, a2]
    simp only [List.cons_append, List.append_assoc] at a3
    simpa using a3

theorem tiny_parse_number_head (L : libc ν) (y : Nat) (q : List Nat)
    (st : List (stack_item ν)) (node v : tiny_node ν) (c1 : tiny_context ν)
    (h : tiny_parse_number L { json := y :: q, stack := st } node
      = some (TINY_PARSE_OK, v, c1)) : y = 45 ∨ ISDIGIT y = true := by
  obtain ⟨t, _, e, _, ht, _⟩ : ∃ t, t ≠ [] ∧ y :: q = t ++ c1.json ∧ c1.stack = st
      ∧ spec_number_grammar t ∧ True := by
    unfold tiny_parse_number at h
    rcases hs : scan_number (y :: q) with _ | _ | p
    · simp [hs] at h
    · simp [hs] at h
    · simp only [hs] at h
      split_ifs at h with hf
      · simp at h
      simp only [Option.some.injEq, Prod.mk.injEq, true_and] at h
      obtain ⟨_, rfl⟩ := h
      obtain ⟨t, e, ht⟩ := scan_number_sound _ _ hs
      exact ⟨t, spec_number_grammar_ne_nil t ht, e, rfl, ht, trivial⟩
  obtain ⟨x, t0, rfl, hx⟩ := spec_number_grammar_head t ht
  simp only [List.cons_append, List.cons.injEq] at e
  rw [e.1]; exact hx

theorem tiny_parse_value_head (L : libc ν) (d : Nat) (y : Nat) (q : List Nat)
    (st : List (stack_item ν)) (node v : tiny_node ν) (c1 : tiny_context ν)
    (h : tiny_parse_value L d { json := y :: q, stack := st } node
      = some (TINY_PARSE_OK, v, c1)) : y ≠ 93 ∧ y ≠ 125 := by
  cases d with
  | zero => simp [tiny_parse_value] at h
  | succ d =>
    rw [tiny_parse_value, parse_value_switch_cons] at h
    split_ifs at h with h1 h2 h3 h4 h5 h6 h7
    · subst h1; decide
    · subst h2; decide
    · subst h3; decide
    · subst h4; decide
    · subst h5; decide
    · subst h6; decide
    · simp at h
    · have := tiny_parse_number_head L y q st node v c1 h
      rcases this with rfl | hd
      · decide
      · simp only [ISDIGIT, Bool.and_eq_true, decide_eq_true_eq] at hd
        omega

theorem array_tail_length (rest : List (element_text ν)) :
    rest.length + 1 ≤ (array_tail rest).length
    ∧ ∀ x ∈ rest, x.text.length + 2 ≤ (array_tail rest).length := by
  induction rest with
  | nil => simp [array_tail]
  | cons y rest ih =>
    refine ⟨by simp [array_tail]; omega, ?_⟩
    intro x hx
    rcases List.mem_cons.1 hx with rfl | hx
    · have := ih.1
      simp [array_tail, element_text.padded]
      omega
    · have := ih.2 x hx
      simp [array_tail]
      omega

theorem array_text_length (w0 : List Nat) (items : List (element_text ν)) :
    ∀ x ∈ items, x.text.length + 1 ≤ (array_text w0 items).length := by
  intro x hx
  cases items with
  | nil => cases hx
  | cons y rest =>
    rcases List.mem_cons.1 hx with rfl | hx
    · simp [array_text, element_text.padded]
      omega
    · have := (array_tail_length rest).2 x hx
      simp [array_text]
      omega

theorem tiny_parse_finish (L : libc ν) (node v : tiny_node ν) (j : List Nat) (x : Nat)
    (q : List Nat) (hx : is_ws x = false) (k : Nat) (hk : (x :: q).length = k + 1)
    (ej : j = x :: q)
    (h : parse_value_switch L (tiny_parse_value L k) { json := x :: q, stack := [] }
      (tiny_init node) = some (TINY_PARSE_OK, v, { json := [0], stack := [] })) :
    tiny_parse L node j = some (TINY_PARSE_OK, v) := by
  subst ej
  have a1 := tiny_parse_whitespace_append (ν := ν) [] x q [] (fun _ hb => by cases hb) hx
  have a2 := tiny_parse_whitespace_append (ν := ν) [] 0 [] [] (fun _ hb => by cases hb)
    (by decide)
  simp only [List.nil_append] at a1 a2
  have hq : q.length = k := by simpa using hk
  unfold tiny_parse
  simp only [a1, List.length_cons, hq, tiny_parse_value, h, if_true, a2]
  simp

/-- C5: let `e1 .. en` be texts without NUL such that `tiny_parse` of each `ei` returns
`TINY_PARSE_OK` with value `vi`. Then for every choice of whitespace after the opening
bracket and before and after each element, `tiny_parse` of the array text returns
`TINY_PARSE_OK` with an array node of size `n` whose element `i` is `vi`, in the order of
the text. The assumption on `strtod` is that, on a number followed by a delimiter, its
result depends on the text of the number only. -/
theorem C5_array_elements_in_order (L : libc ν) (hL : strtod_reads_number L)
    (node : tiny_node ν) (w0 : List Nat) (items : List (element_text ν)) (hw0 : all_ws w0)
    (hitems : ∀ x ∈ items, all_ws x.before ∧ all_ws x.after ∧ 0 ∉ x.text ∧
      ∃ n0, tiny_parse L n0 (x.text ++ [0]) = some (TINY_PARSE_OK, x.value)) :
    ∃ out, tiny_parse L node (array_text w0 items ++ [0]) = some (TINY_PARSE_OK, out)
      ∧ tiny_get_type out = TINY_ARRAY
      ∧ tiny_get_array_size out = some items.length
      ∧ ∀ (i : Nat) (hi : i < items.length),
          tiny_get_array_element out i = some (items.get ⟨i, hi⟩).value := by
  refine ⟨.array (items.map fun x => x.value) none, ?_, rfl, by simp [tiny_get_array_size],
    fun i hi => by simp [tiny_get_array_element, hi]⟩
  obtain ⟨k, hk⟩ : ∃ k, k = (array_text w0 items).length := ⟨_, rfl⟩
  have hconv : ∀ x ∈ items, all_ws x.before ∧ all_ws x.after ∧
      ∃ w1 t1 w2 y t0, x.text = w1 ++ (t1 ++ w2) ∧ all_ws w1 ∧ all_ws w2 ∧ t1 = y :: t0
        ∧ is_ws y = false ∧
        ∀ (q : List Nat) (st0 : List (stack_item ν)) (node0 : tiny_node ν), delimited q →
          tiny_parse_value L k { json := t1 ++ q, stack := st0 } node0
            = some (TINY_PARSE_OK, x.value, { json := q, stack := st0 }) := by
    intro x hx
    obtain ⟨hb, ha, h0, n0, hp⟩ := hitems x hx
    obtain ⟨w1, t1, w2, y, t0, e, hw1, hw2, et, hy, _, hrep⟩ :=
      tiny_parse_ok_inv L hL n0 x.value x.text h0 hp
    refine ⟨hb, ha, w1, t1, w2, y, t0, e, hw1, hw2, et, hy, ?_⟩
    intro q st0 node0 hq
    have hlen := array_text_length w0 items x hx
    exact hrep k q st0 node0 (by simp; omega) hq
  cases items with
  | nil =>
    have a1 := tiny_parse_whitespace_append (ν := ν) w0 93 [0] [] hw0 (by decide)
    refine tiny_parse_finish L node _ _ 91 (w0 ++ [93] ++ [0]) (by decide) k ?_ ?_ ?_
    · simp [hk, array_text]
    · simp [array_text]
    · rw [parse_value_switch_cons]
      simp [tiny_parse_array, EXPECT, a1]
  | cons x rest =>
    obtain ⟨hxb, hxa, w1, t1, w2, y, t0, ext, hw1, hw2, et1, hy, hv1⟩ :=
      hconv x (List.mem_cons_self _ _)
    subst et1
    have hd0 : delimited [0] := ⟨0, [], rfl, by decide⟩
    have hy93 := (tiny_parse_value_head L k y _ _ _ _ _ (hv1 [0] [] .null hd0)).1
    have etxt : array_text w0 (x :: rest) ++ [0]
        = 91 :: (((w0 ++ x.before) ++ w1)
            ++ y :: (t0 ++ ((w2 ++ x.after) ++ (array_tail rest ++ [0])))) := by
      simp [array_text, element_text.padded, ext]
    have a1 := tiny_parse_whitespace_append (ν := ν) ((w0 ++ x.before) ++ w1) y
      (t0 ++ ((w2 ++ x.after) ++ (array_tail rest ++ [0]))) []
      (all_ws_append _ _ (all_ws_append _ _ hw0 hxb) hw1) hy
    have hfuel : rest.length + 1
        ≤ (y :: (t0 ++ ((w2 ++ x.after) ++ (array_tail rest ++ [0])))).length := by
      have := (array_tail_length rest).1
      simp
      omega
    have a3 := array_loop_run (tiny_parse_value L k) rest (y :: t0) (w2 ++ x.after) x.value
      [] [] [0] (tiny_init node) _ hv1 (all_ws_append _ _ hw2 hxa)
      (fun z hz => hconv z (List.mem_cons_of_mem _ hz)) hfuel
    simp only [List.map_nil, List.append_nil, List.length_nil, List.nil_append,
      List.cons_append, List.append_assoc, List.length_cons, List.length_append,
      List.length_singleton] at a3
    refine tiny_parse_finish L node _ _ 91 _ (by decide) k ?_ etxt ?_
    · rw [← etxt, hk]; simp
    · rw [parse_value_switch_cons]
      simp only [List.append_assoc] at a1
      simp [tiny_parse_array, EXPECT, a1, hy93, a3]

/-- C5, instantiated: the text `[ null,12 , [true]]` with the library instance
`demo_libc`. -/
theorem C5_array_elements_in_order_witness :
    ∃ out, tiny_parse demo_libc .null
        (array_text [32]
          [⟨[], [110, 117, 108, 108], [], .null⟩,
           ⟨[], [49, 50], [32], .number [49, 50]⟩,
           ⟨[32], [91, 116, 114, 117, 101, 93], [], .array [.jtrue] none⟩] ++ [0])
        = some (TINY_PARSE_OK, out)
      ∧ tiny_get_type out = TINY_ARRAY
      ∧ tiny_get_array_size out = some 3
      ∧ ∀ (i : Nat) (hi : i < 3),
          tiny_get_array_element out i
            = some (([⟨[], [110, 117, 108, 108], [], .null⟩,
                ⟨[], [49, 50], [32], .number [49, 50]⟩,
                ⟨[32], [91, 116, 114, 117, 101, 93], [], .array [.jtrue] none⟩] :
                List (element_text (List Nat))).get ⟨i, hi⟩).value :=
  C5_array_elements_in_order demo_libc demo_libc_reads_number .null [32] _ (by decide)
    (by
      intro x hx
      simp only [List.mem_cons, List.mem_singleton, List.not_mem_nil, or_false] at hx
      rcases hx with rfl | rfl | rfl
      · exact ⟨by decide, by decide, by decide, .null, rfl⟩
      · exact ⟨by decide, by decide, by decide, .null, rfl⟩
      · exact ⟨by decide, by decide, by decide, .null, rfl⟩)

/-! ### Running the object loop on an object text -/

theorem object_round_key_run (kt0 : List Nat) (key wk wv : List Nat) (x : Nat) (q : List Nat)
    (st : List (stack_item ν))
    (hk : ∀ (r : List Nat) (st0 : List (stack_item ν)),
      tiny_parse_string_raw { json := 34 :: kt0 ++ r, stack := st0 }
        = some (TINY_PARSE_OK, key, { json := r, stack := st0 }))
    (hwk : all_ws wk) (hwv : all_ws wv) (hx : is_ws x = false) :
    object_round_key { json := 34 :: kt0 ++ (wk ++ 58 :: (wv ++ x :: q)), stack := st }
      = some (TINY_PARSE_OK, key, { json := x :: q, stack := st }) := by
  have a1 := hk (wk ++ 58 :: (wv ++ x :: q)) st
  have a2 := tiny_parse_whitespace_append wk 58 (wv ++ x :: q) st hwk (by decide)
  have a3 := tiny_parse_whitespace_append wv x q st hwv hx
  simp only [List.cons_append] at a1
  simp [object_round_key, a1, a2, a3]

theorem object_round_end_comma (w1 w2 : List Nat) (x : Nat) (q : List Nat)
    (st : List (stack_item ν)) (size : Nat)
    (hw1 : all_ws w1) (hw2 : all_ws w2) (hx : is_ws x = false) :
    object_round_end { json := w1 ++ 44 :: (w2 ++ x :: q), stack := st } size
      = some (.next { json := x :: q, stack := st }) := by
  have a1 := tiny_parse_whitespace_append w1 44 (w2 ++ x :: q) st hw1 (by decide)
  have a2 := tiny_parse_whitespace_append w2 x q st hw2 hx
  simp [object_round_end, a1, a2]

theorem object_round_end_close (w : List Nat) (r : List Nat) (st : List (stack_item ν))
    (ms : List (tiny_member ν)) (hw : all_ws w) :
    object_round_end { json := w ++ 125 :: r, stack := st ++ ms.map .member } ms.length
      = some (.ret (TINY_PARSE_OK, .object ms none, { json := r, stack := st })) := by
  have a1 := tiny_parse_whitespace_append w 125 r (st ++ ms.map .member) hw (by decide)
  have hpop := tiny_context_pop_append r st (ms.map (stack_item.member (ν := ν)))
  simp only [List.length_map] at hpop
  simp [object_round_end, a1, hpop, stack_members_map_member]

theorem object_loop_run (pv : tiny_context ν → tiny_node ν → Option (parse_result ν)) :
    ∀ (rest : List (member_text ν)) (kt0 key wk wv : List Nat) (y : Nat) (t0 wb : List Nat)
      (v : tiny_node ν) (acc : List (tiny_member ν)) (st : List (stack_item ν))
      (r : List Nat) (node : tiny_node ν) (fuel : Nat),
      (∀ (q : List Nat) (st0 : List (stack_item ν)),
        tiny_parse_string_raw { json := 34 :: kt0 ++ q, stack := st0 }
          = some (TINY_PARSE_OK, key, { json := q, stack := st0 })) →
      all_ws wk → all_ws wv → is_ws y = false →
      (∀ (q : List Nat) (st0 : List (stack_item ν)) (node0 : tiny_node ν), delimited q →
        pv { json := y :: t0 ++ q, stack := st0 } node0
          = some (TINY_PARSE_OK, v, { json := q, stack := st0 })) →
      all_ws wb →
      (∀ x ∈ rest, all_ws x.before_key ∧ all_ws x.after_key ∧ all_ws x.before
        ∧ all_ws x.after ∧
        (∃ k0 kw, x.key_text = 34 :: k0 ++ kw ∧ all_ws kw ∧
          ∀ (q : List Nat) (st0 : List (stack_item ν)),
            tiny_parse_string_raw { json := 34 :: k0 ++ q, stack := st0 }
              = some (TINY_PARSE_OK, x.key, { json := q, stack := st0 })) ∧
        ∃ w1 w2 y1 t1, x.text = w1 ++ (y1 :: t1 ++ w2) ∧ all_ws w1 ∧ all_ws w2
          ∧ is_ws y1 = false ∧
          ∀ (q : List Nat) (st0 : List (stack_item ν)) (node0 : tiny_node ν), delimited q →
            pv { json := y1 :: t1 ++ q, stack := st0 } node0
              = some (TINY_PARSE_OK, x.value, { json := q, stack := st0 })) →
      rest.length + 1 ≤ fuel →
      object_loop pv fuel
          { json := 34 :: kt0 ++ (wk ++ 58 :: (wv ++ y :: (t0 ++ (wb ++ (object_tail rest ++ r))))),
            stack := st ++ acc.map .member }
          node acc.length
        = some (TINY_PARSE_OK,
            .object (acc ++ .mk key (some key.length) v :: rest.map (fun x => x.member)) none,
            { json := r, stack := st }) := by
  intro rest
  induction rest with
  | nil =>
    intro kt0 key wk wv y t0 wb v acc st r node fuel hk hwk hwv hy hv hwb _ hfuel
    obtain ⟨k, rfl⟩ : ∃ k, fuel = k + 1 := ⟨fuel - 1, by simp at hfuel; omega⟩
    obtain ⟨m, hm⟩ : ∃ m : tiny_member ν, m = tiny_member.mk key (some key.length) v :=
      ⟨_, rfl⟩
    have a0 := object_round_key_run kt0 key wk wv y (t0 ++ (wb ++ ([125] ++ r)))
      (st ++ acc.map .member) hk hwk hwv hy
    have hd : delimited (wb ++ ([125] ++ r)) := delimited_of_ws_append wb 125 _ hwb (by decide)
    have a1 : pv { json := y :: (t0 ++ (wb ++ ([125] ++ r))),
                   stack := st ++ acc.map .member } (tiny_init .null)
        = some (TINY_PARSE_OK, v, { json := wb ++ ([125] ++ r),
                                    stack := st ++ acc.map .member }) :=
      hv _ (st ++ acc.map stack_item.member) (tiny_init .null) hd
    have a2 := object_round_end_close wb r st (acc ++ [m]) hwb
    have hlen : acc.length + 1 = (acc ++ [m]).length := by simp
    have hpush : tiny_context_push
        { json := wb ++ ([125] ++ r), stack := st ++ acc.map .member } [.member m]
        = some { json := wb ++ 125 :: r, stack := st ++ (acc ++ [m]).map .member } := by
      simp [tiny_context_push]
    rw [object_loop]
    simp only [object_tail, a0, ne_eq, not_true_eq_false, if_false, a1, ← hm, hpush]
    rw [hlen, a2]
    simp
  | cons x rest ih =>
    intro kt0 key wk wv y t0 wb v acc st r node fuel hk hwk hwv hy hv hwb hrest hfuel
    obtain ⟨k, rfl⟩ : ∃ k, fuel = k + 1 := ⟨fuel - 1, by simp at hfuel; omega⟩
    obtain ⟨m, hm⟩ : ∃ m : tiny_member ν, m = tiny_member.mk key (some key.length) v :=
      ⟨_, rfl⟩
    obtain ⟨hxbk, hxak, hxb, hxa, ⟨k0, kw, ekt, hkw, hk1⟩, w1, w2, y1, t1, ext, hw1, hw2,
      hy1, hv1⟩ := hrest x (List.mem_cons_self _ _)
    have etxt : wb ++ (object_tail (x :: rest) ++ r)
        = wb ++ 44 :: (x.before_key ++ 34 :: (k0 ++ ((kw ++ x.after_key) ++ 58 ::
            ((x.before ++ w1) ++ y1 :: (t1 ++ ((w2 ++ x.after) ++ (object_tail rest ++ r)))))))
        := by
      simp [object_tail, member_text.padded, ext, ekt]
    have a0 := object_round_key_run kt0 key wk wv y
      (t0 ++ (wb ++ (object_tail (x :: rest) ++ r))) (st ++ acc.map .member) hk hwk hwv hy
    have hd : delimited (wb ++ (object_tail (x :: rest) ++ r)) := by
      rw [etxt]; exact delimited_of_ws_append wb 44 _ hwb (by decide)
    have a1 : pv { json := y :: (t0 ++ (wb ++ (object_tail (x :: rest) ++ r))),
                   stack := st ++ acc.map .member } (tiny_init .null)
        = some (TINY_PARSE_OK, v, { json := wb ++ (object_tail (x :: rest) ++ r),
                                    stack := st ++ acc.map .member }) :=
      hv _ (st ++ acc.map stack_item.member) (tiny_init .null) hd
    have hlen : acc.length + 1 = (acc ++ [m]).length := by simp
    have a2 := object_round_end_comma wb x.before_key 34
      (k0 ++ ((kw ++ x.after_key) ++ 58 ::
        ((x.before ++ w1) ++ y1 :: (t1 ++ ((w2 ++ x.after) ++ (object_tail rest ++ r))))))
      (st ++ (acc ++ [m]).map .member) (acc ++ [m]).length hwb hxbk (by decide)
    have hpush : tiny_context_push
        { json := wb ++ (object_tail (x :: rest) ++ r), stack := st ++ acc.map .member }
        [.member m]
        = some { json := wb ++ (object_tail (x :: rest) ++ r),
                 stack := st ++ (acc ++ [m]).map .member } := by
      simp [tiny_context_push]
    have a3 := ih k0 x.key (kw ++ x.after_key) (x.before ++ w1) y1 t1 (w2 ++ x.after) x.value
      (acc ++ [m]) st r node k hk1 (all_ws_append _ _ hkw hxak) (all_ws_append _ _ hxb hw1)
      hy1 hv1 (all_ws_append _ _ hw2 hxa)
      (fun z hz => hrest z (List.mem_cons_of_mem _ hz)) (by simp at hfuel; omega)
    rw [object_loop]
    simp only [a0, ne_eq, not_true_eq_false, if_false, a1, ← hm, hpush]
    rw [hlen, etxt, a2]
    simp only [List.cons_append, List.append_assoc] at a3
    simpa [member_text.member, hm] using a3

theorem key_literal_inv (L : libc ν) (hL : strtod_reads_number L) (n0 : tiny_node ν)
    (kt key : List Nat) (h0 : 0 ∉ kt) (hq : ∃ k0, kt = 34 :: k0)
    (h : tiny_parse L n0 (kt ++ [0]) = some (TINY_PARSE_OK, .string key)) :
    ∃ k0 kw, kt = 34 :: k0 ++ kw ∧ all_ws kw ∧
      ∀ (q : List Nat) (st0 : List (stack_item ν)),
        tiny_parse_string_raw { json := 34 :: k0 ++ q, stack := st0 }
          = some (TINY_PARSE_OK, key, { json := q, stack := st0 }) := by
  obtain ⟨w1, t, w2, x, t0, e, hw1, hw2, et, hx, hpv, _⟩ :=
    tiny_parse_ok_inv L hL n0 _ kt h0 h
  subst et
  obtain ⟨k0, ek⟩ := hq
  cases w1 with
  | cons b w =>
    rw [ek] at e
    simp only [List.cons_append, List.cons.injEq] at e
    have := hw1 b (List.mem_cons_self _ _)
    rw [← e.1] at this
    exact absurd this (by decide)
  | nil =>
    simp only [List.nil_append] at e
    have ex : x = 34 := by
      rw [ek] at e
      simp only [List.cons_append, List.cons.injEq] at e
      exact e.1.symm
    subst ex
    obtain ⟨k, hk⟩ : ∃ k, (kt ++ [0]).length = k + 1 := ⟨kt.length, by simp⟩
    rw [hk, tiny_parse_value, List.cons_append, parse_value_switch_cons] at hpv
    simp only [show ¬ (34 : Nat) = 110 by decide, show ¬ (34 : Nat) = 116 by decide,
      show ¬ (34 : Nat) = 102 by decide, if_false, if_true] at hpv
    unfold tiny_parse_string at hpv
    rcases hr : tiny_parse_string_raw
        ({ json := 34 :: (t0 ++ (w2 ++ [0])), stack := [] } : tiny_context ν)
      with _ | ⟨ret, s, c2⟩
    · simp [hr] at hpv
    simp only [hr] at hpv
    by_cases hret : ret = TINY_PARSE_OK
    swap
    · simp [hret] at hpv
    subst hret
    simp only [if_true, tiny_set_string, List.take_length, Option.some.injEq, Prod.mk.injEq,
      tiny_node.string.injEq, true_and] at hpv
    obtain ⟨rfl, rfl⟩ := hpv
    obtain ⟨t1, _, e1, _, hrep⟩ := tiny_parse_string_raw_frame _ _ _ _ hr
    simp only at e1
    have e2 : 34 :: t0 = t1 := by
      have : (34 :: t0) ++ (w2 ++ [0]) = t1 ++ (w2 ++ [0]) := by simpa using e1
      exact List.append_cancel_right this
    subst e2
    exact ⟨t0, w2, e, hw2, fun q st0 => hrep q st0⟩

theorem object_tail_length (rest : List (member_text ν)) :
    rest.length + 1 ≤ (object_tail rest).length
    ∧ ∀ x ∈ rest, x.text.length + 2 ≤ (object_tail rest).length := by
  induction rest with
  | nil => simp [object_tail]
  | cons y rest ih =>
    refine ⟨by simp [object_tail]; omega, ?_⟩
    intro x hx
    rcases List.mem_cons.1 hx with rfl | hx
    · have := ih.1
      simp [object_tail, member_text.padded]
      omega
    · have := ih.2 x hx
      simp [object_tail]
      omega

theorem object_text_length (w0 : List Nat) (items : List (member_text ν)) :
    ∀ x ∈ items, x.text.length + 1 ≤ (object_text w0 items).length := by
  intro x hx
  cases items with
  | nil => cases hx
  | cons y rest =>
    rcases List.mem_cons.1 hx with rfl | hx
    · simp [object_text, member_text.padded]
      omega
    · have := (object_tail_length rest).2 x hx
      simp [object_text]
      omega

/-- C6: let `k1 .. kn` be texts without NUL that start with a quote and that `tiny_parse`
reads as the strings `key1 .. keyn`, and let `e1 .. en` be texts without NUL that
`tiny_parse` reads as the values `v1 .. vn`. Then for every choice of whitespace around
the tokens, `tiny_parse` of the object text returns `TINY_PARSE_OK` with an object node of
exactly `n` members, where member `i` has the key bytes `keyi`, the key length of `keyi`
and the value `vi`, in the order of the text; nothing is asked of the keys, so members
with equal keys stay separate members. The assumption on `strtod` is that, on a number
followed by a delimiter, its result depends on the text of the number only. -/
theorem C6_object_members_in_order (L : libc ν) (hL : strtod_reads_number L)
    (node : tiny_node ν) (w0 : List Nat) (items : List (member_text ν)) (hw0 : all_ws w0)
    (hitems : ∀ x ∈ items, all_ws x.before_key ∧ all_ws x.after_key ∧ all_ws x.before
      ∧ all_ws x.after ∧ 0 ∉ x.key_text ∧ 0 ∉ x.text ∧ (∃ k0, x.key_text = 34 :: k0)
      ∧ (∃ n0, tiny_parse L n0 (x.key_text ++ [0]) = some (TINY_PARSE_OK, .string x.key))
      ∧ ∃ n0, tiny_parse L n0 (x.text ++ [0]) = some (TINY_PARSE_OK, x.value)) :
    ∃ out, tiny_parse L node (object_text w0 items ++ [0]) = some (TINY_PARSE_OK, out)
      ∧ tiny_get_type out = TINY_OBJECT
      ∧ tiny_get_object_size out = some items.length
      ∧ ∀ (i : Nat) (hi : i < items.length),
          tiny_get_object_key out i = some (items.get ⟨i, hi⟩).key
          ∧ tiny_get_object_key_length out i = some (items.get ⟨i, hi⟩).key.length
          ∧ tiny_get_object_value out i = some (items.get ⟨i, hi⟩).value := by
  refine ⟨.object (items.map fun x => x.member) none, ?_, rfl,
    by simp [tiny_get_object_size],
    fun i hi => by
      simp [tiny_get_object_key, tiny_get_object_key_length, tiny_get_object_value, hi,
        member_text.member]⟩
  obtain ⟨k, hk⟩ : ∃ k, k = (object_text w0 items).length := ⟨_, rfl⟩
  have hconv : ∀ x ∈ items, all_ws x.before_key ∧ all_ws x.after_key ∧ all_ws x.before
      ∧ all_ws x.after ∧
      (∃ k0 kw, x.key_text = 34 :: k0 ++ kw ∧ all_ws kw ∧
        ∀ (q : List Nat) (st0 : List (stack_item ν)),
          tiny_parse_string_raw { json := 34 :: k0 ++ q, stack := st0 }
            = some (TINY_PARSE_OK, x.key, { json := q, stack := st0 })) ∧
      ∃ w1 w2 y1 t1, x.text = w1 ++ (y1 :: t1 ++ w2) ∧ all_ws w1 ∧ all_ws w2
        ∧ is_ws y1 = false ∧
        ∀ (q : List Nat) (st0 : List (stack_item ν)) (node0 : tiny_node ν), delimited q →
          tiny_parse_value L k { json := y1 :: t1 ++ q, stack := st0 } node0
            = some (TINY_PARSE_OK, x.value, { json := q, stack := st0 }) := by
    intro x hx
    obtain ⟨hbk, hak, hb, ha, h0k, h0, hq, ⟨n1, hpk⟩, n0, hp⟩ := hitems x hx
    obtain ⟨w1, t1, w2, y, t0, e, hw1, hw2, et, hy, _, hrep⟩ :=
      tiny_parse_ok_inv L hL n0 x.value x.text h0 hp
    subst et
    refine ⟨hbk, hak, hb, ha, key_literal_inv L hL n1 _ _ h0k hq hpk,
      w1, w2, y, t0, e, hw1, hw2, hy, ?_⟩
    intro q st0 node0 hq
    have hlen := object_text_length w0 items x hx
    exact hrep k q st0 node0 (by simp; omega) hq
  cases items with
  | nil =>
    have a1 := tiny_parse_whitespace_append (ν := ν) w0 125 [0] [] hw0 (by decide)
    refine tiny_parse_finish L node _ _ 123 (w0 ++ [125] ++ [0]) (by decide) k ?_ ?_ ?_
    · simp [hk, object_text]
    · simp [object_text]
    · rw [parse_value_switch_cons]
      simp [tiny_parse_object, EXPECT, a1]
  | cons x rest =>
    obtain ⟨hxbk, hxak, hxb, hxa, ⟨k0, kw, ekt, hkw, hk1⟩, w1, w2, y1, t1, ext, hw1, hw2,
      hy1, hv1⟩ := hconv x (List.mem_cons_self _ _)
    have etxt : object_text w0 (x :: rest) ++ [0]
        = 123 :: ((w0 ++ x.before_key) ++ 34 :: (k0 ++ ((kw ++ x.after_key) ++ 58 ::
            ((x.before ++ w1) ++ y1 :: (t1 ++ ((w2 ++ x.after)
              ++ (object_tail rest ++ [0]))))))) := by
      simp [object_text, member_text.padded, ext, ekt]
    have a1 := tiny_parse_whitespace_append (ν := ν) (w0 ++ x.before_key) 34
      (k0 ++ ((kw ++ x.after_key) ++ 58 ::
        ((x.before ++ w1) ++ y1 :: (t1 ++ ((w2 ++ x.after) ++ (object_tail rest ++ [0]))))))
      [] (all_ws_append _ _ hw0 hxbk) (by decide)
    have hfuel : rest.length + 1
        ≤ (34 :: (k0 ++ ((kw ++ x.after_key) ++ 58 ::
            ((x.before ++ w1) ++ y1 :: (t1 ++ ((w2 ++ x.after)
              ++ (object_tail rest ++ [0]))))))).length := by
      have := (object_tail_length rest).1
      simp
      omega
    have a3 := object_loop_run (tiny_parse_value L k) rest k0 x.key (kw ++ x.after_key)
      (x.before ++ w1) y1 t1 (w2 ++ x.after) x.value [] [] [0] (tiny_init node) _ hk1
      (all_ws_append _ _ hkw hxak) (all_ws_append _ _ hxb hw1) hy1 hv1
      (all_ws_append _ _ hw2 hxa) (fun z hz => hconv z (List.mem_cons_of_mem _ hz)) hfuel
    simp only [List.map_nil, List.append_nil, List.length_nil, List.nil_append,
      List.cons_append, List.append_assoc, List.length_cons, List.length_append,
      List.length_singleton] at a3
    refine tiny_parse_finish L node _ _ 123 _ (by decide) k ?_ etxt ?_
    · rw [← etxt, hk]; simp
    · rw [parse_value_switch_cons]
      simp only [List.append_assoc] at a1
      simp [tiny_parse_object, EXPECT, a1, a3, member_text.member]

/-- C6, instantiated: the text `{ "a" : 1, "a":null }`, in which the key `a` occurs
twice, with the library instance `demo_libc`. -/
theorem C6_object_members_in_order_witness :
    ∃ out, tiny_parse demo_libc .null
        (object_text [32]
          [⟨[], [34, 97, 34], [32], [32], [49], [], [97], .number [49]⟩,
           ⟨[32], [34, 97, 34], [], [], [110, 117, 108, 108], [32], [97], .null⟩] ++ [0])
        = some (TINY_PARSE_OK, out)
      ∧ tiny_get_type out = TINY_OBJECT
      ∧ tiny_get_object_size out = some 2
      ∧ ∀ (i : Nat) (hi : i < 2),
          tiny_get_object_key out i
            = some (([⟨[], [34, 97, 34], [32], [32], [49], [], [97], .number [49]⟩,
                ⟨[32], [34, 97, 34], [], [], [110, 117, 108, 108], [32], [97], .null⟩] :
                List (member_text (List Nat))).get ⟨i, hi⟩).key
          ∧ tiny_get_object_key_length out i
            = some (([⟨[], [34, 97, 34], [32], [32], [49], [], [97], .number [49]⟩,
                ⟨[32], [34, 97, 34], [], [], [110, 117, 108, 108], [32], [97], .null⟩] :
                List (member_text (List Nat))).get ⟨i, hi⟩).key.length
          ∧ tiny_get_object_value out i
            = some (([⟨[], [34, 97, 34], [32], [32], [49], [], [97], .number [49]⟩,
                ⟨[32], [34, 97, 34], [], [], [110, 117, 108, 108], [32], [97], .null⟩] :
                List (member_text (List Nat))).get ⟨i, hi⟩).value :=
  C6_object_members_in_order demo_libc demo_libc_reads_number .null [32] _ (by decide)
    (by
      intro x hx
      simp only [List.mem_cons, List.mem_singleton, List.not_mem_nil, or_false] at hx
      rcases hx with rfl | rfl
      · exact ⟨by decide, by decide, by decide, by decide, by decide, by decide, ⟨_, rfl⟩,
          ⟨.null, rfl⟩, .null, rfl⟩
      · exact ⟨by decide, by decide, by decide, by decide, by decide, by decide, ⟨_, rfl⟩,
          ⟨.null, rfl⟩, .null, rfl⟩)

/-! ### The array API -/

/-- C11 (the code departs from the claim): on the array `[true, false]` of size 2,
`tiny_erase_array_element(node, 1, 1)` frees the slot at index 1 and then sets the size to
`index + num + 1 = 2`, so the array is `[true, null]` of size 2 where the claim has
`[true]` of size 1; and with count 0 at index 1, on the same array with one spare slot, the
size becomes 3 where the claim has it unchanged. -/
theorem C11_erase_sets_size_one_too_large :
    tiny_erase_array_element (ν := ν) ⟨[some .jtrue, some .jfalse], 2, some 2⟩ 1 1
        = some ⟨[some .jtrue, some .null], 2, some 2⟩
    ∧ tiny_array.node (ν := ν) ⟨[some .jtrue, some .null], 2, some 2⟩
        = some (.array [.jtrue, .null] (some 2))
    ∧ tiny_get_array_size (.array [.jtrue, .null] (some 2) : tiny_node ν) = some 2
    ∧ tiny_erase_array_element (ν := ν) ⟨[some .jtrue, some .jfalse, none], 2, some 3⟩ 1 0
        = some ⟨[some .jtrue, some .jfalse, none], 3, some 3⟩ :=
  ⟨rfl, rfl, rfl, rfl⟩

/-- C12 (the code departs from the claim): on the array `[true, false]` of size 2,
`tiny_insert_array_element(node, 1)` returns the slot at index 0, not the slot at index 1;
the array has size 3, the old element 0 (`true`) now sits at index 1, and the slot at
index 0 holds a node of type `TINY_ARRAY` (the copy of the header). With index 0 the loop
reaches the slot before the buffer and the call has no defined outcome. -/
theorem C12_insert_shifts_one_slot_too_many :
    (∃ a slot, tiny_insert_array_element (ν := ν) ⟨[some .jtrue, some .jfalse], 2, some 2⟩ 1
        = some (a, slot)
      ∧ slot = 0 ∧ a.size = 3
      ∧ (a.e[0]?.bind id).map tiny_get_type = some TINY_ARRAY
      ∧ a.e[1]? = some (some .jtrue) ∧ a.e[2]? = some (some .jfalse))
    ∧ tiny_insert_array_element (ν := ν) ⟨[some .jtrue, some .jfalse], 2, some 2⟩ 0 = none :=
  ⟨⟨_, _, rfl, rfl, rfl, rfl, rfl, rfl⟩, rfl⟩

/-- C13 (the code departs from the claim): on the array `[true, false]` of size 2 and
capacity 2, `tiny_clear_array` frees both slots and leaves the size at 1, not 0; the
capacity is still 2. -/
theorem C13_clear_leaves_size_one :
    tiny_clear_array (ν := ν) ⟨[some .jtrue, some .jfalse], 2, some 2⟩
        = some ⟨[some .null, some .null], 1, some 2⟩
    ∧ tiny_array.node (ν := ν) ⟨[some .null, some .null], 1, some 2⟩
        = some (.array [.null] (some 2))
    ∧ tiny_get_array_size (.array [.null] (some 2) : tiny_node ν) = some 1
    ∧ tiny_get_array_capacity (.array [.null] (some 2) : tiny_node ν) = some 2 :=
  ⟨rfl, rfl, rfl, rfl⟩

theorem and_63 (x : Nat) : x &&& 0x3F = x % 64 := Nat.and_pow_two_sub_one_eq_mod x 6

theorem and_255 (x : Nat) : x &&& 0xFF = x % 256 := Nat.and_pow_two_sub_one_eq_mod x 8

theorem or_128 (y : Nat) (h : y < 64) : 0x80 ||| y = 0x80 + y :=
  (Nat.mul_add_lt_is_or (i := 6) h 2).symm

theorem or_192 (y : Nat) (h : y < 64) : 0xC0 ||| y = 0xC0 + y :=
  (Nat.mul_add_lt_is_or (i := 6) h 3).symm

theorem or_224 (y : Nat) (h : y < 32) : 0xE0 ||| y = 0xE0 + y :=
  (Nat.mul_add_lt_is_or (i := 5) h 7).symm

theorem or_240 (y : Nat) (h : y < 16) : 0xF0 ||| y = 0xF0 + y :=
  (Nat.mul_add_lt_is_or (i := 4) h 15).symm

theorem shift4_or (u d : Nat) (h : d < 16) : u <<< 4 ||| d = 16 * u + d := by
  rw [Nat.shiftLeft_eq, Nat.mul_comm]
  exact (Nat.mul_add_lt_is_or (i := 4) h u).symm

theorem shift10_or (a b : Nat) (h : b < 1024) : a <<< 10 ||| b = 1024 * a + b := by
  rw [Nat.shiftLeft_eq, Nat.mul_comm]
  exact (Nat.mul_add_lt_is_or (i := 10) h a).symm

theorem shr_6 (u : Nat) : u >>> 6 = u / 64 := Nat.shiftRight_eq_div_pow u 6

theorem shr_12 (u : Nat) : u >>> 12 = u / 4096 := Nat.shiftRight_eq_div_pow u 12

theorem shr_18 (u : Nat) : u >>> 18 = u / 262144 := Nat.shiftRight_eq_div_pow u 18

theorem continuation_byte (x : Nat) : (0x80 ||| (x &&& 0x3F)) % 256 = 0x80 + x % 64 := by
  rw [and_63, or_128 _ (Nat.mod_lt _ (by norm_num))]
  omega

theorem lead_byte_1 (u : Nat) (h : u ≤ 0x7F) : (u &&& 0xFF) % 256 = u := by
  rw [and_255]
  omega

theorem lead_byte_2 (u : Nat) (h : u ≤ 0x7FF) :
    (0xC0 ||| ((u >>> 6) &&& 0xFF)) % 256 = 0xC0 + u / 64 := by
  rw [shr_6, and_255, Nat.mod_eq_of_lt (show u / 64 < 256 by omega), or_192 _ (by omega)]
  omega

theorem lead_byte_3 (u : Nat) (h : u ≤ 0xFFFF) :
    (0xE0 ||| ((u >>> 12) &&& 0xFF)) % 256 = 0xE0 + u / 4096 := by
  rw [shr_12, and_255, Nat.mod_eq_of_lt (show u / 4096 < 256 by omega), or_224 _ (by omega)]
  omega

theorem lead_byte_4 (u : Nat) (h : u ≤ 0x10FFFF) :
    (0xF0 ||| ((u >>> 18) &&& 0xFF)) % 256 = 0xF0 + u / 262144 := by
  rw [shr_18, and_255, Nat.mod_eq_of_lt (show u / 262144 < 256 by omega),
    or_240 _ (by omega)]
  omega

theorem tiny_encode_utf8_spec (c : tiny_context ν) (u : Nat) (hu : u ≤ 0x10FFFF) :
    tiny_encode_utf8 c u = some { c with stack := c.stack ++ (spec_utf8 u).map .byte } := by
  unfold tiny_encode_utf8 spec_utf8
  by_cases h1 : u ≤ 0x7F
  · rw [if_pos h1, if_pos h1, lead_byte_1 u h1]
    simp [PUTC]
  · rw [if_neg h1, if_neg h1]
    by_cases h2 : u ≤ 0x7FF
    · rw [if_pos h2, if_pos h2, lead_byte_2 u h2, continuation_byte]
      simp [PUTC]
    · rw [if_neg h2, if_neg h2]
      by_cases h3 : u ≤ 0xFFFF
      · rw [if_pos h3, if_pos h3, lead_byte_3 u h3, continuation_byte, continuation_byte,
          shr_6]
        simp [PUTC]
      · rw [if_neg h3, if_neg h3, if_pos hu, lead_byte_4 u hu, continuation_byte,
          continuation_byte, continuation_byte, shr_6, shr_12]
        simp [PUTC]

theorem is_continuation_iff (x : Nat) : is_continuation (0x80 + x % 64) = true := by
  simp only [is_continuation, Bool.and_eq_true, decide_eq_true_eq]
  omega

theorem spec_utf8_payload_encode (u : Nat) (hu : u ≤ 0x10FFFF) :
    spec_utf8_payload (spec_utf8 u) = some u := by
  unfold spec_utf8
  by_cases h1 : u ≤ 0x7F
  · have hc : u < 0x80 := by omega
    rw [if_pos h1]
    simp only [spec_utf8_payload]
    rw [if_pos hc]
  · rw [if_neg h1]
    by_cases h2 : u ≤ 0x7FF
    · have hc : 0xC0 ≤ 0xC0 + u / 64 ∧ 0xC0 + u / 64 < 0xE0
          ∧ is_continuation (0x80 + u % 64) = true :=
        ⟨by omega, by omega, is_continuation_iff u⟩
      rw [if_pos h2]
      simp only [spec_utf8_payload]
      rw [if_pos hc]
      exact congrArg some (by omega)
    · rw [if_neg h2]
      by_cases h3 : u ≤ 0xFFFF
      · have hc : 0xE0 ≤ 0xE0 + u / 4096 ∧ 0xE0 + u / 4096 < 0xF0
            ∧ is_continuation (0x80 + u / 64 % 64) = true
            ∧ is_continuation (0x80 + u % 64) = true :=
          ⟨by omega, by omega, is_continuation_iff _, is_continuation_iff u⟩
        rw [if_pos h3]
        simp only [spec_utf8_payload]
        rw [if_pos hc]
        exact congrArg some (by omega)
      · have hc : 0xF0 ≤ 0xF0 + u / 262144 ∧ 0xF0 + u / 262144 < 0xF8
            ∧ is_continuation (0x80 + u / 4096 % 64) = true
            ∧ is_continuation (0x80 + u / 64 % 64) = true
            ∧ is_continuation (0x80 + u % 64) = true :=
          ⟨by omega, by omega, is_continuation_iff _, is_continuation_iff _,
            is_continuation_iff u⟩
        rw [if_neg h3]
        simp only [spec_utf8_payload]
        rw [if_pos hc]
        exact congrArg some (by omega)

theorem spec_utf8_length (u : Nat) :
    (spec_utf8 u).length
      = if u ≤ 0x7F then 1 else if u ≤ 0x7FF then 2 else if u ≤ 0xFFFF then 3 else 4 := by
  unfold spec_utf8
  split_ifs <;> rfl

theorem hex_value_lt (ch d : Nat) (h : hex_value ch = some d) : d < 16 := by
  unfold hex_value at h
  split_ifs at h <;> simp at h <;> omega

theorem hex_value_ne_zero (d : Nat) (h : hex_value 0 = some d) : False := by
  simp [hex_value] at h

theorem hex4_loop_succ (i ch : Nat) (p : List Nat) (u : Nat) :
    hex4_loop (i + 1) (ch :: p) u
      = match hex_value ch with
        | some d => hex4_loop i p (16 * u + d)
        | none => some none := by
  unfold hex_value
  by_cases h1 : 48 ≤ ch ∧ ch ≤ 57
  · rw [if_pos h1]
    simp only [hex4_loop, if_pos h1]
    rw [shift4_or u (ch - 48) (by omega)]
  · rw [if_neg h1]
    by_cases h2 : 65 ≤ ch ∧ ch ≤ 70
    · rw [if_pos h2]
      simp only [hex4_loop, if_neg h1, if_pos h2]
      rw [shift4_or u (ch - (65 - 10)) (by omega)]
      have : ch - (65 - 10) = ch - 65 + 10 := by omega
      rw [this]
    · rw [if_neg h2]
      by_cases h3 : 97 ≤ ch ∧ ch ≤ 102
      · rw [if_pos h3]
        simp only [hex4_loop, if_neg h1, if_neg h2, if_pos h3]
        rw [shift4_or u (ch - (97 - 10)) (by omega)]
        have : ch - (97 - 10) = ch - 97 + 10 := by omega
        rw [this]
      · rw [if_neg h3]
        simp only [hex4_loop, if_neg h1, if_neg h2, if_neg h3]

theorem hex4_loop_zero (p : List Nat) (u : Nat) : hex4_loop 0 p u = some (some (p, u)) := rfl

theorem hex4_loop_some (i ch d : Nat) (p : List Nat) (u : Nat) (h : hex_value ch = some d) :
    hex4_loop (i + 1) (ch :: p) u = hex4_loop i p (16 * u + d) := by
  rw [hex4_loop_succ, h]

theorem hex4_loop_none (i ch : Nat) (p : List Nat) (u : Nat) (h : hex_value ch = none) :
    hex4_loop (i + 1) (ch :: p) u = some none := by
  rw [hex4_loop_succ, h]

theorem tiny_parse_hex4_cons (d1 d2 d3 d4 : Nat) (rest : List Nat) :
    tiny_parse_hex4 (d1 :: d2 :: d3 :: d4 :: rest)
      = some (spec_hex4 (d1 :: d2 :: d3 :: d4 :: rest)) := by
  show hex4_loop (3 + 1) (d1 :: d2 :: d3 :: d4 :: rest) 0
    = some ((hex4_value d1 d2 d3 d4).map fun u => (rest, u))
  unfold hex4_value
  rcases h1 : hex_value d1 with _ | a
  · rw [hex4_loop_none _ _ _ _ h1]; rfl
  rw [hex4_loop_some _ _ _ _ _ h1]
  rcases h2 : hex_value d2 with _ | b
  · rw [hex4_loop_none _ _ _ _ h2]; rfl
  rw [hex4_loop_some _ _ _ _ _ h2]
  rcases h3 : hex_value d3 with _ | c
  · rw [hex4_loop_none _ _ _ _ h3]; rfl
  rw [hex4_loop_some _ _ _ _ _ h3]
  rcases h4 : hex_value d4 with _ | d
  · rw [hex4_loop_none _ _ _ _ h4]; rfl
  rw [hex4_loop_some _ _ _ _ _ h4, hex4_loop_zero]
  have : 16 * (16 * (16 * (16 * 0 + a) + b) + c) + d = 4096 * a + 256 * b + 16 * c + d := by
    ring
  rw [this]
  rfl

theorem tiny_parse_hex4_spec (p : List Nat) (hp : 0 ∈ p) :
    tiny_parse_hex4 p = some (spec_hex4 p) := by
  match p, hp with
  | [], hp => simp at hp
  | [a], hp =>
    simp only [List.mem_singleton] at hp
    subst hp
    rfl
  | [a, b], hp =>
    show hex4_loop (3 + 1) [a, b] 0 = some none
    rcases h1 : hex_value a with _ | x
    · rw [hex4_loop_none _ _ _ _ h1]
    rw [hex4_loop_some _ _ _ _ _ h1]
    rcases h2 : hex_value b with _ | y
    · rw [hex4_loop_none _ _ _ _ h2]
    exfalso
    simp only [List.mem_cons, List.mem_singleton, List.not_mem_nil, or_false] at hp
    rcases hp with rfl | rfl
    · exact hex_value_ne_zero _ h1
    · exact hex_value_ne_zero _ h2
  | [a, b, c], hp =>
    show hex4_loop (3 + 1) [a, b, c] 0 = some none
    rcases h1 : hex_value a with _ | x
    · rw [hex4_loop_none _ _ _ _ h1]
    rw [hex4_loop_some _ _ _ _ _ h1]
    rcases h2 : hex_value b with _ | y
    · rw [hex4_loop_none _ _ _ _ h2]
    rw [hex4_loop_some _ _ _ _ _ h2]
    rcases h3 : hex_value c with _ | z
    · rw [hex4_loop_none _ _ _ _ h3]
    exfalso
    simp only [List.mem_cons, List.mem_singleton, List.not_mem_nil, or_false] at hp
    rcases hp with rfl | rfl | rfl
    · exact hex_value_ne_zero _ h1
    · exact hex_value_ne_zero _ h2
    · exact hex_value_ne_zero _ h3
  | a :: b :: c :: d :: rest, _ => exact tiny_parse_hex4_cons a b c d rest

theorem hex4_value_some (d1 d2 d3 d4 u : Nat) (h : hex4_value d1 d2 d3 d4 = some u) :
    ∃ a b c d, hex_value d1 = some a ∧ hex_value d2 = some b ∧ hex_value d3 = some c
      ∧ hex_value d4 = some d ∧ u = 4096 * a + 256 * b + 16 * c + d := by
  unfold hex4_value at h
  rcases h1 : hex_value d1 with _ | a
  · simp [h1] at h
  rcases h2 : hex_value d2 with _ | b
  · simp [h1, h2] at h
  rcases h3 : hex_value d3 with _ | c
  · simp [h1, h2, h3] at h
  rcases h4 : hex_value d4 with _ | d
  · simp [h1, h2, h3, h4] at h
  simp only [h1, h2, h3, h4, Option.some.injEq] at h
  exact ⟨a, b, c, d, rfl, rfl, rfl, rfl, h.symm⟩

theorem hex4_value_lt (d1 d2 d3 d4 u : Nat) (h : hex4_value d1 d2 d3 d4 = some u) :
    u < 65536 := by
  obtain ⟨a, b, c, d, h1, h2, h3, h4, e⟩ := hex4_value_some d1 d2 d3 d4 u h
  have := hex_value_lt _ _ h1
  have := hex_value_lt _ _ h2
  have := hex_value_lt _ _ h3
  have := hex_value_lt _ _ h4
  omega

/-! ### Running the string loop over a valid body -/

theorem simple_escape_eq_spec (e : Nat) : simple_escape e = spec_escape e := rfl

theorem spec_surrogate_pair_le (hi lo : Nat) (hhi : 0xD800 ≤ hi ∧ hi ≤ 0xDBFF)
    (hlo : 0xDC00 ≤ lo ∧ lo ≤ 0xDFFF) :
    0x10000 ≤ spec_surrogate_pair hi lo ∧ spec_surrogate_pair hi lo ≤ 0x10FFFF := by
  unfold spec_surrogate_pair
  omega

theorem surrogate_combine (hi lo : Nat) (hlo : 0xDC00 ≤ lo ∧ lo ≤ 0xDFFF) :
    (((hi - 0xD800) <<< 10) ||| (lo - 0xDC00)) + 0x10000 = spec_surrogate_pair hi lo := by
  rw [shift10_or _ _ (by omega)]
  unfold spec_surrogate_pair
  omega

theorem string_escape_u_unicode (head d1 d2 d3 d4 u : Nat) (r : List Nat)
    (c : tiny_context ν) (h : hex4_value d1 d2 d3 d4 = some u)
    (hu : ¬ (0xD800 ≤ u ∧ u ≤ 0xDBFF)) :
    string_escape_u head (d1 :: d2 :: d3 :: d4 :: r) c
      = some (.next r { c with stack := c.stack ++ (spec_utf8 u).map .byte }) := by
  have hlt := hex4_value_lt _ _ _ _ _ h
  have e1 : tiny_parse_hex4 (d1 :: d2 :: d3 :: d4 :: r) = some (some (r, u)) := by
    rw [tiny_parse_hex4_cons]
    simp [spec_hex4, h]
  simp only [string_escape_u, e1, if_neg hu, tiny_encode_utf8_spec c u (by omega),
    Option.map_some']

theorem string_escape_u_pair (head d1 d2 d3 d4 e1 e2 e3 e4 hi lo : Nat) (r : List Nat)
    (c : tiny_context ν) (h1 : hex4_value d1 d2 d3 d4 = some hi)
    (hhi : 0xD800 ≤ hi ∧ hi ≤ 0xDBFF) (h2 : hex4_value e1 e2 e3 e4 = some lo)
    (hlo : 0xDC00 ≤ lo ∧ lo ≤ 0xDFFF) :
    string_escape_u head (d1 :: d2 :: d3 :: d4 :: 92 :: 117 :: e1 :: e2 :: e3 :: e4 :: r) c
      = some (.next r
          { c with stack := c.stack ++ (spec_utf8 (spec_surrogate_pair hi lo)).map .byte }) := by
  have a1 : tiny_parse_hex4 (d1 :: d2 :: d3 :: d4 :: 92 :: 117 :: e1 :: e2 :: e3 :: e4 :: r)
      = some (some (92 :: 117 :: e1 :: e2 :: e3 :: e4 :: r, hi)) := by
    rw [tiny_parse_hex4_cons]
    simp [spec_hex4, h1]
  have a2 : tiny_parse_hex4 (e1 :: e2 :: e3 :: e4 :: r) = some (some (r, lo)) := by
    rw [tiny_parse_hex4_cons]
    simp [spec_hex4, h2]
  have a3 : ¬ (lo < 0xDC00 ∨ lo > 0xDFFF) := by omega
  have a4 := (spec_surrogate_pair_le hi lo hhi hlo).2
  simp only [string_escape_u, a1, if_pos hhi, ne_eq, not_true_eq_false, if_false, a2,
    if_neg a3, surrogate_combine hi lo hlo, tiny_encode_utf8_spec c _ a4, Option.map_some']

theorem string_item_ne_nil (t bs : List Nat) (h : string_item t bs) : 1 ≤ t.length := by
  cases h <;> simp

theorem string_item_step (t bs : List Nat) (h : string_item t bs) (head : Nat)
    (r : List Nat) (c : tiny_context ν) :
    string_step head (t ++ r) c
      = some (.next r { c with stack := c.stack ++ bs.map .byte }) := by
  cases h with
  | plain ch h1 h2 h3 =>
    have h4 : ch ≠ 0 := by omega
    have h5 : ¬ ch < 0x20 := by omega
    simp only [List.singleton_append, string_step_cons, if_neg h2, if_neg h3, if_neg h4,
      if_neg h5, PUTC, List.map_cons, List.map_nil]
  | escape e b h =>
    rw [← simple_escape_eq_spec] at h
    simp only [List.cons_append, List.nil_append, string_step_cons, h, PUTC, List.map_cons,
      List.map_nil]
    simp
  | unicode d1 d2 d3 d4 u h hu =>
    have e1 : simple_escape 117 = none := rfl
    simp only [List.cons_append, List.nil_append, string_step_cons, e1, if_true]
    simp only [show ¬ ((92 : Nat) = 34) by decide, if_false]
    exact string_escape_u_unicode head d1 d2 d3 d4 u r c h hu
  | pair d1 d2 d3 d4 e1 e2 e3 e4 hi lo h1 hhi h2 hlo =>
    have e0 : simple_escape 117 = none := rfl
    simp only [List.cons_append, List.nil_append, string_step_cons, e0, if_true]
    simp only [show ¬ ((92 : Nat) = 34) by decide, if_false]
    exact string_escape_u_pair head d1 d2 d3 d4 e1 e2 e3 e4 hi lo r c h1 hhi h2 hlo

theorem string_body_run (b s : List Nat) (hb : string_body b s) :
    ∃ n, n ≤ b.length ∧ ∀ (fuel head : Nat) (r : List Nat) (c : tiny_context ν),
      string_loop head (n + fuel) (b ++ r) c
        = string_loop head fuel r { c with stack := c.stack ++ s.map .byte } := by
  induction hb with
  | nil => exact ⟨0, Nat.le_refl _, fun fuel head r c => by simp⟩
  | cons t bs b s ht _ ih =>
    obtain ⟨n, hn, hrun⟩ := ih
    have h1 := string_item_ne_nil t bs ht
    refine ⟨n + 1, by simp; omega, fun fuel head r c => ?_⟩
    have e1 : n + 1 + fuel = (n + fuel) + 1 := by omega
    rw [e1, List.append_assoc]
    simp only [string_loop, string_item_step t bs ht head (b ++ r) c, hrun]
    simp [List.append_assoc]

theorem tiny_parse_string_raw_stop (b s r : List Nat) (ret : tiny_status)
    (hb : string_body b s)
    (hstep : ∀ (head : Nat) (c : tiny_context ν),
      string_step head r c = some (.ret (ret, [], { c with stack := c.stack.take head }))) :
    tiny_parse_string_raw ({ json := 34 :: (b ++ r), stack := [] } : tiny_context ν)
      = some (ret, [], { json := b ++ r, stack := [] }) := by
  obtain ⟨n, hn, hrun⟩ := string_body_run (ν := ν) b s hb
  have hr : 1 ≤ r.length := by
    cases r with
    | nil =>
      have := hstep 0 ({ json := [], stack := [] } : tiny_context ν)
      simp [string_step] at this
    | cons x r0 => simp
  obtain ⟨f, hf⟩ : ∃ f, (b ++ r).length = n + (f + 1) :=
    ⟨b.length - n + r.length - 1, by simp; omega⟩
  have e : tiny_parse_string_raw ({ json := 34 :: (b ++ r), stack := [] } : tiny_context ν)
      = string_loop 0 (b ++ r).length (b ++ r) { json := b ++ r, stack := [] } := rfl
  rw [e, hf, hrun]
  simp only [string_loop, hstep]
  simp

theorem tiny_parse_string_stop (L : libc ν) (node : tiny_node ν) (w b s r : List Nat)
    (ret : tiny_status) (hw : all_ws w) (hb : string_body b s) (hret : ret ≠ TINY_PARSE_OK)
    (hstep : ∀ (head : Nat) (c : tiny_context ν),
      string_step head r c = some (.ret (ret, [], { c with stack := c.stack.take head }))) :
    tiny_parse L node (w ++ 34 :: (b ++ r)) = some (ret, .null) := by
  have a1 := tiny_parse_whitespace_append (ν := ν) w 34 (b ++ r) [] hw (by decide)
  have a2 := tiny_parse_string_raw_stop b s r ret hb hstep
  obtain ⟨k, hk⟩ : ∃ k, (w ++ 34 :: (b ++ r)).length = k + 1 :=
    ⟨w.length + (b ++ r).length, by simp; omega⟩
  unfold tiny_parse
  simp only [a1, hk, tiny_parse_value, parse_value_switch_cons, tiny_parse_string, a2,
    if_neg hret]
  simp [tiny_init, hret]

theorem tiny_parse_string_literal (L : libc ν) (node : tiny_node ν) (w b s w2 : List Nat)
    (hw : all_ws w) (hb : string_body b s) (hw2 : all_ws w2) :
    tiny_parse L node (w ++ 34 :: (b ++ 34 :: (w2 ++ [0]))) = some (TINY_PARSE_OK, .string s) := by
  have a1 := tiny_parse_whitespace_append (ν := ν) w 34 (b ++ 34 :: (w2 ++ [0])) [] hw
    (by decide)
  have a3 := tiny_parse_whitespace_append (ν := ν) w2 0 [] [] hw2 (by decide)
  obtain ⟨n, hn, hrun⟩ := string_body_run (ν := ν) b s hb
  obtain ⟨f, hf⟩ : ∃ f, (b ++ 34 :: (w2 ++ [0])).length = n + (f + 1) :=
    ⟨b.length - n + w2.length + 1, by simp; omega⟩
  have hq := string_loop_quote (ν := ν) f (w2 ++ [0]) (b ++ 34 :: (w2 ++ [0])) [] s
  simp only [List.length_nil, List.nil_append] at hq
  have a2 : tiny_parse_string_raw
      ({ json := 34 :: (b ++ 34 :: (w2 ++ [0])), stack := [] } : tiny_context ν)
      = some (TINY_PARSE_OK, s, { json := w2 ++ [0], stack := [] }) := by
    have e : tiny_parse_string_raw
        ({ json := 34 :: (b ++ 34 :: (w2 ++ [0])), stack := [] } : tiny_context ν)
        = string_loop 0 (b ++ 34 :: (w2 ++ [0])).length (b ++ 34 :: (w2 ++ [0]))
            { json := b ++ 34 :: (w2 ++ [0]), stack := [] } := rfl
    rw [e, hf, hrun]
    exact hq
  obtain ⟨k, hk⟩ : ∃ k, (w ++ 34 :: (b ++ 34 :: (w2 ++ [0]))).length = k + 1 :=
    ⟨w.length + (b ++ 34 :: (w2 ++ [0])).length, by simp; omega⟩
  unfold tiny_parse
  simp only [a1, hk, tiny_parse_value, parse_value_switch_cons, tiny_parse_string, a2,
    if_true]
  simp [tiny_set_string, a3]

theorem string_step_nul (head : Nat) (r : List Nat) (c : tiny_context ν) :
    string_step head (0 :: r) c
      = some (.ret (TINY_PARSE_MISS_QUOTATION_MARK, [],
          { c with stack := c.stack.take head })) := rfl

theorem string_step_control (ch : Nat) (h1 : 1 ≤ ch) (h2 : ch < 0x20) (head : Nat)
    (r : List Nat) (c : tiny_context ν) :
    string_step head (ch :: r) c
      = some (.ret (TINY_PARSE_INVALID_STRING_CHAR, [],
          { c with stack := c.stack.take head })) := by
  have a1 : ch ≠ 34 := by omega
  have a2 : ch ≠ 92 := by omega
  have a3 : ch ≠ 0 := by omega
  simp only [string_step_cons, if_neg a1, if_neg a2, if_neg a3, if_pos h2, STRING_ERROR,
    Option.map_some']

theorem string_step_bad_escape (e : Nat) (h : e ∉ [34, 92, 47, 98, 102, 110, 114, 116, 117])
    (head : Nat) (r : List Nat) (c : tiny_context ν) :
    string_step head (92 :: e :: r) c
      = some (.ret (TINY_PARSE_INVALID_STRING_ESCAPE, [],
          { c with stack := c.stack.take head })) := by
  simp only [List.mem_cons, List.mem_singleton, List.not_mem_nil, or_false, not_or] at h
  obtain ⟨h1, h2, h3, h4, h5, h6, h7, h8, h9⟩ := h
  have a1 : simple_escape e = none := by
    simp only [simple_escape, if_neg h1, if_neg h2, if_neg h3, if_neg h4, if_neg h5, if_neg h6,
      if_neg h7, if_neg h8]
  simp only [string_step_cons, show ¬ ((92 : Nat) = 34) by decide, if_false, if_true, a1,
    if_neg h9, STRING_ERROR, Option.map_some']

theorem string_step_escape_u (head : Nat) (p : List Nat) (c : tiny_context ν) :
    string_step head (92 :: 117 :: p) c = string_escape_u head p c := rfl

theorem string_escape_u_bad_hex (p : List Nat) (hp : 0 ∈ p) (h : spec_hex4 p = none)
    (head : Nat) (c : tiny_context ν) :
    string_escape_u head p c
      = some (.ret (TINY_PARSE_INVALID_UNICODE_HEX, [],
          { c with stack := c.stack.take head })) := by
  simp only [string_escape_u, tiny_parse_hex4_spec p hp, h, STRING_ERROR, Option.map_some']

theorem string_escape_u_high (d1 d2 d3 d4 hi : Nat) (h : hex4_value d1 d2 d3 d4 = some hi)
    (hhi : 0xD800 ≤ hi ∧ hi ≤ 0xDBFF) (head : Nat) (p : List Nat) (c : tiny_context ν) :
    string_escape_u head (d1 :: d2 :: d3 :: d4 :: p) c
      = match p with
        | [] => none
        | x :: p =>
          if x ≠ 92 then
            some (.ret (TINY_PARSE_INVALID_UNICODE_SURROGATE, [],
              { c with stack := c.stack.take head }))
          else
          match p with
          | [] => none
          | y :: p =>
            if y ≠ 117 then
              some (.ret (TINY_PARSE_INVALID_UNICODE_SURROGATE, [],
                { c with stack := c.stack.take head }))
            else
            match tiny_parse_hex4 p with
            | none => none
            | some none =>
              some (.ret (TINY_PARSE_INVALID_UNICODE_HEX, [],
                { c with stack := c.stack.take head }))
            | some (some (p, u2)) =>
              if u2 < 0xDC00 ∨ u2 > 0xDFFF then
                some (.ret (TINY_PARSE_INVALID_UNICODE_SURROGATE, [],
                  { c with stack := c.stack.take head }))
              else
                (tiny_encode_utf8 c ((((hi - 0xD800) <<< 10) ||| (u2 - 0xDC00)) + 0x10000)).map
                  (.next p) := by
  have a1 : tiny_parse_hex4 (d1 :: d2 :: d3 :: d4 :: p) = some (some (p, hi)) := by
    rw [tiny_parse_hex4_cons]
    simp [spec_hex4, h]
  simp only [string_escape_u, a1, if_pos hhi, STRING_ERROR, Option.map_some']

theorem string_step_high_no_backslash (d1 d2 d3 d4 hi : Nat)
    (h : hex4_value d1 d2 d3 d4 = some hi) (hhi : 0xD800 ≤ hi ∧ hi ≤ 0xDBFF) (x : Nat)
    (hx : x ≠ 92) (r : List Nat) (head : Nat) (c : tiny_context ν) :
    string_step head ([92, 117, d1, d2, d3, d4] ++ x :: r) c
      = some (.ret (TINY_PARSE_INVALID_UNICODE_SURROGATE, [],
          { c with stack := c.stack.take head })) := by
  simp only [List.cons_append, List.nil_append, string_step_escape_u,
    string_escape_u_high d1 d2 d3 d4 hi h hhi, if_pos hx]

theorem string_step_high_no_u (d1 d2 d3 d4 hi : Nat)
    (h : hex4_value d1 d2 d3 d4 = some hi) (hhi : 0xD800 ≤ hi ∧ hi ≤ 0xDBFF) (y : Nat)
    (hy : y ≠ 117) (r : List Nat) (head : Nat) (c : tiny_context ν) :
    string_step head ([92, 117, d1, d2, d3, d4] ++ 92 :: y :: r) c
      = some (.ret (TINY_PARSE_INVALID_UNICODE_SURROGATE, [],
          { c with stack := c.stack.take head })) := by
  simp only [List.cons_append, List.nil_append, string_step_escape_u,
    string_escape_u_high d1 d2 d3 d4 hi h hhi, ne_eq, not_true_eq_false, if_false, if_pos hy]

theorem string_step_high_bad_hex (d1 d2 d3 d4 hi : Nat)
    (h : hex4_value d1 d2 d3 d4 = some hi) (hhi : 0xD800 ≤ hi ∧ hi ≤ 0xDBFF) (q : List Nat)
    (hq : 0 ∈ q) (hbad : spec_hex4 q = none) (head : Nat) (c : tiny_context ν) :
    string_step head ([92, 117, d1, d2, d3, d4] ++ 92 :: 117 :: q) c
      = some (.ret (TINY_PARSE_INVALID_UNICODE_HEX, [],
          { c with stack := c.stack.take head })) := by
  simp only [List.cons_append, List.nil_append, string_step_escape_u,
    string_escape_u_high d1 d2 d3 d4 hi h hhi, ne_eq, not_true_eq_false, if_false,
    tiny_parse_hex4_spec q hq, hbad]

theorem string_step_high_bad_low (d1 d2 d3 d4 hi : Nat)
    (h : hex4_value d1 d2 d3 d4 = some hi) (hhi : 0xD800 ≤ hi ∧ hi ≤ 0xDBFF)
    (e1 e2 e3 e4 lo : Nat) (h2 : hex4_value e1 e2 e3 e4 = some lo)
    (hlo : lo < 0xDC00 ∨ 0xDFFF < lo) (r : List Nat) (head : Nat) (c : tiny_context ν) :
    string_step head ([92, 117, d1, d2, d3, d4] ++ 92 :: 117 :: e1 :: e2 :: e3 :: e4 :: r) c
      = some (.ret (TINY_PARSE_INVALID_UNICODE_SURROGATE, [],
          { c with stack := c.stack.take head })) := by
  have a2 : tiny_parse_hex4 (e1 :: e2 :: e3 :: e4 :: r) = some (some (r, lo)) := by
    rw [tiny_parse_hex4_cons]
    simp [spec_hex4, h2]
  have a3 : lo < 0xDC00 ∨ lo > 0xDFFF := hlo
  simp only [List.cons_append, List.nil_append, string_step_escape_u,
    string_escape_u_high d1 d2 d3 d4 hi h hhi, ne_eq, not_true_eq_false, if_false, a2,
    if_pos a3]

theorem spec_hex4_some (p q : List Nat) (u : Nat) (h : spec_hex4 p = some (q, u)) :
    ∃ d1 d2 d3 d4, p = d1 :: d2 :: d3 :: d4 :: q ∧ hex4_value d1 d2 d3 d4 = some u := by
  match p, h with
  | [], h => simp [spec_hex4] at h
  | [_], h => simp [spec_hex4] at h
  | [_, _], h => simp [spec_hex4] at h
  | [_, _, _], h => simp [spec_hex4] at h
  | d1 :: d2 :: d3 :: d4 :: rest, h =>
    simp only [spec_hex4, Option.map_eq_some', Prod.mk.injEq] at h
    obtain ⟨v, hv, rfl, rfl⟩ := h
    exact ⟨d1, d2, d3, d4, rfl, hv⟩

theorem hex4_value_digits_ne_zero (d1 d2 d3 d4 u : Nat) (h : hex4_value d1 d2 d3 d4 = some u) :
    d1 ≠ 0 ∧ d2 ≠ 0 ∧ d3 ≠ 0 ∧ d4 ≠ 0 := by
  obtain ⟨a, b, c, d, h1, h2, h3, h4, _⟩ := hex4_value_some d1 d2 d3 d4 u h
  refine ⟨?_, ?_, ?_, ?_⟩ <;> rintro rfl
  · exact hex_value_ne_zero _ h1
  · exact hex_value_ne_zero _ h2
  · exact hex_value_ne_zero _ h3
  · exact hex_value_ne_zero _ h4

theorem mem_tail_of_hex4 (d1 d2 d3 d4 u : Nat) (q : List Nat)
    (h : hex4_value d1 d2 d3 d4 = some u) (hp : 0 ∈ d1 :: d2 :: d3 :: d4 :: q) : 0 ∈ q := by
  obtain ⟨n1, n2, n3, n4⟩ := hex4_value_digits_ne_zero d1 d2 d3 d4 u h
  simp only [List.mem_cons] at hp
  rcases hp with h0 | h0 | h0 | h0 | h0
  · exact absurd h0.symm n1
  · exact absurd h0.symm n2
  · exact absurd h0.symm n3
  · exact absurd h0.symm n4
  · exact h0

theorem string_escape_u_total (head : Nat) (p : List Nat) (c : tiny_context ν) (hp : 0 ∈ p) :
    string_escape_u head p c ≠ none := by
  rcases h : spec_hex4 p with _ | ⟨q, u⟩
  · rw [string_escape_u_bad_hex p hp h]; simp
  obtain ⟨d1, d2, d3, d4, rfl, hv⟩ := spec_hex4_some p q u h
  have hq := mem_tail_of_hex4 d1 d2 d3 d4 u q hv hp
  by_cases hhi : 0xD800 ≤ u ∧ u ≤ 0xDBFF
  · rw [string_escape_u_high d1 d2 d3 d4 u hv hhi]
    rcases q with _ | ⟨x, q⟩
    · simp at hq
    by_cases hx : x ≠ 92
    · simp [hx]
    have hx0 : x = 92 := by simpa using hx
    subst hx0
    have hq1 : 0 ∈ q := by simpa using hq
    rcases q with _ | ⟨y, q⟩
    · simp at hq1
    by_cases hy : y ≠ 117
    · simp [hy]
    have hy0 : y = 117 := by simpa using hy
    subst hy0
    have hq2 : 0 ∈ q := by simpa using hq1
    simp only [ne_eq, not_true_eq_false, if_false, tiny_parse_hex4_spec q hq2]
    rcases h2 : spec_hex4 q with _ | ⟨q1, lo⟩
    · simp
    simp only []
    by_cases hlo : lo < 0xDC00 ∨ lo > 0xDFFF
    · simp [hlo]
    have hlo1 : 0xDC00 ≤ lo ∧ lo ≤ 0xDFFF := by omega
    rw [if_neg hlo, surrogate_combine u lo hlo1,
      tiny_encode_utf8_spec c _ (spec_surrogate_pair_le u lo hhi hlo1).2]
    simp
  · rw [string_escape_u_unicode head d1 d2 d3 d4 u q c hv hhi]
    simp

/-- C15: for a high surrogate `hi` and a low surrogate `lo`, each written as four
hexadecimal digits in either letter case, `tiny_parse` of the string literal made of the
two escapes returns `TINY_PARSE_OK` with a String of exactly four bytes, the UTF-8 encoding
of the code point `0x10000 + (hi - 0xD800) * 0x400 + (lo - 0xDC00)`; that code point lies
between `0x10000` and `0x10FFFF`, and on a NUL-terminated text the code after `case 'u'`
always returns, so that the assertion of `tiny_encode_utf8` does not fail. -/
theorem C15_surrogate_pair_decodes (L : libc ν) (node : tiny_node ν)
    (d1 d2 d3 d4 e1 e2 e3 e4 hi lo : Nat) (h1 : hex4_value d1 d2 d3 d4 = some hi)
    (hhi : 0xD800 ≤ hi ∧ hi ≤ 0xDBFF) (h2 : hex4_value e1 e2 e3 e4 = some lo)
    (hlo : 0xDC00 ≤ lo ∧ lo ≤ 0xDFFF) :
    tiny_parse L node [34, 92, 117, d1, d2, d3, d4, 92, 117, e1, e2, e3, e4, 34, 0]
        = some (TINY_PARSE_OK, .string (spec_utf8 (spec_surrogate_pair hi lo)))
    ∧ (spec_utf8 (spec_surrogate_pair hi lo)).length = 4
    ∧ spec_utf8_payload (spec_utf8 (spec_surrogate_pair hi lo))
        = some (0x10000 + (hi - 0xD800) * 0x400 + (lo - 0xDC00))
    ∧ 0x10000 ≤ spec_surrogate_pair hi lo ∧ spec_surrogate_pair hi lo ≤ 0x10FFFF
    ∧ ∀ (head : Nat) (p : List Nat) (c : tiny_context ν), 0 ∈ p →
        string_escape_u head p c ≠ none := by
  have hb : string_body [92, 117, d1, d2, d3, d4, 92, 117, e1, e2, e3, e4]
      (spec_utf8 (spec_surrogate_pair hi lo)) := by
    have := string_body.cons _ _ _ _
      (string_item.pair d1 d2 d3 d4 e1 e2 e3 e4 hi lo h1 hhi h2 hlo) string_body.nil
    simpa using this
  have hp := tiny_parse_string_literal L node [] _ _ [] (fun _ hx => by cases hx) hb
    (fun _ hx => by cases hx)
  have hr := spec_surrogate_pair_le hi lo hhi hlo
  refine ⟨by simpa using hp, ?_, ?_, hr.1, hr.2, string_escape_u_total⟩
  · rw [spec_utf8_length]
    have a1 : ¬ spec_surrogate_pair hi lo ≤ 0x7F := by omega
    have a2 : ¬ spec_surrogate_pair hi lo ≤ 0x7FF := by omega
    have a3 : ¬ spec_surrogate_pair hi lo ≤ 0xFFFF := by omega
    rw [if_neg a1, if_neg a2, if_neg a3]
  · rw [spec_utf8_payload_encode _ hr.2]
    rfl

/-- C15, instantiated: the G clef U+1D11E written `\uD834\udd1e`, one escape in each
letter case. -/
theorem C15_surrogate_pair_decodes_witness :
    tiny_parse demo_libc .null [34, 92, 117, 68, 56, 51, 52, 92, 117, 100, 100, 49, 101, 34, 0]
        = some (TINY_PARSE_OK, .string (spec_utf8 (spec_surrogate_pair 0xD834 0xDD1E)))
    ∧ (spec_utf8 (spec_surrogate_pair 0xD834 0xDD1E)).length = 4
    ∧ spec_utf8_payload (spec_utf8 (spec_surrogate_pair 0xD834 0xDD1E))
        = some (0x10000 + (0xD834 - 0xD800) * 0x400 + (0xDD1E - 0xDC00))
    ∧ 0x10000 ≤ spec_surrogate_pair 0xD834 0xDD1E ∧ spec_surrogate_pair 0xD834 0xDD1E ≤ 0x10FFFF
    ∧ ∀ (head : Nat) (p : List Nat) (c : tiny_context (List Nat)), 0 ∈ p →
        string_escape_u head p c ≠ none :=
  C15_surrogate_pair_decodes demo_libc .null 68 56 51 52 100 100 49 101 0xD834 0xDD1E
    (by decide) (by decide) (by decide) (by decide)

/-- C16: for every code point `u` up to `0x10FFFF`, `tiny_encode_utf8` pushes exactly the
bytes of the standard UTF-8 encoding of `u`: one byte when `u ≤ 0x7F`, two when
`u ≤ 0x7FF`, three when `u ≤ 0xFFFF` and four otherwise, with the bit patterns of a lead
byte and of continuation bytes, and the payload bits of these bytes put together again
give `u`. -/
theorem C16_encode_utf8_standard (c : tiny_context ν) (u : Nat) (hu : u ≤ 0x10FFFF) :
    tiny_encode_utf8 c u = some { c with stack := c.stack ++ (spec_utf8 u).map .byte }
    ∧ (spec_utf8 u).length
        = (if u ≤ 0x7F then 1 else if u ≤ 0x7FF then 2 else if u ≤ 0xFFFF then 3 else 4)
    ∧ spec_utf8_payload (spec_utf8 u) = some u :=
  ⟨tiny_encode_utf8_spec c u hu, spec_utf8_length u, spec_utf8_payload_encode u hu⟩

/-- C16, instantiated: the euro sign U+20AC, whose encoding is `E2 82 AC`. -/
theorem C16_encode_utf8_standard_witness :
    tiny_encode_utf8 ({ json := [], stack := [] } : tiny_context (List Nat)) 0x20AC
        = some { json := [], stack := [.byte 0xE2, .byte 0x82, .byte 0xAC] }
    ∧ (spec_utf8 0x20AC).length = 3
    ∧ spec_utf8_payload [0xE2, 0x82, 0xAC] = some 0x20AC :=
  C16_encode_utf8_standard { json := [], stack := [] } 0x20AC (by decide)

theorem string_body_append (b1 s1 b2 s2 : List Nat) (h1 : string_body b1 s1)
    (h2 : string_body b2 s2) : string_body (b1 ++ b2) (s1 ++ s2) := by
  induction h1 with
  | nil => simpa using h2
  | cons t bs b s ht _ ih =>
    have := string_body.cons t bs _ _ ht ih
    simpa [List.append_assoc] using this

theorem string_body_item (t bs : List Nat) (h : string_item t bs) : string_body t bs := by
  have := string_body.cons t bs [] [] h string_body.nil
  simpa using this

/-- C17 (the claim fails on the code): the literal `"\uDC00"`, a lone low surrogate, is
parsed with `TINY_PARSE_OK`, as the String of the three bytes `ED B0 80`, and not with
`TINY_PARSE_INVALID_UNICODE_SURROGATE`. -/
theorem C17_lone_low_surrogate_counterexample :
    tiny_parse demo_libc .null (cstr "\"\\uDC00\"")
        = some (TINY_PARSE_OK, .string [0xED, 0xB0, 0x80])
    ∧ TINY_PARSE_OK ≠ TINY_PARSE_INVALID_UNICODE_SURROGATE :=
  ⟨rfl, by decide⟩

/-- C17 (amended): an escape `\uXXXX` whose value lies in `[0xDC00, 0xDFFF]` and that does
not follow a high surrogate escape is decoded like any other escape outside the high
surrogate range: in a literal whose other items are valid, `tiny_parse` returns
`TINY_PARSE_OK`, and the escape gives the three bytes `ED xx xx` of the UTF-8 form of its
value. -/
theorem C17_lone_low_surrogate_is_encoded (L : libc ν) (node : tiny_node ν)
    (w b1 s1 b2 s2 w2 : List Nat) (d1 d2 d3 d4 lo : Nat) (hw : all_ws w) (hw2 : all_ws w2)
    (hb1 : string_body b1 s1) (hb2 : string_body b2 s2)
    (h : hex4_value d1 d2 d3 d4 = some lo) (hlo : 0xDC00 ≤ lo ∧ lo ≤ 0xDFFF) :
    tiny_parse L node
        (w ++ 34 :: ((b1 ++ ([92, 117, d1, d2, d3, d4] ++ b2)) ++ 34 :: (w2 ++ [0])))
      = some (TINY_PARSE_OK, .string (s1 ++ (spec_utf8 lo ++ s2)))
    ∧ spec_utf8 lo = [0xED, 0x80 + lo / 64 % 64, 0x80 + lo % 64] := by
  have hi : string_item [92, 117, d1, d2, d3, d4] (spec_utf8 lo) :=
    string_item.unicode d1 d2 d3 d4 lo h (by omega)
  have hb := string_body_append _ _ _ _ hb1
    (string_body_append _ _ _ _ (string_body_item _ _ hi) hb2)
  refine ⟨tiny_parse_string_literal L node w _ _ w2 hw hb hw2, ?_⟩
  unfold spec_utf8
  have a1 : ¬ lo ≤ 0x7F := by omega
  have a2 : ¬ lo ≤ 0x7FF := by omega
  have a3 : lo ≤ 0xFFFF := by omega
  have a4 : 0xE0 + lo / 4096 = 0xED := by omega
  rw [if_neg a1, if_neg a2, if_pos a3, a4]

/-- C17 (amended), instantiated: the literal `"\uDC00"`. -/
theorem C17_lone_low_surrogate_is_encoded_witness :
    tiny_parse demo_libc .null (cstr "\"\\uDC00\"")
      = some (TINY_PARSE_OK, .string ([] ++ (spec_utf8 0xDC00 ++ [])))
    ∧ spec_utf8 0xDC00 = [0xED, 0x80 + 0xDC00 / 64 % 64, 0x80 + 0xDC00 % 64] :=
  C17_lone_low_surrogate_is_encoded demo_libc .null [] [] [] [] [] [] 68 67 48 48 0xDC00
    (by decide) (by decide) string_body.nil string_body.nil (by decide) (by decide)

/-- C18: in a string literal whose body is valid up to an escape `\uHHHH` with a value in
`[0xD800, 0xDBFF]`: when the next byte is not a backslash, or the byte after the backslash
is not `u`, or the four hexadecimal digits that follow `\u` give a value outside
`[0xDC00, 0xDFFF]`, `tiny_parse` returns `TINY_PARSE_INVALID_UNICODE_SURROGATE`; when `\u`
is there but is not followed by four hexadecimal digits, it returns
`TINY_PARSE_INVALID_UNICODE_HEX`. -/
theorem C18_high_surrogate_needs_low (L : libc ν) (node : tiny_node ν) (w b s : List Nat)
    (d1 d2 d3 d4 hi : Nat) (hw : all_ws w) (hb : string_body b s)
    (h : hex4_value d1 d2 d3 d4 = some hi) (hhi : 0xD800 ≤ hi ∧ hi ≤ 0xDBFF) :
    (∀ (x : Nat) (r : List Nat), x ≠ 92 →
      tiny_parse L node (w ++ 34 :: (b ++ ([92, 117, d1, d2, d3, d4] ++ x :: r)))
        = some (TINY_PARSE_INVALID_UNICODE_SURROGATE, .null))
    ∧ (∀ (y : Nat) (r : List Nat), y ≠ 117 →
      tiny_parse L node (w ++ 34 :: (b ++ ([92, 117, d1, d2, d3, d4] ++ 92 :: y :: r)))
        = some (TINY_PARSE_INVALID_UNICODE_SURROGATE, .null))
    ∧ (∀ (e1 e2 e3 e4 lo : Nat) (r : List Nat), hex4_value e1 e2 e3 e4 = some lo →
      lo < 0xDC00 ∨ 0xDFFF < lo →
      tiny_parse L node
          (w ++ 34 :: (b ++ ([92, 117, d1, d2, d3, d4] ++ 92 :: 117 :: e1 :: e2 :: e3 :: e4 :: r)))
        = some (TINY_PARSE_INVALID_UNICODE_SURROGATE, .null))
    ∧ (∀ q : List Nat, 0 ∈ q → spec_hex4 q = none →
      tiny_parse L node (w ++ 34 :: (b ++ ([92, 117, d1, d2, d3, d4] ++ 92 :: 117 :: q)))
        = some (TINY_PARSE_INVALID_UNICODE_HEX, .null)) := by
  refine ⟨fun x r hx => ?_, fun y r hy => ?_, fun e1 e2 e3 e4 lo r h2 hlo => ?_,
    fun q hq hbad => ?_⟩
  · exact tiny_parse_string_stop L node w b s _ _ hw hb (by decide)
      (string_step_high_no_backslash d1 d2 d3 d4 hi h hhi x hx r)
  · exact tiny_parse_string_stop L node w b s _ _ hw hb (by decide)
      (string_step_high_no_u d1 d2 d3 d4 hi h hhi y hy r)
  · exact tiny_parse_string_stop L node w b s _ _ hw hb (by decide)
      (string_step_high_bad_low d1 d2 d3 d4 hi h hhi e1 e2 e3 e4 lo h2 hlo r)
  · exact tiny_parse_string_stop L node w b s _ _ hw hb (by decide)
      (string_step_high_bad_hex d1 d2 d3 d4 hi h hhi q hq hbad)

/-- C18, instantiated: the literals `"\uD800"`, `"\uD800\\"`, `"\uD800\uDBFF"`,
`"\uD800\uE000"` of `test_parse_invalid_unicode_surrogate`, and `"\uD800\u12"`. -/
theorem C18_high_surrogate_needs_low_witness :
    tiny_parse demo_libc .null (cstr "\"\\uD800\"")
        = some (TINY_PARSE_INVALID_UNICODE_SURROGATE, .null)
    ∧ tiny_parse demo_libc .null (cstr "\"\\uD800\\\\\"")
        = some (TINY_PARSE_INVALID_UNICODE_SURROGATE, .null)
    ∧ tiny_parse demo_libc .null (cstr "\"\\uD800\\uDBFF\"")
        = some (TINY_PARSE_INVALID_UNICODE_SURROGATE, .null)
    ∧ tiny_parse demo_libc .null (cstr "\"\\uD800\\uE000\"")
        = some (TINY_PARSE_INVALID_UNICODE_SURROGATE, .null)
    ∧ tiny_parse demo_libc .null (cstr "\"\\uD800\\u12\"")
        = some (TINY_PARSE_INVALID_UNICODE_HEX, .null) :=
  have h := C18_high_surrogate_needs_low demo_libc .null [] [] [] 68 56 48 48 0xD800
    (by decide) string_body.nil (by decide) (by decide)
  ⟨h.1 34 [0] (by decide), h.2.1 92 [34, 0] (by decide),
    h.2.2.1 68 66 70 70 0xDBFF [34, 0] (by decide) (by decide),
    h.2.2.1 69 48 48 48 0xE000 [34, 0] (by decide) (by decide),
    h.2.2.2 [49, 50, 34, 0] (by decide) (by decide)⟩

theorem hex4_value_isSome (d1 d2 d3 d4 : Nat) :
    (∃ u, hex4_value d1 d2 d3 d4 = some u)
      ↔ (hex_value d1).isSome ∧ (hex_value d2).isSome ∧ (hex_value d3).isSome
        ∧ (hex_value d4).isSome := by
  constructor
  · rintro ⟨u, h⟩
    obtain ⟨a, b, c, d, h1, h2, h3, h4, _⟩ := hex4_value_some d1 d2 d3 d4 u h
    simp [h1, h2, h3, h4]
  · rintro ⟨h1, h2, h3, h4⟩
    obtain ⟨a, ha⟩ := Option.isSome_iff_exists.mp h1
    obtain ⟨b, hb⟩ := Option.isSome_iff_exists.mp h2
    obtain ⟨c, hc⟩ := Option.isSome_iff_exists.mp h3
    obtain ⟨d, hd⟩ := Option.isSome_iff_exists.mp h4
    exact ⟨4096 * a + 256 * b + 16 * c + d, by simp [hex4_value, ha, hb, hc, hd]⟩

/-- C19: on a NUL-terminated text `p`, `tiny_parse_hex4` succeeds if and only if the four
bytes at the cursor are hexadecimal digits (`0-9`, `A-F`, `a-f`); when it succeeds the
cursor has moved by exactly four bytes and `u` is the value below `2 ^ 16` that the digits
denote, letter case ignored; it always returns; when it fails after `\u` in a string
literal whose body is valid so far, at the first escape or at the one that follows a high
surrogate, `tiny_parse` returns `TINY_PARSE_INVALID_UNICODE_HEX`. -/
theorem C19_hex4_reads_four_digits (L : libc ν) (node : tiny_node ν) (p : List Nat)
    (hp : 0 ∈ p) (w b s : List Nat) (hw : all_ws w) (hb : string_body b s) :
    ((∃ r, tiny_parse_hex4 p = some (some r))
      ↔ ∃ d1 d2 d3 d4 rest, p = d1 :: d2 :: d3 :: d4 :: rest ∧ (hex_value d1).isSome
          ∧ (hex_value d2).isSome ∧ (hex_value d3).isSome ∧ (hex_value d4).isSome)
    ∧ (∀ q u, tiny_parse_hex4 p = some (some (q, u)) →
        ∃ d1 d2 d3 d4, p = d1 :: d2 :: d3 :: d4 :: q ∧ hex4_value d1 d2 d3 d4 = some u
          ∧ u < 2 ^ 16)
    ∧ tiny_parse_hex4 p ≠ none
    ∧ (tiny_parse_hex4 p = some none →
        tiny_parse L node (w ++ 34 :: (b ++ 92 :: 117 :: p))
            = some (TINY_PARSE_INVALID_UNICODE_HEX, .null)
        ∧ ∀ d1 d2 d3 d4 hi, hex4_value d1 d2 d3 d4 = some hi → 0xD800 ≤ hi ∧ hi ≤ 0xDBFF →
            tiny_parse L node (w ++ 34 :: (b ++ ([92, 117, d1, d2, d3, d4] ++ 92 :: 117 :: p)))
              = some (TINY_PARSE_INVALID_UNICODE_HEX, .null)) := by
  have hspec := tiny_parse_hex4_spec p hp
  refine ⟨⟨?_, ?_⟩, ?_, by rw [hspec]; simp, ?_⟩
  · rintro ⟨⟨q, u⟩, hr⟩
    rw [hspec] at hr
    obtain ⟨d1, d2, d3, d4, e, hv⟩ := spec_hex4_some p q u (Option.some.inj hr)
    exact ⟨d1, d2, d3, d4, q, e, (hex4_value_isSome d1 d2 d3 d4).mp ⟨u, hv⟩⟩
  · rintro ⟨d1, d2, d3, d4, rest, e, h1, h2, h3, h4⟩
    obtain ⟨u, hu⟩ := (hex4_value_isSome d1 d2 d3 d4).mpr ⟨h1, h2, h3, h4⟩
    exact ⟨(rest, u), by rw [hspec, e]; simp [spec_hex4, hu]⟩
  · intro q u hr
    rw [hspec] at hr
    obtain ⟨d1, d2, d3, d4, e, hv⟩ := spec_hex4_some p q u (Option.some.inj hr)
    exact ⟨d1, d2, d3, d4, e, hv, hex4_value_lt _ _ _ _ _ hv⟩
  · intro hno
    have hnone : spec_hex4 p = none := by
      rw [hspec] at hno
      exact Option.some.inj hno
    refine ⟨?_, ?_⟩
    · exact tiny_parse_string_stop L node w b s _ _ hw hb (by decide)
        (fun head c => by rw [string_step_escape_u]; exact string_escape_u_bad_hex p hp hnone head c)
    · intro d1 d2 d3 d4 hi h hhi
      exact tiny_parse_string_stop L node w b s _ _ hw hb (by decide)
        (string_step_high_bad_hex d1 d2 d3 d4 hi h hhi p hp hnone)

/-- C19, instantiated: the text `0G00"` after `\u`, as in the literal `"\u0G00"` of
`test_parse_invalid_unicode_hex`. -/
theorem C19_hex4_reads_four_digits_witness :
    tiny_parse_hex4 (cstr "0G00\"") = some none
    ∧ tiny_parse demo_libc .null (cstr "\"\\u0G00\"")
        = some (TINY_PARSE_INVALID_UNICODE_HEX, .null) :=
  have h := (C19_hex4_reads_four_digits demo_libc .null (cstr "0G00\"") (by decide) [] [] []
    (by decide) string_body.nil).2.2.2 (by decide)
  ⟨by decide, h.1⟩

/-- C20: in a string literal whose body is valid so far, the first offending position
decides the result of `tiny_parse`: the terminating NUL gives
`TINY_PARSE_MISS_QUOTATION_MARK`, an unescaped byte in `0x01 .. 0x1F` gives
`TINY_PARSE_INVALID_STRING_CHAR`, and a backslash followed by a byte that is none of
`"`, `\`, `/`, `b`, `f`, `n`, `r`, `t`, `u` gives `TINY_PARSE_INVALID_STRING_ESCAPE`. -/
theorem C20_string_error_at_first_offence (L : libc ν) (node : tiny_node ν)
    (w b s : List Nat) (hw : all_ws w) (hb : string_body b s) :
    (∀ r : List Nat, tiny_parse L node (w ++ 34 :: (b ++ 0 :: r))
        = some (TINY_PARSE_MISS_QUOTATION_MARK, .null))
    ∧ (∀ (ch : Nat) (r : List Nat), 1 ≤ ch → ch < 0x20 →
        tiny_parse L node (w ++ 34 :: (b ++ ch :: r))
          = some (TINY_PARSE_INVALID_STRING_CHAR, .null))
    ∧ (∀ (e : Nat) (r : List Nat), e ∉ [34, 92, 47, 98, 102, 110, 114, 116, 117] →
        tiny_parse L node (w ++ 34 :: (b ++ 92 :: e :: r))
          = some (TINY_PARSE_INVALID_STRING_ESCAPE, .null)) := by
  refine ⟨fun r => ?_, fun ch r h1 h2 => ?_, fun e r he => ?_⟩
  · exact tiny_parse_string_stop L node w b s _ _ hw hb (by decide)
      (fun head c => string_step_nul head r c)
  · exact tiny_parse_string_stop L node w b s _ _ hw hb (by decide)
      (fun head c => string_step_control ch h1 h2 head r c)
  · exact tiny_parse_string_stop L node w b s _ _ hw hb (by decide)
      (fun head c => string_step_bad_escape e he head r c)

/-- C20, instantiated: the texts `"abc`, `"ab` followed by the byte `0x1F` and `"ab\v"`,
after the valid body `ab`. -/
theorem C20_string_error_at_first_offence_witness :
    tiny_parse demo_libc .null (cstr "\"ab")
        = some (TINY_PARSE_MISS_QUOTATION_MARK, .null)
    ∧ tiny_parse demo_libc .null [34, 97, 98, 0x1F, 34, 0]
        = some (TINY_PARSE_INVALID_STRING_CHAR, .null)
    ∧ tiny_parse demo_libc .null (cstr "\"ab\\v\"")
        = some (TINY_PARSE_INVALID_STRING_ESCAPE, .null) :=
  have hb : string_body [97, 98] [97, 98] :=
    string_body.cons [97] [97] [98] [98]
      (string_item.plain 97 (by decide) (by decide) (by decide))
      (string_body.cons [98] [98] [] []
        (string_item.plain 98 (by decide) (by decide) (by decide)) string_body.nil)
  have h := C20_string_error_at_first_offence demo_libc .null [] [97, 98] [97, 98]
    (by decide) hb
  ⟨h.1 [], h.2.1 0x1F [34, 0] (by decide) (by decide), h.2.2 118 [34, 0] (by decide)⟩

/-! ### Whitespace-only input, swap, free, reserve and shrink, the string writer -/

/-- C25: on an input that is empty or made of whitespace only, `tiny_parse` returns
`TINY_PARSE_EXPECT_VALUE` and the node has type `TINY_NULL`, whatever it held before. -/
theorem C25_whitespace_only_expects_value (L : libc ν) (node : tiny_node ν) (w : List Nat)
    (hw : all_ws w) :
    ∃ out, tiny_parse L node (w ++ [0]) = some (TINY_PARSE_EXPECT_VALUE, out)
      ∧ tiny_get_type out = TINY_NULL := by
  have a1 := tiny_parse_whitespace_append (ν := ν) w 0 [] [] hw (by decide)
  obtain ⟨k, hk⟩ : ∃ k, (w ++ [0]).length = k + 1 := ⟨w.length, by simp⟩
  refine ⟨.null, ?_, rfl⟩
  unfold tiny_parse
  simp only [a1, hk, tiny_parse_value, parse_value_switch_cons]
  simp [tiny_init]

/-- C25, instantiated: the empty input and the input of a space, a tab, a line feed and a
carriage return. -/
theorem C25_whitespace_only_expects_value_witness :
    (∃ out, tiny_parse demo_libc .jtrue ([] ++ [0]) = some (TINY_PARSE_EXPECT_VALUE, out)
      ∧ tiny_get_type out = TINY_NULL)
    ∧ ∃ out, tiny_parse demo_libc .jtrue ([32, 9, 10, 13] ++ [0])
        = some (TINY_PARSE_EXPECT_VALUE, out) ∧ tiny_get_type out = TINY_NULL :=
  ⟨C25_whitespace_only_expects_value demo_libc .jtrue [] (by decide),
    C25_whitespace_only_expects_value demo_libc .jtrue [32, 9, 10, 13] (by decide)⟩

/-- C28 (the code departs from the claim): for two distinct nodes, here `true` and `false`,
`tiny_swap` has no defined outcome, where the claim has the two nodes exchanged; only the
call with twice the same node does what the claim says. -/
theorem C28_swap_of_distinct_nodes_undefined :
    tiny_swap (ν := ν) false .jtrue .jfalse = none
    ∧ tiny_swap (ν := ν) true .jtrue .jtrue = some (.jtrue, .jtrue) :=
  ⟨rfl, rfl⟩

/-- C29: after `tiny_free` the node has type `TINY_NULL`, whatever its type was; a second
`tiny_free` leaves it so; and `tiny_set_null` turns a String node into a Null node. -/
theorem C29_free_resets_and_is_idempotent (node : tiny_node ν) (s : List Nat) :
    tiny_get_type (tiny_free node) = TINY_NULL
    ∧ tiny_free (tiny_free node) = tiny_free node
    ∧ tiny_get_type (tiny_free (tiny_free node)) = TINY_NULL
    ∧ tiny_set_null (.string s : tiny_node ν) = .null :=
  ⟨rfl, rfl, rfl, rfl⟩

theorem stringify_char_eq_spec (ch : Nat) : stringify_char ch = spec_string_escape ch := by
  by_cases h : ch < 0x20
  · have hall : ∀ k, k < 0x20 → stringify_char k = spec_string_escape k := by decide
    exact hall ch h
  · have h1 : ch ≠ 8 := by omega
    have h2 : ch ≠ 12 := by omega
    have h3 : ch ≠ 10 := by omega
    have h4 : ch ≠ 13 := by omega
    have h5 : ch ≠ 9 := by omega
    unfold stringify_char spec_string_escape
    simp only [if_neg h1, if_neg h2, if_neg h3, if_neg h4, if_neg h5, if_neg h]

theorem stringify_string_loop_eq_spec (s : List Nat) :
    stringify_string_loop s = spec_string_text s := by
  induction s with
  | nil => rfl
  | cons ch s ih => simp only [stringify_string_loop, spec_string_text, ih, stringify_char_eq_spec]

/-- C27: for a byte sequence `s` and a length `len` within it, the three-argument
`tiny_stringify_string` appends to the stack exactly a quote, then for each of the first
`len` bytes of `s`, in order, what the specification says (the two-character escapes, the
six bytes `\u00XY` with uppercase digits for the other bytes below `0x20`, the byte itself
from `0x20` on), then a quote. -/
theorem C27_stringify_string_writes_escapes (c : tiny_context ν) (s : List Nat) (len : Nat)
    (hlen : len ≤ s.length) :
    tiny_stringify_string c s len
      = some { c with stack := c.stack
          ++ (34 :: (spec_string_text (s.take len) ++ [34])).map .byte } := by
  have hl := (stringify_string_loop_length (s.take len)).2
  have ht : (s.take len).length = len := by simp [hlen]
  have hb : (stringify_string_loop (s.take len)).length ≤ len * 6 := by omega
  simp only [tiny_stringify_string, stringify_string_loop_eq_spec] at hb ⊢
  rw [if_pos]
  · simp
  · refine ⟨hlen, ?_⟩
    simp
    omega

/-- C27, instantiated: the seven bytes quote, backslash, slash, backspace, `0x1F`, `a` and
`0x80`. -/
theorem C27_stringify_string_writes_escapes_witness :
    tiny_stringify_string ({ json := [], stack := [] } : tiny_context (List Nat))
        [34, 92, 47, 8, 0x1F, 97, 0x80] 7
      = some { json := [], stack :=
          ([34, 92, 34, 92, 92, 47, 92, 98, 92, 117, 48, 48, 49, 70, 97, 0x80, 34]).map .byte } :=
  C27_stringify_string_writes_escapes { json := [], stack := [] }
    [34, 92, 47, 8, 0x1F, 97, 0x80] 7 (by decide)

/-! ### Literals at the root and trailing text -/

theorem tiny_parse_ok_shape (L : libc ν) (node v : tiny_node ν) (j : List Nat)
    (h : tiny_parse L node j = some (TINY_PARSE_OK, v)) :
    ∃ w1 x q w2 q2, j = w1 ++ x :: q ∧ all_ws w1 ∧ is_ws x = false ∧ all_ws w2 ∧
      tiny_parse_value L j.length { json := x :: q, stack := [] } (tiny_init node)
        = some (TINY_PARSE_OK, v, { json := w2 ++ 0 :: q2, stack := [] }) := by
  unfold tiny_parse at h
  simp only at h
  rcases hw : tiny_parse_whitespace ({ json := j, stack := [] } : tiny_context ν) with _ | c
  · simp [hw] at h
  obtain ⟨w1, x, q, ej, hw1, hx, rfl⟩ := tiny_parse_whitespace_some _ _ _ hw
  simp only [hw] at h
  rcases hpv : tiny_parse_value L j.length { json := x :: q, stack := [] }
    (tiny_init node) with _ | ⟨ret, v1, c2⟩
  · simp only [hpv] at h
    exact absurd h (by simp)
  simp only [hpv] at h
  by_cases hret : ret = TINY_PARSE_OK
  swap
  · simp only [hret, if_false] at h
    split_ifs at h
    · simp only [Option.some.injEq, Prod.mk.injEq] at h
      exact absurd h.1 hret
  subst hret
  simp only [if_true] at h
  obtain ⟨j2, st2⟩ := c2
  rcases hw2 : tiny_parse_whitespace ({ json := j2, stack := st2 } : tiny_context ν)
    with _ | c3
  · simp [hw2] at h
  obtain ⟨w2, y, q2, rfl, hw2a, hy, rfl⟩ := tiny_parse_whitespace_some _ _ _ hw2
  simp only [hw2] at h
  by_cases hy0 : y = 0
  swap
  · simp [hy0] at h
  subst hy0
  simp only [ne_eq, not_true_eq_false, if_false] at h
  split_ifs at h with hst
  simp only [Option.some.injEq, Prod.mk.injEq, true_and] at h
  subst h
  have hst2 : st2 = [] := List.eq_nil_of_length_eq_zero hst
  subst hst2
  exact ⟨w1, x, q, w2, q2, ej, hw1, hx, hw2a, hpv⟩

theorem tiny_parse_null_ok_inv (j : List Nat) (st : List (stack_item ν))
    (node v : tiny_node ν) (c1 : tiny_context ν)
    (h : tiny_parse_null { json := j, stack := st } node = some (TINY_PARSE_OK, v, c1)) :
    j = 110 :: 117 :: 108 :: 108 :: c1.json ∧ v = .null ∧ c1.stack = st := by
  rcases j with _ | ⟨a, _ | ⟨b, _ | ⟨c, _ | ⟨d, r⟩⟩⟩⟩
  · simp [tiny_parse_null, EXPECT] at h
  · by_cases ha : a = 110 <;> simp [tiny_parse_null, EXPECT, ha] at h
  · by_cases ha : a = 110 <;> by_cases hb : b = 117 <;>
      simp [tiny_parse_null, EXPECT, ha, hb] at h
  · by_cases ha : a = 110 <;> by_cases hb : b = 117 <;> by_cases hc : c = 108 <;>
      simp [tiny_parse_null, EXPECT, ha, hb, hc] at h
  · by_cases ha : a = 110
    swap
    · simp [tiny_parse_null, EXPECT, ha] at h
    by_cases hb : b = 117
    swap
    · simp [tiny_parse_null, EXPECT, ha, hb] at h
    by_cases hc : c = 108
    swap
    · simp [tiny_parse_null, EXPECT, ha, hb, hc] at h
    by_cases hd : d = 108
    swap
    · simp [tiny_parse_null, EXPECT, ha, hb, hc, hd] at h
    subst ha hb hc hd
    simp [tiny_parse_null, EXPECT] at h
    obtain ⟨rfl, rfl⟩ := h
    exact ⟨rfl, rfl, rfl⟩

theorem tiny_parse_true_ok_inv (j : List Nat) (st : List (stack_item ν))
    (node v : tiny_node ν) (c1 : tiny_context ν)
    (h : tiny_parse_true { json := j, stack := st } node = some (TINY_PARSE_OK, v, c1)) :
    j = 116 :: 114 :: 117 :: 101 :: c1.json ∧ v = .jtrue ∧ c1.stack = st := by
  rcases j with _ | ⟨a, _ | ⟨b, _ | ⟨c, _ | ⟨d, r⟩⟩⟩⟩
  · simp [tiny_parse_true, EXPECT] at h
  · by_cases ha : a = 116 <;> simp [tiny_parse_true, EXPECT, ha] at h
  · by_cases ha : a = 116 <;> by_cases hb : b = 114 <;>
      simp [tiny_parse_true, EXPECT, ha, hb] at h
  · by_cases ha : a = 116 <;> by_cases hb : b = 114 <;> by_cases hc : c = 117 <;>
      simp [tiny_parse_true, EXPECT, ha, hb, hc] at h
  · by_cases ha : a = 116
    swap
    · simp [tiny_parse_true, EXPECT, ha] at h
    by_cases hb : b = 114
    swap
    · simp [tiny_parse_true, EXPECT, ha, hb] at h
    by_cases hc : c = 117
    swap
    · simp [tiny_parse_true, EXPECT, ha, hb, hc] at h
    by_cases hd : d = 101
    swap
    · simp [tiny_parse_true, EXPECT, ha, hb, hc, hd] at h
    subst ha hb hc hd
    simp [tiny_parse_true, EXPECT] at h
    obtain ⟨rfl, rfl⟩ := h
    exact ⟨rfl, rfl, rfl⟩

theorem tiny_parse_false_ok_inv (j : List Nat) (st : List (stack_item ν))
    (node v : tiny_node ν) (c1 : tiny_context ν)
    (h : tiny_parse_false { json := j, stack := st } node = some (TINY_PARSE_OK, v, c1)) :
    j = 102 :: 97 :: 108 :: 115 :: 101 :: c1.json ∧ v = .jfalse ∧ c1.stack = st := by
  rcases j with _ | ⟨a, _ | ⟨b, _ | ⟨c, _ | ⟨d, _ | ⟨e, r⟩⟩⟩⟩⟩
  · simp [tiny_parse_false, EXPECT] at h
  · by_cases ha : a = 102 <;> simp [tiny_parse_false, EXPECT, ha] at h
  · by_cases ha : a = 102 <;> by_cases hb : b = 97 <;>
      simp [tiny_parse_false, EXPECT, ha, hb] at h
  · by_cases ha : a = 102 <;> by_cases hb : b = 97 <;> by_cases hc : c = 108 <;>
      simp [tiny_parse_false, EXPECT, ha, hb, hc] at h
  · by_cases ha : a = 102 <;> by_cases hb : b = 97 <;> by_cases hc : c = 108 <;>
      by_cases hd : d = 115 <;> simp [tiny_parse_false, EXPECT, ha, hb, hc, hd] at h
  · by_cases ha : a = 102
    swap
    · simp [tiny_parse_false, EXPECT, ha] at h
    by_cases hb : b = 97
    swap
    · simp [tiny_parse_false, EXPECT, ha, hb] at h
    by_cases hc : c = 108
    swap
    · simp [tiny_parse_false, EXPECT, ha, hb, hc] at h
    by_cases hd : d = 115
    swap
    · simp [tiny_parse_false, EXPECT, ha, hb, hc, hd] at h
    by_cases he : e = 101
    swap
    · simp [tiny_parse_false, EXPECT, ha, hb, hc, hd, he] at h
    subst ha hb hc hd he
    simp [tiny_parse_false, EXPECT] at h
    obtain ⟨rfl, rfl⟩ := h
    exact ⟨rfl, rfl, rfl⟩

theorem tiny_parse_number_type (L : libc ν) (c : tiny_context ν) (node v : tiny_node ν)
    (c1 : tiny_context ν) (h : tiny_parse_number L c node = some (TINY_PARSE_OK, v, c1)) :
    tiny_get_type v = TINY_NUMBER := by
  unfold tiny_parse_number at h
  rcases hs : scan_number c.json with _ | _ | q
  · simp [hs] at h
  · simp [hs] at h
  · simp only [hs] at h
    split_ifs at h with hf
    · simp at h
    · simp only [Option.some.injEq, Prod.mk.injEq, true_and] at h
      rw [← h.1]
      rfl

theorem parse_value_switch_literal (L : libc ν)
    (pv : tiny_context ν → tiny_node ν → Option (parse_result ν)) (c : tiny_context ν)
    (node v : tiny_node ν) (c1 : tiny_context ν)
    (h : parse_value_switch L pv c node = some (TINY_PARSE_OK, v, c1)) :
    (tiny_get_type v = TINY_NULL → tiny_parse_null c node = some (TINY_PARSE_OK, v, c1))
    ∧ (tiny_get_type v = TINY_TRUE → tiny_parse_true c node = some (TINY_PARSE_OK, v, c1))
    ∧ (tiny_get_type v = TINY_FALSE
        → tiny_parse_false c node = some (TINY_PARSE_OK, v, c1)) := by
  unfold parse_value_switch at h
  split at h
  · simp at h
  · split_ifs at h
    · have := tiny_parse_null_type _ _ _ _ h
      refine ⟨fun _ => h, ?_, ?_⟩ <;> intro hv <;> rw [hv] at this <;> cases this
    · have := tiny_parse_true_type _ _ _ _ h
      refine ⟨?_, fun _ => h, ?_⟩ <;> intro hv <;> rw [hv] at this <;> cases this
    · have := tiny_parse_false_type _ _ _ _ h
      refine ⟨?_, ?_, fun _ => h⟩ <;> intro hv <;> rw [hv] at this <;> cases this
    · have := tiny_parse_string_type _ _ _ _ h
      refine ⟨?_, ?_, ?_⟩ <;> intro hv <;> rw [hv] at this <;> cases this
    · have := tiny_parse_array_type _ _ _ _ _ h
      refine ⟨?_, ?_, ?_⟩ <;> intro hv <;> rw [hv] at this <;> cases this
    · have := tiny_parse_object_type _ _ _ _ _ h
      refine ⟨?_, ?_, ?_⟩ <;> intro hv <;> rw [hv] at this <;> cases this
    · simp at h
    · have := tiny_parse_number_type _ _ _ _ _ h
      refine ⟨?_, ?_, ?_⟩ <;> intro hv <;> rw [hv] at this <;> cases this

theorem literal_shape (lit s w1 q w2 q2 : List Nat) (x : Nat) (hs : 0 ∉ s)
    (ej : s ++ [0] = w1 ++ x :: q) (eq : x :: q = lit ++ (w2 ++ 0 :: q2)) :
    s = w1 ++ (lit ++ w2) := by
  have e2 : s ++ [0] = (w1 ++ (lit ++ w2)) ++ 0 :: q2 := by
    rw [ej, eq]; simp
  exact (append_nul_unique _ _ _ e2 hs).1

theorem tiny_parse_literal_text (L : libc ν) (node : tiny_node ν) (w1 w2 : List Nat)
    (hw1 : all_ws w1) (hw2 : all_ws w2) :
    tiny_parse L node (w1 ++ ([110, 117, 108, 108] ++ w2) ++ [0])
        = some (TINY_PARSE_OK, .null)
    ∧ tiny_parse L node (w1 ++ ([116, 114, 117, 101] ++ w2) ++ [0])
        = some (TINY_PARSE_OK, .jtrue)
    ∧ tiny_parse L node (w1 ++ ([102, 97, 108, 115, 101] ++ w2) ++ [0])
        = some (TINY_PARSE_OK, .jfalse) := by
  have a2 := tiny_parse_whitespace_append (ν := ν) w2 0 [] [] hw2 (by decide)
  refine ⟨?_, ?_, ?_⟩
  · have a1 := tiny_parse_whitespace_append (ν := ν) w1 110 (117 :: 108 :: 108 :: (w2 ++ [0]))
      [] hw1 (by decide)
    obtain ⟨k, hk⟩ : ∃ k, (w1 ++ 110 :: 117 :: 108 :: 108 :: (w2 ++ [0])).length = k + 1 :=
      ⟨w1.length + 3 + (w2 ++ [0]).length, by simp; omega⟩
    have e : w1 ++ ([110, 117, 108, 108] ++ w2) ++ [0]
        = w1 ++ 110 :: 117 :: 108 :: 108 :: (w2 ++ [0]) := by simp
    rw [e]
    unfold tiny_parse
    simp only [a1, hk, tiny_parse_value, parse_value_switch_cons]
    simp [tiny_parse_null, EXPECT, a2]
  · have a1 := tiny_parse_whitespace_append (ν := ν) w1 116 (114 :: 117 :: 101 :: (w2 ++ [0]))
      [] hw1 (by decide)
    obtain ⟨k, hk⟩ : ∃ k, (w1 ++ 116 :: 114 :: 117 :: 101 :: (w2 ++ [0])).length = k + 1 :=
      ⟨w1.length + 3 + (w2 ++ [0]).length, by simp; omega⟩
    have e : w1 ++ ([116, 114, 117, 101] ++ w2) ++ [0]
        = w1 ++ 116 :: 114 :: 117 :: 101 :: (w2 ++ [0]) := by simp
    rw [e]
    unfold tiny_parse
    simp only [a1, hk, tiny_parse_value, parse_value_switch_cons]
    simp [tiny_parse_true, EXPECT, a2]
  · have a1 := tiny_parse_whitespace_append (ν := ν) w1 102
      (97 :: 108 :: 115 :: 101 :: (w2 ++ [0])) [] hw1 (by decide)
    obtain ⟨k, hk⟩ :
        ∃ k, (w1 ++ 102 :: 97 :: 108 :: 115 :: 101 :: (w2 ++ [0])).length = k + 1 :=
      ⟨w1.length + 4 + (w2 ++ [0]).length, by simp; omega⟩
    have e : w1 ++ ([102, 97, 108, 115, 101] ++ w2) ++ [0]
        = w1 ++ 102 :: 97 :: 108 :: 115 :: 101 :: (w2 ++ [0]) := by simp
    rw [e]
    unfold tiny_parse
    simp only [a1, hk, tiny_parse_value, parse_value_switch_cons]
    simp [tiny_parse_false, EXPECT, a2]

theorem tiny_parse_null_invalid (q : List Nat) (st : List (stack_item ν)) (node : tiny_node ν)
    (hn : ¬ ∃ r, q = 117 :: 108 :: 108 :: r) :
    tiny_parse_null { json := 110 :: (q ++ [0]), stack := st } node
      = some (TINY_PARSE_INVALID_VALUE, node, { json := q ++ [0], stack := st }) := by
  rcases q with _ | ⟨a, _ | ⟨b, _ | ⟨c, r⟩⟩⟩
  · simp [tiny_parse_null, EXPECT]
  · by_cases ha : a = 117 <;> simp [tiny_parse_null, EXPECT, ha]
  · by_cases ha : a = 117 <;> by_cases hb : b = 108 <;> simp [tiny_parse_null, EXPECT, ha, hb]
  · by_cases ha : a = 117 <;> by_cases hb : b = 108 <;> by_cases hc : c = 108 <;>
      simp [tiny_parse_null, EXPECT, ha, hb, hc]
    exact hn ⟨r, by rw [ha, hb, hc]⟩

theorem tiny_parse_true_invalid (q : List Nat) (st : List (stack_item ν)) (node : tiny_node ν)
    (hn : ¬ ∃ r, q = 114 :: 117 :: 101 :: r) :
    tiny_parse_true { json := 116 :: (q ++ [0]), stack := st } node
      = some (TINY_PARSE_INVALID_VALUE, node, { json := q ++ [0], stack := st }) := by
  rcases q with _ | ⟨a, _ | ⟨b, _ | ⟨c, r⟩⟩⟩
  · simp [tiny_parse_true, EXPECT]
  · by_cases ha : a = 114 <;> simp [tiny_parse_true, EXPECT, ha]
  · by_cases ha : a = 114 <;> by_cases hb : b = 117 <;> simp [tiny_parse_true, EXPECT, ha, hb]
  · by_cases ha : a = 114 <;> by_cases hb : b = 117 <;> by_cases hc : c = 101 <;>
      simp [tiny_parse_true, EXPECT, ha, hb, hc]
    exact hn ⟨r, by rw [ha, hb, hc]⟩

theorem tiny_parse_false_invalid (q : List Nat) (st : List (stack_item ν))
    (node : tiny_node ν) (hn : ¬ ∃ r, q = 97 :: 108 :: 115 :: 101 :: r) :
    tiny_parse_false { json := 102 :: (q ++ [0]), stack := st } node
      = some (TINY_PARSE_INVALID_VALUE, node, { json := q ++ [0], stack := st }) := by
  rcases q with _ | ⟨a, _ | ⟨b, _ | ⟨c, _ | ⟨d, r⟩⟩⟩⟩
  · simp [tiny_parse_false, EXPECT]
  · by_cases ha : a = 97 <;> simp [tiny_parse_false, EXPECT, ha]
  · by_cases ha : a = 97 <;> by_cases hb : b = 108 <;> simp [tiny_parse_false, EXPECT, ha, hb]
  · by_cases ha : a = 97 <;> by_cases hb : b = 108 <;> by_cases hc : c = 115 <;>
      simp [tiny_parse_false, EXPECT, ha, hb, hc]
  · by_cases ha : a = 97 <;> by_cases hb : b = 108 <;> by_cases hc : c = 115 <;>
      by_cases hd : d = 101 <;> simp [tiny_parse_false, EXPECT, ha, hb, hc, hd]
    exact hn ⟨r, by rw [ha, hb, hc, hd]⟩

theorem tiny_parse_of_value_error (L : libc ν) (node : tiny_node ν) (w : List Nat) (x : Nat)
    (q : List Nat) (ret : tiny_status) (out : tiny_node ν) (j1 : List Nat)
    (hw : all_ws w) (hx : is_ws x = false) (hret : ret ≠ TINY_PARSE_OK)
    (h : ∀ k, parse_value_switch L (tiny_parse_value L k) { json := x :: q, stack := [] }
      (tiny_init node) = some (ret, out, { json := j1, stack := [] })) :
    tiny_parse L node (w ++ x :: q) = some (ret, out) := by
  have a1 := tiny_parse_whitespace_append (ν := ν) w x q [] hw hx
  obtain ⟨k, hk⟩ : ∃ k, (w ++ x :: q).length = k + 1 := ⟨w.length + q.length, by simp; omega⟩
  unfold tiny_parse
  simp only [a1, hk, tiny_parse_value, h, if_neg hret]
  simp

/-- C24: for a text `s` without NUL, `tiny_parse` of `s` followed by NUL returns
`TINY_PARSE_OK` with a node of type `TINY_NULL` (`TINY_TRUE`, `TINY_FALSE`) if and only if
`s` is the four bytes `null` (the four bytes `true`, the five bytes `false`) between two
runs of whitespace; and when the first byte after the leading whitespace is `n`, `t` or `f`
and the rest of the literal does not follow, the result is `TINY_PARSE_INVALID_VALUE`. -/
theorem C24_literals_iff_exact (L : libc ν) (node : tiny_node ν) (s : List Nat)
    (hs : 0 ∉ s) :
    ((∃ out, tiny_parse L node (s ++ [0]) = some (TINY_PARSE_OK, out)
        ∧ tiny_get_type out = TINY_NULL)
      ↔ ∃ w1 w2, s = w1 ++ ([110, 117, 108, 108] ++ w2) ∧ all_ws w1 ∧ all_ws w2)
    ∧ ((∃ out, tiny_parse L node (s ++ [0]) = some (TINY_PARSE_OK, out)
        ∧ tiny_get_type out = TINY_TRUE)
      ↔ ∃ w1 w2, s = w1 ++ ([116, 114, 117, 101] ++ w2) ∧ all_ws w1 ∧ all_ws w2)
    ∧ ((∃ out, tiny_parse L node (s ++ [0]) = some (TINY_PARSE_OK, out)
        ∧ tiny_get_type out = TINY_FALSE)
      ↔ ∃ w1 w2, s = w1 ++ ([102, 97, 108, 115, 101] ++ w2) ∧ all_ws w1 ∧ all_ws w2)
    ∧ (∀ w q, all_ws w → s = w ++ 110 :: q → (¬ ∃ r, q = 117 :: 108 :: 108 :: r) →
        tiny_parse L node (s ++ [0]) = some (TINY_PARSE_INVALID_VALUE, .null))
    ∧ (∀ w q, all_ws w → s = w ++ 116 :: q → (¬ ∃ r, q = 114 :: 117 :: 101 :: r) →
        tiny_parse L node (s ++ [0]) = some (TINY_PARSE_INVALID_VALUE, .null))
    ∧ (∀ w q, all_ws w → s = w ++ 102 :: q → (¬ ∃ r, q = 97 :: 108 :: 115 :: 101 :: r) →
        tiny_parse L node (s ++ [0]) = some (TINY_PARSE_INVALID_VALUE, .null)) := by
  have hinv : ∀ out, tiny_parse L node (s ++ [0]) = some (TINY_PARSE_OK, out) →
      ∃ w1 x q w2 q2 k, s ++ [0] = w1 ++ x :: q ∧ all_ws w1 ∧ all_ws w2 ∧
        parse_value_switch L (tiny_parse_value L k) { json := x :: q, stack := [] }
          (tiny_init node) = some (TINY_PARSE_OK, out, { json := w2 ++ 0 :: q2, stack := [] }) := by
    intro out h
    obtain ⟨w1, x, q, w2, q2, ej, hw1, _, hw2, hpv⟩ := tiny_parse_ok_shape L node out _ h
    obtain ⟨k, hk⟩ : ∃ k, (s ++ [0]).length = k + 1 := ⟨s.length, by simp⟩
    rw [hk, tiny_parse_value] at hpv
    exact ⟨w1, x, q, w2, q2, k, ej, hw1, hw2, hpv⟩
  refine ⟨⟨?_, ?_⟩, ⟨?_, ?_⟩, ⟨?_, ?_⟩, ?_, ?_, ?_⟩
  · rintro ⟨out, h, hty⟩
    obtain ⟨w1, x, q, w2, q2, k, ej, hw1, hw2, hpv⟩ := hinv out h
    obtain ⟨e1, _, _⟩ := tiny_parse_null_ok_inv _ _ _ _ _
      ((parse_value_switch_literal L _ _ _ _ _ hpv).1 hty)
    exact ⟨w1, w2, literal_shape [110, 117, 108, 108] s w1 q w2 q2 x hs ej e1, hw1, hw2⟩
  · rintro ⟨w1, w2, rfl, hw1, hw2⟩
    exact ⟨_, (tiny_parse_literal_text L node w1 w2 hw1 hw2).1, rfl⟩
  · rintro ⟨out, h, hty⟩
    obtain ⟨w1, x, q, w2, q2, k, ej, hw1, hw2, hpv⟩ := hinv out h
    obtain ⟨e1, _, _⟩ := tiny_parse_true_ok_inv _ _ _ _ _
      ((parse_value_switch_literal L _ _ _ _ _ hpv).2.1 hty)
    exact ⟨w1, w2, literal_shape [116, 114, 117, 101] s w1 q w2 q2 x hs ej e1, hw1, hw2⟩
  · rintro ⟨w1, w2, rfl, hw1, hw2⟩
    exact ⟨_, (tiny_parse_literal_text L node w1 w2 hw1 hw2).2.1, rfl⟩
  · rintro ⟨out, h, hty⟩
    obtain ⟨w1, x, q, w2, q2, k, ej, hw1, hw2, hpv⟩ := hinv out h
    obtain ⟨e1, _, _⟩ := tiny_parse_false_ok_inv _ _ _ _ _
      ((parse_value_switch_literal L _ _ _ _ _ hpv).2.2 hty)
    exact ⟨w1, w2, literal_shape [102, 97, 108, 115, 101] s w1 q w2 q2 x hs ej e1, hw1, hw2⟩
  · rintro ⟨w1, w2, rfl, hw1, hw2⟩
    exact ⟨_, (tiny_parse_literal_text L node w1 w2 hw1 hw2).2.2, rfl⟩
  · rintro w q hw rfl hn
    have e : w ++ 110 :: q ++ [0] = w ++ 110 :: (q ++ [0]) := by simp
    rw [e]
    refine tiny_parse_of_value_error L node w 110 _ _ _ (q ++ [0]) hw (by decide) (by decide)
      (fun k => ?_)
    rw [parse_value_switch_cons, if_pos rfl]
    exact tiny_parse_null_invalid q [] _ hn
  · rintro w q hw rfl hn
    have e : w ++ 116 :: q ++ [0] = w ++ 116 :: (q ++ [0]) := by simp
    rw [e]
    refine tiny_parse_of_value_error L node w 116 _ _ _ (q ++ [0]) hw (by decide) (by decide)
      (fun k => ?_)
    rw [parse_value_switch_cons, if_neg (by decide), if_pos rfl]
    exact tiny_parse_true_invalid q [] _ hn
  · rintro w q hw rfl hn
    have e : w ++ 102 :: q ++ [0] = w ++ 102 :: (q ++ [0]) := by simp
    rw [e]
    refine tiny_parse_of_value_error L node w 102 _ _ _ (q ++ [0]) hw (by decide) (by decide)
      (fun k => ?_)
    rw [parse_value_switch_cons, if_neg (by decide), if_neg (by decide), if_pos rfl]
    exact tiny_parse_false_invalid q [] _ hn

/-- C24, instantiated: the text `nul`, on which the literal `null` does not follow. -/
theorem C24_literals_iff_exact_witness :
    tiny_parse demo_libc .jtrue (cstr "nul") = some (TINY_PARSE_INVALID_VALUE, .null) :=
  (C24_literals_iff_exact demo_libc .jtrue [110, 117, 108] (by decide)).2.2.2.1 [] [117, 108]
    (by decide) rfl (by rintro ⟨r, hr⟩; cases hr)

/-- C23: for a text `s` without NUL on which `tiny_parse` returns `TINY_PARSE_OK` with
value `v`, and a text `t` whose first byte `x` is neither whitespace nor NUL, `tiny_parse`
of `s`, one space and `t` returns `TINY_PARSE_ROOT_NOT_SINGULAR` (the node then holds `v`).
The assumption on `strtod` is that, on a number followed by a delimiter, its result depends
on the text of the number only. -/
theorem C23_trailing_text_not_singular (L : libc ν) (hL : strtod_reads_number L)
    (n0 node v : tiny_node ν) (s : List Nat) (x : Nat) (t0 : List Nat) (hs : 0 ∉ s)
    (h : tiny_parse L n0 (s ++ [0]) = some (TINY_PARSE_OK, v))
    (hx : is_ws x = false) (hx0 : x ≠ 0) :
    tiny_parse L node (s ++ 32 :: (x :: t0) ++ [0])
      = some (TINY_PARSE_ROOT_NOT_SINGULAR, v) := by
  obtain ⟨w1, t, w2, y, y0, rfl, hw1, hw2, rfl, hy, _, hrep⟩ :=
    tiny_parse_ok_inv L hL n0 v s hs h
  have hw3 : all_ws (w2 ++ [32]) := all_ws_append _ _ hw2 (by decide)
  have hd : delimited ((w2 ++ [32]) ++ x :: (t0 ++ [0])) := by
    rcases w2 with _ | ⟨b, w2⟩
    · exact ⟨32, _, rfl, by decide⟩
    · refine ⟨b, _, rfl, ?_⟩
      have := hw2 b (List.mem_cons_self _ _)
      simp [is_delimiter, this]
  have e : w1 ++ (y :: y0 ++ w2) ++ 32 :: (x :: t0) ++ [0]
      = w1 ++ y :: (y0 ++ ((w2 ++ [32]) ++ x :: (t0 ++ [0]))) := by simp
  have a1 := tiny_parse_whitespace_append (ν := ν) w1 y
    (y0 ++ ((w2 ++ [32]) ++ x :: (t0 ++ [0]))) [] hw1 hy
  have a2 := tiny_parse_whitespace_append (ν := ν) (w2 ++ [32]) x (t0 ++ [0]) [] hw3 hx
  have hv := hrep (w1 ++ y :: (y0 ++ ((w2 ++ [32]) ++ x :: (t0 ++ [0])))).length
    ((w2 ++ [32]) ++ x :: (t0 ++ [0])) [] (tiny_init node) (by simp) hd
  simp only [List.cons_append] at hv
  rw [e]
  unfold tiny_parse
  simp only [a1, hv, if_true, a2]
  simp [hx0]

/-- C23, instantiated: the text `null x` of `test_parse_root_not_singular`. -/
theorem C23_trailing_text_not_singular_witness :
    tiny_parse demo_libc .jtrue (cstr "null x") = some (TINY_PARSE_ROOT_NOT_SINGULAR, .null) :=
  C23_trailing_text_not_singular demo_libc demo_libc_reads_number .jtrue .jtrue .null
    [110, 117, 108, 108] 120 [] (by decide) rfl (by decide) (by decide)

/-! ### Every run on a NUL-terminated text returns, with the stack as it was -/
theorem tiny_parse_whitespace_total : ∀ (j : List Nat) (st : List (stack_item ν)), 0 ∈ j →
    ∃ w x q, j = w ++ x :: q ∧ all_ws w ∧ is_ws x = false ∧ 0 ∈ x :: q
      ∧ tiny_parse_whitespace { json := j, stack := st } = some { json := x :: q, stack := st } := by
  intro j
  induction j with
  | nil => intro st h; simp at h
  | cons b j ih =>
    intro st h0
    by_cases hb : is_ws b = true
    · have hb0 : b ≠ 0 := by rintro rfl; simp [is_ws] at hb
      have h1 : 0 ∈ j := by
        rcases List.mem_cons.mp h0 with h | h
        · exact absurd h.symm hb0
        · exact h
      obtain ⟨w, x, q, e, hw, hx, hq, hp⟩ := ih st h1
      refine ⟨b :: w, x, q, by rw [e]; rfl, ?_, hx, hq, ?_⟩
      · intro y hy
        rcases List.mem_cons.mp hy with rfl | hy
        · exact hb
        · exact hw y hy
      · simp only [tiny_parse_whitespace, skip_ws, hb, if_true] at hp ⊢
        exact hp
    · have hb2 : is_ws b = false := by simpa using hb
      have hnil : all_ws [] := fun _ hy => absurd hy (List.not_mem_nil _)
      exact ⟨[], b, j, rfl, hnil, hb2, h0, tiny_parse_whitespace_append [] b j st hnil hb2⟩

theorem array_cleanup_nodes : ∀ (n : Nat) (nodes : List (tiny_node ν)) (j : List Nat)
    (st : List (stack_item ν)), nodes.length = n →
    array_cleanup n { json := j, stack := st ++ nodes.map .node } = some { json := j, stack := st } := by
  intro n
  induction n with
  | zero =>
    intro nodes j st h
    have : nodes = [] := List.eq_nil_of_length_eq_zero h
    subst this
    simp [array_cleanup]
  | succ n ih =>
    intro nodes j st h
    rcases List.eq_nil_or_concat nodes with rfl | ⟨init, x, rfl⟩
    · simp at h
    · simp only [List.concat_eq_append] at h ⊢
      have hl : init.length = n := by simpa using h
      have hp := tiny_context_pop_append j (st ++ init.map .node) [stack_item.node x]
      simp only [List.length_singleton] at hp
      have e : st ++ (init ++ [x]).map stack_item.node
          = st ++ init.map .node ++ [stack_item.node x] := by simp
      rw [e]
      simp only [array_cleanup, hp, stack_nodes, Option.map_some']
      exact ih init j st hl

theorem object_cleanup_members : ∀ (n : Nat) (ms : List (tiny_member ν)) (j : List Nat)
    (st : List (stack_item ν)), ms.length = n →
    object_cleanup n { json := j, stack := st ++ ms.map .member }
      = some { json := j, stack := st } := by
  intro n
  induction n with
  | zero =>
    intro ms j st h
    have : ms = [] := List.eq_nil_of_length_eq_zero h
    subst this
    simp [object_cleanup]
  | succ n ih =>
    intro ms j st h
    rcases List.eq_nil_or_concat ms with rfl | ⟨init, x, rfl⟩
    · simp at h
    · simp only [List.concat_eq_append] at h ⊢
      have hl : init.length = n := by simpa using h
      have hp := tiny_context_pop_append j (st ++ init.map .member) [stack_item.member x]
      simp only [List.length_singleton] at hp
      have e : st ++ (init ++ [x]).map stack_item.member
          = st ++ init.map .member ++ [stack_item.member x] := by simp
      rw [e]
      simp only [object_cleanup, hp, stack_members, Option.map_some']
      exact ih init j st hl

theorem mem_tail_of_ne (a : Nat) (q : List Nat) (h : 0 ∈ a :: q) (ha : a ≠ 0) : 0 ∈ q := by
  rcases List.mem_cons.mp h with h | h
  · exact absurd h.symm ha
  · exact h

theorem tiny_parse_null_total (q : List Nat) (st : List (stack_item ν)) (node : tiny_node ν)
    (h0 : 0 ∈ q) :
    ∃ ret v c1 t, tiny_parse_null { json := 110 :: q, stack := st } node = some (ret, v, c1)
      ∧ c1.stack = st ∧ 110 :: q = t ++ c1.json ∧ 0 ∈ c1.json
      ∧ (ret = TINY_PARSE_OK → t ≠ []) := by
  rcases q with _ | ⟨a, q1⟩
  · simp at h0
  by_cases ha : a = 117
  swap
  · exact ⟨TINY_PARSE_INVALID_VALUE, node, { json := a :: q1, stack := st }, [110],
      by simp [tiny_parse_null, EXPECT, ha], rfl, rfl, h0, fun _ => by simp⟩
  subst ha
  have h1 := mem_tail_of_ne _ _ h0 (by decide)
  rcases q1 with _ | ⟨b, q2⟩
  · simp at h1
  by_cases hb : b = 108
  swap
  · exact ⟨TINY_PARSE_INVALID_VALUE, node, { json := 117 :: b :: q2, stack := st }, [110],
      by simp [tiny_parse_null, EXPECT, hb], rfl, rfl, h0, fun _ => by simp⟩
  subst hb
  have h2 := mem_tail_of_ne _ _ h1 (by decide)
  rcases q2 with _ | ⟨c, q3⟩
  · simp at h2
  by_cases hc : c = 108
  swap
  · exact ⟨TINY_PARSE_INVALID_VALUE, node, { json := 117 :: 108 :: c :: q3, stack := st },
      [110], by simp [tiny_parse_null, EXPECT, hc], rfl, rfl, h0, fun _ => by simp⟩
  subst hc
  have h3 := mem_tail_of_ne _ _ h2 (by decide)
  exact ⟨TINY_PARSE_OK, .null, { json := q3, stack := st }, [110, 117, 108, 108],
    by simp [tiny_parse_null, EXPECT], rfl, rfl, h3, fun _ => by simp⟩

theorem tiny_parse_true_total (q : List Nat) (st : List (stack_item ν)) (node : tiny_node ν)
    (h0 : 0 ∈ q) :
    ∃ ret v c1 t, tiny_parse_true { json := 116 :: q, stack := st } node = some (ret, v, c1)
      ∧ c1.stack = st ∧ 116 :: q = t ++ c1.json ∧ 0 ∈ c1.json
      ∧ (ret = TINY_PARSE_OK → t ≠ []) := by
  rcases q with _ | ⟨a, q1⟩
  · simp at h0
  by_cases ha : a = 114
  swap
  · exact ⟨TINY_PARSE_INVALID_VALUE, node, { json := a :: q1, stack := st }, [116],
      by simp [tiny_parse_true, EXPECT, ha], rfl, rfl, h0, fun _ => by simp⟩
  subst ha
  have h1 := mem_tail_of_ne _ _ h0 (by decide)
  rcases q1 with _ | ⟨b, q2⟩
  · simp at h1
  by_cases hb : b = 117
  swap
  · exact ⟨TINY_PARSE_INVALID_VALUE, node, { json := 114 :: b :: q2, stack := st }, [116],
      by simp [tiny_parse_true, EXPECT, hb], rfl, rfl, h0, fun _ => by simp⟩
  subst hb
  have h2 := mem_tail_of_ne _ _ h1 (by decide)
  rcases q2 with _ | ⟨c, q3⟩
  · simp at h2
  by_cases hc : c = 101
  swap
  · exact ⟨TINY_PARSE_INVALID_VALUE, node, { json := 114 :: 117 :: c :: q3, stack := st },
      [116], by simp [tiny_parse_true, EXPECT, hc], rfl, rfl, h0, fun _ => by simp⟩
  subst hc
  have h3 := mem_tail_of_ne _ _ h2 (by decide)
  exact ⟨TINY_PARSE_OK, .jtrue, { json := q3, stack := st }, [116, 114, 117, 101],
    by simp [tiny_parse_true, EXPECT], rfl, rfl, h3, fun _ => by simp⟩

theorem tiny_parse_false_total (q : List Nat) (st : List (stack_item ν)) (node : tiny_node ν)
    (h0 : 0 ∈ q) :
    ∃ ret v c1 t, tiny_parse_false { json := 102 :: q, stack := st } node = some (ret, v, c1)
      ∧ c1.stack = st ∧ 102 :: q = t ++ c1.json ∧ 0 ∈ c1.json
      ∧ (ret = TINY_PARSE_OK → t ≠ []) := by
  rcases q with _ | ⟨a, q1⟩
  · simp at h0
  by_cases ha : a = 97
  swap
  · exact ⟨TINY_PARSE_INVALID_VALUE, node, { json := a :: q1, stack := st }, [102],
      by simp [tiny_parse_false, EXPECT, ha], rfl, rfl, h0, fun _ => by simp⟩
  subst ha
  have h1 := mem_tail_of_ne _ _ h0 (by decide)
  rcases q1 with _ | ⟨b, q2⟩
  · simp at h1
  by_cases hb : b = 108
  swap
  · exact ⟨TINY_PARSE_INVALID_VALUE, node, { json := 97 :: b :: q2, stack := st }, [102],
      by simp [tiny_parse_false, EXPECT, hb], rfl, rfl, h0, fun _ => by simp⟩
  subst hb
  have h2 := mem_tail_of_ne _ _ h1 (by decide)
  rcases q2 with _ | ⟨c, q3⟩
  · simp at h2
  by_cases hc : c = 115
  swap
  · exact ⟨TINY_PARSE_INVALID_VALUE, node, { json := 97 :: 108 :: c :: q3, stack := st },
      [102], by simp [tiny_parse_false, EXPECT, hc], rfl, rfl, h0, fun _ => by simp⟩
  subst hc
  have h3 := mem_tail_of_ne _ _ h2 (by decide)
  rcases q3 with _ | ⟨d, q4⟩
  · simp at h3
  by_cases hd : d = 101
  swap
  · exact ⟨TINY_PARSE_INVALID_VALUE, node,
      { json := 97 :: 108 :: 115 :: d :: q4, stack := st },
      [102], by simp [tiny_parse_false, EXPECT, hd], rfl, rfl, h0, fun _ => by simp⟩
  subst hd
  have h4 := mem_tail_of_ne _ _ h3 (by decide)
  exact ⟨TINY_PARSE_OK, .jfalse, { json := q4, stack := st }, [102, 97, 108, 115, 101],
    by simp [tiny_parse_false, EXPECT], rfl, rfl, h4, fun _ => by simp⟩

theorem skip_digits_total : ∀ (p : List Nat), 0 ∈ p →
    ∃ q, skip_digits p = some q ∧ 0 ∈ q := by
  intro p
  induction p with
  | nil => intro h; simp at h
  | cons ch p ih =>
    intro h0
    by_cases hd : ISDIGIT ch = true
    · have hch : ch ≠ 0 := by rintro rfl; simp [ISDIGIT] at hd
      obtain ⟨q, hq, hq0⟩ := ih (mem_tail_of_ne _ _ h0 hch)
      exact ⟨q, by simp [skip_digits, hd, hq], hq0⟩
    · exact ⟨ch :: p, by simp [skip_digits, hd], h0⟩

theorem scan_int_total (p : List Nat) (h0 : 0 ∈ p) :
    scan_int p = some none ∨ ∃ q, scan_int p = some (some q) ∧ 0 ∈ q := by
  rcases p with _ | ⟨ch, q⟩
  · simp at h0
  have key : ∀ (d : Nat) (r : List Nat), 0 ∈ d :: r →
      (if d = 48 then some (some r)
        else if (!ISDIGIT1TO9 d) = true then some none
        else (skip_digits r).map some) = some none
      ∨ ∃ q0, (if d = 48 then some (some r)
        else if (!ISDIGIT1TO9 d) = true then some none
        else (skip_digits r).map some) = some (some q0) ∧ 0 ∈ q0 := by
    intro d r hr
    by_cases h48 : d = 48
    · subst h48
      exact Or.inr ⟨r, by simp, mem_tail_of_ne _ _ hr (by decide)⟩
    by_cases h19 : ISDIGIT1TO9 d = true
    · have hd0 : d ≠ 0 := by rintro rfl; simp [ISDIGIT1TO9] at h19
      obtain ⟨q0, hq, hq0⟩ := skip_digits_total r (mem_tail_of_ne _ _ hr hd0)
      exact Or.inr ⟨q0, by simp [h48, h19, hq], hq0⟩
    · exact Or.inl (by simp [h48, h19])
  by_cases h45 : ch = 45
  · subst h45
    have h1 := mem_tail_of_ne _ _ h0 (by decide)
    rcases q with _ | ⟨d, r⟩
    · simp at h1
    simpa [scan_int] using key d r h1
  · simpa [scan_int, h45] using key ch q h0

theorem scan_frac_total (p : List Nat) (h0 : 0 ∈ p) :
    scan_frac p = some none ∨ ∃ q, scan_frac p = some (some q) ∧ 0 ∈ q := by
  rcases p with _ | ⟨ch, q⟩
  · simp at h0
  by_cases h46 : ch = 46
  · subst h46
    have h1 := mem_tail_of_ne _ _ h0 (by decide)
    rcases q with _ | ⟨d, r⟩
    · simp at h1
    by_cases hd : ISDIGIT d = true
    · have hd0 : d ≠ 0 := by rintro rfl; simp [ISDIGIT] at hd
      obtain ⟨q0, hq, hq0⟩ := skip_digits_total r (mem_tail_of_ne _ _ h1 hd0)
      exact Or.inr ⟨q0, by simp [scan_frac, hd, hq], hq0⟩
    · exact Or.inl (by simp [scan_frac, hd])
  · exact Or.inr ⟨ch :: q, by simp [scan_frac, h46], h0⟩

theorem scan_exp_total (p : List Nat) (h0 : 0 ∈ p) :
    scan_exp p = some none ∨ ∃ q, scan_exp p = some (some q) ∧ 0 ∈ q := by
  rcases p with _ | ⟨ch, q⟩
  · simp at h0
  by_cases he : ch = 101 ∨ ch = 69
  · have hch : ch ≠ 0 := by rcases he with rfl | rfl <;> decide
    have h1 := mem_tail_of_ne _ _ h0 hch
    rcases q with _ | ⟨s, r⟩
    · simp at h1
    have key : ∀ (d : Nat) (r0 : List Nat), 0 ∈ d :: r0 →
        (if (!ISDIGIT d) = true then some none else (skip_digits r0).map some) = some none
        ∨ ∃ q0, (if (!ISDIGIT d) = true then some none else (skip_digits r0).map some)
            = some (some q0) ∧ 0 ∈ q0 := by
      intro d r0 hr
      by_cases hd : ISDIGIT d = true
      · have hd0 : d ≠ 0 := by rintro rfl; simp [ISDIGIT] at hd
        obtain ⟨q0, hq, hq0⟩ := skip_digits_total r0 (mem_tail_of_ne _ _ hr hd0)
        exact Or.inr ⟨q0, by simp [hd, hq], hq0⟩
      · exact Or.inl (by simp [hd])
    by_cases hs : s = 43 ∨ s = 45
    · have hs0 : s ≠ 0 := by rcases hs with rfl | rfl <;> decide
      have h2 := mem_tail_of_ne _ _ h1 hs0
      rcases r with _ | ⟨d, r0⟩
      · simp at h2
      simpa [scan_exp, he, hs] using key d r0 h2
    · simpa [scan_exp, he, hs] using key s r h1
  · exact Or.inr ⟨ch :: q, by simp [scan_exp, he], h0⟩

theorem scan_number_total (p : List Nat) (h0 : 0 ∈ p) :
    scan_number p = some none ∨ ∃ q, scan_number p = some (some q) ∧ 0 ∈ q := by
  rcases scan_int_total p h0 with h1 | ⟨q1, h1, hq1⟩
  · exact Or.inl (by simp [scan_number, h1])
  rcases scan_frac_total q1 hq1 with h2 | ⟨q2, h2, hq2⟩
  · exact Or.inl (by simp [scan_number, h1, h2])
  rcases scan_exp_total q2 hq2 with h3 | ⟨q3, h3, hq3⟩
  · exact Or.inl (by simp [scan_number, h1, h2, h3])
  · exact Or.inr ⟨q3, by simp [scan_number, h1, h2, h3], hq3⟩

theorem tiny_parse_number_total (L : libc ν) (j : List Nat) (st : List (stack_item ν))
    (node : tiny_node ν) (h0 : 0 ∈ j) :
    ∃ ret v c1 t, tiny_parse_number L { json := j, stack := st } node = some (ret, v, c1)
      ∧ c1.stack = st ∧ j = t ++ c1.json ∧ 0 ∈ c1.json
      ∧ (ret = TINY_PARSE_OK → t ≠ []) := by
  rcases scan_number_total j h0 with h1 | ⟨q, h1, hq⟩
  · exact ⟨TINY_PARSE_INVALID_VALUE, node, { json := j, stack := st }, [],
      by simp [tiny_parse_number, h1], rfl, rfl, h0, fun h => by cases h⟩
  · by_cases hf : (L.strtod j).2 = true
    · exact ⟨TINY_PARSE_NUMBER_TOO_BIG, node, { json := j, stack := st }, [],
        by simp [tiny_parse_number, h1, hf], rfl, rfl, h0, fun h => by cases h⟩
    · obtain ⟨t, e, ht⟩ := scan_number_sound _ _ h1
      exact ⟨TINY_PARSE_OK, .number (L.strtod j).1, { json := q, stack := st }, t,
        by simp [tiny_parse_number, h1, hf], rfl, e, hq,
        fun _ => spec_number_grammar_ne_nil t ht⟩

theorem string_escape_u_cases (head : Nat) (p : List Nat) (c : tiny_context ν) (hp : 0 ∈ p) :
    (∃ ret, string_escape_u head p c
        = some (.ret (ret, [], { c with stack := c.stack.take head })))
    ∨ ∃ (q bs t : List Nat), string_escape_u head p c
        = some (.next q { c with stack := c.stack ++ bs.map .byte })
      ∧ p = t ++ q ∧ 0 ∈ q := by
  rcases h : spec_hex4 p with _ | ⟨q, u⟩
  · exact Or.inl ⟨_, string_escape_u_bad_hex p hp h head c⟩
  obtain ⟨d1, d2, d3, d4, rfl, hv⟩ := spec_hex4_some p q u h
  have hq := mem_tail_of_hex4 d1 d2 d3 d4 u q hv hp
  by_cases hhi : 0xD800 ≤ u ∧ u ≤ 0xDBFF
  · rw [string_escape_u_high d1 d2 d3 d4 u hv hhi]
    rcases q with _ | ⟨x, q⟩
    · simp at hq
    by_cases hx : x ≠ 92
    · exact Or.inl ⟨TINY_PARSE_INVALID_UNICODE_SURROGATE, by simp only [if_pos hx]⟩
    have hx0 : x = 92 := by simpa using hx
    subst hx0
    have hq1 : 0 ∈ q := by simpa using hq
    rcases q with _ | ⟨y, q⟩
    · simp at hq1
    by_cases hy : y ≠ 117
    · exact Or.inl ⟨TINY_PARSE_INVALID_UNICODE_SURROGATE,
        by simp only [ne_eq, not_true_eq_false, if_false, if_pos hy]⟩
    have hy0 : y = 117 := by simpa using hy
    subst hy0
    have hq2 : 0 ∈ q := by simpa using hq1
    simp only [ne_eq, not_true_eq_false, if_false, tiny_parse_hex4_spec q hq2]
    rcases h2 : spec_hex4 q with _ | ⟨q1, lo⟩
    · exact Or.inl ⟨_, rfl⟩
    obtain ⟨e1, e2, e3, e4, rfl, hv2⟩ := spec_hex4_some q q1 lo h2
    have hq3 := mem_tail_of_hex4 e1 e2 e3 e4 lo q1 hv2 hq2
    simp only []
    by_cases hlo : lo < 0xDC00 ∨ lo > 0xDFFF
    · exact Or.inl ⟨TINY_PARSE_INVALID_UNICODE_SURROGATE, by simp only [if_pos hlo]⟩
    have hlo1 : 0xDC00 ≤ lo ∧ lo ≤ 0xDFFF := by omega
    rw [if_neg hlo, surrogate_combine u lo hlo1,
      tiny_encode_utf8_spec c _ (spec_surrogate_pair_le u lo hhi hlo1).2]
    exact Or.inr ⟨q1, _, [d1, d2, d3, d4, 92, 117, e1, e2, e3, e4], rfl, rfl, hq3⟩
  · rw [string_escape_u_unicode head d1 d2 d3 d4 u q c hv hhi]
    exact Or.inr ⟨q, _, [d1, d2, d3, d4], rfl, rfl, hq⟩

theorem string_step_cases (p : List Nat) (c : tiny_context ν) (st : List (stack_item ν))
    (bs : List Nat) (hp : 0 ∈ p) (hst : c.stack = st ++ bs.map .byte) :
    (∃ ret str c1, string_step st.length p c = some (.ret (ret, str, c1)) ∧ c1.stack = st
        ∧ (c1.json = c.json ∨ (∃ t, p = t ++ c1.json) ∧ 0 ∈ c1.json))
    ∨ ∃ (q : List Nat) (c1 : tiny_context ν) (bs1 t : List Nat),
        string_step st.length p c = some (.next q c1) ∧ c1.json = c.json
        ∧ c1.stack = st ++ bs1.map .byte ∧ 0 ∈ q ∧ t ≠ [] ∧ p = t ++ q := by
  obtain ⟨j, s⟩ := c
  simp only at hst
  subst hst
  have htake : (st ++ bs.map (stack_item.byte (ν := ν))).take st.length = st := by simp
  have herr : ∀ ret, ∃ ret0 str c1,
      (some (string_step_result.ret (ret, ([] : List Nat),
          ({ json := j, stack := (st ++ bs.map stack_item.byte).take st.length }
            : tiny_context ν)))
        = some (.ret (ret0, str, c1))) ∧ c1.stack = st
        ∧ (c1.json = j ∨ (∃ t, p = t ++ c1.json) ∧ 0 ∈ c1.json) :=
    fun ret => ⟨ret, [], _, rfl, htake, Or.inl rfl⟩
  rcases p with _ | ⟨ch, p⟩
  · simp at hp
  by_cases h34 : ch = 34
  · subst h34
    have hp1 := mem_tail_of_ne _ _ hp (by decide)
    left
    refine ⟨TINY_PARSE_OK, bs, { json := p, stack := st }, ?_, rfl, Or.inr ⟨⟨[34], rfl⟩, hp1⟩⟩
    have hlen : (st ++ bs.map (stack_item.byte (ν := ν))).length - st.length
        = (bs.map (stack_item.byte (ν := ν))).length := by simp
    simp only [string_step_cons, if_true]
    rw [hlen, tiny_context_pop_append]
    simp only [stack_bytes_map_byte]
  by_cases h92 : ch = 92
  · subst h92
    have hp1 := mem_tail_of_ne _ _ hp (by decide)
    rcases p with _ | ⟨e, p⟩
    · simp at hp1
    rcases hse : simple_escape e with _ | b
    · by_cases h117 : e = 117
      · subst h117
        have hp2 := mem_tail_of_ne _ _ hp1 (by decide)
        rw [string_step_escape_u]
        rcases string_escape_u_cases st.length p
            { json := j, stack := st ++ bs.map .byte } hp2 with ⟨ret, h⟩ | ⟨q, bs1, t, h, e1, hq⟩
        · left
          rw [h]
          exact herr ret
        · right
          refine ⟨q, _, bs ++ bs1, 92 :: 117 :: t, h, rfl, by simp, hq, by simp, by simp [e1]⟩
      · left
        have : string_step st.length (92 :: e :: p)
            ({ json := j, stack := st ++ bs.map .byte } : tiny_context ν)
            = some (.ret (TINY_PARSE_INVALID_STRING_ESCAPE, [],
                { json := j, stack := (st ++ bs.map stack_item.byte).take st.length })) := by
          simp only [string_step_cons, if_neg h34, if_true, hse, if_neg h117, STRING_ERROR,
            Option.map_some']
        rw [this]
        exact herr _
    · right
      have he0 : e ≠ 0 := by
        rintro rfl
        simp [simple_escape] at hse
      refine ⟨p, PUTC { json := j, stack := st ++ bs.map .byte } b, bs ++ [b], [92, e], ?_,
        rfl, by simp [PUTC], mem_tail_of_ne _ _ hp1 he0, by simp, rfl⟩
      simp only [string_step_cons, if_neg h34, if_true, hse]
  by_cases h0 : ch = 0
  · left
    have : string_step st.length (ch :: p)
        ({ json := j, stack := st ++ bs.map .byte } : tiny_context ν)
        = some (.ret (TINY_PARSE_MISS_QUOTATION_MARK, [],
            { json := j, stack := (st ++ bs.map stack_item.byte).take st.length })) := by
      simp only [string_step_cons, if_neg h34, if_neg h92, if_pos h0, STRING_ERROR,
        Option.map_some']
    rw [this]
    exact herr _
  by_cases h32 : ch < 0x20
  · left
    have : string_step st.length (ch :: p)
        ({ json := j, stack := st ++ bs.map .byte } : tiny_context ν)
        = some (.ret (TINY_PARSE_INVALID_STRING_CHAR, [],
            { json := j, stack := (st ++ bs.map stack_item.byte).take st.length })) := by
      simp only [string_step_cons, if_neg h34, if_neg h92, if_neg h0, if_pos h32, STRING_ERROR,
        Option.map_some']
    rw [this]
    exact herr _
  · right
    refine ⟨p, PUTC { json := j, stack := st ++ bs.map .byte } ch, bs ++ [ch], [ch], ?_,
      rfl, by simp [PUTC], mem_tail_of_ne _ _ hp h0, by simp, rfl⟩
    simp only [string_step_cons, if_neg h34, if_neg h92, if_neg h0, if_neg h32]

theorem string_loop_total : ∀ (fuel : Nat) (p : List Nat) (c : tiny_context ν)
    (st : List (stack_item ν)) (bs : List Nat), 0 ∈ p → p.length ≤ fuel →
    c.stack = st ++ bs.map .byte → 0 ∈ c.json → (∃ t0, c.json = t0 ++ p) →
    ∃ ret str c1 t, string_loop st.length fuel p c = some (ret, str, c1) ∧ c1.stack = st
      ∧ c.json = t ++ c1.json ∧ 0 ∈ c1.json := by
  intro fuel
  induction fuel with
  | zero =>
    intro p c st bs hp hlen
    rcases p with _ | ⟨x, p⟩
    · simp at hp
    · simp at hlen
  | succ fuel ih =>
    intro p c st bs hp hlen hst hj ⟨t0, ht0⟩
    rcases string_step_cases p c st bs hp hst with
      ⟨ret, str, c1, h, hs1, hj1⟩ | ⟨q, c1, bs1, t, h, hj1, hs1, hq, htne, hpq⟩
    · refine ⟨ret, str, c1, ?_⟩
      rcases hj1 with hj1 | ⟨⟨t, ht⟩, h01⟩
      · exact ⟨[], by simp only [string_loop, h], hs1, by simp [hj1], by rw [hj1]; exact hj⟩
      · exact ⟨t0 ++ t, by simp only [string_loop, h], hs1, by rw [ht0, ht]; simp, h01⟩
    · have hlen1 : q.length ≤ fuel := by
        have : t.length ≠ 0 := by simpa using htne
        have h2 : p.length = t.length + q.length := by rw [hpq]; simp
        omega
      obtain ⟨ret, str, c2, t2, h2, hs2, hj2, h02⟩ :=
        ih q c1 st bs1 hq hlen1 hs1 (by rw [hj1]; exact hj)
          ⟨t0 ++ t, by rw [hj1, ht0, hpq]; simp⟩
      exact ⟨ret, str, c2, t2, by simp only [string_loop, h, h2], hs2, by rw [← hj1]; exact hj2,
        h02⟩

theorem tiny_parse_string_raw_total (q : List Nat) (st : List (stack_item ν)) (h0 : 0 ∈ q) :
    ∃ ret str c1 t, tiny_parse_string_raw { json := 34 :: q, stack := st }
        = some (ret, str, c1) ∧ c1.stack = st ∧ 34 :: q = t ++ c1.json ∧ 0 ∈ c1.json
      ∧ t ≠ [] := by
  obtain ⟨ret, str, c1, t, h, hs, hj, h01⟩ :=
    string_loop_total q.length q { json := q, stack := st } st [] h0 (Nat.le_refl _)
      (by simp) h0 ⟨[], rfl⟩
  refine ⟨ret, str, c1, 34 :: t, ?_, hs, by simpa using hj, h01, by simp⟩
  simpa [tiny_parse_string_raw, EXPECT] using h

theorem tiny_parse_string_total (q : List Nat) (st : List (stack_item ν)) (node : tiny_node ν)
    (h0 : 0 ∈ q) :
    ∃ ret v c1 t, tiny_parse_string { json := 34 :: q, stack := st } node = some (ret, v, c1)
      ∧ c1.stack = st ∧ 34 :: q = t ++ c1.json ∧ 0 ∈ c1.json
      ∧ (ret = TINY_PARSE_OK → t ≠ []) := by
  obtain ⟨ret, str, c1, t, h, hs, hj, h01, htne⟩ := tiny_parse_string_raw_total q st h0
  by_cases hr : ret = TINY_PARSE_OK
  · exact ⟨ret, tiny_set_string node str str.length, c1, t,
      by simp only [tiny_parse_string, h, if_pos hr], hs, hj, h01, fun _ => htne⟩
  · exact ⟨ret, node, c1, t, by simp only [tiny_parse_string, h, if_neg hr], hs, hj, h01,
      fun _ => htne⟩

theorem array_round_end_cases (j : List Nat) (st : List (stack_item ν))
    (nodes : List (tiny_node ν)) (node : tiny_node ν) (h0 : 0 ∈ j) :
    (∃ ret v c1 t, array_round_end { json := j, stack := st ++ nodes.map .node } node
          nodes.length = some (.ret (ret, v, c1))
        ∧ c1.stack = st ∧ j = t ++ c1.json ∧ 0 ∈ c1.json)
    ∨ ∃ (c1 : tiny_context ν) (t : List Nat),
        array_round_end { json := j, stack := st ++ nodes.map .node } node nodes.length
          = some (.next c1)
        ∧ c1.stack = st ++ nodes.map .node ∧ j = t ++ c1.json ∧ t ≠ [] ∧ 0 ∈ c1.json := by
  obtain ⟨w, x, q, rfl, _, _, hxq, hws⟩ :=
    tiny_parse_whitespace_total j (st ++ nodes.map .node) h0
  by_cases h44 : x = 44
  · subst h44
    obtain ⟨w1, x1, q1, rfl, _, _, hxq1, hws1⟩ :=
      tiny_parse_whitespace_total q (st ++ nodes.map .node) (mem_tail_of_ne _ _ hxq (by decide))
    right
    refine ⟨{ json := x1 :: q1, stack := st ++ nodes.map .node }, w ++ 44 :: w1, ?_, rfl,
      by simp, by simp, hxq1⟩
    simp only [array_round_end, hws, if_true, hws1, Option.map_some']
  by_cases h93 : x = 93
  · subst h93
    left
    have hpop := tiny_context_pop_append q st (nodes.map (stack_item.node (ν := ν)))
    simp only [List.length_map] at hpop
    refine ⟨TINY_PARSE_OK, .array nodes none, { json := q, stack := st }, w ++ [93], ?_, rfl,
      by simp, mem_tail_of_ne _ _ hxq (by decide)⟩
    simp only [array_round_end, hws, if_neg h44, if_true, hpop, stack_nodes_map_node,
      Option.map_some']
  · left
    refine ⟨TINY_PARSE_MISS_COMMA_OR_SQUARE_BRACKET, node, { json := x :: q, stack := st }, w,
      ?_, rfl, rfl, hxq⟩
    simp only [array_round_end, hws, if_neg h44, if_neg h93,
      array_cleanup_nodes nodes.length nodes (x :: q) st rfl, Option.map_some']

theorem array_loop_total (n : Nat)
    (pv : tiny_context ν → tiny_node ν → Option (parse_result ν)) (hpv : parses_safely n pv) :
    ∀ (fuel : Nat) (j : List Nat) (st : List (stack_item ν)) (nodes : List (tiny_node ν))
      (node : tiny_node ν), 0 ∈ j → j.length ≤ n → j.length ≤ fuel →
      ∃ ret v c1 t, array_loop pv fuel { json := j, stack := st ++ nodes.map .node } node
            nodes.length = some (ret, v, c1)
        ∧ c1.stack = st ∧ j = t ++ c1.json ∧ 0 ∈ c1.json := by
  intro fuel
  induction fuel with
  | zero =>
    intro j st nodes node h0 _ hf
    rcases j with _ | ⟨x, j⟩
    · simp at h0
    · simp at hf
  | succ fuel ih =>
    intro j st nodes node h0 hn hf
    obtain ⟨ret, e, c1, t, hp, hs, hj, h01, hne⟩ :=
      hpv j (st ++ nodes.map .node) (tiny_init .null) h0 hn
    obtain ⟨j1, s1⟩ := c1
    simp only at hs hj h01
    subst hs
    by_cases hr : ret ≠ TINY_PARSE_OK
    · refine ⟨ret, node, { json := j1, stack := st }, t, ?_, rfl, hj, h01⟩
      simp only [array_loop, hp, if_pos hr,
        array_cleanup_nodes nodes.length nodes j1 st rfl, Option.map_some']
    have hr0 : ret = TINY_PARSE_OK := by simpa using hr
    have hpush : tiny_context_push
        ({ json := j1, stack := st ++ nodes.map .node } : tiny_context ν) [.node e]
        = some { json := j1, stack := st ++ (nodes ++ [e]).map .node } := by
      simp [tiny_context_push]
    have htl : t.length ≠ 0 := by simpa using hne hr0
    have hlen : j.length = t.length + j1.length := by rw [hj]; simp
    have hsz : nodes.length + 1 = (nodes ++ [e]).length := by simp
    rcases array_round_end_cases j1 st (nodes ++ [e]) node h01 with
      ⟨ret2, v2, c2, t2, h2, hs2, hj2, h02⟩ | ⟨c2, t2, h2, hs2, hj2, hne2, h02⟩
    · refine ⟨ret2, v2, c2, t ++ t2, ?_, hs2, by rw [hj, hj2]; simp, h02⟩
      simp only [array_loop, hp, if_neg hr, hpush, hsz, h2]
    · obtain ⟨j2, s2⟩ := c2
      simp only at hs2 hj2 h02
      subst hs2
      have hlen2 : j1.length = t2.length + j2.length := by rw [hj2]; simp
      obtain ⟨ret3, v3, c3, t3, h3, hs3, hj3, h03⟩ :=
        ih j2 st (nodes ++ [e]) node h02 (by omega) (by omega)
      refine ⟨ret3, v3, c3, t ++ (t2 ++ t3), ?_, hs3, by rw [hj, hj2, hj3]; simp, h03⟩
      simp only [array_loop, hp, if_neg hr, hpush, hsz, h2, h3]

theorem tiny_parse_array_total (n : Nat)
    (pv : tiny_context ν → tiny_node ν → Option (parse_result ν)) (hpv : parses_safely n pv)
    (q : List Nat) (st : List (stack_item ν)) (node : tiny_node ν) (h0 : 0 ∈ q)
    (hn : q.length ≤ n) :
    ∃ ret v c1 t, tiny_parse_array pv { json := 91 :: q, stack := st } node
        = some (ret, v, c1)
      ∧ c1.stack = st ∧ 91 :: q = t ++ c1.json ∧ 0 ∈ c1.json
      ∧ (ret = TINY_PARSE_OK → t ≠ []) := by
  obtain ⟨w, x, r, rfl, _, _, hxr, hws⟩ := tiny_parse_whitespace_total q st h0
  by_cases h93 : x = 93
  · subst h93
    refine ⟨TINY_PARSE_OK, .array [] none, { json := r, stack := st }, 91 :: (w ++ [93]), ?_,
      rfl, by simp, mem_tail_of_ne _ _ hxr (by decide), fun _ => by simp⟩
    simp [tiny_parse_array, EXPECT, hws]
  · have hlen : (x :: r).length ≤ n := by
      have : (w ++ x :: r).length = w.length + (x :: r).length := by simp
      omega
    obtain ⟨ret, v, c1, t, h, hs, hj, h01⟩ :=
      array_loop_total n pv hpv (x :: r).length (x :: r) st [] node hxr hlen (Nat.le_refl _)
    refine ⟨ret, v, c1, 91 :: (w ++ t), ?_, hs, by rw [hj]; simp, h01, fun _ => by simp⟩
    simp only [List.map_nil, List.append_nil, List.length_nil] at h
    simp only [tiny_parse_array, EXPECT, if_true, Option.some_bind, hws, if_neg h93, h]

theorem object_round_key_total (j : List Nat) (s : List (stack_item ν)) (h0 : 0 ∈ j) :
    ∃ ret key c1 t, object_round_key { json := j, stack := s } = some (ret, key, c1)
      ∧ c1.stack = s ∧ j = t ++ c1.json ∧ 0 ∈ c1.json := by
  rcases j with _ | ⟨x, q⟩
  · simp at h0
  by_cases h34 : x ≠ 34
  · exact ⟨TINY_PARSE_MISS_KEY, [], { json := x :: q, stack := s }, [],
      by simp only [object_round_key, if_pos h34], rfl, rfl, h0⟩
  have hx : x = 34 := by simpa using h34
  subst hx
  obtain ⟨ret, str, c1, t, h, hs, hj, h01, _⟩ :=
    tiny_parse_string_raw_total q s (mem_tail_of_ne _ _ h0 (by decide))
  obtain ⟨j1, s1⟩ := c1
  simp only at hs hj h01
  subst hs
  by_cases hr : ret ≠ TINY_PARSE_OK
  · exact ⟨ret, [], { json := j1, stack := s1 }, t,
      by simp only [object_round_key, if_neg h34, h, if_pos hr], rfl, hj, h01⟩
  obtain ⟨w, y, r, rfl, _, _, hyr, hws⟩ := tiny_parse_whitespace_total j1 s1 h01
  by_cases h58 : y ≠ 58
  · exact ⟨TINY_PARSE_MISS_COLON, [], { json := y :: r, stack := s1 }, t ++ w,
      by simp only [object_round_key, if_neg h34, h, if_neg hr, hws, if_pos h58], rfl,
      by rw [hj]; simp, hyr⟩
  have hy : y = 58 := by simpa using h58
  subst hy
  obtain ⟨w1, z, r1, rfl, _, _, hzr, hws1⟩ :=
    tiny_parse_whitespace_total r s1 (mem_tail_of_ne _ _ hyr (by decide))
  exact ⟨TINY_PARSE_OK, str, { json := z :: r1, stack := s1 }, t ++ (w ++ 58 :: w1),
    by simp only [object_round_key, if_neg h34, h, if_neg hr, hws, if_neg h58, hws1,
      Option.map_some'], rfl, by rw [hj]; simp, hzr⟩

theorem object_round_end_cases (j : List Nat) (st : List (stack_item ν))
    (ms : List (tiny_member ν)) (h0 : 0 ∈ j) :
    (∃ ret v c1 t, object_round_end { json := j, stack := st ++ ms.map .member } ms.length
          = some (.ret (ret, v, c1))
        ∧ c1.stack = st ∧ j = t ++ c1.json ∧ 0 ∈ c1.json)
    ∨ ∃ (c1 : tiny_context ν) (t : List Nat),
        object_round_end { json := j, stack := st ++ ms.map .member } ms.length
          = some (.next c1)
        ∧ c1.stack = st ++ ms.map .member ∧ j = t ++ c1.json ∧ t ≠ [] ∧ 0 ∈ c1.json := by
  obtain ⟨w, x, q, rfl, _, _, hxq, hws⟩ :=
    tiny_parse_whitespace_total j (st ++ ms.map .member) h0
  by_cases h44 : x = 44
  · subst h44
    obtain ⟨w1, x1, q1, rfl, _, _, hxq1, hws1⟩ :=
      tiny_parse_whitespace_total q (st ++ ms.map .member) (mem_tail_of_ne _ _ hxq (by decide))
    right
    refine ⟨{ json := x1 :: q1, stack := st ++ ms.map .member }, w ++ 44 :: w1, ?_, rfl,
      by simp, by simp, hxq1⟩
    simp only [object_round_end, hws, if_true, hws1, Option.map_some']
  by_cases h125 : x = 125
  · subst h125
    left
    have hpop := tiny_context_pop_append q st (ms.map (stack_item.member (ν := ν)))
    simp only [List.length_map] at hpop
    refine ⟨TINY_PARSE_OK, .object ms none, { json := q, stack := st }, w ++ [125], ?_, rfl,
      by simp, mem_tail_of_ne _ _ hxq (by decide)⟩
    simp only [object_round_end, hws, if_neg h44, if_true, hpop, stack_members_map_member,
      Option.map_some']
  · left
    refine ⟨TINY_PARSE_MISS_COMMA_OR_CURLY_BRACKET, .null, { json := x :: q, stack := st }, w,
      ?_, rfl, rfl, hxq⟩
    simp only [object_round_end, hws, if_neg h44, if_neg h125, object_break,
      object_cleanup_members ms.length ms (x :: q) st rfl, Option.map_some']

theorem object_loop_total (n : Nat)
    (pv : tiny_context ν → tiny_node ν → Option (parse_result ν)) (hpv : parses_safely n pv) :
    ∀ (fuel : Nat) (j : List Nat) (st : List (stack_item ν)) (ms : List (tiny_member ν))
      (node : tiny_node ν), 0 ∈ j → j.length ≤ n → j.length ≤ fuel →
      ∃ ret v c1 t, object_loop pv fuel { json := j, stack := st ++ ms.map .member } node
            ms.length = some (ret, v, c1)
        ∧ c1.stack = st ∧ j = t ++ c1.json ∧ 0 ∈ c1.json := by
  intro fuel
  induction fuel with
  | zero =>
    intro j st ms node h0 _ hf
    rcases j with _ | ⟨x, j⟩
    · simp at h0
    · simp at hf
  | succ fuel ih =>
    intro j st ms node h0 hn hf
    obtain ⟨ret0, key, c0, t0, hk, hs0, hj0, h00⟩ :=
      object_round_key_total j (st ++ ms.map .member) h0
    obtain ⟨j0, s0⟩ := c0
    simp only at hs0 hj0 h00
    subst hs0
    by_cases hr0 : ret0 ≠ TINY_PARSE_OK
    · refine ⟨ret0, .null, { json := j0, stack := st }, t0, ?_, rfl, hj0, h00⟩
      simp only [object_loop, hk, if_pos hr0, object_break,
        object_cleanup_members ms.length ms j0 st rfl, Option.map_some']
    have hlen0 : j.length = t0.length + j0.length := by rw [hj0]; simp
    obtain ⟨ret, e, c1, t, hp, hs, hj, h01, hne⟩ :=
      hpv j0 (st ++ ms.map .member) (tiny_init .null) h00 (by omega)
    obtain ⟨j1, s1⟩ := c1
    simp only at hs hj h01
    subst hs
    by_cases hr : ret ≠ TINY_PARSE_OK
    · refine ⟨ret, .null, { json := j1, stack := st }, t0 ++ t, ?_, rfl,
        by rw [hj0, hj]; simp, h01⟩
      simp only [object_loop, hk, if_neg hr0, hp, if_pos hr, object_break,
        object_cleanup_members ms.length ms j1 st rfl, Option.map_some']
    have hrok : ret = TINY_PARSE_OK := by simpa using hr
    have hpush : tiny_context_push
        ({ json := j1, stack := st ++ ms.map .member } : tiny_context ν)
        [.member (.mk key (some key.length) e)]
        = some { json := j1, stack := st ++ (ms ++ [tiny_member.mk key (some key.length) e]).map .member }
        := by
      simp [tiny_context_push]
    have htl : t.length ≠ 0 := by simpa using hne hrok
    have hlen : j0.length = t.length + j1.length := by rw [hj]; simp
    have hsz : ms.length + 1 = (ms ++ [tiny_member.mk key (some key.length) e]).length := by
      simp
    rcases object_round_end_cases j1 st (ms ++ [tiny_member.mk key (some key.length) e]) h01 with
      ⟨ret2, v2, c2, t2, h2, hs2, hj2, h02⟩ | ⟨c2, t2, h2, hs2, hj2, hne2, h02⟩
    · refine ⟨ret2, v2, c2, t0 ++ (t ++ t2), ?_, hs2, by rw [hj0, hj, hj2]; simp, h02⟩
      simp only [object_loop, hk, if_neg hr0, hp, if_neg hr, hpush, hsz, h2]
    · obtain ⟨j2, s2⟩ := c2
      simp only at hs2 hj2 h02
      subst hs2
      have hlen2 : j1.length = t2.length + j2.length := by rw [hj2]; simp
      obtain ⟨ret3, v3, c3, t3, h3, hs3, hj3, h03⟩ :=
        ih j2 st (ms ++ [tiny_member.mk key (some key.length) e]) node h02 (by omega) (by omega)
      refine ⟨ret3, v3, c3, t0 ++ (t ++ (t2 ++ t3)), ?_, hs3,
        by rw [hj0, hj, hj2, hj3]; simp, h03⟩
      simp only [object_loop, hk, if_neg hr0, hp, if_neg hr, hpush, hsz, h2, h3]

theorem tiny_parse_object_total (n : Nat)
    (pv : tiny_context ν → tiny_node ν → Option (parse_result ν)) (hpv : parses_safely n pv)
    (q : List Nat) (st : List (stack_item ν)) (node : tiny_node ν) (h0 : 0 ∈ q)
    (hn : q.length ≤ n) :
    ∃ ret v c1 t, tiny_parse_object pv { json := 123 :: q, stack := st } node
        = some (ret, v, c1)
      ∧ c1.stack = st ∧ 123 :: q = t ++ c1.json ∧ 0 ∈ c1.json
      ∧ (ret = TINY_PARSE_OK → t ≠ []) := by
  obtain ⟨w, x, r, rfl, _, _, hxr, hws⟩ := tiny_parse_whitespace_total q st h0
  by_cases h125 : x = 125
  · subst h125
    refine ⟨TINY_PARSE_OK, .object [] none, { json := r, stack := st }, 123 :: (w ++ [125]),
      ?_, rfl, by simp, mem_tail_of_ne _ _ hxr (by decide), fun _ => by simp⟩
    simp [tiny_parse_object, EXPECT, hws]
  · have hlen : (x :: r).length ≤ n := by
      have : (w ++ x :: r).length = w.length + (x :: r).length := by simp
      omega
    obtain ⟨ret, v, c1, t, h, hs, hj, h01⟩ :=
      object_loop_total n pv hpv (x :: r).length (x :: r) st [] node hxr hlen (Nat.le_refl _)
    refine ⟨ret, v, c1, 123 :: (w ++ t), ?_, hs, by rw [hj]; simp, h01, fun _ => by simp⟩
    simp only [List.map_nil, List.append_nil, List.length_nil] at h
    simp only [tiny_parse_object, EXPECT, if_true, Option.some_bind, hws, if_neg h125, h]

theorem parse_value_switch_safely (L : libc ν) (n : Nat)
    (pv : tiny_context ν → tiny_node ν → Option (parse_result ν)) (hpv : parses_safely n pv) :
    parses_safely (n + 1) (parse_value_switch L pv) := by
  intro j st node h0 hn
  rcases j with _ | ⟨ch, q⟩
  · simp at h0
  have hq : q.length ≤ n := by simpa using hn
  by_cases h1 : ch = 110
  · subst h1
    have := tiny_parse_null_total q st node (mem_tail_of_ne _ _ h0 (by decide))
    simpa only [parse_value_switch, if_true] using this
  by_cases h2 : ch = 116
  · subst h2
    have := tiny_parse_true_total q st node (mem_tail_of_ne _ _ h0 (by decide))
    simpa only [parse_value_switch, if_neg h1, if_true] using this
  by_cases h3 : ch = 102
  · subst h3
    have := tiny_parse_false_total q st node (mem_tail_of_ne _ _ h0 (by decide))
    simpa only [parse_value_switch, if_neg h1, if_neg h2, if_true] using this
  by_cases h4 : ch = 34
  · subst h4
    have := tiny_parse_string_total q st node (mem_tail_of_ne _ _ h0 (by decide))
    simpa only [parse_value_switch, if_neg h1, if_neg h2, if_neg h3, if_true] using this
  by_cases h5 : ch = 91
  · subst h5
    have := tiny_parse_array_total n pv hpv q st node (mem_tail_of_ne _ _ h0 (by decide)) hq
    simpa only [parse_value_switch, if_neg h1, if_neg h2, if_neg h3, if_neg h4, if_true]
      using this
  by_cases h6 : ch = 123
  · subst h6
    have := tiny_parse_object_total n pv hpv q st node (mem_tail_of_ne _ _ h0 (by decide)) hq
    simpa only [parse_value_switch, if_neg h1, if_neg h2, if_neg h3, if_neg h4, if_neg h5,
      if_true] using this
  by_cases h7 : ch = 0
  · exact ⟨TINY_PARSE_EXPECT_VALUE, node, { json := ch :: q, stack := st }, [],
      by simp only [parse_value_switch, if_neg h1, if_neg h2, if_neg h3, if_neg h4, if_neg h5,
        if_neg h6, if_pos h7], rfl, rfl, h0, fun h => by cases h⟩
  · have := tiny_parse_number_total L (ch :: q) st node h0
    simpa only [parse_value_switch, if_neg h1, if_neg h2, if_neg h3, if_neg h4, if_neg h5,
      if_neg h6, if_neg h7] using this

theorem tiny_parse_value_safely (L : libc ν) :
    ∀ (n : Nat), parses_safely n (tiny_parse_value L n) := by
  intro n
  induction n with
  | zero =>
    intro j st node h0 hn
    rcases j with _ | ⟨x, j⟩
    · simp at h0
    · simp at hn
  | succ n ih => exact parse_value_switch_safely L n _ ih

theorem tiny_parse_total (L : libc ν) (node : tiny_node ν) (json : List Nat)
    (h0 : 0 ∈ json) : ∃ ret out, tiny_parse L node json = some (ret, out) := by
  obtain ⟨w, x, q, rfl, _, _, hxq, hws⟩ := tiny_parse_whitespace_total (ν := ν) json [] h0
  have hlen : (x :: q).length ≤ (w ++ x :: q).length := by simp
  obtain ⟨ret, v, c1, t, hp, hs, hj, h01, _⟩ :=
    tiny_parse_value_safely L (w ++ x :: q).length (x :: q) [] (tiny_init node) hxq hlen
  obtain ⟨j1, s1⟩ := c1
  simp only at hs hj h01
  subst hs
  by_cases hr : ret = TINY_PARSE_OK
  · obtain ⟨w1, y, r, rfl, _, _, hyr, hws1⟩ := tiny_parse_whitespace_total (ν := ν) j1 [] h01
    by_cases hy : y ≠ 0
    · refine ⟨TINY_PARSE_ROOT_NOT_SINGULAR, v, ?_⟩
      unfold tiny_parse
      simp only [hws, hp, if_pos hr, hws1, if_pos hy]
      simp
    · refine ⟨ret, v, ?_⟩
      unfold tiny_parse
      simp only [hws, hp, if_pos hr, hws1, if_neg hy]
      simp
  · refine ⟨ret, v, ?_⟩
    unfold tiny_parse
    simp only [hws, hp, if_neg hr]
    simp

/-- C26: on every input that holds a terminating NUL, valid or not, `tiny_parse` returns:
no byte after the NUL is read, no pop takes more than the stack holds, and the assertion
`c.top == 0` at its end holds. The reason is that `tiny_parse_value`, started on any stack,
returns with the stack as it found it: every push is undone by a pop or by a rewind. -/
theorem C26_stack_empty_after_parse (L : libc ν) (node : tiny_node ν) (json : List Nat)
    (h0 : 0 ∈ json) :
    (∃ ret out, tiny_parse L node json = some (ret, out))
    ∧ ∀ (st : List (stack_item ν)) (nd : tiny_node ν),
        ∃ ret v c1, tiny_parse_value L json.length { json := json, stack := st } nd
            = some (ret, v, c1) ∧ c1.stack = st := by
  refine ⟨tiny_parse_total L node json h0, fun st nd => ?_⟩
  obtain ⟨ret, v, c1, _, h, hs, _⟩ :=
    tiny_parse_value_safely L json.length json st nd h0 (Nat.le_refl _)
  exact ⟨ret, v, c1, h, hs⟩

/-- C26, instantiated: the text of an array that holds a string and then an object that
is not closed. -/
theorem C26_stack_empty_after_parse_witness :
    0 ∈ [91, 34, 97, 34, 44, 123, 0]
    ∧ (∃ ret out, tiny_parse demo_libc .null [91, 34, 97, 34, 44, 123, 0] = some (ret, out))
    ∧ ∀ (st : List (stack_item (List Nat))) (nd : tiny_node (List Nat)),
        ∃ ret v c1, tiny_parse_value demo_libc [91, 34, 97, 34, 44, 123, 0].length
            { json := [91, 34, 97, 34, 44, 123, 0], stack := st } nd
            = some (ret, v, c1) ∧ c1.stack = st :=
  ⟨by decide, C26_stack_empty_after_parse demo_libc .null [91, 34, 97, 34, 44, 123, 0]
    (by decide)⟩

/-! ### Replaying a value that is not a number on any input -/

theorem tiny_parse_array_replay
    (pv pv0 : tiny_context ν → tiny_node ν → Option (parse_result ν)) (hf : frames pv pv0)
    (j : List Nat) (st : List (stack_item ν)) (node v : tiny_node ν) (c1 : tiny_context ν)
    (h : tiny_parse_array pv { json := j, stack := st } node = some (TINY_PARSE_OK, v, c1)) :
    ∃ t, t ≠ [] ∧ j = t ++ c1.json ∧ c1.stack = st ∧
      ∀ (r : List Nat) (st0 : List (stack_item ν)) (node0 : tiny_node ν),
        tiny_parse_array pv0 { json := t ++ r, stack := st0 } node0
          = some (TINY_PARSE_OK, v, { json := r, stack := st0 }) := by
  cases j with
  | nil => simp [tiny_parse_array, EXPECT] at h
  | cons b p =>
    by_cases hb : b = 91
    swap
    · simp [tiny_parse_array, EXPECT, hb] at h
    subst hb
    simp only [tiny_parse_array, EXPECT, if_true, Option.some_bind] at h
    rcases hw : tiny_parse_whitespace { json := p, stack := st } with _ | c
    · simp [hw] at h
    obtain ⟨w, x, q, rfl, hw1, hx, rfl⟩ := tiny_parse_whitespace_some _ _ _ hw
    simp only [hw, Option.some_bind] at h
    by_cases h93 : x = 93
    · subst h93
      simp only [if_true, Option.some.injEq, Prod.mk.injEq, true_and] at h
      obtain ⟨rfl, rfl⟩ := h
      refine ⟨91 :: (w ++ [93]), by simp, by simp, rfl, ?_⟩
      intro r st0 node0
      have a1 := tiny_parse_whitespace_append w 93 r st0 hw1 (by decide)
      simp [tiny_parse_array, EXPECT, a1]
    · simp only [h93, if_false] at h
      have h2 : array_loop pv (x :: q).length
          { json := x :: q, stack := st ++ ([] : List (tiny_node ν)).map .node } node
          ([] : List (tiny_node ν)).length = some (TINY_PARSE_OK, v, c1) := by
        simpa using h
      obtain ⟨t2, hne2, e2, es, hrep2⟩ := array_loop_frame pv pv0 hf _ _ _ _ _ _ _ h2
      obtain ⟨y, t3, rfl⟩ : ∃ y t3, t2 = y :: t3 := by
        cases t2 with
        | nil => exact absurd rfl hne2
        | cons y t3 => exact ⟨y, t3, rfl⟩
      have hy : y = x := by simp at e2; exact e2.1.symm
      subst hy
      refine ⟨91 :: (w ++ y :: t3), by simp, ?_, es, ?_⟩
      · simp only [List.cons_append, List.cons.injEq, true_and] at e2
        rw [e2]
        simp
      · intro r st0 node0
        have a1 := tiny_parse_whitespace_append w y (t3 ++ r) st0 hw1 hx
        have a3 := hrep2 r st0 node0 (y :: (t3 ++ r)).length (by simp)
        simp only [List.map_nil, List.append_nil, List.length_nil, List.cons_append,
          List.length_cons, List.length_append] at a3
        simp [tiny_parse_array, EXPECT, a1, h93, a3]

theorem tiny_parse_object_replay
    (pv pv0 : tiny_context ν → tiny_node ν → Option (parse_result ν)) (hf : frames pv pv0)
    (j : List Nat) (st : List (stack_item ν)) (node v : tiny_node ν) (c1 : tiny_context ν)
    (h : tiny_parse_object pv { json := j, stack := st } node = some (TINY_PARSE_OK, v, c1)) :
    ∃ t, t ≠ [] ∧ j = t ++ c1.json ∧ c1.stack = st ∧
      ∀ (r : List Nat) (st0 : List (stack_item ν)) (node0 : tiny_node ν),
        tiny_parse_object pv0 { json := t ++ r, stack := st0 } node0
          = some (TINY_PARSE_OK, v, { json := r, stack := st0 }) := by
  cases j with
  | nil => simp [tiny_parse_object, EXPECT] at h
  | cons b p =>
    by_cases hb : b = 123
    swap
    · simp [tiny_parse_object, EXPECT, hb] at h
    subst hb
    simp only [tiny_parse_object, EXPECT, if_true, Option.some_bind] at h
    rcases hw : tiny_parse_whitespace { json := p, stack := st } with _ | c
    · simp [hw] at h
    obtain ⟨w, x, q, rfl, hw1, hx, rfl⟩ := tiny_parse_whitespace_some _ _ _ hw
    simp only [hw, Option.some_bind] at h
    by_cases h125 : x = 125
    · subst h125
      simp only [if_true, Option.some.injEq, Prod.mk.injEq, true_and] at h
      obtain ⟨rfl, rfl⟩ := h
      refine ⟨123 :: (w ++ [125]), by simp, by simp, rfl, ?_⟩
      intro r st0 node0
      have a1 := tiny_parse_whitespace_append w 125 r st0 hw1 (by decide)
      simp [tiny_parse_object, EXPECT, a1]
    · simp only [h125, if_false] at h
      have h2 : object_loop pv (x :: q).length
          { json := x :: q, stack := st ++ ([] : List (tiny_member ν)).map .member } node
          ([] : List (tiny_member ν)).length = some (TINY_PARSE_OK, v, c1) := by
        simpa using h
      obtain ⟨t2, hne2, e2, es, hrep2⟩ := object_loop_frame pv pv0 hf _ _ _ _ _ _ _ h2
      obtain ⟨y, t3, rfl⟩ : ∃ y t3, t2 = y :: t3 := by
        cases t2 with
        | nil => exact absurd rfl hne2
        | cons y t3 => exact ⟨y, t3, rfl⟩
      have hy : y = x := by simp at e2; exact e2.1.symm
      subst hy
      refine ⟨123 :: (w ++ y :: t3), by simp, ?_, es, ?_⟩
      · simp only [List.cons_append, List.cons.injEq, true_and] at e2
        rw [e2]
        simp
      · intro r st0 node0
        have a1 := tiny_parse_whitespace_append w y (t3 ++ r) st0 hw1 hx
        have a3 := hrep2 r st0 node0 (y :: (t3 ++ r)).length (by simp)
        simp only [List.map_nil, List.append_nil, List.length_nil, List.cons_append,
          List.length_cons, List.length_append] at a3
        simp [tiny_parse_object, EXPECT, a1, h125, a3]

theorem parse_value_switch_replay (L : libc ν)
    (pv pv0 : tiny_context ν → tiny_node ν → Option (parse_result ν)) (hf : frames pv pv0)
    (j : List Nat) (st : List (stack_item ν)) (node v : tiny_node ν) (c1 : tiny_context ν)
    (h : parse_value_switch L pv { json := j, stack := st } node = some (TINY_PARSE_OK, v, c1))
    (hty : tiny_get_type v ≠ TINY_NUMBER) :
    ∃ t, t ≠ [] ∧ j = t ++ c1.json ∧ c1.stack = st ∧
      ∀ (r : List Nat) (st0 : List (stack_item ν)) (node0 : tiny_node ν),
        parse_value_switch L pv0 { json := t ++ r, stack := st0 } node0
          = some (TINY_PARSE_OK, v, { json := r, stack := st0 }) := by
  cases j with
  | nil => simp [parse_value_switch] at h
  | cons ch p =>
    rw [parse_value_switch_cons] at h
    by_cases h1 : ch = 110
    · rw [if_pos h1] at h
      obtain ⟨t, hne, e, es, hrep⟩ := tiny_parse_null_frame _ _ _ _ _ h
      obtain ⟨t0, rfl⟩ := head_of_append ch p t _ hne e
      refine ⟨ch :: t0, hne, e, es, ?_⟩
      intro r st0 node0
      rw [List.cons_append, parse_value_switch_cons, if_pos h1]
      exact hrep r st0 node0
    rw [if_neg h1] at h
    by_cases h2 : ch = 116
    · rw [if_pos h2] at h
      obtain ⟨t, hne, e, es, hrep⟩ := tiny_parse_true_frame _ _ _ _ _ h
      obtain ⟨t0, rfl⟩ := head_of_append ch p t _ hne e
      refine ⟨ch :: t0, hne, e, es, ?_⟩
      intro r st0 node0
      rw [List.cons_append, parse_value_switch_cons, if_neg h1, if_pos h2]
      exact hrep r st0 node0
    rw [if_neg h2] at h
    by_cases h3 : ch = 102
    · rw [if_pos h3] at h
      obtain ⟨t, hne, e, es, hrep⟩ := tiny_parse_false_frame _ _ _ _ _ h
      obtain ⟨t0, rfl⟩ := head_of_append ch p t _ hne e
      refine ⟨ch :: t0, hne, e, es, ?_⟩
      intro r st0 node0
      rw [List.cons_append, parse_value_switch_cons, if_neg h1, if_neg h2, if_pos h3]
      exact hrep r st0 node0
    rw [if_neg h3] at h
    by_cases h4 : ch = 34
    · rw [if_pos h4] at h
      obtain ⟨t, hne, e, es, hrep⟩ := tiny_parse_string_frame _ _ _ _ _ h
      obtain ⟨t0, rfl⟩ := head_of_append ch p t _ hne e
      refine ⟨ch :: t0, hne, e, es, ?_⟩
      intro r st0 node0
      rw [List.cons_append, parse_value_switch_cons, if_neg h1, if_neg h2, if_neg h3,
        if_pos h4]
      exact hrep r st0 node0
    rw [if_neg h4] at h
    by_cases h5 : ch = 91
    · rw [if_pos h5] at h
      obtain ⟨t, hne, e, es, hrep⟩ := tiny_parse_array_replay pv pv0 hf _ _ _ _ _ h
      obtain ⟨t0, rfl⟩ := head_of_append ch p t _ hne e
      refine ⟨ch :: t0, hne, e, es, ?_⟩
      intro r st0 node0
      rw [List.cons_append, parse_value_switch_cons, if_neg h1, if_neg h2, if_neg h3,
        if_neg h4, if_pos h5]
      exact hrep r st0 node0
    rw [if_neg h5] at h
    by_cases h6 : ch = 123
    · rw [if_pos h6] at h
      obtain ⟨t, hne, e, es, hrep⟩ := tiny_parse_object_replay pv pv0 hf _ _ _ _ _ h
      obtain ⟨t0, rfl⟩ := head_of_append ch p t _ hne e
      refine ⟨ch :: t0, hne, e, es, ?_⟩
      intro r st0 node0
      rw [List.cons_append, parse_value_switch_cons, if_neg h1, if_neg h2, if_neg h3,
        if_neg h4, if_neg h5, if_pos h6]
      exact hrep r st0 node0
    rw [if_neg h6] at h
    by_cases h7 : ch = 0
    · rw [if_pos h7] at h
      simp at h
    rw [if_neg h7] at h
    exact absurd (tiny_parse_number_type L _ _ _ _ h) hty

theorem tiny_parse_value_replay (L : libc ν) (hL : strtod_reads_number L) (d d0 : Nat)
    (hd : d ≤ d0) (j : List Nat) (st : List (stack_item ν)) (node v : tiny_node ν)
    (c1 : tiny_context ν)
    (h : tiny_parse_value L d { json := j, stack := st } node = some (TINY_PARSE_OK, v, c1))
    (hty : tiny_get_type v ≠ TINY_NUMBER) :
    ∃ t, t ≠ [] ∧ j = t ++ c1.json ∧ c1.stack = st ∧
      ∀ (r : List Nat) (st0 : List (stack_item ν)) (node0 : tiny_node ν),
        tiny_parse_value L d0 { json := t ++ r, stack := st0 } node0
          = some (TINY_PARSE_OK, v, { json := r, stack := st0 }) := by
  cases d with
  | zero => simp [tiny_parse_value] at h
  | succ d =>
    obtain ⟨k, rfl⟩ : ∃ k, d0 = k + 1 := ⟨d0 - 1, by omega⟩
    exact parse_value_switch_replay L _ _
      (tiny_parse_value_frames L hL d k (by omega)) j st node v c1 h hty

/-- What a successful `tiny_parse` of the text `e` says about the value text inside `e`:
it is parsed with the same result wherever a delimiter follows it and, when the value is
not a number, whatever follows it. -/
theorem tiny_parse_ok_replay (L : libc ν) (hL : strtod_reads_number L) (node v : tiny_node ν)
    (e : List Nat) (he : 0 ∉ e)
    (h : tiny_parse L node (e ++ [0]) = some (TINY_PARSE_OK, v)) :
    ∃ w1 t w2 x t0, e = w1 ++ (t ++ w2) ∧ all_ws w1 ∧ all_ws w2 ∧ t = x :: t0
      ∧ is_ws x = false ∧
      ∀ (d : Nat) (r : List Nat) (st0 : List (stack_item ν)) (node0 : tiny_node ν),
        (e ++ [0]).length ≤ d → (delimited r ∨ tiny_get_type v ≠ TINY_NUMBER) →
        tiny_parse_value L d { json := t ++ r, stack := st0 } node0
          = some (TINY_PARSE_OK, v, { json := r, stack := st0 }) := by
  obtain ⟨w1, t, w2, x, t0, e1, hw1, hw2, et, hx, hrun, hrep⟩ :=
    tiny_parse_ok_inv L hL node v e he h
  refine ⟨w1, t, w2, x, t0, e1, hw1, hw2, et, hx, ?_⟩
  intro d r st0 node0 hd hr
  rcases hr with hr | hty
  · exact hrep d r st0 node0 hd hr
  · obtain ⟨t2, _, e2, _, hrep2⟩ :=
      tiny_parse_value_replay L hL _ d hd _ _ _ _ _ hrun hty
    have e3 : t = t2 := List.append_cancel_right e2
    subst e3
    exact hrep2 r st0 node0

/-! ### Where an array text goes wrong -/

theorem spec_exp_head_stop (exp : List Nat) (x : Nat) (r : List Nat) (he : spec_exp exp)
    (hx : continues_number x = false) :
    ∃ y r0, exp ++ x :: r = y :: r0 ∧ ISDIGIT y = false ∧ y ≠ 46 := by
  simp only [continues_number, Bool.or_eq_false_iff, beq_eq_false_iff_ne] at hx
  rcases he with rfl | ⟨e, sg, d, ds, rfl, he, _, _⟩
  · exact ⟨x, r, rfl, hx.1.1.1, hx.1.1.2⟩
  · refine ⟨e, _, rfl, ?_⟩
    rcases he with rfl | rfl <;> decide

theorem spec_frac_head_stop (frac exp : List Nat) (x : Nat) (r : List Nat)
    (hf : spec_frac frac) (he : spec_exp exp) (hx : continues_number x = false) :
    ∃ y r0, frac ++ (exp ++ x :: r) = y :: r0 ∧ ISDIGIT y = false := by
  rcases hf with rfl | ⟨d, ds, rfl, _⟩
  · obtain ⟨y, r0, e, hy, _⟩ := spec_exp_head_stop exp x r he hx
    exact ⟨y, r0, by simpa using e, hy⟩
  · exact ⟨46, _, rfl, by decide⟩

theorem scan_number_stop (t : List Nat) (x : Nat) (r : List Nat)
    (ht : spec_number_grammar t) (hx : continues_number x = false) :
    scan_number (t ++ x :: r) = some (some (x :: r)) := by
  obtain ⟨sign, int, frac, exp, rfl, hs, hi, hf, he⟩ := ht
  obtain ⟨y1, r1, e1, hy1⟩ := spec_frac_head_stop frac exp x r hf he hx
  obtain ⟨y2, r2, e2, hy2, hy2b⟩ := spec_exp_head_stop exp x r he hx
  simp only [continues_number, Bool.or_eq_false_iff, beq_eq_false_iff_ne] at hx
  have s1 : scan_int (sign ++ (int ++ (frac ++ (exp ++ x :: r))))
      = some (some (frac ++ (exp ++ x :: r))) := by
    rw [e1]; exact scan_int_complete sign int y1 r1 hs hi hy1
  have s2 : scan_frac (frac ++ (exp ++ x :: r)) = some (some (exp ++ x :: r)) := by
    rw [e2]; exact scan_frac_complete frac y2 r2 hf hy2 hy2b
  have s3 := scan_exp_complete exp x r he hx.1.1.1 hx.1.2 hx.2
  simp only [scan_number, List.append_assoc, s1, s2, s3]

theorem tiny_parse_value_number_stop (L : libc ν) (d : Nat) (t : List Nat) (x : Nat)
    (r : List Nat) (st : List (stack_item ν)) (node : tiny_node ν)
    (ht : spec_number_grammar t) (hx : continues_number x = false)
    (hflag : (L.strtod (t ++ x :: r)).2 = false) :
    tiny_parse_value L (d + 1) { json := t ++ x :: r, stack := st } node
      = some (TINY_PARSE_OK, .number (L.strtod (t ++ x :: r)).1,
          { json := x :: r, stack := st }) := by
  have hscan := scan_number_stop t x r ht hx
  obtain ⟨y, t0, rfl, hy⟩ := spec_number_grammar_head t ht
  obtain ⟨_, h1, h2, h3, h4, h5, h6, h7⟩ := number_head_facts y hy
  rw [tiny_parse_value, List.cons_append, parse_value_switch_cons, if_neg h1, if_neg h2,
    if_neg h3, if_neg h4, if_neg h5, if_neg h6, if_neg h7]
  simp only [List.cons_append] at hscan hflag
  simp only [tiny_parse_number, hscan, hflag]
  simp

theorem tiny_parse_whitespace_skip (w j : List Nat) (st : List (stack_item ν))
    (hw : all_ws w) :
    tiny_parse_whitespace { json := w ++ j, stack := st }
      = tiny_parse_whitespace { json := j, stack := st } := by
  induction w with
  | nil => rfl
  | cons b w ih =>
    have hb : is_ws b = true := hw b (List.mem_cons_self _ _)
    have hw2 : all_ws w := fun y hy => hw y (List.mem_cons_of_mem _ hy)
    have := ih hw2
    simp only [tiny_parse_whitespace] at this ⊢
    simpa [skip_ws, hb] using this

theorem array_round_end_comma_then (w q : List Nat) (st : List (stack_item ν))
    (node : tiny_node ν) (size : Nat) (hw : all_ws w) :
    array_round_end { json := w ++ 44 :: q, stack := st } node size
      = (tiny_parse_whitespace { json := q, stack := st }).map .next := by
  have a1 := tiny_parse_whitespace_append w 44 q st hw (by decide)
  simp only [array_round_end, a1, if_true]

theorem array_round_end_other (w : List Nat) (x : Nat) (r : List Nat)
    (st : List (stack_item ν)) (nodes : List (tiny_node ν)) (node : tiny_node ν)
    (hw : all_ws w) (hx : is_ws x = false) (h44 : x ≠ 44) (h93 : x ≠ 93) :
    array_round_end { json := w ++ x :: r, stack := st ++ nodes.map .node } node nodes.length
      = some (.ret (TINY_PARSE_MISS_COMMA_OR_SQUARE_BRACKET, node,
          { json := x :: r, stack := st })) := by
  have a1 := tiny_parse_whitespace_append w x r (st ++ nodes.map .node) hw hx
  simp only [array_round_end, a1, if_neg h44, if_neg h93,
    array_cleanup_nodes nodes.length nodes (x :: r) st rfl, Option.map_some']

theorem array_loop_commas (pv : tiny_context ν → tiny_node ν → Option (parse_result ν))
    (z : List Nat) (st : List (stack_item ν)) (node : tiny_node ν) (fin : parse_result ν)
    (m : Nat)
    (hz : ∀ (acc : List (tiny_node ν)) (fuel : Nat), m ≤ fuel →
      (tiny_parse_whitespace { json := z, stack := st ++ acc.map .node }).bind
        (fun c => array_loop pv fuel c node acc.length) = some fin) :
    ∀ (items : List (element_text ν)) (acc : List (tiny_node ν)) (fuel : Nat),
      (∀ x ∈ items, all_ws x.before ∧ all_ws x.after ∧
        ∃ w1 t1 w2 y t0, x.text = w1 ++ (t1 ++ w2) ∧ all_ws w1 ∧ all_ws w2 ∧ t1 = y :: t0
          ∧ is_ws y = false ∧
          ∀ (q : List Nat) (st0 : List (stack_item ν)) (node0 : tiny_node ν), delimited q →
            pv { json := t1 ++ q, stack := st0 } node0
              = some (TINY_PARSE_OK, x.value, { json := q, stack := st0 })) →
      items.length + m ≤ fuel →
      (tiny_parse_whitespace
          { json := array_commas items z, stack := st ++ acc.map .node }).bind
        (fun c => array_loop pv fuel c node acc.length) = some fin := by
  intro items
  induction items with
  | nil =>
    intro acc fuel _ hfuel
    exact hz acc fuel (by simpa using hfuel)
  | cons x rest ih =>
    intro acc fuel hitems hfuel
    obtain ⟨k, rfl⟩ : ∃ k, fuel = k + 1 := ⟨fuel - 1, by simp at hfuel; omega⟩
    obtain ⟨hxb, hxa, w1, t1, w2, y, t0, ext, hw1, hw2, et1, hy, hv1⟩ :=
      hitems x (List.mem_cons_self _ _)
    subst et1
    have etxt : array_commas (x :: rest) z
        = (x.before ++ w1) ++ y :: (t0 ++ ((w2 ++ x.after) ++ 44 :: array_commas rest z)) := by
      simp [array_commas, element_text.padded, ext]
    have a0 := tiny_parse_whitespace_append (x.before ++ w1) y
      (t0 ++ ((w2 ++ x.after) ++ 44 :: array_commas rest z)) (st ++ acc.map .node)
      (all_ws_append _ _ hxb hw1) hy
    have hd : delimited ((w2 ++ x.after) ++ 44 :: array_commas rest z) :=
      delimited_of_ws_append _ 44 _ (all_ws_append _ _ hw2 hxa) (by decide)
    have a1 := hv1 _ (st ++ acc.map .node) (tiny_init .null) hd
    simp only [List.cons_append] at a1
    have hlen : acc.length + 1 = (acc ++ [x.value]).length := by simp
    have hpush : tiny_context_push
        { json := (w2 ++ x.after) ++ 44 :: array_commas rest z, stack := st ++ acc.map .node }
        [.node x.value]
        = some { json := (w2 ++ x.after) ++ 44 :: array_commas rest z,
                 stack := st ++ (acc ++ [x.value]).map .node } := by
      simp [tiny_context_push]
    have a2 := array_round_end_comma_then (w2 ++ x.after) (array_commas rest z)
      (st ++ (acc ++ [x.value]).map .node) node (acc ++ [x.value]).length
      (all_ws_append _ _ hw2 hxa)
    have a3 := ih (acc ++ [x.value]) k (fun e he => hitems e (List.mem_cons_of_mem _ he))
      (by simp at hfuel; omega)
    rw [etxt, a0, Option.some_bind, array_loop]
    simp only [a1, ne_eq, not_true_eq_false, if_false, hpush]
    rw [hlen, a2]
    rcases hw : tiny_parse_whitespace
        { json := array_commas rest z, stack := st ++ (acc ++ [x.value]).map .node }
      with _ | c2
    · rw [hw] at a3
      simp at a3
    · rw [hw] at a3
      simpa using a3

theorem array_last_miss (pv : tiny_context ν → tiny_node ν → Option (parse_result ν))
    (wb t wa : List Nat) (y : Nat) (t0 : List Nat) (x : Nat) (r : List Nat) (v : tiny_node ν)
    (st : List (stack_item ν)) (node : tiny_node ν) (hwb : all_ws wb) (hwa : all_ws wa)
    (ht : t = y :: t0) (hy : is_ws y = false)
    (hv : ∀ (st0 : List (stack_item ν)) (node0 : tiny_node ν),
      pv { json := t ++ (wa ++ x :: r), stack := st0 } node0
        = some (TINY_PARSE_OK, v, { json := wa ++ x :: r, stack := st0 }))
    (hx : is_ws x = false) (h44 : x ≠ 44) (h93 : x ≠ 93)
    (acc : List (tiny_node ν)) (fuel : Nat) (hfuel : 1 ≤ fuel) :
    (tiny_parse_whitespace
        { json := wb ++ (t ++ (wa ++ x :: r)), stack := st ++ acc.map .node }).bind
      (fun c => array_loop pv fuel c node acc.length)
      = some (TINY_PARSE_MISS_COMMA_OR_SQUARE_BRACKET, node,
          { json := x :: r, stack := st }) := by
  obtain ⟨k, rfl⟩ : ∃ k, fuel = k + 1 := ⟨fuel - 1, by omega⟩
  subst ht
  have a0 := tiny_parse_whitespace_append wb y (t0 ++ (wa ++ x :: r)) (st ++ acc.map .node)
    hwb hy
  have a1 := hv (st ++ acc.map .node) (tiny_init .null)
  simp only [List.cons_append] at a1
  have hlen : acc.length + 1 = (acc ++ [v]).length := by simp
  have hpush : tiny_context_push
      { json := wa ++ x :: r, stack := st ++ acc.map .node } [.node v]
      = some { json := wa ++ x :: r, stack := st ++ (acc ++ [v]).map .node } := by
    simp [tiny_context_push]
  have a2 := array_round_end_other wa x r st (acc ++ [v]) node hwa hx h44 h93
  rw [List.cons_append, a0, Option.some_bind, array_loop]
  simp only [a1, ne_eq, not_true_eq_false, if_false, hpush]
  rw [hlen, a2]

theorem tiny_parse_value_close (L : libc ν) (d : Nat) (r : List Nat)
    (st : List (stack_item ν)) (node : tiny_node ν) :
    tiny_parse_value L (d + 1) { json := 93 :: r, stack := st } node
      = some (TINY_PARSE_INVALID_VALUE, node, { json := 93 :: r, stack := st }) := by
  rw [tiny_parse_value, parse_value_switch_cons]
  simp [tiny_parse_number, scan_number, scan_int, ISDIGIT1TO9]

theorem array_trailing_comma (pv : tiny_context ν → tiny_node ν → Option (parse_result ν))
    (w r : List Nat) (st : List (stack_item ν)) (node : tiny_node ν) (hw : all_ws w)
    (hpv : ∀ (st0 : List (stack_item ν)) (node0 : tiny_node ν),
      pv { json := 93 :: r, stack := st0 } node0
        = some (TINY_PARSE_INVALID_VALUE, node0, { json := 93 :: r, stack := st0 }))
    (acc : List (tiny_node ν)) (fuel : Nat) (hfuel : 1 ≤ fuel) :
    (tiny_parse_whitespace { json := w ++ 93 :: r, stack := st ++ acc.map .node }).bind
      (fun c => array_loop pv fuel c node acc.length)
      = some (TINY_PARSE_INVALID_VALUE, node, { json := 93 :: r, stack := st }) := by
  obtain ⟨k, rfl⟩ : ∃ k, fuel = k + 1 := ⟨fuel - 1, by omega⟩
  have a0 := tiny_parse_whitespace_append w 93 r (st ++ acc.map .node) hw (by decide)
  have a1 := hpv (st ++ acc.map .node) (tiny_init .null)
  rw [a0, Option.some_bind, array_loop]
  simp only [a1, ne_eq, show ¬ (TINY_PARSE_INVALID_VALUE = TINY_PARSE_OK) by decide,
    not_false_eq_true, if_true, array_cleanup_nodes acc.length acc (93 :: r) st rfl,
    Option.map_some']

theorem array_commas_length (z : List Nat) : ∀ (items : List (element_text ν)),
    items.length + z.length ≤ (array_commas items z).length
    ∧ ∀ x ∈ items, x.text.length + 1 ≤ (array_commas items z).length := by
  intro items
  induction items with
  | nil => simp [array_commas]
  | cons y rest ih =>
    refine ⟨by simp [array_commas]; omega, ?_⟩
    intro x hx
    rcases List.mem_cons.1 hx with rfl | hx
    · simp [array_commas, element_text.padded]
      omega
    · have := ih.2 x hx
      simp [array_commas]
      omega

theorem tiny_parse_of_value_error_at (L : libc ν) (node : tiny_node ν) (w : List Nat)
    (x : Nat) (q : List Nat) (ret : tiny_status) (out : tiny_node ν) (j1 : List Nat) (k : Nat)
    (hw : all_ws w) (hx : is_ws x = false) (hret : ret ≠ TINY_PARSE_OK)
    (hk : (w ++ x :: q).length = k + 1)
    (h : parse_value_switch L (tiny_parse_value L k) { json := x :: q, stack := [] }
      (tiny_init node) = some (ret, out, { json := j1, stack := [] })) :
    tiny_parse L node (w ++ x :: q) = some (ret, out) := by
  have a1 := tiny_parse_whitespace_append (ν := ν) w x q [] hw hx
  unfold tiny_parse
  simp only [a1, hk, tiny_parse_value, h, if_neg hret]
  simp

theorem tiny_parse_array_commas (L : libc ν) (node : tiny_node ν) (w0 : List Nat)
    (items : List (element_text ν)) (z : List Nat) (ret : tiny_status) (jE : List Nat)
    (hw0 : all_ws w0)
    (hitems : ∀ x ∈ items, all_ws x.before ∧ all_ws x.after ∧
      ∃ w1 t1 w2 y t0, x.text = w1 ++ (t1 ++ w2) ∧ all_ws w1 ∧ all_ws w2 ∧ t1 = y :: t0
        ∧ is_ws y = false ∧
        ∀ (q : List Nat) (st0 : List (stack_item ν)) (node0 : tiny_node ν), delimited q →
          tiny_parse_value L (w0 ++ array_commas items z).length
              { json := t1 ++ q, stack := st0 } node0
            = some (TINY_PARSE_OK, x.value, { json := q, stack := st0 }))
    (hz : ∀ (acc : List (tiny_node ν)) (fuel : Nat), 1 ≤ fuel →
      (tiny_parse_whitespace { json := z, stack := [] ++ acc.map .node }).bind
        (fun c => array_loop (tiny_parse_value L (w0 ++ array_commas items z).length) fuel c
          .null acc.length) = some (ret, .null, { json := jE, stack := [] }))
    (hzhead : ∃ wz y q, z = wz ++ y :: q ∧ all_ws wz ∧ is_ws y = false
      ∧ (items = [] → y ≠ 93))
    (hret : ret ≠ TINY_PARSE_OK) :
    tiny_parse L node (91 :: (w0 ++ array_commas items z)) = some (ret, .null) := by
  have hent : ∃ y q, tiny_parse_whitespace
        ({ json := array_commas items z, stack := [] } : tiny_context ν)
        = some { json := y :: q, stack := [] } ∧ y ≠ 93 ∧ items.length + 1 ≤ (y :: q).length := by
    cases items with
    | nil =>
      obtain ⟨wz, y, q, rfl, hwz, hy, h93⟩ := hzhead
      exact ⟨y, q, tiny_parse_whitespace_append wz y q [] hwz hy, h93 rfl, by simp⟩
    | cons x rest =>
      obtain ⟨hxb, hxa, w1, t1, w2, y, t0, ext, hw1, hw2, et1, hy, hv1⟩ :=
        hitems x (List.mem_cons_self _ _)
      subst et1
      have etxt : array_commas (x :: rest) z
          = (x.before ++ w1) ++ y :: (t0 ++ ((w2 ++ x.after) ++ 44 :: array_commas rest z))
          := by
        simp [array_commas, element_text.padded, ext]
      have hd0 : delimited [0] := ⟨0, [], rfl, by decide⟩
      have hy93 := (tiny_parse_value_head L _ y _ _ _ _ _ (hv1 [0] [] .null hd0)).1
      refine ⟨y, t0 ++ ((w2 ++ x.after) ++ 44 :: array_commas rest z), ?_, hy93, ?_⟩
      · rw [etxt]
        exact tiny_parse_whitespace_append _ y _ [] (all_ws_append _ _ hxb hw1) hy
      · have := (array_commas_length z rest).1
        simp
        omega
  obtain ⟨y, q, hws, hy93, hlen⟩ := hent
  have H := array_loop_commas (tiny_parse_value L (w0 ++ array_commas items z).length) z []
    .null (ret, .null, { json := jE, stack := [] }) 1 hz items [] (y :: q).length hitems
    (by omega)
  simp only [List.map_nil, List.append_nil, hws, Option.some_bind, List.length_nil] at H
  have hws0 := tiny_parse_whitespace_skip w0 (array_commas items z) ([] : List (stack_item ν))
    hw0
  rw [hws] at hws0
  refine tiny_parse_of_value_error_at L node [] 91 (w0 ++ array_commas items z) ret .null jE
    (w0 ++ array_commas items z).length (fun _ hb => by cases hb) (by decide) hret
    (by simp) ?_
  rw [parse_value_switch_cons]
  simp only [show ¬ ((91 : Nat) = 110) by decide, show ¬ ((91 : Nat) = 116) by decide,
    show ¬ ((91 : Nat) = 102) by decide, show ¬ ((91 : Nat) = 34) by decide, if_false, if_true,
    tiny_parse_array, EXPECT, Option.some_bind, hws0, if_neg hy93, tiny_init]
  exact H

theorem element_texts_replay (L : libc ν) (hL : strtod_reads_number L)
    (items : List (element_text ν)) (k : Nat)
    (hitems : ∀ x ∈ items, all_ws x.before ∧ all_ws x.after ∧ 0 ∉ x.text ∧
      ∃ n0, tiny_parse L n0 (x.text ++ [0]) = some (TINY_PARSE_OK, x.value))
    (hk : ∀ x ∈ items, x.text.length + 1 ≤ k) :
    ∀ x ∈ items, all_ws x.before ∧ all_ws x.after ∧
      ∃ w1 t1 w2 y t0, x.text = w1 ++ (t1 ++ w2) ∧ all_ws w1 ∧ all_ws w2 ∧ t1 = y :: t0
        ∧ is_ws y = false ∧
        ∀ (q : List Nat) (st0 : List (stack_item ν)) (node0 : tiny_node ν), delimited q →
          tiny_parse_value L k { json := t1 ++ q, stack := st0 } node0
            = some (TINY_PARSE_OK, x.value, { json := q, stack := st0 }) := by
  intro x hx
  obtain ⟨hb, ha, h0, n0, hp⟩ := hitems x hx
  obtain ⟨w1, t1, w2, y, t0, e, hw1, hw2, et, hy, _, hrep⟩ :=
    tiny_parse_ok_inv L hL n0 x.value x.text h0 hp
  refine ⟨hb, ha, w1, t1, w2, y, t0, e, hw1, hw2, et, hy, ?_⟩
  intro q st0 node0 hq
  have := hk x hx
  exact hrep k q st0 node0 (by simp; omega) hq

theorem delimited_of_ws_ne_nil (w q : List Nat) (hw : all_ws w) (hne : w ≠ []) :
    delimited (w ++ q) := by
  cases w with
  | nil => exact absurd rfl hne
  | cons b w =>
    refine ⟨b, w ++ q, rfl, ?_⟩
    have := hw b (List.mem_cons_self _ _)
    simp [is_delimiter, this]

/-- Where an array text misses a comma or its closing bracket, as long as `strtod` reports
no overflow: let `e1 .. ek`, with `k` at least one, be texts without NUL on each of which
`tiny_parse` returns `TINY_PARSE_OK`, put after `[` and separated by commas, with any
whitespace around them. (a) When the last element and the whitespace after it are followed
by a byte `x` that is not whitespace, not a comma and not `]`, `tiny_parse` returns
`TINY_PARSE_MISS_COMMA_OR_SQUARE_BRACKET`, in each of these cases: whitespace stands between
the element and `x`; `x` is the NUL or `}`; the element is not a number; the element is a
text of the number grammar, `x` cannot go on a number, and `strtod` reports no overflow on
the text at the element. (b) When the last element is followed by a comma, whitespace and
`]`, `tiny_parse` returns `TINY_PARSE_INVALID_VALUE`. In both cases the node is left with
type `TINY_NULL`. The assumption on `strtod` is that, on a number followed by a delimiter,
its result depends on the text of the number only. -/
theorem array_miss_comma_or_bracket (L : libc ν) (hL : strtod_reads_number L)
    (node : tiny_node ν) (w0 : List Nat) (items : List (element_text ν))
    (last : element_text ν) (hw0 : all_ws w0)
    (hitems : ∀ e ∈ items ++ [last], all_ws e.before ∧ all_ws e.after ∧ 0 ∉ e.text ∧
      ∃ n0, tiny_parse L n0 (e.text ++ [0]) = some (TINY_PARSE_OK, e.value)) :
    (∀ (x : Nat) (r : List Nat), is_ws x = false → x ≠ 44 → x ≠ 93 →
      (last.after ≠ [] ∨ x = 0 ∨ x = 125 ∨ tiny_get_type last.value ≠ TINY_NUMBER
        ∨ (spec_number_grammar last.text ∧ continues_number x = false
            ∧ (L.strtod (last.text ++ x :: r)).2 = false)) →
      tiny_parse L node (91 :: (w0 ++ array_commas items (last.padded ++ x :: r)))
        = some (TINY_PARSE_MISS_COMMA_OR_SQUARE_BRACKET, .null))
    ∧ ∀ (w r : List Nat), all_ws w →
      tiny_parse L node (91 :: (w0 ++ array_commas (items ++ [last]) (w ++ 93 :: r)))
        = some (TINY_PARSE_INVALID_VALUE, .null) := by
  constructor
  · intro x r hx h44 h93 hfol
    obtain ⟨hlb, hla, hl0, n0, hlp⟩ := hitems last (by simp)
    obtain ⟨w1, t, w2, y, t0, e1, hw1, hw2, et, hy, hrep⟩ :=
      tiny_parse_ok_replay L hL n0 last.value last.text hl0 hlp
    have hlens := array_commas_length (last.padded ++ x :: r) items
    have hk1 : ∀ e ∈ items, e.text.length + 1
        ≤ (w0 ++ array_commas items (last.padded ++ x :: r)).length := by
      intro e he
      have := hlens.2 e he
      simp
      omega
    have hzlen : (last.padded ++ x :: r).length
        = last.before.length + last.text.length + last.after.length + 1 + r.length := by
      simp [element_text.padded]
      omega
    have hk2 : (last.text ++ [0]).length
        ≤ (w0 ++ array_commas items (last.padded ++ x :: r)).length := by
      have := hlens.1
      simp only [List.length_append, List.length_singleton]
      omega
    have hnil : all_ws [] := fun _ hb => absurd hb (List.not_mem_nil _)
    obtain ⟨d, hd⟩ : ∃ d, (w0 ++ array_commas items (last.padded ++ x :: r)).length = d + 1 :=
      ⟨(w0 ++ array_commas items (last.padded ++ x :: r)).length - 1, by
        simp only [List.length_append, List.length_singleton] at hk2 ⊢; omega⟩
    have hconv := element_texts_replay L hL items _
      (fun e he => hitems e (List.mem_append_left _ he)) hk1
    -- the last element is read where it stands
    have hctx : ∃ (wb t1 wa : List Nat) (y1 : Nat) (t2 : List Nat) (v : tiny_node ν),
        last.padded ++ x :: r = wb ++ (t1 ++ (wa ++ x :: r)) ∧ all_ws wb ∧ all_ws wa
        ∧ t1 = y1 :: t2 ∧ is_ws y1 = false ∧
        ∀ (st0 : List (stack_item ν)) (node0 : tiny_node ν),
          tiny_parse_value L (w0 ++ array_commas items (last.padded ++ x :: r)).length
              { json := t1 ++ (wa ++ x :: r), stack := st0 } node0
            = some (TINY_PARSE_OK, v, { json := wa ++ x :: r, stack := st0 }) := by
      have hzeq : last.padded ++ x :: r
          = (last.before ++ w1) ++ (t ++ ((w2 ++ last.after) ++ x :: r)) := by
        simp [element_text.padded, e1]
      have hwa : all_ws (w2 ++ last.after) := all_ws_append _ _ hw2 hla
      have hwb : all_ws (last.before ++ w1) := all_ws_append _ _ hlb hw1
      have huse : (delimited ((w2 ++ last.after) ++ x :: r)
          ∨ tiny_get_type last.value ≠ TINY_NUMBER) →
          ∃ (wb t1 wa : List Nat) (y1 : Nat) (t2 : List Nat) (v : tiny_node ν),
            last.padded ++ x :: r = wb ++ (t1 ++ (wa ++ x :: r)) ∧ all_ws wb ∧ all_ws wa
            ∧ t1 = y1 :: t2 ∧ is_ws y1 = false ∧
            ∀ (st0 : List (stack_item ν)) (node0 : tiny_node ν),
              tiny_parse_value L (w0 ++ array_commas items (last.padded ++ x :: r)).length
                  { json := t1 ++ (wa ++ x :: r), stack := st0 } node0
                = some (TINY_PARSE_OK, v, { json := wa ++ x :: r, stack := st0 }) := by
        intro h
        exact ⟨last.before ++ w1, t, w2 ++ last.after, y, t0, last.value, hzeq, hwb, hwa, et,
          hy, fun st0 node0 => hrep _ _ st0 node0 hk2 h⟩
      by_cases hne : w2 ++ last.after = []
      swap
      · exact huse (Or.inl (delimited_of_ws_ne_nil _ _ hwa hne))
      rcases hfol with h | h | h | h | ⟨hg, hc, hflag⟩
      · exact absurd (List.append_eq_nil.1 hne).2 h
      · exact huse (Or.inl (delimited_of_ws_append _ x r hwa (by subst h; decide)))
      · exact huse (Or.inl (delimited_of_ws_append _ x r hwa (by subst h; decide)))
      · exact huse (Or.inr h)
      · obtain ⟨hw2e, hae⟩ := List.append_eq_nil.1 hne
        obtain ⟨g, g0, eg, hgh⟩ := spec_number_grammar_head last.text hg
        have hgw := (number_head_facts g hgh).1
        refine ⟨last.before, last.text, [], g, g0, .number (L.strtod (last.text ++ x :: r)).1,
          by simp [element_text.padded, hae], hlb, hnil, eg, hgw, ?_⟩
        intro st0 node0
        rw [hd]
        exact tiny_parse_value_number_stop L d last.text x r st0 node0 hg hc hflag
    obtain ⟨wb, t1, wa, y1, t2, v, hzeq, hwb, hwa, et1, hy1, hv⟩ := hctx
    have hy93 : y1 ≠ 93 := by
      have := hv [] .null
      rw [et1] at this
      exact (tiny_parse_value_head L _ y1 _ _ _ _ _ this).1
    refine tiny_parse_array_commas L node w0 items _ _ (x :: r) hw0 hconv ?_ ?_ (by decide)
    · intro acc fuel hfuel
      rw [hzeq]
      exact array_last_miss _ wb t1 wa y1 t2 x r v [] .null hwb hwa et1 hy1
        (by rw [← hzeq]; exact hv) hx h44 h93 acc fuel hfuel
    · exact ⟨wb, y1, t2 ++ (wa ++ x :: r), by rw [hzeq, et1]; simp, hwb, hy1, fun _ => hy93⟩
  · intro w r hw
    have hlens := array_commas_length (w ++ 93 :: r) (items ++ [last])
    have hk1 : ∀ e ∈ items ++ [last], e.text.length + 1
        ≤ (w0 ++ array_commas (items ++ [last]) (w ++ 93 :: r)).length := by
      intro e he
      have := hlens.2 e he
      simp
      omega
    obtain ⟨d, hd⟩ :
        ∃ d, (w0 ++ array_commas (items ++ [last]) (w ++ 93 :: r)).length = d + 1 := by
      have := hlens.1
      refine ⟨(w0 ++ array_commas (items ++ [last]) (w ++ 93 :: r)).length - 1, ?_⟩
      simp only [List.length_append, List.length_cons, List.length_singleton] at this ⊢
      omega
    have hconv := element_texts_replay L hL (items ++ [last]) _ hitems hk1
    refine tiny_parse_array_commas L node w0 (items ++ [last]) _ _ (93 :: r) hw0 hconv ?_ ?_
      (by decide)
    · intro acc fuel hfuel
      refine array_trailing_comma _ w r [] .null hw ?_ acc fuel hfuel
      intro st0 node0
      rw [hd]
      exact tiny_parse_value_close L d r st0 node0
    · exact ⟨w, 93, r, rfl, hw, by decide, fun h => absurd h (by simp)⟩

/-- The texts `[1` and `[1,]` of the tests, with the library instance `demo_libc`. -/
theorem array_miss_comma_or_bracket_example :
    tiny_parse demo_libc .jtrue [91, 49, 0]
        = some (TINY_PARSE_MISS_COMMA_OR_SQUARE_BRACKET, .null)
    ∧ tiny_parse demo_libc .jtrue [91, 49, 44, 93, 0]
        = some (TINY_PARSE_INVALID_VALUE, .null) :=
  have H := array_miss_comma_or_bracket demo_libc demo_libc_reads_number .jtrue [] []
    ⟨[], [49], [], .number [49]⟩ (by decide)
    (by
      intro e he
      simp only [List.nil_append, List.mem_singleton] at he
      subst he
      exact ⟨by decide, by decide, by decide, .null, rfl⟩)
  ⟨H.1 0 [] (by decide) (by decide) (by decide) (Or.inr (Or.inl rfl)),
    H.2 [] [0] (by decide)⟩

/-! ### Where an object text goes wrong -/

theorem object_round_end_comma_then (w q : List Nat) (st : List (stack_item ν)) (size : Nat)
    (hw : all_ws w) :
    object_round_end { json := w ++ 44 :: q, stack := st } size
      = (tiny_parse_whitespace { json := q, stack := st }).map .next := by
  have a1 := tiny_parse_whitespace_append w 44 q st hw (by decide)
  simp only [object_round_end, a1, if_true]

theorem object_round_end_other (w : List Nat) (x : Nat) (r : List Nat)
    (st : List (stack_item ν)) (ms : List (tiny_member ν))
    (hw : all_ws w) (hx : is_ws x = false) (h44 : x ≠ 44) (h125 : x ≠ 125) :
    object_round_end { json := w ++ x :: r, stack := st ++ ms.map .member } ms.length
      = some (.ret (TINY_PARSE_MISS_COMMA_OR_CURLY_BRACKET, .null,
          { json := x :: r, stack := st })) := by
  have a1 := tiny_parse_whitespace_append w x r (st ++ ms.map .member) hw hx
  simp only [object_round_end, a1, if_neg h44, if_neg h125, object_break,
    object_cleanup_members ms.length ms (x :: r) st rfl, Option.map_some']

theorem object_loop_commas (pv : tiny_context ν → tiny_node ν → Option (parse_result ν))
    (z : List Nat) (st : List (stack_item ν)) (node : tiny_node ν) (fin : parse_result ν)
    (m : Nat)
    (hz : ∀ (acc : List (tiny_member ν)) (fuel : Nat), m ≤ fuel →
      (tiny_parse_whitespace { json := z, stack := st ++ acc.map .member }).bind
        (fun c => object_loop pv fuel c node acc.length) = some fin) :
    ∀ (items : List (member_text ν)) (acc : List (tiny_member ν)) (fuel : Nat),
      (∀ x ∈ items, all_ws x.before_key ∧ all_ws x.after_key ∧ all_ws x.before
        ∧ all_ws x.after ∧
        (∃ k0 kw, x.key_text = 34 :: k0 ++ kw ∧ all_ws kw ∧
          ∀ (q : List Nat) (st0 : List (stack_item ν)),
            tiny_parse_string_raw { json := 34 :: k0 ++ q, stack := st0 }
              = some (TINY_PARSE_OK, x.key, { json := q, stack := st0 })) ∧
        ∃ w1 w2 y1 t1, x.text = w1 ++ (y1 :: t1 ++ w2) ∧ all_ws w1 ∧ all_ws w2
          ∧ is_ws y1 = false ∧
          ∀ (q : List Nat) (st0 : List (stack_item ν)) (node0 : tiny_node ν), delimited q →
            pv { json := y1 :: t1 ++ q, stack := st0 } node0
              = some (TINY_PARSE_OK, x.value, { json := q, stack := st0 })) →
      items.length + m ≤ fuel →
      (tiny_parse_whitespace
          { json := object_commas items z, stack := st ++ acc.map .member }).bind
        (fun c => object_loop pv fuel c node acc.length) = some fin := by
  intro items
  induction items with
  | nil =>
    intro acc fuel _ hfuel
    exact hz acc fuel (by simpa using hfuel)
  | cons x rest ih =>
    intro acc fuel hitems hfuel
    obtain ⟨k, rfl⟩ : ∃ k, fuel = k + 1 := ⟨fuel - 1, by simp at hfuel; omega⟩
    obtain ⟨hxbk, hxak, hxb, hxa, ⟨k0, kw, ekt, hkw, hk1⟩, w1, w2, y1, t1, ext, hw1, hw2,
      hy1, hv1⟩ := hitems x (List.mem_cons_self _ _)
    have etxt : object_commas (x :: rest) z
        = x.before_key ++ 34 :: (k0 ++ ((kw ++ x.after_key) ++ 58 ::
            ((x.before ++ w1) ++ y1 :: (t1 ++ ((w2 ++ x.after)
              ++ 44 :: object_commas rest z))))) := by
      simp [object_commas, member_text.padded, ext, ekt]
    have a0 := tiny_parse_whitespace_append x.before_key 34
      (k0 ++ ((kw ++ x.after_key) ++ 58 ::
        ((x.before ++ w1) ++ y1 :: (t1 ++ ((w2 ++ x.after) ++ 44 :: object_commas rest z)))))
      (st ++ acc.map .member) hxbk (by decide)
    have a1 := object_round_key_run k0 x.key (kw ++ x.after_key) (x.before ++ w1) y1
      (t1 ++ ((w2 ++ x.after) ++ 44 :: object_commas rest z)) (st ++ acc.map .member) hk1
      (all_ws_append _ _ hkw hxak) (all_ws_append _ _ hxb hw1) hy1
    have hd : delimited ((w2 ++ x.after) ++ 44 :: object_commas rest z) :=
      delimited_of_ws_append _ 44 _ (all_ws_append _ _ hw2 hxa) (by decide)
    have a2 := hv1 _ (st ++ acc.map .member) (tiny_init .null) hd
    simp only [List.cons_append] at a1 a2
    obtain ⟨mb, hmb⟩ : ∃ mb : tiny_member ν, mb = tiny_member.mk x.key (some x.key.length)
        x.value := ⟨_, rfl⟩
    have hlen : acc.length + 1 = (acc ++ [mb]).length := by simp
    have hpush : tiny_context_push
        { json := (w2 ++ x.after) ++ 44 :: object_commas rest z,
          stack := st ++ acc.map .member } [.member mb]
        = some { json := (w2 ++ x.after) ++ 44 :: object_commas rest z,
                 stack := st ++ (acc ++ [mb]).map .member } := by
      simp [tiny_context_push]
    have a3 := object_round_end_comma_then (w2 ++ x.after) (object_commas rest z)
      (st ++ (acc ++ [mb]).map .member) (acc ++ [mb]).length (all_ws_append _ _ hw2 hxa)
    have a4 := ih (acc ++ [mb]) k (fun e he => hitems e (List.mem_cons_of_mem _ he))
      (by simp at hfuel; omega)
    rw [etxt, a0, Option.some_bind, object_loop]
    simp only [a1, ne_eq, not_true_eq_false, if_false, a2, ← hmb, hpush]
    rw [hlen, a3]
    rcases hw : tiny_parse_whitespace
        { json := object_commas rest z, stack := st ++ (acc ++ [mb]).map .member }
      with _ | c2
    · rw [hw] at a4
      simp at a4
    · rw [hw] at a4
      simpa using a4

theorem object_miss_key (pv : tiny_context ν → tiny_node ν → Option (parse_result ν))
    (w : List Nat) (x : Nat) (r : List Nat) (st : List (stack_item ν)) (node : tiny_node ν)
    (hw : all_ws w) (hx : is_ws x = false) (h34 : x ≠ 34)
    (acc : List (tiny_member ν)) (fuel : Nat) (hfuel : 1 ≤ fuel) :
    (tiny_parse_whitespace { json := w ++ x :: r, stack := st ++ acc.map .member }).bind
      (fun c => object_loop pv fuel c node acc.length)
      = some (TINY_PARSE_MISS_KEY, .null, { json := x :: r, stack := st }) := by
  obtain ⟨k, rfl⟩ : ∃ k, fuel = k + 1 := ⟨fuel - 1, by omega⟩
  have a0 := tiny_parse_whitespace_append w x r (st ++ acc.map .member) hw hx
  rw [a0, Option.some_bind, object_loop]
  simp only [object_round_key, ne_eq, h34, not_false_eq_true, if_true,
    show ¬ (TINY_PARSE_MISS_KEY = TINY_PARSE_OK) by decide, object_break,
    object_cleanup_members acc.length acc (x :: r) st rfl, Option.map_some']

theorem object_miss_colon (pv : tiny_context ν → tiny_node ν → Option (parse_result ν))
    (wb k0 key w : List Nat) (x : Nat) (r : List Nat) (st : List (stack_item ν))
    (node : tiny_node ν) (hwb : all_ws wb) (hw : all_ws w) (hx : is_ws x = false)
    (h58 : x ≠ 58)
    (hk : ∀ (q : List Nat) (st0 : List (stack_item ν)),
      tiny_parse_string_raw { json := 34 :: k0 ++ q, stack := st0 }
        = some (TINY_PARSE_OK, key, { json := q, stack := st0 }))
    (acc : List (tiny_member ν)) (fuel : Nat) (hfuel : 1 ≤ fuel) :
    (tiny_parse_whitespace
        { json := wb ++ 34 :: (k0 ++ (w ++ x :: r)), stack := st ++ acc.map .member }).bind
      (fun c => object_loop pv fuel c node acc.length)
      = some (TINY_PARSE_MISS_COLON, .null, { json := x :: r, stack := st }) := by
  obtain ⟨k, rfl⟩ : ∃ k, fuel = k + 1 := ⟨fuel - 1, by omega⟩
  have a0 := tiny_parse_whitespace_append wb 34 (k0 ++ (w ++ x :: r)) (st ++ acc.map .member)
    hwb (by decide)
  have a1 := hk (w ++ x :: r) (st ++ acc.map .member)
  have a2 := tiny_parse_whitespace_append w x r (st ++ acc.map .member) hw hx
  simp only [List.cons_append] at a1
  rw [a0, Option.some_bind, object_loop]
  simp only [object_round_key, ne_eq, not_true_eq_false, if_false, a1, a2, h58,
    not_false_eq_true, if_true, show ¬ (TINY_PARSE_MISS_COLON = TINY_PARSE_OK) by decide,
    object_break, object_cleanup_members acc.length acc (x :: r) st rfl, Option.map_some']

theorem object_last_miss (pv : tiny_context ν → tiny_node ν → Option (parse_result ν))
    (wbk k0 key wk wv t wa : List Nat) (y : Nat) (t0 : List Nat) (x : Nat) (r : List Nat)
    (v : tiny_node ν) (st : List (stack_item ν)) (node : tiny_node ν)
    (hwbk : all_ws wbk) (hwk : all_ws wk) (hwv : all_ws wv) (hwa : all_ws wa)
    (hk : ∀ (q : List Nat) (st0 : List (stack_item ν)),
      tiny_parse_string_raw { json := 34 :: k0 ++ q, stack := st0 }
        = some (TINY_PARSE_OK, key, { json := q, stack := st0 }))
    (ht : t = y :: t0) (hy : is_ws y = false)
    (hv : ∀ (st0 : List (stack_item ν)) (node0 : tiny_node ν),
      pv { json := t ++ (wa ++ x :: r), stack := st0 } node0
        = some (TINY_PARSE_OK, v, { json := wa ++ x :: r, stack := st0 }))
    (hx : is_ws x = false) (h44 : x ≠ 44) (h125 : x ≠ 125)
    (acc : List (tiny_member ν)) (fuel : Nat) (hfuel : 1 ≤ fuel) :
    (tiny_parse_whitespace
        { json := wbk ++ 34 :: (k0 ++ (wk ++ 58 :: (wv ++ (t ++ (wa ++ x :: r))))),
          stack := st ++ acc.map .member }).bind
      (fun c => object_loop pv fuel c node acc.length)
      = some (TINY_PARSE_MISS_COMMA_OR_CURLY_BRACKET, .null,
          { json := x :: r, stack := st }) := by
  obtain ⟨k, rfl⟩ : ∃ k, fuel = k + 1 := ⟨fuel - 1, by omega⟩
  subst ht
  have a0 := tiny_parse_whitespace_append wbk 34
    (k0 ++ (wk ++ 58 :: (wv ++ (y :: t0 ++ (wa ++ x :: r))))) (st ++ acc.map .member)
    hwbk (by decide)
  have a1 := object_round_key_run k0 key wk wv y (t0 ++ (wa ++ x :: r))
    (st ++ acc.map .member) hk hwk hwv hy
  have a2 := hv (st ++ acc.map .member) (tiny_init .null)
  simp only [List.cons_append] at a0 a1 a2
  obtain ⟨mb, hmb⟩ : ∃ mb : tiny_member ν, mb = tiny_member.mk key (some key.length) v :=
    ⟨_, rfl⟩
  have hlen : acc.length + 1 = (acc ++ [mb]).length := by simp
  have hpush : tiny_context_push
      { json := wa ++ x :: r, stack := st ++ acc.map .member } [.member mb]
      = some { json := wa ++ x :: r, stack := st ++ (acc ++ [mb]).map .member } := by
    simp [tiny_context_push]
  have a3 := object_round_end_other wa x r st (acc ++ [mb]) hwa hx h44 h125
  simp only [List.cons_append]
  rw [a0, Option.some_bind, object_loop]
  simp only [a1, ne_eq, not_true_eq_false, if_false, a2, ← hmb, hpush]
  rw [hlen, a3]

theorem object_commas_length (z : List Nat) : ∀ (items : List (member_text ν)),
    items.length + z.length ≤ (object_commas items z).length
    ∧ ∀ x ∈ items, x.text.length + 1 ≤ (object_commas items z).length := by
  intro items
  induction items with
  | nil => simp [object_commas]
  | cons y rest ih =>
    refine ⟨by simp [object_commas]; omega, ?_⟩
    intro x hx
    rcases List.mem_cons.1 hx with rfl | hx
    · simp [object_commas, member_text.padded]
      omega
    · have := ih.2 x hx
      simp [object_commas]
      omega

theorem member_texts_replay (L : libc ν) (hL : strtod_reads_number L)
    (items : List (member_text ν)) (k : Nat)
    (hitems : ∀ x ∈ items, all_ws x.before_key ∧ all_ws x.after_key ∧ all_ws x.before
      ∧ all_ws x.after ∧ 0 ∉ x.key_text ∧ 0 ∉ x.text ∧ (∃ k0, x.key_text = 34 :: k0)
      ∧ (∃ n0, tiny_parse L n0 (x.key_text ++ [0]) = some (TINY_PARSE_OK, .string x.key))
      ∧ ∃ n0, tiny_parse L n0 (x.text ++ [0]) = some (TINY_PARSE_OK, x.value))
    (hk : ∀ x ∈ items, x.text.length + 1 ≤ k) :
    ∀ x ∈ items, all_ws x.before_key ∧ all_ws x.after_key ∧ all_ws x.before
      ∧ all_ws x.after ∧
      (∃ k0 kw, x.key_text = 34 :: k0 ++ kw ∧ all_ws kw ∧
        ∀ (q : List Nat) (st0 : List (stack_item ν)),
          tiny_parse_string_raw { json := 34 :: k0 ++ q, stack := st0 }
            = some (TINY_PARSE_OK, x.key, { json := q, stack := st0 })) ∧
      ∃ w1 w2 y1 t1, x.text = w1 ++ (y1 :: t1 ++ w2) ∧ all_ws w1 ∧ all_ws w2
        ∧ is_ws y1 = false ∧
        ∀ (q : List Nat) (st0 : List (stack_item ν)) (node0 : tiny_node ν), delimited q →
          tiny_parse_value L k { json := y1 :: t1 ++ q, stack := st0 } node0
            = some (TINY_PARSE_OK, x.value, { json := q, stack := st0 }) := by
  intro x hx
  obtain ⟨hbk, hak, hb, ha, h0k, h0, hq, ⟨n1, hpk⟩, n0, hp⟩ := hitems x hx
  obtain ⟨w1, t1, w2, y, t0, e, hw1, hw2, et, hy, _, hrep⟩ :=
    tiny_parse_ok_inv L hL n0 x.value x.text h0 hp
  subst et
  refine ⟨hbk, hak, hb, ha, key_literal_inv L hL n1 _ _ h0k hq hpk,
    w1, w2, y, t0, e, hw1, hw2, hy, ?_⟩
  intro q st0 node0 hq
  have := hk x hx
  exact hrep k q st0 node0 (by simp; omega) hq

theorem tiny_parse_object_commas (L : libc ν) (node : tiny_node ν) (w0 : List Nat)
    (items : List (member_text ν)) (z : List Nat) (ret : tiny_status) (jE : List Nat)
    (hw0 : all_ws w0)
    (hitems : ∀ x ∈ items, all_ws x.before_key ∧ all_ws x.after_key ∧ all_ws x.before
      ∧ all_ws x.after ∧
      (∃ k0 kw, x.key_text = 34 :: k0 ++ kw ∧ all_ws kw ∧
        ∀ (q : List Nat) (st0 : List (stack_item ν)),
          tiny_parse_string_raw { json := 34 :: k0 ++ q, stack := st0 }
            = some (TINY_PARSE_OK, x.key, { json := q, stack := st0 })) ∧
      ∃ w1 w2 y1 t1, x.text = w1 ++ (y1 :: t1 ++ w2) ∧ all_ws w1 ∧ all_ws w2
        ∧ is_ws y1 = false ∧
        ∀ (q : List Nat) (st0 : List (stack_item ν)) (node0 : tiny_node ν), delimited q →
          tiny_parse_value L (w0 ++ object_commas items z).length
              { json := y1 :: t1 ++ q, stack := st0 } node0
            = some (TINY_PARSE_OK, x.value, { json := q, stack := st0 }))
    (hz : ∀ (acc : List (tiny_member ν)) (fuel : Nat), 1 ≤ fuel →
      (tiny_parse_whitespace { json := z, stack := [] ++ acc.map .member }).bind
        (fun c => object_loop (tiny_parse_value L (w0 ++ object_commas items z).length) fuel c
          .null acc.length) = some (ret, .null, { json := jE, stack := [] }))
    (hzhead : ∃ wz y q, z = wz ++ y :: q ∧ all_ws wz ∧ is_ws y = false
      ∧ (items = [] → y ≠ 125))
    (hret : ret ≠ TINY_PARSE_OK) :
    tiny_parse L node (123 :: (w0 ++ object_commas items z)) = some (ret, .null) := by
  have hent : ∃ y q, tiny_parse_whitespace
        ({ json := object_commas items z, stack := [] } : tiny_context ν)
        = some { json := y :: q, stack := [] } ∧ y ≠ 125
          ∧ items.length + 1 ≤ (y :: q).length := by
    cases items with
    | nil =>
      obtain ⟨wz, y, q, rfl, hwz, hy, h125⟩ := hzhead
      exact ⟨y, q, tiny_parse_whitespace_append wz y q [] hwz hy, h125 rfl, by simp⟩
    | cons x rest =>
      obtain ⟨hxbk, _, _, _, ⟨k0, kw, ekt, _, _⟩, _⟩ := hitems x (List.mem_cons_self _ _)
      have etxt : object_commas (x :: rest) z
          = x.before_key ++ 34 :: (k0 ++ (kw ++ (x.after_key ++ 58 ::
              (x.before ++ (x.text ++ x.after)))) ++ 44 :: object_commas rest z) := by
        simp [object_commas, member_text.padded, ekt]
      refine ⟨34, k0 ++ (kw ++ (x.after_key ++ 58 :: (x.before ++ (x.text ++ x.after))))
        ++ 44 :: object_commas rest z, ?_, by decide, ?_⟩
      · rw [etxt]
        exact tiny_parse_whitespace_append _ 34 _ [] hxbk (by decide)
      · have := (object_commas_length z rest).1
        simp
        omega
  obtain ⟨y, q, hws, hy125, hlen⟩ := hent
  have H := object_loop_commas (tiny_parse_value L (w0 ++ object_commas items z).length) z []
    .null (ret, .null, { json := jE, stack := [] }) 1 hz items [] (y :: q).length hitems
    (by omega)
  simp only [List.map_nil, List.append_nil, hws, Option.some_bind, List.length_nil] at H
  have hws0 := tiny_parse_whitespace_skip w0 (object_commas items z)
    ([] : List (stack_item ν)) hw0
  rw [hws] at hws0
  refine tiny_parse_of_value_error_at L node [] 123 (w0 ++ object_commas items z) ret .null jE
    (w0 ++ object_commas items z).length (fun _ hb => by cases hb) (by decide) hret
    (by simp) ?_
  rw [parse_value_switch_cons]
  simp only [show ¬ ((123 : Nat) = 110) by decide, show ¬ ((123 : Nat) = 116) by decide,
    show ¬ ((123 : Nat) = 102) by decide, show ¬ ((123 : Nat) = 34) by decide,
    show ¬ ((123 : Nat) = 91) by decide, if_false, if_true,
    tiny_parse_object, EXPECT, Option.some_bind, hws0, if_neg hy125, tiny_init]
  exact H

/-- Where an object text misses a key, a colon, or a comma or its closing brace, as long as
`strtod` reports no overflow: let an object text start with `{` and zero or more members, each followed by a
comma, whose key texts and value texts `tiny_parse` reads with `TINY_PARSE_OK`. (a) Where
the next member must start, after any whitespace, a byte `x` that is not whitespace and not
a quote (and not `}` when no member has been read) makes `tiny_parse` return
`TINY_PARSE_MISS_KEY`; the NUL and, after a comma, `}` are such bytes. (b) After a further
key text and any whitespace, a byte that is not a colon gives `TINY_PARSE_MISS_COLON`.
(c) After a further member and any whitespace, a byte `x` that is not a comma and not `}`
gives `TINY_PARSE_MISS_COMMA_OR_CURLY_BRACKET`, in each of these cases: whitespace stands
between the value and `x`; `x` is the NUL or `]`; the value is not a number; the value is a
text of the number grammar, `x` cannot go on a number, and `strtod` reports no overflow on
the text at the value. In all cases the node is left with type `TINY_NULL`. The assumption
on `strtod` is that, on a number followed by a delimiter, its result depends on the text of
the number only. -/
theorem object_miss_key_colon_comma (L : libc ν) (hL : strtod_reads_number L)
    (node : tiny_node ν) (w0 : List Nat) (items : List (member_text ν)) (hw0 : all_ws w0)
    (hitems : ∀ x ∈ items, all_ws x.before_key ∧ all_ws x.after_key ∧ all_ws x.before
      ∧ all_ws x.after ∧ 0 ∉ x.key_text ∧ 0 ∉ x.text ∧ (∃ k0, x.key_text = 34 :: k0)
      ∧ (∃ n0, tiny_parse L n0 (x.key_text ++ [0]) = some (TINY_PARSE_OK, .string x.key))
      ∧ ∃ n0, tiny_parse L n0 (x.text ++ [0]) = some (TINY_PARSE_OK, x.value)) :
    (∀ (w : List Nat) (x : Nat) (r : List Nat), all_ws w → is_ws x = false → x ≠ 34 →
      (items = [] → x ≠ 125) →
      tiny_parse L node (123 :: (w0 ++ object_commas items (w ++ x :: r)))
        = some (TINY_PARSE_MISS_KEY, .null))
    ∧ (∀ (wb kt key w : List Nat) (x : Nat) (r : List Nat), all_ws wb → all_ws w →
      0 ∉ kt → (∃ k0, kt = 34 :: k0) →
      (∃ n0, tiny_parse L n0 (kt ++ [0]) = some (TINY_PARSE_OK, .string key)) →
      is_ws x = false → x ≠ 58 →
      tiny_parse L node (123 :: (w0 ++ object_commas items (wb ++ (kt ++ (w ++ x :: r)))))
        = some (TINY_PARSE_MISS_COLON, .null))
    ∧ ∀ (last : member_text ν) (x : Nat) (r : List Nat),
      all_ws last.before_key → all_ws last.after_key → all_ws last.before →
      all_ws last.after → 0 ∉ last.key_text → 0 ∉ last.text →
      (∃ k0, last.key_text = 34 :: k0) →
      (∃ n0, tiny_parse L n0 (last.key_text ++ [0])
        = some (TINY_PARSE_OK, .string last.key)) →
      (∃ n0, tiny_parse L n0 (last.text ++ [0]) = some (TINY_PARSE_OK, last.value)) →
      is_ws x = false → x ≠ 44 → x ≠ 125 →
      (last.after ≠ [] ∨ x = 0 ∨ x = 93 ∨ tiny_get_type last.value ≠ TINY_NUMBER
        ∨ (spec_number_grammar last.text ∧ continues_number x = false
            ∧ (L.strtod (last.text ++ x :: r)).2 = false)) →
      tiny_parse L node (123 :: (w0 ++ object_commas items (last.padded ++ x :: r)))
        = some (TINY_PARSE_MISS_COMMA_OR_CURLY_BRACKET, .null) := by
  have hconv : ∀ (z : List Nat), ∀ x ∈ items, all_ws x.before_key ∧ all_ws x.after_key
      ∧ all_ws x.before ∧ all_ws x.after ∧
      (∃ k0 kw, x.key_text = 34 :: k0 ++ kw ∧ all_ws kw ∧
        ∀ (q : List Nat) (st0 : List (stack_item ν)),
          tiny_parse_string_raw { json := 34 :: k0 ++ q, stack := st0 }
            = some (TINY_PARSE_OK, x.key, { json := q, stack := st0 })) ∧
      ∃ w1 w2 y1 t1, x.text = w1 ++ (y1 :: t1 ++ w2) ∧ all_ws w1 ∧ all_ws w2
        ∧ is_ws y1 = false ∧
        ∀ (q : List Nat) (st0 : List (stack_item ν)) (node0 : tiny_node ν), delimited q →
          tiny_parse_value L (w0 ++ object_commas items z).length
              { json := y1 :: t1 ++ q, stack := st0 } node0
            = some (TINY_PARSE_OK, x.value, { json := q, stack := st0 }) := by
    intro z
    refine member_texts_replay L hL items _ hitems ?_
    intro e he
    have := (object_commas_length z items).2 e he
    simp
    omega
  refine ⟨?_, ?_, ?_⟩
  · intro w x r hw hx h34 h125
    refine tiny_parse_object_commas L node w0 items _ _ (x :: r) hw0 (hconv _) ?_ ?_
      (by decide)
    · intro acc fuel hfuel
      exact object_miss_key _ w x r [] .null hw hx h34 acc fuel hfuel
    · exact ⟨w, x, r, rfl, hw, hx, h125⟩
  · intro wb kt key w x r hwb hw h0k hq ⟨n1, hpk⟩ hx h58
    obtain ⟨k0, kw, ekt, hkw, hk1⟩ := key_literal_inv L hL n1 kt key h0k hq hpk
    have hzeq : wb ++ (kt ++ (w ++ x :: r)) = wb ++ 34 :: (k0 ++ ((kw ++ w) ++ x :: r)) := by
      simp [ekt]
    rw [hzeq]
    refine tiny_parse_object_commas L node w0 items _ _ (x :: r) hw0 (hconv _) ?_ ?_
      (by decide)
    · intro acc fuel hfuel
      exact object_miss_colon _ wb k0 key (kw ++ w) x r [] .null hwb
        (all_ws_append _ _ hkw hw) hx h58 hk1 acc fuel hfuel
    · exact ⟨wb, 34, k0 ++ ((kw ++ w) ++ x :: r), rfl, hwb, by decide, fun _ => by decide⟩
  · intro last x r hlbk hlak hlb hla h0k hl0 hq ⟨n1, hpk⟩ ⟨n0, hlp⟩ hx h44 h125 hfol
    obtain ⟨k0, kw, ekt, hkw, hk1⟩ := key_literal_inv L hL n1 _ _ h0k hq hpk
    obtain ⟨w1, t, w2, y, t0, e1, hw1, hw2, et, hy, hrep⟩ :=
      tiny_parse_ok_replay L hL n0 last.value last.text hl0 hlp
    have hlens := object_commas_length (last.padded ++ x :: r) items
    have hzlen : last.text.length + 2 ≤ (last.padded ++ x :: r).length := by
      simp [member_text.padded]
      omega
    have hk2 : (last.text ++ [0]).length
        ≤ (w0 ++ object_commas items (last.padded ++ x :: r)).length := by
      have := hlens.1
      simp only [List.length_append, List.length_singleton]
      omega
    have hnil : all_ws [] := fun _ hb => absurd hb (List.not_mem_nil _)
    obtain ⟨d, hd⟩ :
        ∃ d, (w0 ++ object_commas items (last.padded ++ x :: r)).length = d + 1 :=
      ⟨(w0 ++ object_commas items (last.padded ++ x :: r)).length - 1, by
        simp only [List.length_append, List.length_singleton] at hk2 ⊢; omega⟩
    have hctx : ∃ (wv t1 wa : List Nat) (y1 : Nat) (t2 : List Nat) (v : tiny_node ν),
        last.padded ++ x :: r
          = last.before_key ++ 34 :: (k0 ++ ((kw ++ last.after_key) ++ 58 ::
              (wv ++ (t1 ++ (wa ++ x :: r)))))
        ∧ all_ws wv ∧ all_ws wa ∧ t1 = y1 :: t2 ∧ is_ws y1 = false ∧
        ∀ (st0 : List (stack_item ν)) (node0 : tiny_node ν),
          tiny_parse_value L (w0 ++ object_commas items (last.padded ++ x :: r)).length
              { json := t1 ++ (wa ++ x :: r), stack := st0 } node0
            = some (TINY_PARSE_OK, v, { json := wa ++ x :: r, stack := st0 }) := by
      have hzeq : last.padded ++ x :: r
          = last.before_key ++ 34 :: (k0 ++ ((kw ++ last.after_key) ++ 58 ::
              ((last.before ++ w1) ++ (t ++ ((w2 ++ last.after) ++ x :: r))))) := by
        simp [member_text.padded, e1, ekt]
      have hwa : all_ws (w2 ++ last.after) := all_ws_append _ _ hw2 hla
      have hwv : all_ws (last.before ++ w1) := all_ws_append _ _ hlb hw1
      have huse : (delimited ((w2 ++ last.after) ++ x :: r)
          ∨ tiny_get_type last.value ≠ TINY_NUMBER) →
          ∃ (wv t1 wa : List Nat) (y1 : Nat) (t2 : List Nat) (v : tiny_node ν),
            last.padded ++ x :: r
              = last.before_key ++ 34 :: (k0 ++ ((kw ++ last.after_key) ++ 58 ::
                  (wv ++ (t1 ++ (wa ++ x :: r)))))
            ∧ all_ws wv ∧ all_ws wa ∧ t1 = y1 :: t2 ∧ is_ws y1 = false ∧
            ∀ (st0 : List (stack_item ν)) (node0 : tiny_node ν),
              tiny_parse_value L (w0 ++ object_commas items (last.padded ++ x :: r)).length
                  { json := t1 ++ (wa ++ x :: r), stack := st0 } node0
                = some (TINY_PARSE_OK, v, { json := wa ++ x :: r, stack := st0 }) := by
        intro h
        exact ⟨last.before ++ w1, t, w2 ++ last.after, y, t0, last.value, hzeq, hwv, hwa, et,
          hy, fun st0 node0 => hrep _ _ st0 node0 hk2 h⟩
      by_cases hne : w2 ++ last.after = []
      swap
      · exact huse (Or.inl (delimited_of_ws_ne_nil _ _ hwa hne))
      rcases hfol with h | h | h | h | ⟨hg, hc, hflag⟩
      · exact absurd (List.append_eq_nil.1 hne).2 h
      · exact huse (Or.inl (delimited_of_ws_append _ x r hwa (by subst h; decide)))
      · exact huse (Or.inl (delimited_of_ws_append _ x r hwa (by subst h; decide)))
      · exact huse (Or.inr h)
      · obtain ⟨hw2e, hae⟩ := List.append_eq_nil.1 hne
        obtain ⟨g, g0, eg, hgh⟩ := spec_number_grammar_head last.text hg
        have hgw := (number_head_facts g hgh).1
        refine ⟨last.before, last.text, [], g, g0, .number (L.strtod (last.text ++ x :: r)).1,
          by simp [member_text.padded, hae, ekt], hlb, hnil, eg, hgw, ?_⟩
        intro st0 node0
        rw [hd]
        exact tiny_parse_value_number_stop L d last.text x r st0 node0 hg hc hflag
    obtain ⟨wv, t1, wa, y1, t2, v, hzeq, hwv, hwa, et1, hy1, hv⟩ := hctx
    refine tiny_parse_object_commas L node w0 items _ _ (x :: r) hw0 (hconv _) ?_ ?_
      (by decide)
    · intro acc fuel hfuel
      rw [hzeq]
      exact object_last_miss _ last.before_key k0 last.key (kw ++ last.after_key) wv t1 wa y1
        t2 x r v [] .null hlbk (all_ws_append _ _ hkw hlak) hwv hwa hk1 et1 hy1
        (by rw [← hzeq]; exact hv) hx h44 h125 acc fuel hfuel
    · exact ⟨last.before_key, 34, k0 ++ ((kw ++ last.after_key) ++ 58 ::
        (wv ++ (t1 ++ (wa ++ x :: r)))), hzeq, hlbk, by decide, fun _ => by decide⟩

/-- The texts of the tests in which a key, a colon, or a comma or a
closing brace is missing (an opening brace followed by `:1,`, by `"a"` and a closing brace,
by `"a":1]`), with the library instance `demo_libc`. -/
theorem object_miss_key_colon_comma_example :
    tiny_parse demo_libc .jtrue [123, 58, 49, 44, 0] = some (TINY_PARSE_MISS_KEY, .null)
    ∧ tiny_parse demo_libc .jtrue [123, 34, 97, 34, 125, 0]
        = some (TINY_PARSE_MISS_COLON, .null)
    ∧ tiny_parse demo_libc .jtrue [123, 34, 97, 34, 58, 49, 93, 0]
        = some (TINY_PARSE_MISS_COMMA_OR_CURLY_BRACKET, .null) :=
  have H := object_miss_key_colon_comma demo_libc demo_libc_reads_number .jtrue [] []
    (by decide) (fun _ he => absurd he (List.not_mem_nil _))
  ⟨H.1 [] 58 [49, 44, 0] (by decide) (by decide) (by decide) (fun _ => by decide),
    H.2.1 [] [34, 97, 34] [97] [] 125 [0] (by decide) (by decide) (by decide) ⟨[97, 34], rfl⟩
      ⟨.null, rfl⟩ (by decide) (by decide),
    H.2.2 ⟨[], [34, 97, 34], [], [], [49], [], [97], .number [49]⟩ 93 [0] (by decide)
      (by decide) (by decide) (by decide) (by decide) (by decide) ⟨[97, 34], rfl⟩ ⟨.null, rfl⟩
      ⟨.null, rfl⟩ (by decide) (by decide) (by decide) (Or.inr (Or.inr (Or.inl rfl)))⟩

/-! ### A number followed by a byte that `strtod` reads on -/

theorem number_text_until_delimiter (t q : List Nat) (ht : spec_number_grammar t)
    (hq : delimited q) : (t ++ q).takeWhile (fun b => !is_delimiter b) = t := by
  have hnd := spec_number_grammar_not_delimiter t ht
  obtain ⟨x, q0, rfl, hx⟩ := hq
  clear ht
  induction t with
  | nil => simp [List.takeWhile, hx]
  | cons b t ih =>
    have hb := hnd b (List.mem_cons_self _ _)
    have := ih (fun y hy => hnd y (List.mem_cons_of_mem _ hy))
    simp [List.takeWhile, hb, this]

theorem hex_libc_reads_number : strtod_reads_number hex_libc := by
  intro t r r0 ht hr hr0
  simp only [hex_libc, number_text_until_delimiter t r ht hr,
    number_text_until_delimiter t r0 ht hr0]

theorem spec_number_grammar_zero : spec_number_grammar [48] :=
  ⟨[], [48], [], [], rfl, Or.inl rfl, Or.inl rfl, Or.inl rfl, Or.inl rfl⟩

/-- C21 (the code departs from the claim): in the text `[0x1p9999` the element `0` is a text
of the number grammar that `tiny_parse` reads with `TINY_PARSE_OK`, and the byte `x` after
it is not whitespace, not a comma, not `]`, and does not continue the number syntax, so
the claim has `TINY_PARSE_MISS_COMMA_OR_SQUARE_BRACKET`. `tiny_parse_number` checks the
syntax up to the end of the `0` and then calls `strtod` on the input from the `0` on, not
on the text it has checked. With `hex_libc`, whose `strtod` satisfies the assumption
`strtod_reads_number` and reads `0x1p9999` as one number that overflows, `tiny_parse`
returns `TINY_PARSE_NUMBER_TOO_BIG`; with `demo_libc`, whose `strtod` reports no overflow
there, it returns the status of the claim. -/
theorem C21_array_hex_float_is_number_too_big :
    strtod_reads_number hex_libc
    ∧ spec_number_grammar [48]
    ∧ tiny_parse hex_libc .null (cstr "0") = some (TINY_PARSE_OK, .number [48])
    ∧ is_ws 120 = false ∧ (120 : Nat) ≠ 44 ∧ (120 : Nat) ≠ 93
    ∧ continues_number 120 = false
    ∧ cstr "[0x1p9999" = 91 :: ([48] ++ 120 :: [49, 112, 57, 57, 57, 57, 0])
    ∧ tiny_parse hex_libc .null (cstr "[0x1p9999")
        = some (TINY_PARSE_NUMBER_TOO_BIG, .null)
    ∧ TINY_PARSE_NUMBER_TOO_BIG ≠ TINY_PARSE_MISS_COMMA_OR_SQUARE_BRACKET
    ∧ tiny_parse demo_libc .null (cstr "[0x1p9999")
        = some (TINY_PARSE_MISS_COMMA_OR_SQUARE_BRACKET, .null) :=
  ⟨hex_libc_reads_number, spec_number_grammar_zero, rfl, rfl, by decide, by decide, rfl, rfl,
    rfl, by decide, rfl⟩

/-- C22 (the code departs from the claim): in the text `{"a":0x1p9999` the key `"a"` and
the value `0` are read with `TINY_PARSE_OK` on their own, the value is a text of the number
grammar, and the byte `x` after it is not whitespace, not a comma, not `}`, and does not
continue the number syntax, so part (c) of the claim has
`TINY_PARSE_MISS_COMMA_OR_CURLY_BRACKET`. `tiny_parse_number` checks the syntax up to the
end of the `0` and then calls `strtod` on the input from the `0` on, not on the text it has
checked. With `hex_libc`, whose `strtod` satisfies the assumption `strtod_reads_number` and
reads `0x1p9999` as one number that overflows, `tiny_parse` returns
`TINY_PARSE_NUMBER_TOO_BIG`; with `demo_libc`, whose `strtod` reports no overflow there, it
returns the status of the claim. -/
theorem C22_object_hex_float_is_number_too_big :
    strtod_reads_number hex_libc
    ∧ tiny_parse hex_libc .null (cstr "\"a\"") = some (TINY_PARSE_OK, .string [97])
    ∧ spec_number_grammar [48]
    ∧ tiny_parse hex_libc .null (cstr "0") = some (TINY_PARSE_OK, .number [48])
    ∧ is_ws 120 = false ∧ (120 : Nat) ≠ 44 ∧ (120 : Nat) ≠ 125
    ∧ continues_number 120 = false
    ∧ cstr "\x7b\"a\":0x1p9999"
        = 123 :: ([34, 97, 34] ++ 58 :: ([48] ++ 120 :: [49, 112, 57, 57, 57, 57, 0]))
    ∧ tiny_parse hex_libc .null (cstr "\x7b\"a\":0x1p9999")
        = some (TINY_PARSE_NUMBER_TOO_BIG, .null)
    ∧ TINY_PARSE_NUMBER_TOO_BIG ≠ TINY_PARSE_MISS_COMMA_OR_CURLY_BRACKET
    ∧ tiny_parse demo_libc .null (cstr "\x7b\"a\":0x1p9999")
        = some (TINY_PARSE_MISS_COMMA_OR_CURLY_BRACKET, .null) :=
  ⟨hex_libc_reads_number, rfl, spec_number_grammar_zero, rfl, rfl, by decide, by decide, rfl,
    rfl, rfl, by decide, rfl⟩

/-! ### The capacity of a parsed array -/

theorem array_round_end_capacity (c : tiny_context ν) (node : tiny_node ν) (size : Nat)
    (v : tiny_node ν) (c1 : tiny_context ν)
    (h : array_round_end c node size = some (.ret (TINY_PARSE_OK, v, c1))) :
    tiny_get_array_capacity v = none := by
  unfold array_round_end at h
  repeat' split at h
  all_goals try simp at h
  obtain ⟨a, _, rfl, _⟩ := h
  rfl

theorem array_loop_capacity (pv : tiny_context ν → tiny_node ν → Option (parse_result ν)) :
    ∀ (fuel : Nat) (c : tiny_context ν) (node : tiny_node ν) (size : Nat) (v : tiny_node ν)
      (c1 : tiny_context ν),
      array_loop pv fuel c node size = some (TINY_PARSE_OK, v, c1) →
      tiny_get_array_capacity v = none := by
  intro fuel
  induction fuel with
  | zero => intro c node size v c1 h; simp [array_loop] at h
  | succ fuel ih =>
    intro c node size v c1 h
    rw [array_loop] at h
    rcases hpv : pv c (tiny_init .null) with _ | ⟨ret, e, c2⟩
    · simp [hpv] at h
    simp only [hpv] at h
    by_cases hret : ret = TINY_PARSE_OK
    swap
    · rw [if_pos hret] at h
      rcases hc : array_cleanup size c2 with _ | c4
      · simp [hc] at h
      · simp only [hc, Option.map_some', Option.some.injEq, Prod.mk.injEq] at h
        exact absurd h.1 hret
    subst hret
    rw [if_neg (by simp)] at h
    rcases hp : tiny_context_push c2 [.node e] with _ | c3
    · simp [hp] at h
    simp only [hp] at h
    rcases hre : array_round_end c3 node (size + 1) with _ | ⟨r0⟩ | ⟨c4⟩
    · simp [hre] at h
    · simp only [hre, Option.some.injEq] at h
      subst h
      exact array_round_end_capacity _ _ _ _ _ hre
    · simp only [hre] at h
      exact ih _ _ _ _ _ h

theorem tiny_parse_array_capacity
    (pv : tiny_context ν → tiny_node ν → Option (parse_result ν))
    (c : tiny_context ν) (node v : tiny_node ν) (c1 : tiny_context ν)
    (h : tiny_parse_array pv c node = some (TINY_PARSE_OK, v, c1)) :
    tiny_get_array_capacity v = none := by
  unfold tiny_parse_array at h
  rcases he : EXPECT c 91 with _ | c2
  · simp [he] at h
  simp only [he, Option.some_bind] at h
  rcases hw : tiny_parse_whitespace c2 with _ | c3
  · simp [hw] at h
  simp only [hw, Option.some_bind] at h
  split at h
  · simp at h
  · split_ifs at h
    · simp only [Option.some.injEq, Prod.mk.injEq, true_and] at h
      rw [← h.1]; rfl
    · exact array_loop_capacity pv _ _ _ _ _ _ h

theorem parse_value_switch_capacity (L : libc ν)
    (pv : tiny_context ν → tiny_node ν → Option (parse_result ν)) (c : tiny_context ν)
    (node v : tiny_node ν) (c1 : tiny_context ν)
    (h : parse_value_switch L pv c node = some (TINY_PARSE_OK, v, c1)) :
    tiny_get_array_capacity v = none := by
  unfold parse_value_switch at h
  split at h
  · simp at h
  · split_ifs at h
    · have := tiny_parse_null_type _ _ _ _ h
      cases v <;> first | rfl | cases this
    · have := tiny_parse_true_type _ _ _ _ h
      cases v <;> first | rfl | cases this
    · have := tiny_parse_false_type _ _ _ _ h
      cases v <;> first | rfl | cases this
    · have := tiny_parse_string_type _ _ _ _ h
      cases v <;> first | rfl | cases this
    · exact tiny_parse_array_capacity _ _ _ _ _ h
    · have := tiny_parse_object_type _ _ _ _ _ h
      cases v <;> first | rfl | cases this
    · simp at h
    · have := tiny_parse_number_type L _ _ _ _ h
      cases v <;> first | rfl | cases this

theorem tiny_parse_capacity (L : libc ν) (node out : tiny_node ν) (json : List Nat)
    (h : tiny_parse L node json = some (TINY_PARSE_OK, out)) :
    tiny_get_array_capacity out = none := by
  obtain ⟨w1, x, q, w2, q2, _, _, _, _, hpv⟩ := tiny_parse_ok_shape L node out json h
  cases hj : json.length with
  | zero => rw [hj] at hpv; simp [tiny_parse_value] at hpv
  | succ k =>
    rw [hj, tiny_parse_value] at hpv
    exact parse_value_switch_capacity L _ _ _ _ _ hpv

/-- C31 (the code departs from the claim): `tiny_parse_array` writes the tag, `size` and
`e` of the node and never its field `capacity`, so on every input on which `tiny_parse`
returns `TINY_PARSE_OK` with an Array node, `tiny_get_array_capacity` reads a field that
was never written, while `tiny_get_array_size` gives the number of elements; so it is for
the empty array, for an array of one element, and for the array nested in it. -/
theorem C31_parsed_array_capacity_never_written (L : libc ν) (node : tiny_node ν) :
    (∀ (json : List Nat) (out : tiny_node ν),
      tiny_parse L node json = some (TINY_PARSE_OK, out) →
      tiny_get_array_capacity out = none)
    ∧ tiny_parse L node [91, 93, 0] = some (TINY_PARSE_OK, .array [] none)
    ∧ tiny_get_array_size (.array [] none : tiny_node ν) = some 0
    ∧ tiny_parse L node [91, 91, 116, 114, 117, 101, 93, 93, 0]
        = some (TINY_PARSE_OK, .array [.array [.jtrue] none] none)
    ∧ tiny_get_array_size (.array [.array [.jtrue] none] none : tiny_node ν) = some 1
    ∧ tiny_get_array_size (.array [.jtrue] none : tiny_node ν) = some 1
    ∧ tiny_get_array_capacity (.array [.jtrue] none : tiny_node ν) = none :=
  ⟨fun json out h => tiny_parse_capacity L node out json h, rfl, rfl, rfl, rfl, rfl, rfl⟩

/-- C31, instantiated: the text `[[true]]` with the library instance `demo_libc`. -/
theorem C31_parsed_array_capacity_never_written_witness :
    tiny_get_array_capacity (.array [.array [.jtrue] none] none : tiny_node (List Nat))
      = none :=
  (C31_parsed_array_capacity_never_written demo_libc .null).1
    [91, 91, 116, 114, 117, 101, 93, 93, 0] _ rfl

/-- C32 (the code departs from the claim): after `tiny_set_object(node, cap)` the node is
an Object of size 0, and `tiny_get_object_capacity` returns 0 whatever `cap` was: with
`cap = 5`, the value of the test, it returns 0 and not 5. -/
theorem C32_object_capacity_is_always_zero (node : tiny_node ν) (cap : Nat) :
    tiny_get_type (tiny_set_object node cap) = TINY_OBJECT
    ∧ tiny_get_object_size (tiny_set_object node cap) = some 0
    ∧ tiny_get_object_capacity (tiny_set_object node cap) = some 0
    ∧ tiny_get_object_capacity (tiny_set_object node 5) ≠ some 5 :=
  ⟨rfl, rfl, rfl, by simp [tiny_get_object_capacity, tiny_set_object]⟩

/-- C33 (the code departs from the claim): `tiny_clear_object` leaves the node as it is, so
the size after the call is the size before it: on the object parsed from the text of an
object with the one member `"a":true` it is 1 and not 0. The capacity reported is 0 before
and after the call. -/
theorem C33_clear_object_keeps_members (L : libc ν) (node : tiny_node ν) :
    tiny_parse L node [123, 34, 97, 34, 58, 116, 114, 117, 101, 125, 0]
      = some (TINY_PARSE_OK, .object [.mk [97] (some 1) .jtrue] none)
    ∧ tiny_clear_object (.object [.mk [97] (some 1) .jtrue] none : tiny_node ν)
      = some (.object [.mk [97] (some 1) .jtrue] none)
    ∧ tiny_get_object_size (.object [.mk [97] (some 1) .jtrue] none : tiny_node ν) = some 1
    ∧ (∀ (m : List (tiny_member ν)) (cap : Option Nat),
        tiny_clear_object (.object m cap) = some (.object m cap)
        ∧ tiny_get_object_size (.object m cap) = some m.length
        ∧ tiny_get_object_capacity (.object m cap) = some 0) :=
  ⟨rfl, rfl, rfl, fun _ _ => ⟨rfl, rfl, rfl⟩⟩

/-! ### Looking up a key -/

theorem find_object_scan_spec (key : List Nat) (klen : Nat) :
    ∀ (m : List (tiny_member ν)) (i : Nat), i + m.length < 2 ^ 64 →
      (∃ k, k < m.length ∧ find_object_scan key klen m i = i + k
        ∧ (∃ x, m[k]? = some x ∧ spec_key_match key klen x)
        ∧ ∀ (j : Nat) (x : tiny_member ν), j < k → m[j]? = some x → ¬ spec_key_match key klen x)
      ∨ (find_object_scan key klen m i = TINY_KEY_NOT_EXIST
        ∧ ∀ (j : Nat) (x : tiny_member ν), m[j]? = some x → ¬ spec_key_match key klen x) := by
  intro m
  induction m with
  | nil =>
    intro i _
    exact Or.inr ⟨rfl, fun j x h => by simp at h⟩
  | cons y rest ih =>
    intro i hi
    obtain ⟨k, kl, v⟩ := y
    by_cases hm : kl = some klen ∧ k.take klen = key.take klen
    · left
      refine ⟨0, by simp, by simp [find_object_scan, hm],
        ⟨tiny_member.mk k kl v, by simp, hm⟩, ?_⟩
      intro j x hj
      omega
    · have hi2 : (i + 1) + rest.length < 2 ^ 64 := by simp at hi; omega
      have hstep : find_object_scan key klen (tiny_member.mk k kl v :: rest) i
          = find_object_scan key klen rest (i + 1) := by
        simp only [find_object_scan, if_neg hm]
      rcases ih (i + 1) hi2 with ⟨k0, hk0, hf, hx, hbefore⟩ | ⟨hf, hnone⟩
      · left
        refine ⟨k0 + 1, by simp; omega, by rw [hstep, hf]; omega, by simpa using hx, ?_⟩
        intro j x hj hjx
        cases j with
        | zero =>
          simp only [List.getElem?_cons_zero, Option.some.injEq] at hjx
          subst hjx
          exact hm
        | succ j =>
          simp only [List.getElem?_cons_succ] at hjx
          exact hbefore j x (by omega) hjx
      · right
        refine ⟨by rw [hstep, hf], ?_⟩
        intro j x hjx
        cases j with
        | zero =>
          simp only [List.getElem?_cons_zero, Option.some.injEq] at hjx
          subst hjx
          exact hm
        | succ j =>
          simp only [List.getElem?_cons_succ] at hjx
          exact hnone j x hjx

/-- C34: for an Object node with members `m` (their number is a value of `size_t`) and a
key `key` of length `klen`, `tiny_find_object_index` returns either an index `i` below the
size such that member `i` has that key and no member before it has, or, when no member has
that key, `TINY_KEY_NOT_EXIST`, which is `2 ^ 64 - 1` and differs from every index below
the size. -/
theorem C34_find_object_index_first_match (m : List (tiny_member ν)) (cap : Option Nat)
    (key : List Nat) (klen : Nat) (hm : m.length < 2 ^ 64) :
    (∃ r, tiny_find_object_index (.object m cap) key klen = some r
      ∧ ((r < m.length ∧ (∃ x, m[r]? = some x ∧ spec_key_match key klen x)
          ∧ ∀ (j : Nat) (x : tiny_member ν), j < r → m[j]? = some x → ¬ spec_key_match key klen x)
        ∨ (r = TINY_KEY_NOT_EXIST
          ∧ ∀ (j : Nat) (x : tiny_member ν), m[j]? = some x → ¬ spec_key_match key klen x)))
    ∧ ∀ i, i < m.length → i ≠ TINY_KEY_NOT_EXIST := by
  refine ⟨?_, fun i hi => by unfold TINY_KEY_NOT_EXIST; omega⟩
  rcases find_object_scan_spec key klen m 0 (by simpa using hm) with
    ⟨k, hk, hf, hx, hb⟩ | ⟨hf, hn⟩
  · exact ⟨k, by simp [tiny_find_object_index, hf], Or.inl ⟨hk, hx, hb⟩⟩
  · exact ⟨TINY_KEY_NOT_EXIST, by simp [tiny_find_object_index, hf], Or.inr ⟨rfl, hn⟩⟩

/-- C34, instantiated: the object with the members `"a":true`, `"b":false`, `"b":null` and
the key `b`, which is found at index 1. -/
theorem C34_find_object_index_first_match_witness :
    tiny_find_object_index
      (.object [.mk [97] (some 1) .jtrue, .mk [98] (some 1) .jfalse, .mk [98] (some 1) .null]
        none : tiny_node (List Nat)) [98] 1 = some 1
    ∧ ∀ i, i < 3 → i ≠ TINY_KEY_NOT_EXIST :=
  ⟨rfl, (C34_find_object_index_first_match
    ([.mk [97] (some 1) .jtrue, .mk [98] (some 1) .jfalse, .mk [98] (some 1) .null] :
      List (tiny_member (List Nat))) none [98] 1 (by decide)).2⟩

/-! ### Tutorial 03 -/

/-- C35 (the code departs from the claim): in tutorial03 `tiny_context_pop` returns
`c->stack + (c->top - size)` and leaves `c->top` as it is. On the text of the string
`Hello`, a case of `test_parse_string`, `tiny_parse_value` returns `TINY_PARSE_OK` with the
five bytes still on the stack, so the assertion `c.top == 0` of `tiny_parse` fails; only
the empty string, which pushes nothing, gets through. -/
theorem C35_tutorial03_pop_keeps_top (L : libc ν) (node : tiny_node ν) :
    Tutorial03.tiny_context_pop
        ({ json := [], stack := [.byte 72, .byte 105] } : tiny_context ν) 2
      = some ([.byte 72, .byte 105], { json := [], stack := [.byte 72, .byte 105] })
    ∧ Tutorial03.tiny_parse_value L
        { json := [34, 72, 101, 108, 108, 111, 34, 0], stack := [] } node
      = some (TINY_PARSE_OK, .string [72, 101, 108, 108, 111],
          { json := [0],
            stack := [.byte 72, .byte 101, .byte 108, .byte 108, .byte 111] })
    ∧ Tutorial03.tiny_parse L node [34, 72, 101, 108, 108, 111, 34, 0] = none
    ∧ Tutorial03.tiny_parse L node [34, 34, 0] = some (TINY_PARSE_OK, .string []) :=
  ⟨rfl, rfl, rfl, rfl⟩

/-! ### The region reserved by the serializer of strings -/

/-- C36: for the first `len` bytes of `s` (with `len * 6 + 2` a value of `size_t`), the
bytes that the three-argument `tiny_stringify_string` writes are at least `len + 2` and at
most `6 * len + 2`, the size of the region it reserved: every write stays inside the
region, `size - (p - head)` does not wrap, the function returns, and the stack grows by
exactly the bytes written. -/
theorem C36_stringify_string_stays_in_region (c : tiny_context ν) (s : List Nat) (len : Nat)
    (hlen : len ≤ s.length) (hfit : len * 6 + 2 < 2 ^ 64) :
    len + 2 ≤ (34 :: stringify_string_loop (s.take len) ++ [34]).length
    ∧ (34 :: stringify_string_loop (s.take len) ++ [34]).length ≤ 6 * len + 2
    ∧ size_t (len * 6 + 2) = len * 6 + 2
    ∧ size_t_sub (len * 6 + 2) (34 :: stringify_string_loop (s.take len) ++ [34]).length
        = len * 6 + 2 - (34 :: stringify_string_loop (s.take len) ++ [34]).length
    ∧ ∃ c1, tiny_stringify_string c s len = some c1
        ∧ c1.stack = c.stack ++ (34 :: stringify_string_loop (s.take len) ++ [34]).map .byte
        ∧ c1.stack.length
            = c.stack.length + (34 :: stringify_string_loop (s.take len) ++ [34]).length
        ∧ c1.json = c.json := by
  have hl := stringify_string_loop_length (s.take len)
  have ht : (s.take len).length = len := by simp [hlen]
  rw [ht] at hl
  have h1 : (34 :: stringify_string_loop (s.take len) ++ [34]).length
      = (stringify_string_loop (s.take len)).length + 2 := by simp
  refine ⟨by omega, by omega, Nat.mod_eq_of_lt hfit, ?_, ?_⟩
  · rw [size_t_sub, if_pos (by omega)]
  · refine ⟨{ c with stack := c.stack
        ++ (34 :: stringify_string_loop (s.take len) ++ [34]).map .byte }, ?_, rfl, ?_, rfl⟩
    · simp only [tiny_stringify_string]
      rw [if_pos ⟨hlen, by omega⟩]
    · simp

/-- C36, instantiated: the two bytes of a quote and a line feed. -/
theorem C36_stringify_string_stays_in_region_witness :
    2 + 2 ≤ (34 :: stringify_string_loop ([34, 10].take 2) ++ [34]).length
    ∧ (34 :: stringify_string_loop ([34, 10].take 2) ++ [34]).length ≤ 6 * 2 + 2
    ∧ size_t (2 * 6 + 2) = 2 * 6 + 2
    ∧ size_t_sub (2 * 6 + 2) (34 :: stringify_string_loop ([34, 10].take 2) ++ [34]).length
        = 2 * 6 + 2 - (34 :: stringify_string_loop ([34, 10].take 2) ++ [34]).length
    ∧ ∃ c1, tiny_stringify_string ({ json := [], stack := [] } : tiny_context (List Nat))
          [34, 10] 2 = some c1
        ∧ c1.stack = [] ++ (34 :: stringify_string_loop ([34, 10].take 2) ++ [34]).map .byte
        ∧ c1.stack.length
            = ([] : List (stack_item (List Nat))).length
              + (34 :: stringify_string_loop ([34, 10].take 2) ++ [34]).length
        ∧ c1.json = [] :=
  C36_stringify_string_stays_in_region { json := [], stack := [] } [34, 10] 2 (by decide)
    (by decide)

/-! ### The size of an array and its capacity -/

theorem stringify_char_unoptimised_eq (c : tiny_context ν) (ch : Nat)
    (h : hex_letter_control ch = false) :
    stringify_char_unoptimised c ch
      = some { c with stack := c.stack ++ (stringify_char ch).map .byte } := by
  by_cases h32 : ch < 32
  · interval_cases ch <;> first | rfl | exact absurd h (by decide)
  · have a1 : ch ≠ 8 := by omega
    have a2 : ch ≠ 12 := by omega
    have a3 : ch ≠ 10 := by omega
    have a4 : ch ≠ 13 := by omega
    have a5 : ch ≠ 9 := by omega
    by_cases h34 : ch = 34
    · subst h34; rfl
    by_cases h92 : ch = 92
    · subst h92; rfl
    simp only [stringify_char_unoptimised, stringify_char, if_neg h34, if_neg h92, if_neg a1,
      if_neg a2, if_neg a3, if_neg a4, if_neg a5, if_neg h32, PUTC, List.map_cons,
      List.map_nil]

theorem stringify_loop_unoptimised_eq : ∀ (s : List Nat) (c : tiny_context ν),
    (∀ b ∈ s, hex_letter_control b = false) →
    stringify_loop_unoptimised s c
      = some { c with stack := c.stack ++ (stringify_string_loop s).map .byte } := by
  intro s
  induction s with
  | nil => intro c _; simp [stringify_loop_unoptimised, stringify_string_loop]
  | cons ch s ih =>
    intro c h
    have h1 := stringify_char_unoptimised_eq c ch (h ch (List.mem_cons_self _ _))
    have h2 := ih { c with stack := c.stack ++ (stringify_char ch).map .byte }
      (fun b hb => h b (List.mem_cons_of_mem _ hb))
    simp only [stringify_loop_unoptimised, h1, Option.some_bind, h2, stringify_string_loop]
    simp

/-- C40 (the code departs from the claim): the four-argument `tiny_stringify_string` prints
a control byte with `sprintf` and the conversion `%04x`, whose digits are lower case, and
the three-argument one takes the digits from its table `hex_digits`, which are upper case.
For the byte `0x1F` the first writes `\u001f` and the second `\u001F` between the quotes.
The two write the same bytes exactly when no byte of the string is a control byte without
a short escape whose low hexadecimal digit is a letter; that they then agree is the last
part. -/
theorem C40_stringify_overloads_differ_in_letter_case (c : tiny_context ν) :
    tiny_stringify_string_unoptimised c [31] 1
      = some { c with stack := c.stack ++ [.byte 34, .byte 92, .byte 117, .byte 48, .byte 48,
          .byte 49, .byte 102, .byte 34] }
    ∧ tiny_stringify_string c [31] 1
      = some { c with stack := c.stack ++ [.byte 34, .byte 92, .byte 117, .byte 48, .byte 48,
          .byte 49, .byte 70, .byte 34] }
    ∧ tiny_stringify_string_unoptimised c [31] 1 ≠ tiny_stringify_string c [31] 1
    ∧ ∀ (s : List Nat) (len : Nat), len ≤ s.length →
        (∀ b ∈ s.take len, hex_letter_control b = false) →
        tiny_stringify_string_unoptimised c s len = tiny_stringify_string c s len := by
  have e1 : tiny_stringify_string_unoptimised c [31] 1
      = some { c with stack := c.stack ++ [.byte 34, .byte 92, .byte 117, .byte 48, .byte 48,
          .byte 49, .byte 102, .byte 34] } := by
    simp [tiny_stringify_string_unoptimised, stringify_loop_unoptimised,
      stringify_char_unoptimised, PUTS, PUTC, tiny_context_push, sprintf_u04x,
      lower_hex_digit]
  have e2 : tiny_stringify_string c [31] 1
      = some { c with stack := c.stack ++ [.byte 34, .byte 92, .byte 117, .byte 48, .byte 48,
          .byte 49, .byte 70, .byte 34] } := by
    have h15 : (31 : Nat) &&& 15 = 15 := by decide
    simp [tiny_stringify_string, stringify_string_loop, stringify_char, hex_digits, h15]
  refine ⟨e1, e2, ?_, ?_⟩
  · rw [e1, e2]
    simp
  · intro s len hlen hs
    have hl := (stringify_string_loop_length (s.take len)).2
    have ht : (s.take len).length = len := by simp [hlen]
    simp only [tiny_stringify_string_unoptimised, if_pos hlen,
      stringify_loop_unoptimised_eq (s.take len) (PUTC c 34) hs, Option.map_some',
      tiny_stringify_string]
    rw [if_pos ⟨hlen, by simp; omega⟩]
    simp [PUTC]

/-- C40, instantiated: on the bytes of a quote, a line feed and `0x01` the two functions
write the same. -/
theorem C40_stringify_overloads_differ_in_letter_case_witness :
    tiny_stringify_string_unoptimised
        ({ json := [], stack := [] } : tiny_context (List Nat)) [34, 10, 1] 3
      = tiny_stringify_string { json := [], stack := [] } [34, 10, 1] 3 :=
  (C40_stringify_overloads_differ_in_letter_case { json := [], stack := [] }).2.2.2
    [34, 10, 1] 3 (by decide) (by decide)

/-! ### Whitespace around a text, and the end of the input -/

/-- C38: for a text `s` without NUL on which `tiny_parse` returns `TINY_PARSE_OK` with
value `v`, and texts `w1` and `w2` made of space, tab, LF and CR only, `tiny_parse` of
`w1`, `s`, `w2` returns `TINY_PARSE_OK` with the same value `v`. The assumption on `strtod`
is that, on a number followed by a delimiter, its result depends on the text of the number
only. -/
theorem C38_whitespace_around_is_ignored (L : libc ν) (hL : strtod_reads_number L)
    (n0 node v : tiny_node ν) (s w1 w2 : List Nat) (hs : 0 ∉ s)
    (h : tiny_parse L n0 (s ++ [0]) = some (TINY_PARSE_OK, v))
    (hw1 : all_ws w1) (hw2 : all_ws w2) :
    tiny_parse L node (w1 ++ (s ++ w2) ++ [0]) = some (TINY_PARSE_OK, v) := by
  obtain ⟨u1, t, u2, y, y0, rfl, hu1, hu2, rfl, hy, _, hrep⟩ :=
    tiny_parse_ok_inv L hL n0 v s hs h
  have hwa : all_ws (w1 ++ u1) := all_ws_append _ _ hw1 hu1
  have hwb : all_ws (u2 ++ w2) := all_ws_append _ _ hu2 hw2
  have hd : delimited ((u2 ++ w2) ++ [0]) := delimited_of_ws_append _ 0 [] hwb (by decide)
  have e : w1 ++ (u1 ++ (y :: y0 ++ u2) ++ w2) ++ [0]
      = (w1 ++ u1) ++ y :: (y0 ++ ((u2 ++ w2) ++ [0])) := by simp
  have a1 := tiny_parse_whitespace_append (ν := ν) (w1 ++ u1) y (y0 ++ ((u2 ++ w2) ++ [0])) []
    hwa hy
  have a2 := tiny_parse_whitespace_append (ν := ν) (u2 ++ w2) 0 [] [] hwb (by decide)
  have hv := hrep ((w1 ++ u1) ++ y :: (y0 ++ ((u2 ++ w2) ++ [0]))).length
    ((u2 ++ w2) ++ [0]) [] (tiny_init node) (by simp; omega) hd
  simp only [List.cons_append] at hv
  rw [e]
  unfold tiny_parse
  simp only [a1, hv, if_true, a2]
  simp

/-- C38, instantiated: the text `null` between a space and a tab, a line feed and a
carriage return. -/
theorem C38_whitespace_around_is_ignored_witness :
    tiny_parse demo_libc .jtrue ([32, 9] ++ ([110, 117, 108, 108] ++ [10, 13]) ++ [0])
      = some (TINY_PARSE_OK, .null) :=
  C38_whitespace_around_is_ignored demo_libc demo_libc_reads_number .jfalse .jtrue .null
    [110, 117, 108, 108] [32, 9] [10, 13] (by decide) rfl (by decide) (by decide)

theorem nul_not_passed : ∀ (t s r : List Nat), 0 ∉ s → s ++ [0] = t ++ r → 0 ∈ r → 0 ∉ t := by
  intro t
  induction t with
  | nil => intro s r _ _ _; simp
  | cons a t ih =>
    intro s r hs e hr
    cases s with
    | nil =>
      simp only [List.nil_append, List.cons_append, List.cons.injEq] at e
      have : r = [] := (List.append_eq_nil.1 e.2.symm).2
      rw [this] at hr
      simp at hr
    | cons b s =>
      simp only [List.cons_append, List.cons.injEq] at e
      have hb : b ≠ 0 := fun hb0 => hs (by simp [hb0])
      have hs2 : 0 ∉ s := fun h0 => hs (List.mem_cons_of_mem _ h0)
      have := ih s r hs2 e.2 hr
      intro h0
      rcases List.mem_cons.1 h0 with h1 | h1
      · exact hb (by rw [e.1, ← h1])
      · exact this h1

/-- C39: let the input be the bytes of `s`, which holds no NUL, and the terminating NUL,
and nothing after it, so that a read after the NUL has no result. Then `tiny_parse`
returns a status; `tiny_parse_whitespace`, `tiny_parse_value` at the depth `tiny_parse`
gives it (hence the literal, number, string, array and object parsers it calls),
`tiny_parse_string`, the syntax check of `tiny_parse_number` and `tiny_parse_hex4` all
return, on a valid and on an invalid text alike; and each of them leaves the cursor at a
place that is not before the one where it started and not after the NUL: the text `t` it
has passed over holds no NUL. -/
theorem C39_no_read_after_the_nul (L : libc ν) (node : tiny_node ν) (s : List Nat)
    (hs : 0 ∉ s) :
    (∃ ret out, tiny_parse L node (s ++ [0]) = some (ret, out))
    ∧ (∀ (st : List (stack_item ν)), ∃ c1 t,
        tiny_parse_whitespace { json := s ++ [0], stack := st } = some c1
        ∧ s ++ [0] = t ++ c1.json ∧ 0 ∉ t)
    ∧ (∀ (st : List (stack_item ν)) (nd : tiny_node ν), ∃ ret v c1 t,
        tiny_parse_value L (s ++ [0]).length { json := s ++ [0], stack := st } nd
          = some (ret, v, c1)
        ∧ s ++ [0] = t ++ c1.json ∧ 0 ∉ t)
    ∧ (∀ (st : List (stack_item ν)) (nd : tiny_node ν), ∃ ret v c1 t,
        tiny_parse_string { json := 34 :: (s ++ [0]), stack := st } nd = some (ret, v, c1)
        ∧ 34 :: (s ++ [0]) = t ++ c1.json ∧ 0 ∉ t)
    ∧ (scan_number (s ++ [0]) = some none
        ∨ ∃ q t, scan_number (s ++ [0]) = some (some q) ∧ s ++ [0] = t ++ q ∧ 0 ∉ t)
    ∧ (tiny_parse_hex4 (s ++ [0]) = some none
        ∨ ∃ q t u, tiny_parse_hex4 (s ++ [0]) = some (some (q, u)) ∧ s ++ [0] = t ++ q
          ∧ 0 ∉ t) := by
  have h0 : 0 ∈ s ++ [0] := by simp
  refine ⟨tiny_parse_total L node _ h0, ?_, ?_, ?_, ?_, ?_⟩
  · intro st
    obtain ⟨w, x, q, e, _, _, hxq, hws⟩ := tiny_parse_whitespace_total (s ++ [0]) st h0
    exact ⟨_, w, hws, e, nul_not_passed w s _ hs e hxq⟩
  · intro st nd
    obtain ⟨ret, v, c1, t, h, _, e, h1, _⟩ :=
      tiny_parse_value_safely L (s ++ [0]).length (s ++ [0]) st nd h0 (Nat.le_refl _)
    exact ⟨ret, v, c1, t, h, e, nul_not_passed t s _ hs e h1⟩
  · intro st nd
    obtain ⟨ret, v, c1, t, h, _, e, h1, _⟩ := tiny_parse_string_total (s ++ [0]) st nd h0
    have hs2 : 0 ∉ 34 :: s := by
      intro h
      rcases List.mem_cons.1 h with h | h
      · cases h
      · exact hs h
    exact ⟨ret, v, c1, t, h, e, nul_not_passed t (34 :: s) _ hs2 (by simpa using e) h1⟩
  · rcases scan_number_total (s ++ [0]) h0 with h | ⟨q, h, hq⟩
    · exact Or.inl h
    · obtain ⟨t, e, _⟩ := scan_number_sound _ _ h
      exact Or.inr ⟨q, t, h, e, nul_not_passed t s _ hs e hq⟩
  · rw [tiny_parse_hex4_spec _ h0]
    rcases hsp : spec_hex4 (s ++ [0]) with _ | ⟨q, u⟩
    · exact Or.inl rfl
    · obtain ⟨d1, d2, d3, d4, e, hv⟩ := spec_hex4_some _ q u hsp
      have hq : 0 ∈ q := by
        rw [e] at h0
        exact mem_tail_of_hex4 d1 d2 d3 d4 u q hv h0
      exact Or.inr ⟨q, [d1, d2, d3, d4], u, rfl, e,
        nul_not_passed [d1, d2, d3, d4] s q hs (by simpa using e) hq⟩

/-- C39, instantiated: the text of an array that is not closed, whose last element is a
string that is not closed. -/
theorem C39_no_read_after_the_nul_witness :
    ∃ ret out, tiny_parse demo_libc .null ([91, 49, 44, 34, 92] ++ [0]) = some (ret, out) :=
  (C39_no_read_after_the_nul demo_libc .null [91, 49, 44, 34, 92] (by decide)).1

end TinyJson
